import Mathlib

/-!
C-Lesh Script: compiler and simulator.

A shallow embedding of `C_Lesh_Script.h` / `C_Lesh_Script.cpp`.

Conventions of the embedding.

* A C++ `int` is a Lean `Int`; results of `+ - * /` and of `++` are reduced to the 32-bit
  two's-complement range by `wrap_int`.
* A member function that can throw returns `Outcome α`, that is `Except Abort α`.  `Abort.cError`
  is a thrown `cError`; `Abort.undefined` is a point where the C++ program has no defined result
  (reading past the end of a vector, popping an empty array, `%` by zero, reading an `int` that
  was never written); `Abort.hang` is a loop that never exits.
* An `int` member that a function leaves unwritten is `Option Int` with `none` for "never written".
* A reference `cBlock&` into the memory is a block that is read, threaded through the callee and
  written back at its address.
* `std::string` is `String`; texts are taken to be ASCII, so that the length in bytes is the
  number of characters.
* The wall clock of `Run`, the I/O control and the host file system are inputs of the model.
-/

namespace Codeloader

/-! ## The helper layer (`Codeloader.hpp`): values, containers, text utilities -/

/-- Ways in which a call fails to return normally. -/
inductive Abort where
  | cError (message : String)
  | undefined (what : String)
  | hang
  deriving DecidableEq, Repr

/-- Result of a call that may throw. -/
abbrev Outcome (α : Type) := Except Abort α

deriving instance DecidableEq for Except

/-- Smallest value of a 32-bit `int`. -/
def INT_MIN : Int := -2147483648

/-- Largest value of a 32-bit `int`. -/
def INT_MAX : Int := 2147483647

/-- Reduction of a mathematical integer to the 32-bit two's-complement range of `int`. -/
def wrap_int (x : Int) : Int := (x + 2147483648) % 4294967296 - 2147483648

/-- Modelled from the spec: the tag of a Number value ("a tagged union of number or string");
the enumerator is declared in the helper header. -/
def eVALUE_NUMBER : Int := 0

/-- Modelled from the spec: the tag of a String value; the enumerator is declared in the helper
header. -/
def eVALUE_STRING : Int := 1

/-- Modelled from the spec: `cValue` of the helper header, "a discriminated value with two
variants", Number (signed integer) and String, whose `number` and `string` slots the source reads
directly.  The slot that a setter does not write is taken to be cleared (the spec prefers "0 for
`.number` when tag is String"). -/
structure cValue where
  type : Int
  number : Int
  string : String
  deriving DecidableEq, Repr

/-- Modelled from the spec: `cValue::Set_Number`, the value becomes Number `n`. -/
def cValue.Set_Number (_v : cValue) (n : Int) : cValue :=
  { type := eVALUE_NUMBER, number := n, string := "" }

/-- Modelled from the spec: `cValue::Set_String`, the value becomes String `s`. -/
def cValue.Set_String (_v : cValue) (s : String) : cValue :=
  { type := eVALUE_STRING, number := 0, string := s }

/-- Modelled from the spec: the default-constructed `cValue()`, "default Number 0". -/
def cValue.new : cValue :=
  { type := eVALUE_NUMBER, number := 0, string := "" }

/-- Modelled from the spec: `Number_To_Text`, the decimal rendering of an integer. -/
def Number_To_Text (n : Int) : String := toString n

/-- Modelled from the spec: `cValue::Convert_To_String`, "a Number may be coerced to a String by
decimal rendering". -/
def cValue.Convert_To_String (v : cValue) : cValue :=
  { type := eVALUE_STRING, number := v.number, string := Number_To_Text v.number }

/-- Value of a run of decimal digits, most significant first, continuing from `acc`. -/
def Text_To_Number_digits : List Char → Nat → Option Nat
  | [], acc => some acc
  | c :: cs, acc =>
    if c.isDigit then Text_To_Number_digits cs (acc * 10 + (c.toNat - 48)) else none

/-- Modelled from the spec: `Text_To_Number`, "parse_number": the text must be a decimal integer
(an optional minus sign, then one or more digits) that fits an `int`; anything else throws. -/
def Text_To_Number (text : String) : Outcome Int :=
  let failure : Outcome Int := .error (.cError ("Invalid number " ++ text ++ "."))
  let magnitude : List Char → Option Nat := fun digits =>
    match digits with
    | [] => none
    | _ :: _ => Text_To_Number_digits digits 0
  match text.data with
  | '-' :: digits =>
    match magnitude digits with
    | some n => if -(n : Int) < INT_MIN then failure else .ok (-(n : Int))
    | none => failure
  | digits =>
    match magnitude digits with
    | some n => if (n : Int) > INT_MAX then failure else .ok (n : Int)
    | none => failure

/-- Whether `sep` is a prefix of `text`; if so the rest of `text` after it. -/
def strip_separator : List Char → List Char → Option (List Char)
  | [], text => some text
  | _ :: _, [] => none
  | s :: sep, c :: text => if s = c then strip_separator sep text else none

/-- Pieces of `text` between occurrences of `sep`, read left to right; `skip` counts the
characters of a separator occurrence still to be passed over and `piece` holds, reversed, the
characters of the piece being read. -/
def Parse_Sausage_Text_pieces (sep : List Char) : List Char → Nat → List Char → List String
  | [], _, piece => [String.mk piece.reverse]
  | _ :: text, skip + 1, piece => Parse_Sausage_Text_pieces sep text skip piece
  | c :: text, 0, piece =>
    match sep, strip_separator sep (c :: text) with
    | _ :: _, some _ =>
      String.mk piece.reverse :: Parse_Sausage_Text_pieces sep text (sep.length - 1) []
    | _, _ => Parse_Sausage_Text_pieces sep text 0 (c :: piece)

/-- Modelled from the spec: `Parse_Sausage_Text`, the items of a text "separated by" a separator
string, in order; a text without the separator is one item. -/
def Parse_Sausage_Text (text : String) (sausage : String) : List String :=
  Parse_Sausage_Text_pieces sausage.data text.data 0 []

/-- Modelled from the spec: `cHash<K, V>`, a "mapping from string key" to a value.  The source
reads its parallel `keys` and `values` arrays; an entry is kept at the position where its key was
first assigned. -/
structure cHash (K V : Type) where
  items : List (K × V)
  deriving DecidableEq, Repr

/-- The `keys` array of a `cHash`. -/
def cHash.keys {K V : Type} (h : cHash K V) : List K := h.items.map Prod.fst

/-- The `values` array of a `cHash`. -/
def cHash.values {K V : Type} (h : cHash K V) : List V := h.items.map Prod.snd

/-- The hash a default-constructed `cHash` holds, also the result of `cHash::Clear`. -/
def cHash.Clear {K V : Type} (_h : cHash K V) : cHash K V := { items := [] }

/-- Number of entries, `cHash::Count`. -/
def cHash.Count {K V : Type} (h : cHash K V) : Int := h.items.length

/-- Value stored under `key`, if any. -/
def cHash.find {K V : Type} [DecidableEq K] (h : cHash K V) (key : K) : Option V :=
  match h.items.find? (fun kv => decide (kv.1 = key)) with
  | some kv => some kv.2
  | none => none

/-- Whether `key` has an entry, `cHash::Does_Key_Exist`. -/
def cHash.Does_Key_Exist {K V : Type} [DecidableEq K] (h : cHash K V) (key : K) : Bool :=
  (h.find key).isSome

/-- Modelled from the spec: the assignment `hash[key] = value`: the entry of `key` is overwritten
in place, or appended when `key` is new. -/
def cHash.assign {K V : Type} [DecidableEq K] (h : cHash K V) (key : K) (value : V) : cHash K V :=
  if h.Does_Key_Exist key then
    { items := h.items.map (fun kv => if kv.1 = key then (kv.1, value) else kv) }
  else
    { items := h.items ++ [(key, value)] }

/-- Modelled from the spec: the read `hash[key]`: the value of `key`; a key that is absent is
first entered with the default value `dflt`. -/
def cHash.index {K V : Type} [DecidableEq K] (h : cHash K V) (key : K) (dflt : V) :
    V × cHash K V :=
  match h.find key with
  | some v => (v, h)
  | none => (dflt, { items := h.items ++ [(key, dflt)] })

/-- A token with its origin, `sToken` of the helper header (`{ token, line_no, source }`). -/
structure sToken where
  token : String
  line_no : Int
  source : String
  deriving DecidableEq, Repr

/-! ## `C_Lesh_Script.h`: enumerations and records -/

/-- Enumerator of `eOperator`. -/
def eOPER_ADD : Int := 0
/-- Enumerator of `eOperator`. -/
def eOPER_SUB : Int := 1
/-- Enumerator of `eOperator`. -/
def eOPER_MUL : Int := 2
/-- Enumerator of `eOperator`. -/
def eOPER_DIV : Int := 3
/-- Enumerator of `eOperator`. -/
def eOPER_REM : Int := 4
/-- Enumerator of `eOperator`. -/
def eOPER_RAND : Int := 5
/-- Enumerator of `eOperator`. -/
def eOPER_COS : Int := 6
/-- Enumerator of `eOperator`. -/
def eOPER_SIN : Int := 7
/-- Enumerator of `eOperator`. -/
def eOPER_CAT : Int := 8

/-- Enumerator of `eAddress`. -/
def eADDR_VAL_NUMBER : Int := 0
/-- Enumerator of `eAddress`. -/
def eADDR_VAL_STRING : Int := 1
/-- Enumerator of `eAddress`. -/
def eADDR_IMMEDIATE : Int := 2
/-- Enumerator of `eAddress`. -/
def eADDR_POINTER : Int := 3

/-- Enumerator of `eCommand`. -/
def eCMD_NONE : Int := 0
/-- Enumerator of `eCommand`. -/
def eCMD_STORE : Int := 1
/-- Enumerator of `eCommand`. -/
def eCMD_SET : Int := 2
/-- Enumerator of `eCommand`. -/
def eCMD_TEST : Int := 3
/-- Enumerator of `eCommand`. -/
def eCMD_CALL : Int := 4
/-- Enumerator of `eCommand`. -/
def eCMD_RETURN : Int := 5
/-- Enumerator of `eCommand`. -/
def eCMD_STOP : Int := 6
/-- Enumerator of `eCommand`. -/
def eCMD_OUTPUT : Int := 7
/-- Enumerator of `eCommand`. -/
def eCMD_DRAW : Int := 8
/-- Enumerator of `eCommand`. -/
def eCMD_REFRESH : Int := 9
/-- Enumerator of `eCommand`. -/
def eCMD_SOUND : Int := 10
/-- Enumerator of `eCommand`. -/
def eCMD_MUSIC : Int := 11
/-- Enumerator of `eCommand`. -/
def eCMD_SILENCE : Int := 12
/-- Enumerator of `eCommand`. -/
def eCMD_INPUT : Int := 13
/-- Enumerator of `eCommand`. -/
def eCMD_TIMEOUT : Int := 14
/-- Enumerator of `eCommand`. -/
def eCMD_COLOR : Int := 15
/-- Enumerator of `eCommand`. -/
def eCMD_LOAD : Int := 16
/-- Enumerator of `eCommand`. -/
def eCMD_SAVE : Int := 17
/-- Enumerator of `eCommand`. -/
def eCMD_PUSH : Int := 18
/-- Enumerator of `eCommand`. -/
def eCMD_POP : Int := 19
/-- Enumerator of `eCommand`. -/
def eCMD_REPEAT : Int := 20
/-- Enumerator of `eCommand`. -/
def eCMD_GET_OBJECT : Int := 21
/-- Enumerator of `eCommand`. -/
def eCMD_GET_LIST : Int := 22

/-- Enumerator of `eTest`. -/
def eTEST_EQUALS : Int := 0
/-- Enumerator of `eTest`. -/
def eTEST_NOT : Int := 1
/-- Enumerator of `eTest`. -/
def eTEST_LESS : Int := 2
/-- Enumerator of `eTest`. -/
def eTEST_GREATER : Int := 3
/-- Enumerator of `eTest`. -/
def eTEST_LESS_OR_EQUAL : Int := 4
/-- Enumerator of `eTest`. -/
def eTEST_GREATER_OR_EQUAL : Int := 5

/-- Enumerator of `eLogic`. -/
def eLOGIC_AND : Int := 0
/-- Enumerator of `eLogic`. -/
def eLOGIC_OR : Int := 1

/-- The record `tObject`, a hash from field name to value. -/
abbrev tObject := cHash String cValue

/-- The record `sOperand_Operator`.  `Parse_Operand` never writes `oper_code` and `Parse_Operator`
never writes `addr_mode`, hence the two are optional. -/
structure sOperand_Operator where
  oper_code : Option Int
  addr_mode : Option Int
  value : cValue
  field : String
  placeholder : String
  deriving DecidableEq, Repr

/-- An expression, `tExpression`: a vector of operand and operator entries. -/
abbrev tExpression := List sOperand_Operator

/-- The record `sCondition_Logic`.  `Parse_Condition` never writes `logic_code`, hence it is
optional. -/
structure sCondition_Logic where
  logic_code : Option Int
  left_exp : Int
  test : Int
  right_exp : Int
  deriving DecidableEq, Repr

/-- A memory cell, `cBlock`. -/
structure cBlock where
  code : Int
  expressions : List tExpression
  conditional : List sCondition_Logic
  fields : tObject
  value : cValue
  deriving DecidableEq, Repr

/-- The body of `cBlock::Clear`: value Number 0, code NONE, no fields; `expressions` and
`conditional` are not touched. -/
def cBlock.Clear (block : cBlock) : cBlock :=
  { block with
    value := block.value.Set_Number 0
    code := eCMD_NONE
    fields := block.fields.Clear }

/-- The constructor `cBlock::cBlock`: default members, then `Clear`. -/
def cBlock.new : cBlock :=
  cBlock.Clear
    { code := 0, expressions := [], conditional := [], fields := { items := [] },
      value := cValue.new }

/-- The memory module, `cMemory`: `memory` is the block array; its length is the `count` member,
which the constructor sets to the array size and nothing changes afterwards. -/
structure cMemory where
  memory : List cBlock
  deriving DecidableEq, Repr

/-- The member `count` of `cMemory`. -/
def cMemory.count (m : cMemory) : Int := m.memory.length

/-! ## Memory implementation -/

/-- The body of `cMemory::Clear`: every block is cleared. -/
def cMemory.Clear (m : cMemory) : cMemory :=
  { memory := m.memory.map cBlock.Clear }

/-- The constructor `cMemory::cMemory(size)`: `size` default blocks, then `Clear`. -/
def cMemory.new (size : Nat) : cMemory :=
  cMemory.Clear { memory := List.replicate size cBlock.new }

/-- The accessor `cMemory::operator[]`: the block at `address`, or the invalid-address error. -/
def cMemory.index (m : cMemory) (address : Int) : Outcome cBlock :=
  if address < 0 ∨ address ≥ m.count then
    .error (.cError ("Invalid memory address " ++ Number_To_Text address ++ "."))
  else
    match m.memory[address.toNat]? with
    | some block => .ok block
    | none => .error (.undefined "read past the end of the block array")

/-- Write through a reference obtained from `cMemory::operator[]`: the block at `address` is
replaced. -/
def cMemory.write (m : cMemory) (address : Int) (block : cBlock) : cMemory :=
  { memory := m.memory.set address.toNat block }

/-! ## Compiler implementation

The token queue is the input: it is what `Parse_Tokens` leaves in `tokens` after reading the
source files. -/

/-- The compiler module, `cCompiler`. -/
structure cCompiler where
  symtab : cHash String Int
  memory : cMemory
  pointer : Int
  tokens : List sToken
  deriving DecidableEq, Repr

/-- The body of `cCompiler::Parse_Token`: the front token is shifted off the queue. -/
def cCompiler.Parse_Token (c : cCompiler) : Outcome (sToken × cCompiler) :=
  match c.tokens with
  | [] => .error (.cError "No more tokens to parse!")
  | token :: rest => .ok (token, { c with tokens := rest })

/-- The body of `cCompiler::Peek_Token`: the front token, or the empty token. -/
def cCompiler.Peek_Token (c : cCompiler) : sToken :=
  match c.tokens with
  | [] => { token := "", line_no := 0, source := "" }
  | token :: _ => token

/-- The error thrown by `cCompiler::Generate_Parse_Error`. -/
def cCompiler.Generate_Parse_Error (message : String) (token : sToken) : Abort :=
  .cError ("Error: " ++ message ++ "\nLine No: " ++ Number_To_Text token.line_no ++
    "\nSource: " ++ token.source ++ "\nToken: " ++ token.token)

/-- The body of `cCompiler::Parse_Keyword`. -/
def cCompiler.Parse_Keyword (c : cCompiler) (keyword : String) : Outcome cCompiler := do
  let (token, c) ← c.Parse_Token
  if token.token ≠ keyword then
    .error (cCompiler.Generate_Parse_Error ("Missing keyword " ++ keyword ++ ".") token)
  else
    pure c

/-- A default-initialised `sOperand_Operator`: neither code written, default value, empty
strings. -/
def sOperand_Operator.new : sOperand_Operator :=
  { oper_code := none, addr_mode := none, value := cValue.new, field := "", placeholder := "" }

/-- The body of `cCompiler::Parse_Address`; the operand is passed by reference. -/
def cCompiler.Parse_Address (address : String) (operand : sOperand_Operator) :
    Outcome sOperand_Operator := do
  let parts := Parse_Sausage_Text address "->"
  let (addr, operand) ←
    (match parts with
     | [part0] => (pure (part0, operand) : Outcome (String × sOperand_Operator))
     | [part0, part1] =>
       let operand := { operand with field := part1 }
       if operand.addr_mode = some eADDR_VAL_NUMBER then
         .error (.cError "Cannot have object notation with numeric value.")
       else
         pure (part0, operand)
     | _ => .error (.cError ("Invalid address " ++ address ++ ".")))
  -- Check if address is a number.
  match Text_To_Number addr with
  | .ok number => pure { operand with value := operand.value.Set_Number number }
  | .error (.cError _) => pure { operand with placeholder := addr }
  | .error other => .error other

/-- The body of `cCompiler::Parse_Operand`. -/
def cCompiler.Parse_Operand (c : cCompiler) : Outcome (sOperand_Operator × cCompiler) := do
  let (token, c) ← c.Parse_Token
  let operand := sOperand_Operator.new
  if token.token.length > 1 then
    let address := String.mk (token.token.data.drop 1)
    if token.token.data.head? = some '#' then -- Immediate addressing.
      let operand ← cCompiler.Parse_Address address { operand with addr_mode := some eADDR_IMMEDIATE }
      pure (operand, c)
    else if token.token.data.head? = some '@' then -- Pointer addressing.
      let operand ← cCompiler.Parse_Address address { operand with addr_mode := some eADDR_POINTER }
      pure (operand, c)
    else if token.token.data.head? = some '$' then -- String value.
      let operand := { operand with addr_mode := some eADDR_VAL_STRING }
      pure ({ operand with value := operand.value.Set_String address }, c)
    else -- Numeric value.
      let operand ← cCompiler.Parse_Address address { operand with addr_mode := some eADDR_VAL_NUMBER }
      pure (operand, c)
  else
    .error (cCompiler.Generate_Parse_Error "Invalid operand token." token)

/-- The body of `cCompiler::Parse_Operator`. -/
def cCompiler.Parse_Operator (c : cCompiler) : Outcome (sOperand_Operator × cCompiler) := do
  let oper := sOperand_Operator.new
  let (token, c) ← c.Parse_Token
  if token.token = "+" then pure ({ oper with oper_code := some eOPER_ADD }, c)
  else if token.token = "-" then pure ({ oper with oper_code := some eOPER_SUB }, c)
  else if token.token = "*" then pure ({ oper with oper_code := some eOPER_MUL }, c)
  else if token.token = "/" then pure ({ oper with oper_code := some eOPER_DIV }, c)
  else if token.token = "rem" then pure ({ oper with oper_code := some eOPER_REM }, c)
  else if token.token = "rand" then pure ({ oper with oper_code := some eOPER_RAND }, c)
  else if token.token = "cos" then pure ({ oper with oper_code := some eOPER_COS }, c)
  else if token.token = "sin" then pure ({ oper with oper_code := some eOPER_SIN }, c)
  else if token.token = "cat" then pure ({ oper with oper_code := some eOPER_CAT }, c)
  else .error (cCompiler.Generate_Parse_Error "Invalid operator." token)

/-- The body of `cCompiler::Is_Operator`. -/
def cCompiler.Is_Operator (c : cCompiler) : Bool :=
  let token := c.Peek_Token
  (token.token == "+") ||
  (token.token == "-") ||
  (token.token == "*") ||
  (token.token == "/") ||
  (token.token == "rem") ||
  (token.token == "rand") ||
  (token.token == "cos") ||
  (token.token == "sin") ||
  (token.token == "cat")

/-- The `while (this->Is_Operator())` loop of `Parse_Expression`.  Every round shifts two tokens,
so `fuel` rounds suffice when `fuel` is the length of the queue; `Abort.hang` marks fuel that ran
out. -/
def cCompiler.Parse_Expression_loop :
    Nat → tExpression → cCompiler → Outcome (tExpression × cCompiler)
  | 0, expression, c => if c.Is_Operator then .error .hang else pure (expression, c)
  | fuel + 1, expression, c =>
    if c.Is_Operator then do
      let (oper, c) ← c.Parse_Operator
      let expression := expression ++ [oper]
      let (operand, c) ← c.Parse_Operand
      let expression := expression ++ [operand]
      cCompiler.Parse_Expression_loop fuel expression c
    else
      pure (expression, c)

/-- The body of `cCompiler::Parse_Expression`: the expression is added to `command` and its index
returned. -/
def cCompiler.Parse_Expression (c : cCompiler) (command : cBlock) :
    Outcome (Int × cBlock × cCompiler) := do
  let (operand, c) ← c.Parse_Operand
  let expression : tExpression := [operand]
  let (expression, c) ← cCompiler.Parse_Expression_loop c.tokens.length expression c
  let command := { command with expressions := command.expressions ++ [expression] }
  pure ((command.expressions.length : Int) - 1, command, c)

/-- The body of `cCompiler::Parse_Condition`. -/
def cCompiler.Parse_Condition (c : cCompiler) (block : cBlock) :
    Outcome (sCondition_Logic × cBlock × cCompiler) := do
  let (left_exp, block, c) ← c.Parse_Expression block
  let (test, c) ← c.Parse_Token
  let test_code ←
    (if test.token = "eq" then pure eTEST_EQUALS
     else if test.token = "not" then pure eTEST_NOT
     else if test.token = "lt" then pure eTEST_LESS
     else if test.token = "gt" then pure eTEST_GREATER
     else if test.token = "le" then pure eTEST_LESS_OR_EQUAL
     else if test.token = "ge" then pure eTEST_GREATER_OR_EQUAL
     else .error (cCompiler.Generate_Parse_Error "Invalid test." test) : Outcome Int)
  let (right_exp, block, c) ← c.Parse_Expression block
  pure ({ logic_code := none, left_exp := left_exp, test := test_code, right_exp := right_exp },
    block, c)

/-- The body of `cCompiler::Parse_Logic`. -/
def cCompiler.Parse_Logic (c : cCompiler) : Outcome (sCondition_Logic × cCompiler) := do
  let logic : sCondition_Logic := { logic_code := some 0, left_exp := 0, test := 0, right_exp := 0 }
  let (token, c) ← c.Parse_Token
  if token.token = "and" then pure ({ logic with logic_code := some eLOGIC_AND }, c)
  else if token.token = "or" then pure ({ logic with logic_code := some eLOGIC_OR }, c)
  else .error (cCompiler.Generate_Parse_Error "Invalid logic token." token)

/-- The body of `cCompiler::Is_Logic`. -/
def cCompiler.Is_Logic (c : cCompiler) : Bool :=
  let token := c.Peek_Token
  (token.token == "and") || (token.token == "or")

/-- The `while (this->Is_Logic())` loop of `Parse_Conditional`; `fuel` as in
`Parse_Expression_loop`. -/
def cCompiler.Parse_Conditional_loop :
    Nat → cBlock → cCompiler → Outcome (cBlock × cCompiler)
  | 0, command, c => if c.Is_Logic then .error .hang else pure (command, c)
  | fuel + 1, command, c =>
    if c.Is_Logic then do
      let (logic, c) ← c.Parse_Logic
      let command := { command with conditional := command.conditional ++ [logic] }
      let (condition, command, c) ← c.Parse_Condition command
      let command := { command with conditional := command.conditional ++ [condition] }
      cCompiler.Parse_Conditional_loop fuel command c
    else
      pure (command, c)

/-- The body of `cCompiler::Parse_Conditional`. -/
def cCompiler.Parse_Conditional (c : cCompiler) (command : cBlock) :
    Outcome (cBlock × cCompiler) := do
  let (condition, command, c) ← c.Parse_Condition command
  let command := { command with conditional := command.conditional ++ [condition] }
  cCompiler.Parse_Conditional_loop c.tokens.length command c

/-- Modelled from the spec: a method call on the entry `hash[key]`, as in
`fields[name].Set_Number(number)`: the entry is read (entered with `dflt` when absent), changed by
`f` and stored back. -/
def cHash.update {K V : Type} [DecidableEq K] (h : cHash K V) (key : K) (dflt : V) (f : V → V) :
    cHash K V :=
  let (v, h) := h.index key dflt
  h.assign key (f v)

/-- The post-increment `this->pointer++`: the old pointer, and the compiler with the pointer
advanced. -/
def cCompiler.advance (c : cCompiler) : Int × cCompiler :=
  (c.pointer, { c with pointer := wrap_int (c.pointer + 1) })

/-- The access `(*this->memory)[this->pointer++]`: the pointer is advanced, then the block at the
old pointer is fetched, together with its address. -/
def cCompiler.next_block (c : cCompiler) : Outcome (Int × cBlock × cCompiler) := do
  let (address, c) := c.advance
  let block ← c.memory.index address
  pure (address, block, c)

/-- The `while (item.token != "end")` loop of the `map` statement.  Every round shifts a token;
`fuel` is one more than the length of the queue, `Abort.hang` marks fuel that ran out. -/
def cCompiler.Parse_Statements_map : Nat → sToken → Int → cCompiler → Outcome cCompiler
  | 0, _, _, _ => .error .hang
  | fuel + 1, item, index, c =>
    if item.token ≠ "end" then do
      let c := { c with symtab := c.symtab.assign ("[" ++ item.token ++ "]") index }
      let index := wrap_int (index + 1)
      let (item, c) ← c.Parse_Token
      cCompiler.Parse_Statements_map fuel item index c
    else
      pure c

/-- The `for` loop of the `list` statement, for the rounds that remain. -/
def cCompiler.Parse_Statements_list : Nat → cCompiler → Outcome cCompiler
  | 0, c => pure c
  | rounds + 1, c => do
    let (address, block, c) ← c.next_block
    let block := { block with value := block.value.Set_Number 0 }
    cCompiler.Parse_Statements_list rounds { c with memory := c.memory.write address block }

/-- The `while (property.token != "end")` loop of the `object` statement; `fuel` as in
`Parse_Statements_map`. -/
def cCompiler.Parse_Statements_object :
    Nat → sToken → cBlock → cCompiler → Outcome (cBlock × cCompiler)
  | 0, _, _, _ => .error .hang
  | fuel + 1, property, block, c =>
    if property.token ≠ "end" then do
      let pair := Parse_Sausage_Text property.token "="
      let block ←
        (match pair with
         | [name, value] =>
           let fields := block.fields.assign name cValue.new
           match Text_To_Number value with
           | .ok number =>
             pure { block with
               fields := fields.update name cValue.new (fun v => v.Set_Number number) }
           | .error (.cError _) => -- A string.
             pure { block with
               fields := fields.update name cValue.new (fun v => v.Set_String value) }
           | .error other => .error other
         | _ => .error (cCompiler.Generate_Parse_Error "Invalid property format." property)
         : Outcome cBlock)
      let (property, c) ← c.Parse_Token
      cCompiler.Parse_Statements_object fuel property block c
    else
      pure (block, c)

/-- One round of the `while (this->tokens.Count() > 0)` loop of `Parse_Statements`: one
statement. -/
def cCompiler.Parse_Statement (c : cCompiler) : Outcome cCompiler := do
  let (token, c) ← c.Parse_Token
  if token.token = "define" then do
    let (name, c) ← c.Parse_Token
    let c ← c.Parse_Keyword "as"
    let (value, c) ← c.Parse_Token
    let number ← Text_To_Number value.token
    pure { c with symtab := c.symtab.assign ("[" ++ name.token ++ "]") number }
  else if token.token = "map" then do
    let (item, c) ← c.Parse_Token
    cCompiler.Parse_Statements_map (c.tokens.length + 1) item 0 c
  else if token.token = "label" then do
    let (name, c) ← c.Parse_Token
    pure { c with symtab := c.symtab.assign ("[" ++ name.token ++ "]") c.pointer }
  else if token.token = "number" then do
    let (number, c) ← c.Parse_Token
    let (address, block, c) ← c.next_block
    let value ← Text_To_Number number.token
    let block := { block with value := block.value.Set_Number value }
    pure { c with memory := c.memory.write address block }
  else if token.token = "list" then do
    let (count, c) ← c.Parse_Token
    let item_count ← Text_To_Number count.token
    cCompiler.Parse_Statements_list item_count.toNat c
  else if token.token = "object" then do
    let (property, c) ← c.Parse_Token
    let (address, block, c) ← c.next_block
    let (block, c) ← cCompiler.Parse_Statements_object (c.tokens.length + 1) property block c
    pure { c with memory := c.memory.write address block }
  else if token.token = "\x7bremark\x7d" then do
    let (token, c) ← c.Parse_Token
    -- `while (token.token != "{end}") { }` has an empty body.
    if token.token ≠ "\x7bend\x7d" then .error .hang else pure c
  else if token.token = "store" then do
    let (address, command, c) ← c.next_block
    let command := { command with code := eCMD_STORE }
    let (_, command, c) ← c.Parse_Expression command
    let c ← c.Parse_Keyword "at"
    let (_, command, c) ← c.Parse_Expression command
    pure { c with memory := c.memory.write address command }
  else if token.token = "set" then do
    let (address, command, c) ← c.next_block
    let command := { command with code := eCMD_SET }
    let (_, command, c) ← c.Parse_Expression command
    let (_, command, c) ← c.Parse_Expression command
    let c ← c.Parse_Keyword "to"
    let (_, command, c) ← c.Parse_Expression command
    pure { c with memory := c.memory.write address command }
  else if token.token = "test" then do
    let (address, command, c) ← c.next_block
    let command := { command with code := eCMD_TEST }
    let (command, c) ← c.Parse_Conditional command
    let c ← c.Parse_Keyword "then"
    let (_, command, c) ← c.Parse_Expression command
    let c ← c.Parse_Keyword "otherwise"
    let (_, command, c) ← c.Parse_Expression command
    pure { c with memory := c.memory.write address command }
  else if token.token = "call" then do
    let (address, command, c) ← c.next_block
    let command := { command with code := eCMD_CALL }
    let (_, command, c) ← c.Parse_Expression command
    pure { c with memory := c.memory.write address command }
  else if token.token = "return" then do
    let (address, command, c) ← c.next_block
    let command := { command with code := eCMD_RETURN }
    pure { c with memory := c.memory.write address command }
  else if token.token = "stop" then do
    let (address, command, c) ← c.next_block
    let command := { command with code := eCMD_STOP }
    pure { c with memory := c.memory.write address command }
  else if token.token = "output" then do
    let (address, command, c) ← c.next_block
    let command := { command with code := eCMD_OUTPUT }
    let (_, command, c) ← c.Parse_Expression command
    let c ← c.Parse_Keyword "at"
    let (_, command, c) ← c.Parse_Expression command
    let (_, command, c) ← c.Parse_Expression command
    let c ← c.Parse_Keyword "color"
    let (_, command, c) ← c.Parse_Expression command
    let (_, command, c) ← c.Parse_Expression command
    let (_, command, c) ← c.Parse_Expression command
    pure { c with memory := c.memory.write address command }
  else if token.token = "draw" then do
    let (address, command, c) ← c.next_block
    let command := { command with code := eCMD_DRAW }
    let (_, command, c) ← c.Parse_Expression command
    let c ← c.Parse_Keyword "at"
    let (_, command, c) ← c.Parse_Expression command
    let (_, command, c) ← c.Parse_Expression command
    let (_, command, c) ← c.Parse_Expression command
    let (_, command, c) ← c.Parse_Expression command
    let c ← c.Parse_Keyword "angle"
    let (_, command, c) ← c.Parse_Expression command
    let c ← c.Parse_Keyword "flip"
    let (_, command, c) ← c.Parse_Expression command
    let (_, command, c) ← c.Parse_Expression command
    pure { c with memory := c.memory.write address command }
  else if token.token = "refresh" then do
    let (address, command, c) ← c.next_block
    let command := { command with code := eCMD_REFRESH }
    pure { c with memory := c.memory.write address command }
  else if token.token = "sound" then do
    let (address, command, c) ← c.next_block
    let command := { command with code := eCMD_SOUND }
    let (_, command, c) ← c.Parse_Expression command
    pure { c with memory := c.memory.write address command }
  else if token.token = "music" then do
    let (address, command, c) ← c.next_block
    let command := { command with code := eCMD_MUSIC }
    let (_, command, c) ← c.Parse_Expression command
    pure { c with memory := c.memory.write address command }
  else if token.token = "silence" then do
    let (address, command, c) ← c.next_block
    let command := { command with code := eCMD_SILENCE }
    pure { c with memory := c.memory.write address command }
  else if token.token = "input" then do
    let (address, command, c) ← c.next_block
    let command := { command with code := eCMD_INPUT }
    let (_, command, c) ← c.Parse_Expression command
    pure { c with memory := c.memory.write address command }
  else if token.token = "timeout" then do
    let (address, command, c) ← c.next_block
    let command := { command with code := eCMD_TIMEOUT }
    let (_, command, c) ← c.Parse_Expression command
    pure { c with memory := c.memory.write address command }
  else if token.token = "color" then do
    let (address, command, c) ← c.next_block
    let command := { command with code := eCMD_COLOR }
    let (_, command, c) ← c.Parse_Expression command
    let (_, command, c) ← c.Parse_Expression command
    let (_, command, c) ← c.Parse_Expression command
    pure { c with memory := c.memory.write address command }
  else if token.token = "load" then do
    let (address, command, c) ← c.next_block
    let command := { command with code := eCMD_LOAD }
    let (_, command, c) ← c.Parse_Expression command
    let c ← c.Parse_Keyword "at"
    let (_, command, c) ← c.Parse_Expression command
    let c ← c.Parse_Keyword "count"
    let (_, command, c) ← c.Parse_Expression command
    pure { c with memory := c.memory.write address command }
  else if token.token = "save" then do
    let (address, command, c) ← c.next_block
    let command := { command with code := eCMD_SAVE }
    let (_, command, c) ← c.Parse_Expression command
    let c ← c.Parse_Keyword "to"
    let (_, command, c) ← c.Parse_Expression command
    let c ← c.Parse_Keyword "count"
    let (_, command, c) ← c.Parse_Expression command
    pure { c with memory := c.memory.write address command }
  else if token.token = "push" then do
    let (address, command, c) ← c.next_block
    let command := { command with code := eCMD_PUSH }
    let (_, command, c) ← c.Parse_Expression command
    pure { c with memory := c.memory.write address command }
  else if token.token = "pop" then do
    let (address, command, c) ← c.next_block
    let command := { command with code := eCMD_POP }
    let (_, command, c) ← c.Parse_Expression command
    pure { c with memory := c.memory.write address command }
  else if token.token = "repeat" then do
    let (address, command, c) ← c.next_block
    let command := { command with code := eCMD_REPEAT }
    let (_, command, c) ← c.Parse_Expression command
    let c ← c.Parse_Keyword "to"
    let (_, command, c) ← c.Parse_Expression command
    let c ← c.Parse_Keyword "for"
    let (_, command, c) ← c.Parse_Expression command
    let c ← c.Parse_Keyword "jump"
    let (_, command, c) ← c.Parse_Expression command
    pure { c with memory := c.memory.write address command }
  else if token.token = "get-object" then do
    let (address, command, c) ← c.next_block
    let command := { command with code := eCMD_GET_OBJECT }
    let (_, command, c) ← c.Parse_Expression command
    let c ← c.Parse_Keyword "from"
    let (_, command, c) ← c.Parse_Expression command
    let (_, command, c) ← c.Parse_Expression command
    pure { c with memory := c.memory.write address command }
  else if token.token = "get-list" then do
    let (address, command, c) ← c.next_block
    let command := { command with code := eCMD_GET_LIST }
    let (_, command, c) ← c.Parse_Expression command
    let c ← c.Parse_Keyword "from"
    let (_, command, c) ← c.Parse_Expression command
    let (_, command, c) ← c.Parse_Expression command
    pure { c with memory := c.memory.write address command }
  else
    .error (cCompiler.Generate_Parse_Error ("Invalid statement " ++ token.token ++ ".") token)

/-- The `while (this->tokens.Count() > 0)` loop of `Parse_Statements`.  Every statement shifts a
token, so `fuel` rounds suffice when `fuel` is the length of the queue. -/
def cCompiler.Parse_Statements_loop : Nat → cCompiler → Outcome cCompiler
  | 0, c => if c.tokens.length > 0 then .error .hang else pure c
  | fuel + 1, c =>
    if c.tokens.length > 0 then do
      let c ← c.Parse_Statement
      cCompiler.Parse_Statements_loop fuel c
    else
      pure c

/-- The body of `cCompiler::Parse_Statements`. -/
def cCompiler.Parse_Statements (c : cCompiler) : Outcome cCompiler :=
  cCompiler.Parse_Statements_loop c.tokens.length c

/-- The innermost loop of `Replace_Placeholders`, over the entries `0, 2, 4, ...` of an
expression: every other item is an operand. -/
def cCompiler.Replace_Placeholders_operands (symtab : cHash String Int) :
    tExpression → Outcome tExpression
  | [] => pure []
  | operand :: rest => do
    let operand ←
      (if operand.placeholder.length > 0 then
        match symtab.find operand.placeholder with
        | some value => -- Found it!
          pure { operand with value := operand.value.Set_Number value }
        | none => .error (.cError ("Could not find placeholder " ++ operand.placeholder ++ "."))
       else pure operand : Outcome sOperand_Operator)
    match rest with
    | [] => pure [operand]
    | oper :: rest => do
      let rest ← cCompiler.Replace_Placeholders_operands symtab rest
      pure (operand :: oper :: rest)

/-- The loop of `Replace_Placeholders` over the expressions of a block. -/
def cCompiler.Replace_Placeholders_expressions (symtab : cHash String Int) :
    List tExpression → Outcome (List tExpression)
  | [] => pure []
  | expression :: rest => do
    let expression ← cCompiler.Replace_Placeholders_operands symtab expression
    let rest ← cCompiler.Replace_Placeholders_expressions symtab rest
    pure (expression :: rest)

/-- The loop of `Replace_Placeholders` over the blocks of the memory. -/
def cCompiler.Replace_Placeholders_blocks (symtab : cHash String Int) :
    List cBlock → Outcome (List cBlock)
  | [] => pure []
  | block :: rest => do
    let expressions ← cCompiler.Replace_Placeholders_expressions symtab block.expressions
    let rest ← cCompiler.Replace_Placeholders_blocks symtab rest
    pure ({ block with expressions := expressions } :: rest)

/-- The body of `cCompiler::Replace_Placeholders`. -/
def cCompiler.Replace_Placeholders (c : cCompiler) : Outcome cCompiler := do
  let memory ← cCompiler.Replace_Placeholders_blocks c.symtab c.memory.memory
  pure { c with memory := { memory := memory } }

/-- The body of `cCompiler::Preprocess`: the default definitions. -/
def cCompiler.Preprocess (c : cCompiler) : cCompiler :=
  let symtab := c.symtab.assign "[none]" 0
  let symtab := symtab.assign "[take-no-jump]" (-1)
  let symtab := symtab.assign "[true]" 1
  let symtab := symtab.assign "[false]" 0
  { c with symtab := symtab }

/-- The constructor `cCompiler::cCompiler`, from the point where `Parse_Tokens` has filled the
token queue: `Preprocess`, `Parse_Statements`, `Replace_Placeholders`. -/
def cCompiler.new (tokens : List sToken) (memory : cMemory) : Outcome cCompiler := do
  let c : cCompiler := { symtab := { items := [] }, memory := memory, pointer := 0, tokens := tokens }
  let c := c.Preprocess
  let c ← c.Parse_Statements
  c.Replace_Placeholders

/-- The compiler as the constructor has it when `Parse_Statements` is entered: empty symbol table
with the default definitions, write pointer 0, the token queue filled. -/
def cCompiler.start (tokens : List sToken) (memory : cMemory) : cCompiler :=
  cCompiler.Preprocess
    { symtab := { items := [] }, memory := memory, pointer := 0, tokens := tokens }

/-! ## Simulator implementation -/

/-- Modelled from the spec: the sentinel `TAKE_NO_JUMP` of the helper header, "jump targets equal
to −1 mean do not jump". -/
def TAKE_NO_JUMP : Int := -1

/-- Modelled from the spec: simulator status IDLE; the enumerators of the status are declared in
the helper header, only their being distinct is used. -/
def eSTATUS_IDLE : Int := 0

/-- Modelled from the spec: simulator status RUNNING. -/
def eSTATUS_RUNNING : Int := 1

/-- Modelled from the spec: simulator status DONE. -/
def eSTATUS_DONE : Int := 2

/-- A call made on the I/O control interface, with its arguments. -/
inductive io_call where
  | Output_Text (text : String) (x y red green blue : Int)
  | Draw_Image (name : String) (x y width height angle flip_x flip_y : Int)
  | Refresh
  | Play_Sound (name : String)
  | Play_Music (name : String)
  | Silence
  | Read_Signal
  | Timeout (timeout : Int)
  | Color (red green blue : Int)
  | Get_Random_Number (lower upper : Int)
  deriving DecidableEq, Repr

/-- Modelled from the spec: the I/O control interface `cIO_Control`, an external collaborator.
`calls` is the log of the calls made so far, oldest first; `signal k` is the code that the `k`-th
`Read_Signal` returns and `random k lower upper` the number that the `k`-th `Get_Random_Number`
returns. -/
structure cIO_Control where
  calls : List io_call
  signal : Nat → Int
  reads : Nat
  random : Nat → Int → Int → Int
  draws : Nat

/-- A call of the interface that returns nothing is appended to the log. -/
def cIO_Control.call (io : cIO_Control) (what : io_call) : cIO_Control :=
  { io with calls := io.calls ++ [what] }

/-- The call `io->Read_Signal().code`. -/
def cIO_Control.Read_Signal (io : cIO_Control) : Int × cIO_Control :=
  (io.signal io.reads, { io with calls := io.calls ++ [.Read_Signal], reads := io.reads + 1 })

/-- The call `io->Get_Random_Number(lower, upper)`. -/
def cIO_Control.Get_Random_Number (io : cIO_Control) (lower upper : Int) : Int × cIO_Control :=
  (io.random io.draws lower upper,
    { io with calls := io.calls ++ [.Get_Random_Number lower upper], draws := io.draws + 1 })

/-- The two floating-point computations of `Eval_Expression`, kept abstract:
`cos_scaled a b` stands for `(int)((double)a * std::cos((double)b * 3.14 / 180.0))` and
`sin_scaled a b` for the same with `std::sin`. -/
structure cFloat where
  cos_scaled : Int → Int → Int
  sin_scaled : Int → Int → Int

/-- The host file system that `Load` and `Save` reach through `std::ifstream` and
`std::ofstream`: the text of every file that exists, by name, and the names that cannot be opened
for writing. -/
structure cFiles where
  text : List (String × String)
  locked : List String
  deriving DecidableEq, Repr

/-- The simulator module, `cSimulator`.  `files` is not a member in the source: it is the host
file system, which is state that the simulator reads and writes. -/
structure cSimulator where
  memory : cMemory
  pointer : Int
  stack : List Int
  io : cIO_Control
  status : Int
  files : cFiles

/-- The constructor `cSimulator::cSimulator`. -/
def cSimulator.new (memory : cMemory) (io : cIO_Control) (program : Int) (files : cFiles) :
    cSimulator :=
  { memory := memory, pointer := program, stack := [], io := io, status := eSTATUS_IDLE,
    files := files }

/-- Modelled from the spec: `cArray<int>::Push` on the stack, "last-in-first-out": the item
becomes the last one. -/
def cArray_Push (stack : List Int) (item : Int) : List Int := stack ++ [item]

/-- Modelled from the spec: `cArray<int>::Pop` on the stack: the last item is removed and
returned; "popping an empty stack is undefined". -/
def cArray_Pop (stack : List Int) : Outcome (Int × List Int) :=
  match stack.getLast? with
  | some item => .ok (item, stack.dropLast)
  | none => .error (.undefined "Pop on an empty array")

/-- The error thrown by `cSimulator::Generate_Execution_Error`. -/
def cSimulator.Generate_Execution_Error (sim : cSimulator) (message : String) (command : cBlock) :
    Abort :=
  .cError ("Error: " ++ message ++ "\nCode: " ++ Number_To_Text command.code ++ "\nPointer: " ++
    Number_To_Text sim.pointer)

/-- The read shared by the immediate and the pointer case of `Eval_Operand`: the field of the
block when the operand names one, else the value of the block. -/
def cSimulator.Eval_Operand_read (operand : sOperand_Operator) (block : cBlock) : Outcome cValue :=
  -- We need to determine if the value comes from an object or value.
  if operand.field.length > 0 then
    match block.fields.find operand.field with
    | some value => .ok value
    | none => .error (.cError ("Could not find field " ++ operand.field ++ "."))
  else -- Value read.
    .ok block.value

/-- The body of `cSimulator::Eval_Operand`. -/
def cSimulator.Eval_Operand (sim : cSimulator) (operand : sOperand_Operator) : Outcome cValue :=
  let value := cValue.new
  match operand.addr_mode with
  | none => .error (.undefined "addr_mode was never written")
  | some addr_mode =>
    if addr_mode = eADDR_VAL_NUMBER then
      .ok (value.Set_Number operand.value.number)
    else if addr_mode = eADDR_VAL_STRING then
      .ok (value.Set_String operand.value.string)
    else if addr_mode = eADDR_IMMEDIATE then do
      let block ← sim.memory.index operand.value.number
      cSimulator.Eval_Operand_read operand block
    else if addr_mode = eADDR_POINTER then do
      let pointer ← sim.memory.index operand.value.number
      let block ← sim.memory.index pointer.value.number
      cSimulator.Eval_Operand_read operand block
    else
      .error (.cError ("Invalid address mode " ++ Number_To_Text addr_mode ++ "."))

/-- The `switch (oper.oper_code)` of `Eval_Expression`: one operator applied to the accumulated
`value` and the value of the next operand. -/
def cSimulator.Eval_Operator (fp : cFloat) (sim : cSimulator) (command : cBlock)
    (oper : sOperand_Operator) (value operand_value : cValue) (io : cIO_Control) :
    Outcome (cValue × cIO_Control) :=
  match oper.oper_code with
  | none => .error (.undefined "oper_code was never written")
  | some oper_code =>
    if oper_code = eOPER_ADD then
      .ok (value.Set_Number (wrap_int (value.number + operand_value.number)), io)
    else if oper_code = eOPER_SUB then
      .ok (value.Set_Number (wrap_int (value.number - operand_value.number)), io)
    else if oper_code = eOPER_MUL then
      .ok (value.Set_Number (wrap_int (value.number * operand_value.number)), io)
    else if oper_code = eOPER_DIV then
      if operand_value.number = 0 then
        .ok (value.Set_Number value.number, io)
      else
        .ok (value.Set_Number (wrap_int (Int.tdiv value.number operand_value.number)), io)
    else if oper_code = eOPER_REM then
      if operand_value.number = 0 then
        .error (.undefined "remainder by zero")
      else
        .ok (value.Set_Number (wrap_int (Int.tmod value.number operand_value.number)), io)
    else if oper_code = eOPER_RAND then
      let (number, io) := io.Get_Random_Number value.number operand_value.number
      .ok (value.Set_Number number, io)
    else if oper_code = eOPER_COS then
      .ok (value.Set_Number (fp.cos_scaled value.number operand_value.number), io)
    else if oper_code = eOPER_SIN then
      .ok (value.Set_Number (fp.sin_scaled value.number operand_value.number), io)
    else if oper_code = eOPER_CAT then
      -- Make sure we have a string.
      let value := if value.type = eVALUE_NUMBER then value.Convert_To_String else value
      -- The second test reads `value.type` again, as the source does.
      let operand_value :=
        if value.type = eVALUE_NUMBER then operand_value.Convert_To_String else operand_value
      .ok (value.Set_String (value.string ++ operand_value.string), io)
    else
      .error (sim.Generate_Execution_Error
        ("Invalid operator " ++ Number_To_Text oper_code ++ ".") command)

/-- The `for (oper_index = 1; oper_index < oper_count; oper_index += 2)` loop of
`Eval_Expression`, over the entries after the first operand. -/
def cSimulator.Eval_Expression_loop (fp : cFloat) (sim : cSimulator) (command : cBlock) :
    tExpression → cValue → cIO_Control → Outcome (cValue × cIO_Control)
  | [], value, io => .ok (value, io)
  | [_], _, _ => .error (.undefined "operand read past the end of the expression")
  | oper :: operand :: rest, value, io => do
    let operand_value ← sim.Eval_Operand operand
    let (value, io) ← cSimulator.Eval_Operator fp sim command oper value operand_value io
    cSimulator.Eval_Expression_loop fp sim command rest value io

/-- The body of `cSimulator::Eval_Expression`.  The I/O control is returned with the value: the
`rand` operator draws from it. -/
def cSimulator.Eval_Expression (fp : cFloat) (sim : cSimulator) (command : cBlock) (index : Int) :
    Outcome (cValue × cIO_Control) :=
  if index < 0 ∨ index ≥ (command.expressions.length : Int) then
    .error (sim.Generate_Execution_Error
      ("Expression does not exist at index " ++ Number_To_Text index ++ ".") command)
  else
    match command.expressions[index.toNat]? with
    | none => .error (.undefined "read past the end of the expression array")
    | some [] => .error (sim.Generate_Execution_Error "Empty expression." command)
    | some (first :: rest) => do
      let value ← sim.Eval_Operand first -- Assign initial value.
      -- Evaluate operators.
      cSimulator.Eval_Expression_loop fp sim command rest value sim.io

/-- The body of `cSimulator::Eval_Condition`. -/
def cSimulator.Eval_Condition (fp : cFloat) (sim : cSimulator) (command : cBlock)
    (condition : sCondition_Logic) : Outcome (Bool × cIO_Control) := do
  let result := false
  let (left_val, io) ← cSimulator.Eval_Expression fp sim command condition.left_exp
  let sim := { sim with io := io }
  let (right_val, io) ← cSimulator.Eval_Expression fp sim command condition.right_exp
  let sim := { sim with io := io }
  if condition.test = eTEST_EQUALS then
    if left_val.type = eVALUE_NUMBER then
      pure (decide (left_val.number = right_val.number), io)
    else if left_val.type = eVALUE_STRING then
      pure (decide (left_val.string = right_val.string), io)
    else
      pure (result, io)
  else if condition.test = eTEST_NOT then
    if left_val.type = eVALUE_NUMBER then
      pure (decide (left_val.number ≠ right_val.number), io)
    else if left_val.type = eVALUE_STRING then
      pure (decide (left_val.string ≠ right_val.string), io)
    else
      pure (result, io)
  else if condition.test = eTEST_LESS then
    pure (decide (left_val.number < right_val.number), io)
  else if condition.test = eTEST_GREATER then
    pure (decide (left_val.number > right_val.number), io)
  else if condition.test = eTEST_LESS_OR_EQUAL then
    pure (decide (left_val.number ≤ right_val.number), io)
  else if condition.test = eTEST_GREATER_OR_EQUAL then
    pure (decide (left_val.number ≥ right_val.number), io)
  else
    .error (sim.Generate_Execution_Error
      ("Invalid test " ++ Number_To_Text condition.test ++ ".") command)

/-- The conversion of a `bool` to `int`. -/
def bool_to_int (b : Bool) : Int := if b then 1 else 0

/-- The `for (oper_index = 1; oper_index < oper_count; oper_index += 2)` loop of
`Eval_Conditional`, over the entries after the first condition. -/
def cSimulator.Eval_Conditional_loop (fp : cFloat) (sim : cSimulator) (command : cBlock) :
    List sCondition_Logic → Int → cIO_Control → Outcome (Int × cIO_Control)
  | [], result, io => .ok (result, io)
  | [_], _, _ => .error (.undefined "condition read past the end of the conditional")
  | logic :: condition :: rest, result, io => do
    let (cond_result, io) ← cSimulator.Eval_Condition fp { sim with io := io } command condition
    let cond_result := bool_to_int cond_result
    match logic.logic_code with
    | none => .error (.undefined "logic_code was never written")
    | some logic_code =>
      if logic_code = eLOGIC_AND then
        -- Multiplication is like AND logic gate.
        cSimulator.Eval_Conditional_loop fp sim command rest (wrap_int (result * cond_result)) io
      else if logic_code = eLOGIC_OR then
        -- Addition is like OR logic gate.
        cSimulator.Eval_Conditional_loop fp sim command rest (wrap_int (result + cond_result)) io
      else
        .error (cSimulator.Generate_Execution_Error { sim with io := io }
          ("Invalid logic code " ++ Number_To_Text logic_code ++ ".") command)

/-- The body of `cSimulator::Eval_Conditional`. -/
def cSimulator.Eval_Conditional (fp : cFloat) (sim : cSimulator) (command : cBlock) :
    Outcome (Int × cIO_Control) :=
  match command.conditional with
  | first :: rest => do
    let (result, io) ← cSimulator.Eval_Condition fp sim command first
    -- Evaluate logic operators.
    cSimulator.Eval_Conditional_loop fp sim command rest (bool_to_int result) io
  | [] => .error (sim.Generate_Execution_Error "No conditional present." command)

/-- The `try`/`catch` that turns a text into a value: a Number when the text is a number, else a
String; `fields[name]` was assigned `cValue()` before. -/
def assign_parsed (fields : tObject) (name value : String) : Outcome tObject :=
  let fields := fields.assign name cValue.new
  match Text_To_Number value with
  | .ok number => .ok (fields.update name cValue.new (fun v => v.Set_Number number))
  | .error (.cError _) => .ok (fields.update name cValue.new (fun v => v.Set_String value))
  | .error other => .error other

/-- The lines that `std::getline` delivers while the stream stays good: the lines of the text that
end in a newline; `line` holds, reversed, the characters of the line being read. -/
def file_lines : List Char → List Char → List String
  | [], _ => []
  | c :: rest, line =>
    if c = '\n' then String.mk line.reverse :: file_lines rest [] else file_lines rest (c :: line)

/-- The `while (!file.eof())` loop of `Load`, over the lines read. -/
def cSimulator.Load_lines : List String → cMemory → Int → Int → Outcome (Int × cMemory)
  | [], memory, _, count => .ok (count, memory)
  | line :: rest, memory, address, count =>
    if line = "object" then do
      let block ← memory.index address
      cSimulator.Load_lines rest (memory.write address block.Clear) address count
    else if line = "end" then
      -- Go to next object.
      cSimulator.Load_lines rest memory (wrap_int (address + 1)) (wrap_int (count + 1))
    else do
      let pair := Parse_Sausage_Text line "="
      match pair with
      | name :: value :: _ =>
        let block ← memory.index address
        let fields ← assign_parsed block.fields name value
        cSimulator.Load_lines rest (memory.write address { block with fields := fields })
          address count
      | _ => .error (.undefined "pair[1] read past the end of the array")

/-- The body of `cSimulator::Load`: the count of objects loaded and the memory after the load. -/
def cSimulator.Load (sim : cSimulator) (name : String) (memory : cMemory) (address : Int) :
    Outcome (Int × cMemory) :=
  match sim.files.text.find? (fun file => decide (file.1 = name)) with
  | some file => cSimulator.Load_lines (file_lines file.2.data []) memory address 0
  | none => .error (.cError ("Could not load file " ++ name ++ "."))

/-- The inner loop of `Save`: the lines written for the fields of a block. -/
def cSimulator.Save_fields : List (String × cValue) → String
  | [] => ""
  | (key, value) :: rest =>
    key ++ "=" ++
      (if value.type = eVALUE_NUMBER then Number_To_Text value.number ++ "\n"
       else if value.type = eVALUE_STRING then value.string ++ "\n"
       else "") ++
      cSimulator.Save_fields rest

/-- The outer loop of `Save`, for the blocks that remain: the text written. -/
def cSimulator.Save_blocks (memory : cMemory) (address : Int) : Nat → Int → Outcome String
  | 0, _ => .ok ""
  | rounds + 1, block_index => do
    let block ← memory.index (wrap_int (address + block_index))
    let rest ← cSimulator.Save_blocks memory address rounds (wrap_int (block_index + 1))
    pure ("object\n" ++ cSimulator.Save_fields block.fields.items ++ "end\n" ++ rest)

/-- The body of `cSimulator::Save`: the file system after the save. -/
def cSimulator.Save (sim : cSimulator) (name : String) (memory : cMemory) (address : Int)
    (count : Int) : Outcome cFiles :=
  if name ∈ sim.files.locked then
    .error (.cError ("Could not save file " ++ name ++ "."))
  else do
    let text ← cSimulator.Save_blocks memory address count.toNat 0
    let others := sim.files.text.filter (fun file => decide (file.1 ≠ name))
    pure { sim.files with text := others ++ [(name, text)] }

/-- The loop of `GET_OBJECT` over the properties of one sub-object. -/
def cSimulator.Get_Object_properties (sim : cSimulator) (command : cBlock) :
    List String → tObject → Outcome tObject
  | [], fields => .ok fields
  | property :: rest, fields =>
    let pair := Parse_Sausage_Text property ":"
    match pair with
    | [name, value] => do
      let fields ← assign_parsed fields name value
      cSimulator.Get_Object_properties sim command rest fields
    | _ => .error (sim.Generate_Execution_Error "Sub object property is invalid." command)

/-- The loop of `GET_OBJECT` over the sub-objects. -/
def cSimulator.Get_Object_objects (sim : cSimulator) (command : cBlock) :
    List String → tObject → Outcome tObject
  | [], fields => .ok fields
  | object :: rest, fields => do
    let properties := Parse_Sausage_Text object ";"
    let fields ← cSimulator.Get_Object_properties sim command properties fields
    cSimulator.Get_Object_objects sim command rest fields

/-- The loop of `GET_LIST` over the items. -/
def cSimulator.Get_List_items (pointer : Int) : List String → Int → cMemory → Outcome cMemory
  | [], _, memory => .ok memory
  | text :: rest, item_index, memory => do
    let address := wrap_int (pointer + item_index)
    let item ← memory.index address
    let item ←
      (match Text_To_Number text with
       | .ok number => pure { item with value := item.value.Set_Number number }
       | .error (.cError _) => pure { item with value := item.value.Set_String text }
       | .error other => .error other : Outcome cBlock)
    cSimulator.Get_List_items pointer rest (wrap_int (item_index + 1)) (memory.write address item)

/-- The body of `cSimulator::Command_Processor`. -/
def cSimulator.Command_Processor (fp : cFloat) (sim : cSimulator) (command : cBlock) :
    Outcome cSimulator :=
  if command.code = eCMD_NONE then
    pure sim -- Do nothing.
  else if command.code = eCMD_STORE then do
      let (result, io) ← cSimulator.Eval_Expression fp sim command 0
      let sim := { sim with io := io }
      let (pointer, io) ← cSimulator.Eval_Expression fp sim command 1
      let sim := { sim with io := io }
      let block ← sim.memory.index pointer.number
      pure { sim with memory := sim.memory.write pointer.number { block with value := result } }
  else if command.code = eCMD_SET then do
      let (pointer, io) ← cSimulator.Eval_Expression fp sim command 0
      let sim := { sim with io := io }
      let (field, io) ← cSimulator.Eval_Expression fp sim command 1
      let sim := { sim with io := io }
      let (value, io) ← cSimulator.Eval_Expression fp sim command 2
      let sim := { sim with io := io }
      let block ← sim.memory.index pointer.number
      let block := { block with fields := block.fields.assign field.string value }
      pure { sim with memory := sim.memory.write pointer.number block }
  else if command.code = eCMD_TEST then do
      let (result, io) ← cSimulator.Eval_Conditional fp sim command
      let sim := { sim with io := io }
      let (passed_address, io) ← cSimulator.Eval_Expression fp sim command ((command.expressions.length : Int) - 2)
      let sim := { sim with io := io }
      let (failed_address, io) ← cSimulator.Eval_Expression fp sim command ((command.expressions.length : Int) - 1)
      let sim := { sim with io := io }
      if result ≠ 0 then
        if passed_address.number ≠ TAKE_NO_JUMP then
          pure { sim with pointer := passed_address.number }
        else
          pure sim
      else
        if failed_address.number ≠ TAKE_NO_JUMP then
          pure { sim with pointer := failed_address.number }
        else
          pure sim
  else if command.code = eCMD_CALL then do
      let (jump_address, io) ← cSimulator.Eval_Expression fp sim command 0
      let sim := { sim with io := io }
      let sim := { sim with stack := cArray_Push sim.stack sim.pointer } -- Save next command address.
      pure { sim with pointer := jump_address.number }
  else if command.code = eCMD_RETURN then do
      let (address, stack) ← cArray_Pop sim.stack
      pure { sim with pointer := address, stack := stack }
  else if command.code = eCMD_STOP then
      pure { sim with status := eSTATUS_DONE }
  else if command.code = eCMD_OUTPUT then do
      let (string, io) ← cSimulator.Eval_Expression fp sim command 0
      let sim := { sim with io := io }
      let (x, io) ← cSimulator.Eval_Expression fp sim command 1
      let sim := { sim with io := io }
      let (y, io) ← cSimulator.Eval_Expression fp sim command 2
      let sim := { sim with io := io }
      let (red, io) ← cSimulator.Eval_Expression fp sim command 3
      let sim := { sim with io := io }
      let (green, io) ← cSimulator.Eval_Expression fp sim command 4
      let sim := { sim with io := io }
      let (blue, io) ← cSimulator.Eval_Expression fp sim command 5
      let sim := { sim with io := io }
      let io := sim.io.call
        (.Output_Text string.string x.number y.number red.number green.number blue.number)
      pure { sim with io := io }
  else if command.code = eCMD_DRAW then do
      let (name, io) ← cSimulator.Eval_Expression fp sim command 0
      let sim := { sim with io := io }
      let (x, io) ← cSimulator.Eval_Expression fp sim command 1
      let sim := { sim with io := io }
      let (y, io) ← cSimulator.Eval_Expression fp sim command 2
      let sim := { sim with io := io }
      let (width, io) ← cSimulator.Eval_Expression fp sim command 3
      let sim := { sim with io := io }
      let (height, io) ← cSimulator.Eval_Expression fp sim command 4
      let sim := { sim with io := io }
      let (angle, io) ← cSimulator.Eval_Expression fp sim command 5
      let sim := { sim with io := io }
      let (flip_x, io) ← cSimulator.Eval_Expression fp sim command 6
      let sim := { sim with io := io }
      let (flip_y, io) ← cSimulator.Eval_Expression fp sim command 7
      let sim := { sim with io := io }
      let io := sim.io.call
        (.Draw_Image name.string x.number y.number width.number height.number angle.number
          flip_x.number flip_y.number)
      pure { sim with io := io }
  else if command.code = eCMD_REFRESH then
      pure { sim with io := sim.io.call .Refresh }
  else if command.code = eCMD_SOUND then do
      let (name, io) ← cSimulator.Eval_Expression fp sim command 0
      let sim := { sim with io := io }
      pure { sim with io := sim.io.call (.Play_Sound name.string) }
  else if command.code = eCMD_MUSIC then do
      let (name, io) ← cSimulator.Eval_Expression fp sim command 0
      let sim := { sim with io := io }
      pure { sim with io := sim.io.call (.Play_Music name.string) }
  else if command.code = eCMD_SILENCE then
      pure { sim with io := sim.io.call .Silence }
  else if command.code = eCMD_INPUT then do
      let (pointer, io) ← cSimulator.Eval_Expression fp sim command 0
      let sim := { sim with io := io }
      let block ← sim.memory.index pointer.number
      let (code, io) := sim.io.Read_Signal
      let block := { block with value := block.value.Set_Number code }
      pure { sim with io := io, memory := sim.memory.write pointer.number block }
  else if command.code = eCMD_TIMEOUT then do
      let (timeout, io) ← cSimulator.Eval_Expression fp sim command 0
      let sim := { sim with io := io }
      pure { sim with io := sim.io.call (.Timeout timeout.number) }
  else if command.code = eCMD_COLOR then do
      let (red, io) ← cSimulator.Eval_Expression fp sim command 0
      let sim := { sim with io := io }
      let (green, io) ← cSimulator.Eval_Expression fp sim command 1
      let sim := { sim with io := io }
      let (blue, io) ← cSimulator.Eval_Expression fp sim command 2
      let sim := { sim with io := io }
      pure { sim with io := sim.io.call (.Color red.number green.number blue.number) }
  else if command.code = eCMD_LOAD then do
      let (name, io) ← cSimulator.Eval_Expression fp sim command 0
      let sim := { sim with io := io }
      let (address, io) ← cSimulator.Eval_Expression fp sim command 1
      let sim := { sim with io := io }
      let (_count, io) ← cSimulator.Eval_Expression fp sim command 2
      let sim := { sim with io := io }
      let _ ← sim.memory.index address.number
      let (loaded, memory) ← sim.Load name.string sim.memory address.number
      let block ← memory.index address.number
      let block := { block with value := block.value.Set_Number loaded }
      pure { sim with memory := memory.write address.number block }
  else if command.code = eCMD_SAVE then do
      let (name, io) ← cSimulator.Eval_Expression fp sim command 0
      let sim := { sim with io := io }
      let (address, io) ← cSimulator.Eval_Expression fp sim command 1
      let sim := { sim with io := io }
      let (count, io) ← cSimulator.Eval_Expression fp sim command 2
      let sim := { sim with io := io }
      let files ← sim.Save name.string sim.memory address.number count.number
      pure { sim with files := files }
  else if command.code = eCMD_PUSH then do
      let (result, io) ← cSimulator.Eval_Expression fp sim command 0
      let sim := { sim with io := io }
      pure { sim with stack := cArray_Push sim.stack result.number }
  else if command.code = eCMD_POP then do
      let (pointer, io) ← cSimulator.Eval_Expression fp sim command 0
      let sim := { sim with io := io }
      let block ← sim.memory.index pointer.number
      let (item, stack) ← cArray_Pop sim.stack
      let block := { block with value := block.value.Set_Number item }
      pure { sim with stack := stack, memory := sim.memory.write pointer.number block }
  else if command.code = eCMD_REPEAT then do
      let (lower, io) ← cSimulator.Eval_Expression fp sim command 0
      let sim := { sim with io := io }
      let (upper, io) ← cSimulator.Eval_Expression fp sim command 1
      let sim := { sim with io := io }
      let (pointer, io) ← cSimulator.Eval_Expression fp sim command 2
      let sim := { sim with io := io }
      let (jump_address, io) ← cSimulator.Eval_Expression fp sim command 3
      let sim := { sim with io := io }
      let var ← sim.memory.index pointer.number
      if var.value.number < lower.number ∨ var.value.number > upper.number then
        -- Reset variable if out of bounds.  `lower.number++` passes the old number of the local
        -- `lower`, which is not read again.
        let var := { var with value := var.value.Set_Number lower.number }
        -- Jump to loop location.
        let sim := { sim with memory := sim.memory.write pointer.number var }
        pure { sim with pointer := jump_address.number }
      else
        -- `var.value.Set_Number(var.value.number++)`: the argument is the old number; the
        -- increment is stored before the call and the call then stores the argument.
        let argument := var.value.number
        let var := { var with value := { var.value with number := wrap_int (var.value.number + 1) } }
        let var := { var with value := var.value.Set_Number argument }
        let sim := { sim with memory := sim.memory.write pointer.number var }
        if var.value.number ≤ upper.number then
          pure { sim with pointer := jump_address.number } -- Jump to loop location.
        else
          pure sim
  else if command.code = eCMD_GET_OBJECT then do
      let (pointer, io) ← cSimulator.Eval_Expression fp sim command 0
      let sim := { sim with io := io }
      let (object, io) ← cSimulator.Eval_Expression fp sim command 1
      let sim := { sim with io := io }
      let (field, io) ← cSimulator.Eval_Expression fp sim command 2
      let sim := { sim with io := io }
      let _ ← sim.memory.index object.number
      let dest ← sim.memory.index pointer.number
      let memory := sim.memory.write pointer.number { dest with fields := dest.fields.Clear }
      let source ← memory.index object.number
      let (text, source_fields) := source.fields.index field.string cValue.new
      let memory := memory.write object.number { source with fields := source_fields }
      let objects := Parse_Sausage_Text text.string "|"
      let dest ← memory.index pointer.number
      let fields ← cSimulator.Get_Object_objects sim command objects dest.fields
      pure { sim with memory := memory.write pointer.number { dest with fields := fields } }
  else if command.code = eCMD_GET_LIST then do
      let (pointer, io) ← cSimulator.Eval_Expression fp sim command 0
      let sim := { sim with io := io }
      let (object, io) ← cSimulator.Eval_Expression fp sim command 1
      let sim := { sim with io := io }
      let (field, io) ← cSimulator.Eval_Expression fp sim command 2
      let sim := { sim with io := io }
      let source ← sim.memory.index object.number
      let _ ← sim.memory.index pointer.number
      let (text, source_fields) := source.fields.index field.string cValue.new
      let memory := sim.memory.write object.number { source with fields := source_fields }
      let items := Parse_Sausage_Text text.string ","
      let memory ← cSimulator.Get_List_items pointer.number items 0 memory
      pure { sim with memory := memory }
  else
    .error (sim.Generate_Execution_Error "Invalid command." command)

/-- One round of the loop of `Run` once the time check has passed: the command at the pointer is
fetched, the pointer advanced, the command dispatched. -/
def cSimulator.Run_step (fp : cFloat) (sim : cSimulator) : Outcome cSimulator := do
  let address := sim.pointer
  let sim := { sim with pointer := wrap_int (sim.pointer + 1) }
  let command ← sim.memory.index address
  sim.Command_Processor fp command

/-- The body of `cSimulator::Run`.  The wall clock is an input: the list holds the elapsed
milliseconds that the successive time checks of this call read; once the list is used up the next
reading is taken to be past the timeout. -/
def cSimulator.Run (fp : cFloat) (timeout : Int) : List Int → cSimulator → Outcome cSimulator
  | [], sim => .ok sim
  | diff :: later, sim =>
    if sim.status = eSTATUS_RUNNING then
      if diff < timeout then do
        let sim ← sim.Run_step fp
        cSimulator.Run fp timeout later sim
      else
        .ok sim
    else
      .ok sim

/-! ## Vocabulary of the statements -/

/-- An entry as `Parse_Operand` leaves it: one of the four addressing modes is written and no
operator code is. -/
def sOperand_Operator.is_operand (entry : sOperand_Operator) : Prop :=
  entry.oper_code = none ∧
  entry.addr_mode ∈
    [some eADDR_VAL_NUMBER, some eADDR_VAL_STRING, some eADDR_IMMEDIATE, some eADDR_POINTER]

/-- An entry as `Parse_Operator` leaves it: the code of one of `+ - * / rem rand cos sin cat` is
written and no addressing mode is. -/
def sOperand_Operator.is_operator (entry : sOperand_Operator) : Prop :=
  entry.addr_mode = none ∧
  entry.oper_code ∈
    [some eOPER_ADD, some eOPER_SUB, some eOPER_MUL, some eOPER_DIV, some eOPER_REM,
      some eOPER_RAND, some eOPER_COS, some eOPER_SIN, some eOPER_CAT]

/-- The form `A (B A)*` of a list: entries that satisfy `P` joined by entries that satisfy `Q`. -/
def alternating {α : Type} (P Q : α → Prop) : List α → Prop
  | [] => False
  | [a] => P a
  | a :: b :: rest => P a ∧ Q b ∧ alternating P Q rest

/-- An entry as `Parse_Condition` leaves it: one of the six tests is written and no logic code
is. -/
def sCondition_Logic.is_condition (entry : sCondition_Logic) : Prop :=
  entry.logic_code = none ∧
  entry.test ∈ [eTEST_EQUALS, eTEST_NOT, eTEST_LESS, eTEST_GREATER, eTEST_LESS_OR_EQUAL,
    eTEST_GREATER_OR_EQUAL]

/-- An entry as `Parse_Logic` leaves it: the code of `and` or of `or`. -/
def sCondition_Logic.is_logic (entry : sCondition_Logic) : Prop :=
  entry.logic_code ∈ [some eLOGIC_AND, some eLOGIC_OR]

/-- A token queue with the given texts, all from line 0 of the source `main`. -/
def tokens_of (texts : List String) : List sToken :=
  texts.map (fun text => { token := text, line_no := 0, source := "main" })

/-- Every operand, that is every even-indexed entry of every expression of every block of the
memory, satisfies `P`. -/
def cMemory.every_operand (m : cMemory) (P : sOperand_Operator → Prop) : Prop :=
  ∀ block ∈ m.memory, ∀ expression ∈ block.expressions,
    ∀ (i : Nat) (hi : i < expression.length), i % 2 = 0 → P expression[i]

/-- An operand that `Replace_Placeholders` has passed: it has no placeholder, or its placeholder
is a key of the symbol table and its value is the Number bound to that key. -/
def sOperand_Operator.resolved (symtab : cHash String Int) (operand : sOperand_Operator) : Prop :=
  operand.placeholder = "" ∨
  ∃ value, symtab.find operand.placeholder = some value ∧
    operand.value.type = eVALUE_NUMBER ∧ operand.value.number = value

/-- The call returns normally, with a result that satisfies `P`. -/
def returns_with {α : Type} (call : Outcome α) (P : α → Prop) : Prop :=
  ∃ result, call = .ok result ∧ P result

instance returns_with_decidable {α : Type} (call : Outcome α) (P : α → Prop) [DecidablePred P] :
    Decidable (returns_with call P) :=
  match call with
  | .ok result =>
    if h : P result then isTrue ⟨result, rfl, h⟩
    else isFalse (fun ⟨_, hb, hP⟩ => by cases hb; exact h hP)
  | .error _ => isFalse (fun ⟨_, hb, _⟩ => by cases hb)

instance every_operand_decidable (m : cMemory) (P : sOperand_Operator → Prop) [DecidablePred P] :
    Decidable (m.every_operand P) :=
  inferInstanceAs (Decidable (∀ block ∈ m.memory, ∀ expression ∈ block.expressions,
    ∀ (i : Nat) (hi : i < expression.length), i % 2 = 0 → P expression[i]))

/-- An I/O control with an empty log, on which every input signal is 0 and every random number
is the lower bound asked for. -/
def cIO_Control.idle : cIO_Control :=
  { calls := [], signal := fun _ => 0, reads := 0, random := fun _ lower _ => lower, draws := 0 }

/-- A stand-in for the floating-point computations, for runs in which `cos` and `sin` do not
occur. -/
def cFloat.unused : cFloat :=
  { cos_scaled := fun _ _ => 0, sin_scaled := fun _ _ => 0 }

/-- A file system without files. -/
def cFiles.empty : cFiles := { text := [], locked := [] }

/-- The operand that `Parse_Operand` builds for a literal number. -/
def operand_number (number : Int) : sOperand_Operator :=
  { sOperand_Operator.new with
    addr_mode := some eADDR_VAL_NUMBER, value := cValue.new.Set_Number number }

/-- The operand that `Parse_Operand` builds for `@address`, without a field. -/
def operand_pointer (address : Int) : sOperand_Operator :=
  { sOperand_Operator.new with
    addr_mode := some eADDR_POINTER, value := cValue.new.Set_Number address }

/-- A block with the given opcode and expressions, otherwise as constructed. -/
def command_block (code : Int) (expressions : List tExpression) : cBlock :=
  { cBlock.new with code := code, expressions := expressions }

/-- A simulator on the given memory and entry address that the host has set RUNNING. -/
def cSimulator.running (memory : cMemory) (program : Int) : cSimulator :=
  { cSimulator.new memory cIO_Control.idle program cFiles.empty with status := eSTATUS_RUNNING }


/-- The value Number `n`. -/
def Number (n : Int) : cValue := cValue.new.Set_Number n

/-- The operator entry that `Parse_Operator` builds for the given operator code. -/
def operator_entry (code : Int) : sOperand_Operator :=
  { sOperand_Operator.new with oper_code := some code }

/-- A condition entry as `Parse_Condition` builds it. -/
def condition_entry (left_exp test right_exp : Int) : sCondition_Logic :=
  { logic_code := none, left_exp := left_exp, test := test, right_exp := right_exp }

/-- The value String `s`. -/
def Text (s : String) : cValue := cValue.new.Set_String s

/-- The program is compiled into a fresh memory of `size` cells and run from the address that the
symbol `entry` has after compilation, with the status set RUNNING, for at most `rounds` rounds of
`Run` (every time check passes). -/
def compile_and_run (texts : List String) (size : Nat) (entry : String) (rounds : Nat) :
    Outcome cSimulator := do
  let c ← cCompiler.new (tokens_of texts) (cMemory.new size)
  match c.symtab.find entry with
  | some address =>
    cSimulator.Run cFloat.unused 20 (List.replicate rounds 0) (cSimulator.running c.memory address)
  | none => .error (.cError ("Could not find placeholder " ++ entry ++ "."))

/-- The addressing mode that the first character of an operand token selects. -/
def selected_mode (first : Option Char) : Int :=
  if first = some '#' then eADDR_IMMEDIATE
  else if first = some '@' then eADDR_POINTER
  else if first = some '$' then eADDR_VAL_STRING
  else eADDR_VAL_NUMBER

/-- Partial correctness of a call: whenever it returns normally, the result satisfies `Q`. -/
def ensures {α : Type} (call : Outcome α) (Q : α → Prop) : Prop :=
  ∀ result, call = .ok result → Q result

/-- The compiler state `c` comes after `c0` in statement parsing: its queue is what is left of the
queue of `c0`, the memory has the same size, the write pointer has not decreased and has stayed
within the memory if it was within it (the size being an `int`), and the symbol table agrees with
that of `c0` on every key that is not the bracketed text of a token of `c0`. -/
def cCompiler.follows (c0 c : cCompiler) : Prop :=
  (∃ shifted, c0.tokens = shifted ++ c.tokens) ∧
  c.memory.count = c0.memory.count ∧
  (c0.memory.count ≤ INT_MAX →
    c0.pointer ≤ c.pointer ∧ (c0.pointer ≤ c0.memory.count → c.pointer ≤ c0.memory.count)) ∧
  (∀ key : String, (∀ token ∈ c0.tokens, key ≠ "[" ++ token.token ++ "]") →
    c.symtab.find key = c0.symtab.find key)

/-- The compiler after `k` statements have been parsed, each of which returned. -/
def cCompiler.after_statements : Nat → cCompiler → Outcome cCompiler
  | 0, c => pure c
  | k + 1, c => do
    let c ← c.Parse_Statement
    cCompiler.after_statements k c

/-- The texts joined with the separator text between neighbours. -/
def join_texts (separator : String) : List String → String
  | [] => ""
  | [text] => text
  | text :: next :: rest => text ++ separator ++ join_texts separator (next :: rest)

/-- The value that the `try`/`catch` around `Text_To_Number` makes of a text: Number when the text
is a number, String of the text otherwise. -/
def parsed_value (text : String) : cValue :=
  match Text_To_Number text with
  | .ok number => Number number
  | .error _ => Text text

/-- The text of the last pair with the given key, if any. -/
def last_value (pairs : List (String × String)) (key : String) : Option String :=
  match pairs.reverse.find? (fun pair => decide (pair.1 = key)) with
  | some pair => some pair.2
  | none => none

/-- The fields after the given pairs have been assigned in order on top of `fields`: for a key,
the parsed text of its last pair, else what `fields` holds. -/
def overlay (pairs : List (String × String)) (fields : tObject) (key : String) : Option cValue :=
  match last_value pairs key with
  | some text => some (parsed_value text)
  | none => fields.find key

/-- The text `key:value` of a pair. -/
def pair_text (pair : String × String) : String := pair.1 ++ ":" ++ pair.2

/-- The text of one sub-object: its pairs joined by `;`. -/
def item_text (item : List (String × String)) : String := join_texts ";" (item.map pair_text)

/-- The composite text of a list of sub-objects: the sub-objects joined by `|`. -/
def composite_text (items : List (List (String × String))) : String :=
  join_texts "|" (items.map item_text)

/-- The operand that `Parse_Operand` builds for `$text`. -/
def operand_string (text : String) : sOperand_Operator :=
  { sOperand_Operator.new with
    addr_mode := some eADDR_VAL_STRING, value := cValue.new.Set_String text }

/-- A block that holds the given value under the given key and is otherwise as constructed. -/
def block_with_field (key : String) (value : cValue) : cBlock :=
  { cBlock.new with fields := cBlock.new.fields.assign key value }

/-- The state of the object-list example: 71 default cells, RUNNING, with the String
`a:1;b:2|c:3;d:4` in the field `items` of cell 60. -/
def object_list_example : cSimulator :=
  cSimulator.running
    ((cMemory.new 71).write 60 (block_with_field "items" (Text "a:1;b:2|c:3;d:4"))) 0

/-- A text without any of the three separator characters of a composite text. -/
@[reducible]
def plain_text (text : String) : Prop :=
  '|' ∉ text.data ∧ ';' ∉ text.data ∧ ':' ∉ text.data

/-- The text that `Save` writes for a Number or String value, without the line end. -/
def value_text (value : cValue) : String :=
  if value.type = eVALUE_NUMBER then Number_To_Text value.number else value.string

/-- The line that `Save` writes for a field. -/
def field_line (field : String × cValue) : String := field.1 ++ "=" ++ value_text field.2

/-- The key and the written text of a field. -/
def field_pair (field : String × cValue) : String × String := (field.1, value_text field.2)

/-- The lines that `Save` writes for a block. -/
def block_lines (block : cBlock) : List String :=
  "object" :: block.fields.items.map field_line ++ ["end"]

/-- The characters of a file made of the given lines, each ended by a newline. -/
def lines_text : List String → List Char
  | [] => []
  | line :: rest => line.data ++ '\n' :: lines_text rest

/-- A value that `Save` writes on one line and `Load` reads back as it was: a Number that fits an
`int`, or a String without `=` and newline that is not the text of a number. -/
@[reducible]
def cValue.savable (value : cValue) : Prop :=
  (value.type = eVALUE_NUMBER ∧ INT_MIN ≤ value.number ∧ value.number ≤ INT_MAX) ∨
  (value.type = eVALUE_STRING ∧ '=' ∉ value.string.data ∧ '\n' ∉ value.string.data ∧
    (Text_To_Number value.string).toBool = false)

/-- Fields with distinct keys, the keys without `=` and newline, and savable values. -/
@[reducible]
def savable_fields (fields : tObject) : Prop :=
  (fields.items.map Prod.fst).Nodup ∧
  ∀ field ∈ fields.items, '=' ∉ field.1.data ∧ '\n' ∉ field.1.data ∧ field.2.savable

/-- A memory of three cells with the field `n` = Number 7 in cell 1 and the field `s` = String
`hi` in cell 2. -/
def saved_example : cMemory :=
  ((cMemory.new 3).write 1 (block_with_field "n" (Number 7))).write 2
    (block_with_field "s" (Text "hi"))

/-- A memory of two cells with the field `k` = String `12` in cell 1. -/
def numeral_example : cMemory :=
  (cMemory.new 2).write 1 (block_with_field "k" (Text "12"))

/-- Two values with the same tag and the same payload under that tag. -/
def cValue.same_as (value other : cValue) : Prop :=
  value.type = other.type ∧
  (value.type = eVALUE_NUMBER → value.number = other.number) ∧
  (value.type = eVALUE_STRING → value.string = other.string)

/-- Two lookups that both miss, or both hit with values of the same tag and payload. -/
def same_entry : Option cValue → Option cValue → Prop
  | none, none => True
  | some value, some other => value.same_as other
  | _, _ => False

/-- The address is outside the memory: negative, or not below the count of blocks. -/
def cMemory.out_of_range (m : cMemory) (address : Int) : Prop := address < 0 ∨ address ≥ m.count

/-- A block that holds the given value and is otherwise as constructed. -/
def block_with_value (value : cValue) : cBlock := { cBlock.new with value := value }

/-- A RUNNING simulator on two cells: cell 0 holds Number 1, cell 1 holds Number 7. -/
def pointer_example : cSimulator :=
  cSimulator.running
    (((cMemory.new 2).write 0 (block_with_value (Number 1))).write 1
      (block_with_value (Number 7))) 0

/-- Integer arithmetic as the operator table has it for `+ - * /`, over exact integers: `/`
truncates and `/` by zero yields the left operand unchanged. -/
def arithmetic (code : Int) (a b : Int) : Int :=
  if code = eOPER_ADD then a + b
  else if code = eOPER_SUB then a - b
  else if code = eOPER_MUL then a * b
  else if b = 0 then a
  else Int.tdiv a b

/-- The strict left fold `(((a op1 b1) op2 b2) ... opk bk)` over exact integers, without
precedence; a step is the operator code and the number of the right operand. -/
def left_fold (acc : Int) : List (Int × Int) → Int
  | [] => acc
  | step :: rest => left_fold (arithmetic step.1 acc step.2) rest

/-- Every intermediate result of the left fold fits an `int`. -/
def fold_fits_int (acc : Int) : List (Int × Int) → Prop
  | [] => True
  | step :: rest =>
    INT_MIN ≤ arithmetic step.1 acc step.2 ∧ arithmetic step.1 acc step.2 ≤ INT_MAX ∧
    fold_fits_int (arithmetic step.1 acc step.2) rest

/-- The entries `op1 o1 ... opk ok` of an expression after its first operand; a step is the
operator code, the operand entry and the value that the operand evaluates to. -/
def operator_entries : List (Int × sOperand_Operator × cValue) → tExpression
  | [] => []
  | step :: rest => operator_entry step.1 :: step.2.1 :: operator_entries rest

/-- The operator code and the number of the right operand of every step. -/
def step_numbers (steps : List (Int × sOperand_Operator × cValue)) : List (Int × Int) :=
  steps.map (fun step => (step.1, step.2.2.number))

/-- The example of C26: `2 + 3 * 4` as expression 0 of a command. -/
def precedence_example : cBlock :=
  command_block eCMD_PUSH
    [[operand_number 2, operator_entry eOPER_ADD, operand_number 3, operator_entry eOPER_MUL,
      operand_number 4]]

/-- A logic entry as `Parse_Logic` builds it. -/
def logic_entry (code : Int) : sCondition_Logic :=
  { logic_code := some code, left_exp := 0, test := 0, right_exp := 0 }

/-- The entries `l1 c1 ... lk ck` of a conditional after its first condition; a pair is a logic
entry and the condition entry that follows it. -/
def conditional_entries : List (sCondition_Logic × sCondition_Logic) → List sCondition_Logic
  | [] => []
  | pair :: rest => pair.1 :: pair.2 :: conditional_entries rest

/-- The results of the given conditions, evaluated one after the other in order, each with the I/O
control that the one before left; it fails with the error of the first condition that fails. -/
def cSimulator.Eval_Conditions (fp : cFloat) (sim : cSimulator) (command : cBlock) :
    List sCondition_Logic → cIO_Control → Outcome (List Bool × cIO_Control)
  | [], io => .ok ([], io)
  | condition :: rest, io => do
    let (result, io) ← cSimulator.Eval_Condition fp { sim with io := io } command condition
    let (results, io) ← cSimulator.Eval_Conditions fp sim command rest io
    pure (result :: results, io)

/-- The operand that `Parse_Operand` builds for `#address`, without a field. -/
def operand_immediate (address : Int) : sOperand_Operator :=
  { sOperand_Operator.new with
    addr_mode := some eADDR_IMMEDIATE, value := cValue.new.Set_Number address }

/-- The conditional `1 eq 1 or 2 eq 2 and 3 eq 3` of a TEST command whose expressions are the six
literal numbers. -/
def disjunction_example : cBlock :=
  { command_block eCMD_TEST
      [[operand_number 1], [operand_number 1], [operand_number 2], [operand_number 2],
        [operand_number 3], [operand_number 3]]
    with conditional :=
      [condition_entry 0 eTEST_EQUALS 1, logic_entry eLOGIC_OR, condition_entry 2 eTEST_EQUALS 3,
        logic_entry eLOGIC_AND, condition_entry 4 eTEST_EQUALS 5] }

/-- The conditional `1 eq 2 and #9 eq 1` of a TEST command: the first condition is false, the
second reads the cell 9. -/
def short_circuit_example : cBlock :=
  { command_block eCMD_TEST
      [[operand_number 1], [operand_number 2], [operand_immediate 9], [operand_number 1]]
    with conditional :=
      [condition_entry 0 eTEST_EQUALS 1, logic_entry eLOGIC_AND,
        condition_entry 2 eTEST_EQUALS 3] }

/-- The left fold of the conditional over exact integers: the next 0/1 result is multiplied in for
AND and added for OR. -/
def conditional_fold (acc : Int) : List (sCondition_Logic × Bool) → Int
  | [] => acc
  | step :: rest =>
    conditional_fold
      (if step.1.logic_code = some eLOGIC_AND then acc * bool_to_int step.2
       else acc + bool_to_int step.2) rest

/-- The boolean combination `((c0 l1 c1) l2 c2 ...)`, left to right with no precedence. -/
def boolean_fold (acc : Bool) : List (sCondition_Logic × Bool) → Bool
  | [] => acc
  | step :: rest =>
    boolean_fold (if step.1.logic_code = some eLOGIC_AND then acc && step.2 else acc || step.2)
      rest

/-- A STORE command with the expressions `$hello` and `1`. -/
def store_example : cBlock :=
  command_block eCMD_STORE [[operand_string "hello"], [operand_number 1]]

/-- An operand that `Replace_Placeholders` can pass: it has no placeholder, or its placeholder is
a key of the symbol table. -/
def sOperand_Operator.resolvable (symtab : cHash String Int) (operand : sOperand_Operator) :
    Prop :=
  operand.placeholder = "" ∨ (symtab.find operand.placeholder).isSome = true

/-- What the claim says of an operand after `Replace_Placeholders`: with a non-empty placeholder
its value is Number `symtab[placeholder]`, otherwise it is unchanged. -/
def resolve_operand (symtab : cHash String Int) (operand : sOperand_Operator) :
    sOperand_Operator :=
  if operand.placeholder = "" then operand
  else { operand with value := Number ((symtab.find operand.placeholder).getD 0) }

/-- The expression with every operand (the entries `0, 2, 4, ...`) resolved and the operators
between them unchanged. -/
def resolve_operands (symtab : cHash String Int) : tExpression → tExpression
  | [] => []
  | [operand] => [resolve_operand symtab operand]
  | operand :: oper :: rest =>
    resolve_operand symtab operand :: oper :: resolve_operands symtab rest

/-- The memory with every operand of every expression of every block resolved and everything else
unchanged. -/
def resolve_memory (symtab : cHash String Int) (m : cMemory) : cMemory :=
  { memory := m.memory.map (fun block =>
      { block with expressions := block.expressions.map (resolve_operands symtab) }) }

/-- Every operand of the expression, that is every even-indexed entry, satisfies `P`. -/
def every_operand_of (expression : tExpression) (P : sOperand_Operator → Prop) : Prop :=
  ∀ (i : Nat) (hi : i < expression.length), i % 2 = 0 → P expression[i]

/-- The error of `Replace_Placeholders` for some placeholder. -/
def placeholder_error {α : Type} (call : Outcome α) : Prop :=
  ∃ placeholder, call = .error (.cError ("Could not find placeholder " ++ placeholder ++ "."))

/-- The names that the statement at the front of the token queue binds in the symbol table: the
name of a `define` or `label` statement, the items of a `map` statement up to its `end`; no name
for any other statement. -/
def cCompiler.bound_names (c : cCompiler) : List String :=
  match c.tokens with
  | [] => []
  | keyword :: rest =>
    if keyword.token = "define" ∨ keyword.token = "label" then
      match rest with
      | [] => []
      | name :: _ => [name.token]
    else if keyword.token = "map" then
      (rest.takeWhile (fun item => decide (item.token ≠ "end"))).map (fun item => item.token)
    else []

/-- A REPEAT command `0 to 3 for 4 jump 0` with literal operands. -/
def repeat_example : cBlock :=
  command_block eCMD_REPEAT
    [[operand_number 0], [operand_number 3], [operand_number 4], [operand_number 0]]

/-- Successive calls of `Run` by the host (`Source_Process` calls `Run(20)` on every message
round): each call has its timeout and the clock readings of its time checks. -/
def cSimulator.Run_calls (fp : cFloat) : List (Int × List Int) → cSimulator → Outcome cSimulator
  | [], sim => .ok sim
  | call :: later, sim => do
    let sim ← cSimulator.Run fp call.1 call.2 sim
    cSimulator.Run_calls fp later sim

/-- The entries that a `test` statement with `k` conditions adds to the conditional of its block:
`2k - 1` entries, the entry `2i` a condition on the expressions `2i` and `2i + 1`, and every
index stored in an entry within the first `2k` expressions. -/
def test_layout (added : List sCondition_Logic) (k : Nat) : Prop :=
  added.length + 1 = 2 * k ∧
  (∀ i : Nat, i < k → ∃ condition, added[2 * i]? = some condition ∧
    condition.logic_code = none ∧
    condition.left_exp = 2 * (i : Int) ∧ condition.right_exp = 2 * (i : Int) + 1) ∧
  (∀ entry ∈ added, 0 ≤ entry.left_exp ∧ entry.left_exp < 2 * (k : Int) ∧
    0 ≤ entry.right_exp ∧ entry.right_exp < 2 * (k : Int))

/-- A compiler at the start of a `test` statement with two conditions, over a memory of two
    blocks. -/
def test_example : cCompiler :=
  cCompiler.start (tokens_of ["test", "#1", "eq", "#1", "and", "#2", "lt", "#3", "then", "#4",
    "otherwise", "#5", "stop"]) (cMemory.new 2)

/-- Spec side, the statement grammar: the number of memory cells that the statement at the
front of the token queue emits.  `define`, `map`, `label` and a remark emit none ("does not
advance pointer"), `list COUNT` emits COUNT cells, `number`, `object` and every command
statement emit one. -/
def cCompiler.statement_cells (c : cCompiler) : Nat :=
  match c.tokens with
  | [] => 0
  | keyword :: rest =>
    if keyword.token = "define" ∨ keyword.token = "map" ∨ keyword.token = "label" ∨
        keyword.token = "\x7bremark\x7d" then 0
    else if keyword.token = "list" then
      match rest with
      | [] => 0
      | count :: _ =>
        match Text_To_Number count.token with
        | .ok number => number.toNat
        | .error _ => 0
    else 1

/-- Spec side: the number of memory cells emitted by the first `k` statements of the queue, the
sum of `statement_cells` over them. -/
def cCompiler.cells_before : Nat → cCompiler → Nat
  | 0, _ => 0
  | k + 1, c =>
    match c.Parse_Statement with
    | .ok next => c.statement_cells + cCompiler.cells_before k next
    | .error _ => c.statement_cells

/-- The text contains no occurrence of the separator `->`. -/
def arrow_free : List Char → Bool
  | [] => true
  | c :: text => (strip_separator ['-', '>'] (c :: text)).isNone && arrow_free text

/-- A program with a forward and a backward reference to the label `done`, which stands after
two emitted cells. -/
def label_example : List sToken :=
  tokens_of ["number", "0", "call", "%[done]", "label", "done", "stop", "call", "%[done]"]

/-! ## Theorems -/

/-! ### Parsing: what the token-level functions return -/

theorem Parse_Address_modes (address : String) (operand operand' : sOperand_Operator)
    (h : cCompiler.Parse_Address address operand = .ok operand') :
    operand'.oper_code = operand.oper_code ∧ operand'.addr_mode = operand.addr_mode := by
  unfold cCompiler.Parse_Address at h
  simp only [bind, Except.bind, pure, Except.pure] at h
  split at h
  · cases h
  · rename_i v hv
    obtain ⟨addr, op1⟩ := v
    have h1 : op1.oper_code = operand.oper_code ∧ op1.addr_mode = operand.addr_mode := by
      split at hv
      · cases hv; exact ⟨rfl, rfl⟩
      · split at hv
        · cases hv
        · cases hv; exact ⟨rfl, rfl⟩
      · cases hv
    simp only at h
    split at h
    · cases h; exact h1
    · cases h; exact h1
    · cases h

theorem Parse_Token_tokens (c c' : cCompiler) (token : sToken)
    (h : c.Parse_Token = .ok (token, c')) :
    c.tokens = token :: c'.tokens ∧ c'.symtab = c.symtab ∧ c'.memory = c.memory ∧
      c'.pointer = c.pointer := by
  unfold cCompiler.Parse_Token at h
  split at h
  · cases h
  · rename_i t rest ht
    cases h
    exact ⟨ht, rfl, rfl, rfl⟩

theorem Parse_Operand_is_operand (c c' : cCompiler) (operand : sOperand_Operator)
    (h : c.Parse_Operand = .ok (operand, c')) :
    operand.is_operand ∧ c.tokens.length = c'.tokens.length + 1 := by
  unfold cCompiler.Parse_Operand at h
  simp only [bind, Except.bind, pure, Except.pure] at h
  split at h
  · cases h
  · rename_i v hv
    obtain ⟨token, c1⟩ := v
    have hlen : c.tokens.length = c1.tokens.length + 1 := by
      rw [(Parse_Token_tokens c c1 token hv).1]; rfl
    simp only at h
    split at h
    · split at h
      · split at h
        · cases h
        · rename_i op hop
          cases h
          have := Parse_Address_modes _ _ _ hop
          refine ⟨⟨by rw [this.1]; rfl, by rw [this.2]; simp⟩, hlen⟩
      · split at h
        · split at h
          · cases h
          · rename_i op hop
            cases h
            have := Parse_Address_modes _ _ _ hop
            refine ⟨⟨by rw [this.1]; rfl, by rw [this.2]; simp⟩, hlen⟩
        · split at h
          · cases h
            refine ⟨⟨rfl, by simp⟩, hlen⟩
          · split at h
            · cases h
            · rename_i op hop
              cases h
              have := Parse_Address_modes _ _ _ hop
              refine ⟨⟨by rw [this.1]; rfl, by rw [this.2]; simp⟩, hlen⟩
    · cases h

theorem Parse_Operator_is_operator (c c' : cCompiler) (oper : sOperand_Operator)
    (h : c.Parse_Operator = .ok (oper, c')) :
    oper.is_operator ∧ c.tokens.length = c'.tokens.length + 1 := by
  unfold cCompiler.Parse_Operator at h
  simp only [bind, Except.bind, pure, Except.pure] at h
  split at h
  · cases h
  · rename_i v hv
    obtain ⟨token, c1⟩ := v
    have hlen : c.tokens.length = c1.tokens.length + 1 := by
      rw [(Parse_Token_tokens c c1 token hv).1]; rfl
    simp only at h
    repeat' split at h
    all_goals first
      | (cases h; exact ⟨⟨rfl, by simp⟩, hlen⟩)
      | cases h

/-- C1: for a memory of size `n = m.count` and an integer address `a`, `Memory[a]` returns a block,
namely the `a`-th one, exactly when `0 ≤ a < n`, and it throws the `Invalid memory address` error,
returning no block, exactly when `a` is negative or at least `n`. -/
theorem cMemory_index_in_range_iff (m : cMemory) (a : Int) :
    ((0 ≤ a ∧ a < m.count) ↔
      ∃ block, m.index a = .ok block ∧ m.memory[a.toNat]? = some block) ∧
    ((a < 0 ∨ m.count ≤ a) ↔
      m.index a = .error (.cError ("Invalid memory address " ++ Number_To_Text a ++ "."))) := by
  unfold cMemory.index cMemory.count
  by_cases h : a < 0 ∨ a ≥ (m.memory.length : Int)
  · rw [if_pos h]
    constructor
    · constructor
      · intro h'; omega
      · rintro ⟨block, hb, -⟩; cases hb
    · constructor
      · intro _; rfl
      · intro _; omega
  · rw [if_neg h]
    have hlt : a.toNat < m.memory.length := by omega
    rw [List.getElem?_eq_getElem hlt]
    constructor
    · constructor
      · intro _; exact ⟨_, rfl, rfl⟩
      · intro _; omega
    · constructor
      · intro h'; omega
      · intro h'; cases h'

/-! ### Expressions and conditionals as the compiler builds them -/

theorem alternating_append {α : Type} (P Q : α → Prop) :
    ∀ (n : Nat) (l : List α) (b a : α), l.length = n →
      alternating P Q l → Q b → P a → alternating P Q (l ++ [b, a])
  | _, [], _, _, _, h, _, _ => by simp [alternating] at h
  | _, [x], b, a, _, h, hb, ha => by
    simpa [alternating] using ⟨h, hb, ha⟩
  | _, x :: y :: rest, b, a, _, h, hb, ha => by
    simp only [alternating] at h
    simp only [List.cons_append, alternating]
    exact ⟨h.1, h.2.1, alternating_append P Q rest.length rest b a rfl h.2.2 hb ha⟩

theorem alternating_entries {α : Type} (P Q : α → Prop) :
    ∀ (n : Nat) (l : List α), l.length = n → alternating P Q l →
      l.length % 2 = 1 ∧
      ∀ (i : Nat) (hi : i < l.length), (i % 2 = 0 → P l[i]) ∧ (i % 2 = 1 → Q l[i])
  | _, [], _, h => by simp [alternating] at h
  | _, [x], _, h => by
    refine ⟨rfl, ?_⟩
    intro i hi
    have : i = 0 := by simpa using hi
    subst this
    exact ⟨fun _ => h, fun h' => by simp at h'⟩
  | _, x :: y :: rest, _, h => by
    simp only [alternating] at h
    obtain ⟨ih1, ih2⟩ := alternating_entries P Q rest.length rest rfl h.2.2
    refine ⟨by simp only [List.length_cons]; omega, ?_⟩
    intro i hi
    match i, hi with
    | 0, _ => exact ⟨fun _ => h.1, fun h' => by simp at h'⟩
    | 1, _ => exact ⟨fun h' => by simp at h', fun _ => h.2.1⟩
    | j + 2, hj =>
      have hj' : j < rest.length := by simpa using hj
      have := ih2 j hj'
      simp only [List.getElem_cons_succ]
      constructor
      · intro h'; exact this.1 (by omega)
      · intro h'; exact this.2 (by omega)

theorem Parse_Expression_loop_alternating :
    ∀ (fuel : Nat) (expression expression' : tExpression) (c c' : cCompiler),
      alternating sOperand_Operator.is_operand sOperand_Operator.is_operator expression →
      cCompiler.Parse_Expression_loop fuel expression c = .ok (expression', c') →
      alternating sOperand_Operator.is_operand sOperand_Operator.is_operator expression' := by
  intro fuel
  induction fuel with
  | zero =>
    intro expression expression' c c' halt h
    unfold cCompiler.Parse_Expression_loop at h
    split at h
    · cases h
    · cases h; exact halt
  | succ fuel ih =>
    intro expression expression' c c' halt h
    unfold cCompiler.Parse_Expression_loop at h
    split at h
    · simp only [bind, Except.bind] at h
      split at h
      · cases h
      · rename_i v hv
        obtain ⟨oper, c1⟩ := v
        simp only at h
        split at h
        · cases h
        · rename_i w hw
          obtain ⟨operand, c2⟩ := w
          simp only at h
          refine ih _ _ _ _ ?_ h
          have h1 := (Parse_Operator_is_operator _ _ _ hv).1
          have h2 := (Parse_Operand_is_operand _ _ _ hw).1
          have := alternating_append _ _ _ expression oper operand rfl halt h1 h2
          simpa using this
    · cases h; exact halt

/-- C3: when `Parse_Expression` succeeds it appends exactly one expression to the command and
returns its index; that expression is non-empty and of odd length, its even-indexed entries are
operands and its odd-indexed entries are operators (one of `+ - * / rem rand cos sin cat`). -/
theorem Parse_Expression_appends_alternating (c c' : cCompiler) (command command' : cBlock)
    (index : Int) (h : c.Parse_Expression command = .ok (index, command', c')) :
    ∃ expression : tExpression,
      command'.expressions = command.expressions ++ [expression] ∧
      index = (command'.expressions.length : Int) - 1 ∧
      expression ≠ [] ∧ expression.length % 2 = 1 ∧
      ∀ (i : Nat) (hi : i < expression.length),
        (i % 2 = 0 → expression[i].is_operand) ∧ (i % 2 = 1 → expression[i].is_operator) := by
  unfold cCompiler.Parse_Expression at h
  simp only [bind, Except.bind, pure, Except.pure] at h
  split at h
  · cases h
  · rename_i v hv
    obtain ⟨operand, c1⟩ := v
    simp only at h
    split at h
    · cases h
    · rename_i w hw
      obtain ⟨expression, c2⟩ := w
      simp only [Except.ok.injEq, Prod.mk.injEq] at h
      obtain ⟨h1, h2, -⟩ := h
      subst h2
      have halt : alternating sOperand_Operator.is_operand sOperand_Operator.is_operator expression :=
        Parse_Expression_loop_alternating _ [operand] _ _ _ (Parse_Operand_is_operand _ _ _ hv).1 hw
      have hent := alternating_entries _ _ _ expression rfl halt
      refine ⟨expression, rfl, h1.symm, ?_, hent.1, hent.2⟩
      intro he
      rw [he] at halt
      exact halt

theorem Parse_Expression_appends_alternating_witness :
    ∃ (index : Int) (command' : cBlock) (c' : cCompiler),
      (cCompiler.start (tokens_of ["#5", "+", "x7", "at"]) (cMemory.new 2)).Parse_Expression
          cBlock.new = .ok (index, command', c') ∧
      ∃ expression : tExpression,
        command'.expressions = cBlock.new.expressions ++ [expression] ∧
        index = (command'.expressions.length : Int) - 1 ∧
        expression ≠ [] ∧ expression.length % 2 = 1 ∧
        ∀ (i : Nat) (hi : i < expression.length),
          (i % 2 = 0 → expression[i].is_operand) ∧ (i % 2 = 1 → expression[i].is_operator) := by
  have h : ∃ r, (cCompiler.start (tokens_of ["#5", "+", "x7", "at"])
      (cMemory.new 2)).Parse_Expression cBlock.new = .ok r := ⟨_, rfl⟩
  obtain ⟨⟨index, command', c'⟩, h⟩ := h
  exact ⟨index, command', c', h, Parse_Expression_appends_alternating _ _ _ _ _ h⟩

theorem Parse_Expression_frame (c c' : cCompiler) (command command' : cBlock) (index : Int)
    (h : c.Parse_Expression command = .ok (index, command', c')) :
    command'.conditional = command.conditional ∧ command'.code = command.code ∧
      command'.fields = command.fields ∧ command'.value = command.value := by
  unfold cCompiler.Parse_Expression at h
  simp only [bind, Except.bind, pure, Except.pure] at h
  split at h
  · cases h
  · split at h
    · cases h
    · simp only [Except.ok.injEq, Prod.mk.injEq] at h
      obtain ⟨-, h2, -⟩ := h
      subst h2
      exact ⟨rfl, rfl, rfl, rfl⟩

theorem Parse_Condition_is_condition (c c' : cCompiler) (block block' : cBlock)
    (condition : sCondition_Logic)
    (h : c.Parse_Condition block = .ok (condition, block', c')) :
    condition.is_condition ∧ block'.conditional = block.conditional := by
  unfold cCompiler.Parse_Condition at h
  simp only [bind, Except.bind, pure, Except.pure] at h
  split at h
  · cases h
  · rename_i v1 hv1
    obtain ⟨left_exp, block1, c1⟩ := v1
    simp only at h
    split at h
    · cases h
    · rename_i v2 hv2
      obtain ⟨test, c2⟩ := v2
      simp only at h
      split at h
      · cases h
      · rename_i test_code htest
        split at h
        · cases h
        · rename_i v3 hv3
          obtain ⟨right_exp, block3, c3⟩ := v3
          simp only [Except.ok.injEq, Prod.mk.injEq] at h
          obtain ⟨h1, h2, -⟩ := h
          subst h1 h2
          have f1 := (Parse_Expression_frame _ _ _ _ _ hv1).1
          have f3 := (Parse_Expression_frame _ _ _ _ _ hv3).1
          refine ⟨⟨rfl, ?_⟩, by rw [f3, f1]⟩
          simp only
          repeat' split at htest
          all_goals first
            | (cases htest; simp)
            | cases htest

theorem Parse_Logic_is_logic (c c' : cCompiler) (logic : sCondition_Logic)
    (h : c.Parse_Logic = .ok (logic, c')) : logic.is_logic := by
  unfold cCompiler.Parse_Logic at h
  simp only [bind, Except.bind, pure, Except.pure] at h
  split at h
  · cases h
  · repeat' split at h
    all_goals first
      | (cases h; simp [sCondition_Logic.is_logic])
      | cases h

theorem Parse_Conditional_loop_alternating :
    ∀ (fuel : Nat) (command command' : cBlock) (c c' : cCompiler),
      alternating sCondition_Logic.is_condition sCondition_Logic.is_logic command.conditional →
      cCompiler.Parse_Conditional_loop fuel command c = .ok (command', c') →
      alternating sCondition_Logic.is_condition sCondition_Logic.is_logic
        command'.conditional := by
  intro fuel
  induction fuel with
  | zero =>
    intro command command' c c' halt h
    unfold cCompiler.Parse_Conditional_loop at h
    split at h
    · cases h
    · cases h; exact halt
  | succ fuel ih =>
    intro command command' c c' halt h
    unfold cCompiler.Parse_Conditional_loop at h
    split at h
    · simp only [bind, Except.bind] at h
      split at h
      · cases h
      · rename_i v hv
        obtain ⟨logic, c1⟩ := v
        simp only at h
        split at h
        · cases h
        · rename_i w hw
          obtain ⟨condition, command2, c2⟩ := w
          simp only at h
          refine ih _ _ _ _ ?_ h
          have h1 := Parse_Logic_is_logic _ _ _ hv
          have h2 := Parse_Condition_is_condition _ _ _ _ _ hw
          simp only [h2.2]
          have := alternating_append _ _ _ command.conditional logic condition rfl halt h1 h2.1
          simpa using this
    · cases h; exact halt

/-- C4: when `Parse_Conditional` succeeds on a block whose conditional is empty, the conditional
of the block is afterwards non-empty and of odd length, its even-indexed entries are conditions
and its odd-indexed entries are logic entries (`and` or `or`). -/
theorem Parse_Conditional_alternating (c c' : cCompiler) (command command' : cBlock)
    (hfresh : command.conditional = [])
    (h : c.Parse_Conditional command = .ok (command', c')) :
    command'.conditional ≠ [] ∧ command'.conditional.length % 2 = 1 ∧
      ∀ (i : Nat) (hi : i < command'.conditional.length),
        (i % 2 = 0 → command'.conditional[i].is_condition) ∧
        (i % 2 = 1 → command'.conditional[i].is_logic) := by
  unfold cCompiler.Parse_Conditional at h
  simp only [bind, Except.bind] at h
  split at h
  · cases h
  · rename_i v hv
    obtain ⟨condition, command1, c1⟩ := v
    simp only at h
    have h1 := Parse_Condition_is_condition _ _ _ _ _ hv
    have halt := Parse_Conditional_loop_alternating _ _ _ _ _ (by
      simp only [h1.2, hfresh, List.nil_append]
      exact h1.1) h
    have hent := alternating_entries _ _ _ command'.conditional rfl halt
    refine ⟨?_, hent.1, hent.2⟩
    intro he
    rw [he] at halt
    exact halt

theorem Parse_Conditional_alternating_witness :
    ∃ (command' : cBlock) (c' : cCompiler),
      cBlock.new.conditional = [] ∧
      (cCompiler.start (tokens_of ["#5", "eq", "x7", "and", "@3", "lt", "$a", "then"])
          (cMemory.new 2)).Parse_Conditional cBlock.new = .ok (command', c') ∧
      command'.conditional ≠ [] ∧ command'.conditional.length % 2 = 1 ∧
      ∀ (i : Nat) (hi : i < command'.conditional.length),
        (i % 2 = 0 → command'.conditional[i].is_condition) ∧
        (i % 2 = 1 → command'.conditional[i].is_logic) := by
  have h : ∃ r, (cCompiler.start (tokens_of ["#5", "eq", "x7", "and", "@3", "lt", "$a", "then"])
      (cMemory.new 2)).Parse_Conditional cBlock.new = .ok r := ⟨_, rfl⟩
  obtain ⟨⟨command', c'⟩, h⟩ := h
  exact ⟨command', c', rfl, h, Parse_Conditional_alternating _ _ _ _ rfl h⟩

/-! ### The parse loops never run out of fuel -/

theorem Text_To_Number_error (text : String) (e : Abort) (h : Text_To_Number text = .error e) :
    e = .cError ("Invalid number " ++ text ++ ".") := by
  unfold Text_To_Number at h
  simp only at h
  repeat' split at h
  all_goals first
    | cases h; rfl
    | cases h

theorem Parse_Token_error (c : cCompiler) (e : Abort) (h : c.Parse_Token = .error e) :
    e ≠ .hang := by
  unfold cCompiler.Parse_Token at h
  split at h
  · cases h; simp
  · cases h

theorem Parse_Address_error (address : String) (operand : sOperand_Operator) (e : Abort)
    (h : cCompiler.Parse_Address address operand = .error e) : e ≠ .hang := by
  unfold cCompiler.Parse_Address at h
  simp only [bind, Except.bind, pure, Except.pure] at h
  split at h
  · rename_i e1 he1
    cases h
    repeat' split at he1
    all_goals first
      | cases he1; simp
      | cases he1
  · split at h
    · cases h
    · cases h
    · rename_i other hne hother
      cases h
      rw [Text_To_Number_error _ _ hother]
      simp

theorem Parse_Operand_error (c : cCompiler) (e : Abort) (h : c.Parse_Operand = .error e) :
    e ≠ .hang := by
  unfold cCompiler.Parse_Operand at h
  simp only [bind, Except.bind, pure, Except.pure] at h
  split at h
  · rename_i e1 he1
    cases h
    exact Parse_Token_error _ _ he1
  · repeat' split at h
    all_goals first
      | cases h; done
      | (cases h; rename_i he; exact Parse_Address_error _ _ _ he)
      | (cases h; simp [cCompiler.Generate_Parse_Error])

theorem Parse_Operator_error (c : cCompiler) (e : Abort) (h : c.Parse_Operator = .error e) :
    e ≠ .hang := by
  unfold cCompiler.Parse_Operator at h
  simp only [bind, Except.bind, pure, Except.pure] at h
  split at h
  · rename_i e1 he1
    cases h
    exact Parse_Token_error _ _ he1
  · repeat' split at h
    all_goals first
      | cases h; done
      | (cases h; simp [cCompiler.Generate_Parse_Error])

theorem Is_Operator_of_empty (c : cCompiler) (h : c.tokens.length = 0) : c.Is_Operator = false := by
  have : c.tokens = [] := List.length_eq_zero.mp h
  unfold cCompiler.Is_Operator cCompiler.Peek_Token
  rw [this]
  decide

/-- The fuel that `Parse_Expression` gives its loop is enough: the loop never runs out of it. -/
theorem Parse_Expression_loop_fuel :
    ∀ (fuel : Nat) (expression : tExpression) (c : cCompiler), c.tokens.length ≤ fuel →
      cCompiler.Parse_Expression_loop fuel expression c ≠ .error .hang := by
  intro fuel
  induction fuel with
  | zero =>
    intro expression c hlen
    unfold cCompiler.Parse_Expression_loop
    rw [Is_Operator_of_empty c (by omega)]
    simp [pure, Except.pure]
  | succ fuel ih =>
    intro expression c hlen
    unfold cCompiler.Parse_Expression_loop
    split
    · simp only [bind, Except.bind]
      split
      · rename_i e he
        intro h
        cases h
        exact Parse_Operator_error _ _ he rfl
      · rename_i v hv
        obtain ⟨oper, c1⟩ := v
        simp only
        split
        · rename_i e he
          intro h
          cases h
          exact Parse_Operand_error _ _ he rfl
        · rename_i w hw
          obtain ⟨operand, c2⟩ := w
          simp only
          apply ih
          have h1 := (Parse_Operator_is_operator _ _ _ hv).2
          have h2 := (Parse_Operand_is_operand _ _ _ hw).2
          omega
    · simp [pure, Except.pure]

/-- The model of `Parse_Expression` is total up to the errors that the source throws: it never
reports a loop that does not end. -/
theorem Parse_Expression_never_hangs (c : cCompiler) (command : cBlock) :
    c.Parse_Expression command ≠ .error .hang := by
  unfold cCompiler.Parse_Expression
  simp only [bind, Except.bind, pure, Except.pure]
  split
  · rename_i e he
    intro h
    cases h
    exact Parse_Operand_error _ _ he rfl
  · rename_i v hv
    obtain ⟨operand, c1⟩ := v
    simp only
    split
    · rename_i e he
      intro h
      cases h
      exact Parse_Expression_loop_fuel _ _ _ (le_refl _) he
    · intro h
      cases h

theorem Parse_Expression_loop_tokens :
    ∀ (fuel : Nat) (expression expression' : tExpression) (c c' : cCompiler),
      cCompiler.Parse_Expression_loop fuel expression c = .ok (expression', c') →
      c'.tokens.length ≤ c.tokens.length := by
  intro fuel
  induction fuel with
  | zero =>
    intro expression expression' c c' h
    unfold cCompiler.Parse_Expression_loop at h
    split at h
    · cases h
    · cases h; exact le_refl _
  | succ fuel ih =>
    intro expression expression' c c' h
    unfold cCompiler.Parse_Expression_loop at h
    split at h
    · simp only [bind, Except.bind] at h
      split at h
      · cases h
      · rename_i v hv
        obtain ⟨oper, c1⟩ := v
        simp only at h
        split at h
        · cases h
        · rename_i w hw
          obtain ⟨operand, c2⟩ := w
          simp only at h
          have h1 := (Parse_Operator_is_operator _ _ _ hv).2
          have h2 := (Parse_Operand_is_operand _ _ _ hw).2
          have := ih _ _ _ _ h
          omega
    · cases h; exact le_refl _

theorem Parse_Expression_tokens (c c' : cCompiler) (command command' : cBlock) (index : Int)
    (h : c.Parse_Expression command = .ok (index, command', c')) :
    c'.tokens.length < c.tokens.length := by
  unfold cCompiler.Parse_Expression at h
  simp only [bind, Except.bind, pure, Except.pure] at h
  split at h
  · cases h
  · rename_i v hv
    obtain ⟨operand, c1⟩ := v
    simp only at h
    split at h
    · cases h
    · rename_i w hw
      obtain ⟨expression, c2⟩ := w
      simp only [Except.ok.injEq, Prod.mk.injEq] at h
      obtain ⟨-, -, h3⟩ := h
      subst h3
      have h1 := (Parse_Operand_is_operand _ _ _ hv).2
      have h2 := Parse_Expression_loop_tokens _ _ _ _ _ hw
      omega

theorem Parse_Condition_tokens (c c' : cCompiler) (block block' : cBlock)
    (condition : sCondition_Logic)
    (h : c.Parse_Condition block = .ok (condition, block', c')) :
    c'.tokens.length < c.tokens.length := by
  unfold cCompiler.Parse_Condition at h
  simp only [bind, Except.bind, pure, Except.pure] at h
  split at h
  · cases h
  · rename_i v1 hv1
    obtain ⟨left_exp, block1, c1⟩ := v1
    simp only at h
    split at h
    · cases h
    · rename_i v2 hv2
      obtain ⟨test, c2⟩ := v2
      simp only at h
      split at h
      · cases h
      · split at h
        · cases h
        · rename_i v3 hv3
          obtain ⟨right_exp, block3, c3⟩ := v3
          simp only [Except.ok.injEq, Prod.mk.injEq] at h
          obtain ⟨-, -, h3⟩ := h
          subst h3
          have h1 := Parse_Expression_tokens _ _ _ _ _ hv1
          have h2 := (Parse_Token_tokens _ _ _ hv2).1
          have h3 := Parse_Expression_tokens _ _ _ _ _ hv3
          rw [h2] at h1
          simp only [List.length_cons] at h1
          omega

theorem Parse_Condition_error (c : cCompiler) (block : cBlock) (e : Abort)
    (h : c.Parse_Condition block = .error e) : e ≠ .hang := by
  unfold cCompiler.Parse_Condition at h
  simp only [bind, Except.bind, pure, Except.pure] at h
  split at h
  · rename_i e1 he1
    cases h
    intro hh
    subst hh
    exact Parse_Expression_never_hangs _ _ he1
  · split at h
    · rename_i e2 he2
      cases h
      exact Parse_Token_error _ _ he2
    · split at h
      · rename_i e3 he3
        cases h
        repeat' split at he3
        all_goals first
          | cases he3; done
          | (cases he3; simp [cCompiler.Generate_Parse_Error])
      · split at h
        · rename_i e4 he4
          cases h
          intro hh
          subst hh
          exact Parse_Expression_never_hangs _ _ he4
        · cases h

theorem Parse_Logic_tokens (c c' : cCompiler) (logic : sCondition_Logic)
    (h : c.Parse_Logic = .ok (logic, c')) : c.tokens.length = c'.tokens.length + 1 := by
  unfold cCompiler.Parse_Logic at h
  simp only [bind, Except.bind, pure, Except.pure] at h
  split at h
  · cases h
  · rename_i v hv
    obtain ⟨token, c1⟩ := v
    have hlen : c.tokens.length = c1.tokens.length + 1 := by
      rw [(Parse_Token_tokens c c1 token hv).1]; rfl
    repeat' split at h
    all_goals first
      | (cases h; exact hlen)
      | cases h

theorem Parse_Logic_error (c : cCompiler) (e : Abort) (h : c.Parse_Logic = .error e) :
    e ≠ .hang := by
  unfold cCompiler.Parse_Logic at h
  simp only [bind, Except.bind, pure, Except.pure] at h
  split at h
  · rename_i e1 he1
    cases h
    exact Parse_Token_error _ _ he1
  · repeat' split at h
    all_goals first
      | cases h; done
      | (cases h; simp [cCompiler.Generate_Parse_Error])

theorem Is_Logic_of_empty (c : cCompiler) (h : c.tokens.length = 0) : c.Is_Logic = false := by
  have : c.tokens = [] := List.length_eq_zero.mp h
  unfold cCompiler.Is_Logic cCompiler.Peek_Token
  rw [this]
  decide

/-- The fuel that `Parse_Conditional` gives its loop is enough: the loop never runs out of it. -/
theorem Parse_Conditional_loop_fuel :
    ∀ (fuel : Nat) (command : cBlock) (c : cCompiler), c.tokens.length ≤ fuel →
      cCompiler.Parse_Conditional_loop fuel command c ≠ .error .hang := by
  intro fuel
  induction fuel with
  | zero =>
    intro command c hlen
    unfold cCompiler.Parse_Conditional_loop
    rw [Is_Logic_of_empty c (by omega)]
    simp [pure, Except.pure]
  | succ fuel ih =>
    intro command c hlen
    unfold cCompiler.Parse_Conditional_loop
    split
    · simp only [bind, Except.bind]
      split
      · rename_i e he
        intro h
        cases h
        exact Parse_Logic_error _ _ he rfl
      · rename_i v hv
        obtain ⟨logic, c1⟩ := v
        simp only
        split
        · rename_i e he
          intro h
          cases h
          exact Parse_Condition_error _ _ _ he rfl
        · rename_i w hw
          obtain ⟨condition, command2, c2⟩ := w
          simp only
          apply ih
          have h1 := Parse_Logic_tokens _ _ _ hv
          have h2 := Parse_Condition_tokens _ _ _ _ _ hw
          omega
    · simp [pure, Except.pure]

/-- The model of `Parse_Conditional` is total up to the errors that the source throws: it never
reports a loop that does not end. -/
theorem Parse_Conditional_never_hangs (c : cCompiler) (command : cBlock) :
    c.Parse_Conditional command ≠ .error .hang := by
  unfold cCompiler.Parse_Conditional
  simp only [bind, Except.bind]
  split
  · rename_i e he
    intro h
    cases h
    exact Parse_Condition_error _ _ _ he rfl
  · rename_i v hv
    obtain ⟨condition, command1, c1⟩ := v
    simp only
    exact Parse_Conditional_loop_fuel _ _ _ (le_refl _)

/-! ### Placeholders after compilation -/

theorem returns_with_ok {α : Type} (call : Outcome α) (h : call.toBool = true) :
    ∃ result, call = .ok result := by
  cases call with
  | ok result => exact ⟨result, rfl⟩
  | error e => simp [Except.toBool] at h

theorem string_length_zero (s : String) (h : ¬ s.length > 0) : s = "" := by
  have h0 : s.data.length = 0 := by
    have : s.length = s.data.length := rfl
    omega
  have h1 : s.data = [] := List.length_eq_zero.mp h0
  cases s
  simp only at h1
  subst h1
  rfl

theorem Replace_Placeholders_operand_resolved (symtab : cHash String Int)
    (operand operand' : sOperand_Operator)
    (hop : (if operand.placeholder.length > 0 then
        match symtab.find operand.placeholder with
        | some value => pure { operand with value := operand.value.Set_Number value }
        | none => .error (.cError ("Could not find placeholder " ++ operand.placeholder ++ "."))
       else pure operand : Outcome sOperand_Operator) = .ok operand') :
    operand'.resolved symtab := by
  split at hop
  · split at hop
    · rename_i value hfind
      cases hop
      exact Or.inr ⟨value, hfind, rfl, rfl⟩
    · cases hop
  · rename_i hlen
    cases hop
    exact Or.inl (string_length_zero _ hlen)

theorem Replace_Placeholders_operands_resolved (symtab : cHash String Int) :
    ∀ (expression expression' : tExpression),
      cCompiler.Replace_Placeholders_operands symtab expression = .ok expression' →
      ∀ (i : Nat) (hi : i < expression'.length), i % 2 = 0 → expression'[i].resolved symtab
  | [], expression', h => by
    unfold cCompiler.Replace_Placeholders_operands at h
    cases h
    intro i hi
    simp at hi
  | [operand], expression', h => by
    unfold cCompiler.Replace_Placeholders_operands at h
    simp only [bind, Except.bind] at h
    split at h
    · cases h
    · rename_i operand' hop
      have hres := Replace_Placeholders_operand_resolved symtab operand operand' hop
      cases h
      intro i hi _
      have : i = 0 := by simpa using hi
      subst this
      exact hres
  | operand :: oper :: rest, expression', h => by
    unfold cCompiler.Replace_Placeholders_operands at h
    simp only [bind, Except.bind] at h
    split at h
    · cases h
    · rename_i operand' hop
      have hres := Replace_Placeholders_operand_resolved symtab operand operand' hop
      split at h
      · cases h
      · rename_i tail htail
        cases h
        have ih := Replace_Placeholders_operands_resolved symtab rest tail htail
        intro i hi hev
        match i, hi with
        | 0, _ => exact hres
        | 1, _ => simp at hev
        | j + 2, hj =>
          simp only [List.getElem_cons_succ]
          exact ih j (by simpa using hj) (by omega)

theorem Replace_Placeholders_expressions_resolved (symtab : cHash String Int) :
    ∀ (expressions expressions' : List tExpression),
      cCompiler.Replace_Placeholders_expressions symtab expressions = .ok expressions' →
      ∀ expression ∈ expressions', ∀ (i : Nat) (hi : i < expression.length),
        i % 2 = 0 → expression[i].resolved symtab
  | [], expressions', h => by
    unfold cCompiler.Replace_Placeholders_expressions at h
    cases h
    intro e he
    simp at he
  | first :: rest, expressions', h => by
    unfold cCompiler.Replace_Placeholders_expressions at h
    simp only [bind, Except.bind, pure, Except.pure] at h
    split at h
    · cases h
    · rename_i first' hfirst
      split at h
      · cases h
      · rename_i rest' hrest
        cases h
        intro e he
        rcases List.mem_cons.mp he with he | he
        · subst he
          exact Replace_Placeholders_operands_resolved symtab first _ hfirst
        · exact Replace_Placeholders_expressions_resolved symtab rest rest' hrest e he

theorem Replace_Placeholders_blocks_resolved (symtab : cHash String Int) :
    ∀ (blocks blocks' : List cBlock),
      cCompiler.Replace_Placeholders_blocks symtab blocks = .ok blocks' →
      ∀ block ∈ blocks', ∀ expression ∈ block.expressions,
        ∀ (i : Nat) (hi : i < expression.length), i % 2 = 0 → expression[i].resolved symtab
  | [], blocks', h => by
    unfold cCompiler.Replace_Placeholders_blocks at h
    cases h
    intro b hb
    simp at hb
  | first :: rest, blocks', h => by
    unfold cCompiler.Replace_Placeholders_blocks at h
    simp only [bind, Except.bind, pure, Except.pure] at h
    split at h
    · cases h
    · rename_i expressions hfirst
      split at h
      · cases h
      · rename_i rest' hrest
        cases h
        intro b hb
        rcases List.mem_cons.mp hb with hb | hb
        · subst hb
          exact Replace_Placeholders_expressions_resolved symtab _ _ hfirst
        · exact Replace_Placeholders_blocks_resolved symtab rest rest' hrest b hb

/-- C2 (amended): when the compiler finishes on a token queue, every operand of every expression
of every block of the memory either has an empty placeholder string, or still holds its
placeholder string, which is a key of the final symbol table, and has as value the Number bound
to that key. -/
theorem compiled_operands_resolved (tokens : List sToken) (memory : cMemory) (c : cCompiler)
    (h : cCompiler.new tokens memory = .ok c) :
    c.memory.every_operand (sOperand_Operator.resolved c.symtab) := by
  unfold cCompiler.new at h
  simp only [bind, Except.bind] at h
  split at h
  · cases h
  · rename_i c1 _
    unfold cCompiler.Replace_Placeholders at h
    simp only [bind, Except.bind, pure, Except.pure] at h
    split at h
    · cases h
    · rename_i blocks hblocks
      cases h
      exact Replace_Placeholders_blocks_resolved _ _ _ hblocks


theorem compiled_operands_resolved_witness :
    ∃ c, cCompiler.new (tokens_of ["label", "top", "call", "#[top]", "push", "x5"])
        (cMemory.new 2) = .ok c ∧
      c.memory.every_operand (sOperand_Operator.resolved c.symtab) := by
  obtain ⟨c, h⟩ := returns_with_ok
    (cCompiler.new (tokens_of ["label", "top", "call", "#[top]", "push", "x5"]) (cMemory.new 2))
    (by decide!)
  exact ⟨c, h, compiled_operands_resolved _ _ _ h⟩

/-- C2 (as stated) fails: the program `push #[none]` compiles, and afterwards the operand of the
`push` still has the placeholder string `[none]`, so not every operand has an empty one. -/
theorem compiled_operand_keeps_placeholder :
    returns_with (cCompiler.new (tokens_of ["push", "#[none]"]) (cMemory.new 1))
      (fun c => ¬ c.memory.every_operand (fun operand => operand.placeholder = "")) := by
  decide!

/-! ### The simulator: one command at a time -/

theorem wrap_int_of_range (x : Int) (h1 : INT_MIN ≤ x) (h2 : x ≤ INT_MAX) : wrap_int x = x := by
  unfold wrap_int
  unfold INT_MIN at h1
  unfold INT_MAX at h2
  omega

theorem cMemory_index_ok (m : cMemory) (a : Int) (block : cBlock)
    (h : m.index a = .ok block) :
    0 ≤ a ∧ a < m.count ∧ m.memory[a.toNat]? = some block := by
  unfold cMemory.index at h
  split at h
  · cases h
  · rename_i hr
    split at h
    · rename_i b hb
      cases h
      exact ⟨by omega, by omega, hb⟩
    · cases h

theorem cMemory_count_write (m : cMemory) (a : Int) (block : cBlock) :
    (m.write a block).count = m.count := by
  simp [cMemory.write, cMemory.count]

theorem cMemory_index_write_same (m : cMemory) (a : Int) (block : cBlock)
    (h1 : 0 ≤ a) (h2 : a < m.count) : (m.write a block).index a = .ok block := by
  unfold cMemory.index
  rw [cMemory_count_write]
  rw [if_neg (by omega)]
  unfold cMemory.count at h2
  have : a.toNat < m.memory.length := by omega
  simp [cMemory.write, List.getElem?_set_self, this]

theorem cArray_Pop_Push (stack : List Int) (item : Int) :
    cArray_Pop (cArray_Push stack item) = .ok (item, stack) := by
  simp [cArray_Pop, cArray_Push]

theorem Eval_Expression_single (fp : cFloat) (sim : cSimulator) (command : cBlock)
    (operand : sOperand_Operator) (others : List tExpression)
    (h : command.expressions = [operand] :: others) :
    cSimulator.Eval_Expression fp sim command 0 =
      (sim.Eval_Operand operand).map (fun value => (value, sim.io)) := by
  unfold cSimulator.Eval_Expression
  simp only [h]
  simp only [List.length_cons, Int.toNat_zero, List.getElem?_cons_zero]
  rw [if_neg (by omega)]
  simp only [bind, Except.bind, cSimulator.Eval_Expression_loop]
  cases sim.Eval_Operand operand <;> rfl

theorem Run_one_round (fp : cFloat) (timeout diff : Int) (sim : cSimulator)
    (hrun : sim.status = eSTATUS_RUNNING) (hdiff : diff < timeout) :
    cSimulator.Run fp timeout [diff] sim = sim.Run_step fp := by
  unfold cSimulator.Run
  rw [if_pos hrun, if_pos hdiff]
  simp only [bind, Except.bind]
  cases sim.Run_step fp <;> rfl

/-- C5: let the pointer `p` of a RUNNING simulator address a CALL block whose expression 0
evaluates (to `jump_address`), in a memory whose size is an `int`.  One round of `Run` (fetch,
advance, dispatch CALL) then returns with the pointer at the jump address, and a RETURN dispatched
on any later state that has the stack which the CALL left returns with the pointer equal to
`p + 1` and the stack equal to the stack before the CALL. -/
theorem call_then_return_resumes_after_call (fp : cFloat) (sim : cSimulator)
    (command return_command : cBlock) (jump_address : cValue) (io : cIO_Control)
    (timeout diff : Int)
    (hrun : sim.status = eSTATUS_RUNNING) (hdiff : diff < timeout)
    (hcount : sim.memory.count ≤ INT_MAX)
    (hfetch : sim.memory.index sim.pointer = .ok command)
    (hcall : command.code = eCMD_CALL)
    (hvalid : cSimulator.Eval_Expression fp
      { sim with pointer := wrap_int (sim.pointer + 1) } command 0 = .ok (jump_address, io))
    (hreturn : return_command.code = eCMD_RETURN) :
    ∃ after_call : cSimulator,
      cSimulator.Run fp timeout [diff] sim = .ok after_call ∧
      after_call.pointer = jump_address.number ∧
      ∀ before_return : cSimulator, before_return.stack = after_call.stack →
        ∃ after_return : cSimulator,
          before_return.Command_Processor fp return_command = .ok after_return ∧
          after_return.pointer = sim.pointer + 1 ∧ after_return.stack = sim.stack := by
  have hr := cMemory_index_ok _ _ _ hfetch
  have hw : wrap_int (sim.pointer + 1) = sim.pointer + 1 := by
    apply wrap_int_of_range
    · unfold INT_MIN; omega
    · omega
  have hstep : sim.Run_step fp = .ok { sim with
      pointer := jump_address.number
      stack := cArray_Push sim.stack (sim.pointer + 1)
      io := io } := by
    unfold cSimulator.Run_step
    simp only [bind, Except.bind, hfetch]
    unfold cSimulator.Command_Processor
    simp only [hcall, bind, Except.bind, hvalid, pure, Except.pure]
    simp [eCMD_CALL, eCMD_NONE, eCMD_STORE, eCMD_SET, eCMD_TEST, hw]
  refine ⟨_, (Run_one_round fp timeout diff sim hrun hdiff).trans hstep, rfl, ?_⟩
  intro before_return hb
  simp only at hb
  unfold cSimulator.Command_Processor
  simp only [hreturn, bind, Except.bind, pure, Except.pure, hb, cArray_Pop_Push]
  simp [eCMD_RETURN, eCMD_CALL, eCMD_NONE, eCMD_STORE, eCMD_SET, eCMD_TEST]

theorem call_then_return_resumes_after_call_witness :
    ∃ after_call : cSimulator,
      cSimulator.Run cFloat.unused 20 [0]
        (cSimulator.running
          ((cMemory.new 4).write 1 (command_block eCMD_CALL [[operand_number 3]])) 1) =
        .ok after_call ∧
      after_call.pointer = (Number 3).number ∧
      ∀ before_return : cSimulator, before_return.stack = after_call.stack →
        ∃ after_return : cSimulator,
          before_return.Command_Processor cFloat.unused (command_block eCMD_RETURN []) =
            .ok after_return ∧
          after_return.pointer =
            (cSimulator.running
              ((cMemory.new 4).write 1 (command_block eCMD_CALL [[operand_number 3]]))
              1).pointer + 1 ∧
          after_return.stack =
            (cSimulator.running
              ((cMemory.new 4).write 1 (command_block eCMD_CALL [[operand_number 3]]))
              1).stack :=
  call_then_return_resumes_after_call cFloat.unused
    (cSimulator.running ((cMemory.new 4).write 1 (command_block eCMD_CALL [[operand_number 3]])) 1)
    (command_block eCMD_CALL [[operand_number 3]]) (command_block eCMD_RETURN []) (Number 3)
    cIO_Control.idle 20 0 rfl (by decide) (by decide) rfl rfl rfl rfl

theorem Command_Processor_STOP (fp : cFloat) (sim : cSimulator) (command : cBlock)
    (h : command.code = eCMD_STOP) :
    sim.Command_Processor fp command = .ok { sim with status := eSTATUS_DONE } := by
  unfold cSimulator.Command_Processor
  simp [h, eCMD_STOP, eCMD_RETURN, eCMD_CALL, eCMD_NONE, eCMD_STORE, eCMD_SET, eCMD_TEST, pure,
    Except.pure]

theorem Run_not_running (fp : cFloat) (timeout : Int) (elapsed : List Int) (sim : cSimulator)
    (h : sim.status ≠ eSTATUS_RUNNING) : cSimulator.Run fp timeout elapsed sim = .ok sim := by
  cases elapsed with
  | nil => rfl
  | cons diff later =>
    unfold cSimulator.Run
    rw [if_neg h]

/-- C6: dispatching STOP sets the status to DONE and changes nothing else; and from every
simulator state whose status is DONE, `Run` returns for every timeout and every clock without
executing a command: it returns the state it was given, so pointer, stack, memory and status are
unchanged. -/
theorem stop_is_absorbing (fp : cFloat) (sim : cSimulator) (command : cBlock)
    (hstop : command.code = eCMD_STOP) :
    sim.Command_Processor fp command = .ok { sim with status := eSTATUS_DONE } ∧
    ∀ (done : cSimulator) (timeout : Int) (elapsed : List Int), done.status = eSTATUS_DONE →
      cSimulator.Run fp timeout elapsed done = .ok done := by
  refine ⟨Command_Processor_STOP fp sim command hstop, ?_⟩
  intro done timeout elapsed hdone
  apply Run_not_running
  rw [hdone]
  decide

theorem stop_is_absorbing_witness :
    (command_block eCMD_STOP []).code = eCMD_STOP ∧
    ((cSimulator.running (cMemory.new 2) 0).Command_Processor cFloat.unused
        (command_block eCMD_STOP []) =
      .ok { cSimulator.running (cMemory.new 2) 0 with status := eSTATUS_DONE } ∧
    ∀ (done : cSimulator) (timeout : Int) (elapsed : List Int), done.status = eSTATUS_DONE →
      cSimulator.Run cFloat.unused timeout elapsed done = .ok done) :=
  ⟨rfl, stop_is_absorbing cFloat.unused (cSimulator.running (cMemory.new 2) 0)
    (command_block eCMD_STOP []) rfl⟩

/-- C7 (amended): PUSH of the literal number `N` followed by POP with the pointer-mode operand
`@X` leaves `Memory[A].value.number = N`, where `A = Memory[Memory[X].value.number].value.number`
is the number that the operand `@X` evaluates to (the three addresses read being valid); the stack
is as before the PUSH. -/
theorem push_then_pop_pointer (fp : cFloat) (sim : cSimulator) (push_command pop_command : cBlock)
    (number pointer : sOperand_Operator) (N X : Int) (cell target destination : cBlock)
    (hpush : push_command.code = eCMD_PUSH) (hpush_operand : push_command.expressions = [[number]])
    (hnumber : number.addr_mode = some eADDR_VAL_NUMBER) (hN : number.value.number = N)
    (hpop : pop_command.code = eCMD_POP) (hpop_operand : pop_command.expressions = [[pointer]])
    (hpointer : pointer.addr_mode = some eADDR_POINTER) (hX : pointer.value.number = X)
    (hfield : pointer.field = "")
    (hcell : sim.memory.index X = .ok cell)
    (htarget : sim.memory.index cell.value.number = .ok target)
    (hdestination : sim.memory.index target.value.number = .ok destination) :
    ∃ pushed popped : cSimulator,
      sim.Command_Processor fp push_command = .ok pushed ∧
      pushed.Command_Processor fp pop_command = .ok popped ∧
      returns_with (popped.memory.index target.value.number)
        (fun block => block.value.number = N) ∧
      popped.stack = sim.stack := by
  have hr := cMemory_index_ok _ _ _ hdestination
  have e1 : sim.Eval_Operand number = .ok (cValue.new.Set_Number N) := by
    unfold cSimulator.Eval_Operand
    simp [hnumber, hN]
  let pushed : cSimulator := { sim with stack := cArray_Push sim.stack N }
  have e2 : pushed.Eval_Operand pointer = .ok target.value := by
    unfold cSimulator.Eval_Operand
    simp only [hpointer, hX, pushed, hcell, htarget, bind, Except.bind,
      cSimulator.Eval_Operand_read, hfield]
    simp [eADDR_POINTER, eADDR_VAL_NUMBER, eADDR_VAL_STRING, eADDR_IMMEDIATE]
  have h1 : sim.Command_Processor fp push_command = .ok pushed := by
    unfold cSimulator.Command_Processor
    simp only [hpush, bind, Except.bind, pure, Except.pure,
      Eval_Expression_single fp sim push_command number [] hpush_operand, e1, Except.map]
    simp [eCMD_PUSH, eCMD_RETURN, eCMD_CALL, eCMD_NONE, eCMD_STORE, eCMD_SET, eCMD_TEST,
      eCMD_STOP, eCMD_OUTPUT, eCMD_DRAW, eCMD_REFRESH, eCMD_SOUND, eCMD_MUSIC, eCMD_SILENCE,
      eCMD_INPUT, eCMD_TIMEOUT, eCMD_COLOR, eCMD_LOAD, eCMD_SAVE, pushed, cValue.Set_Number]
  refine ⟨pushed, { pushed with
    stack := sim.stack
    memory := sim.memory.write target.value.number
      { destination with value := destination.value.Set_Number N } }, h1, ?_, ?_, rfl⟩
  · unfold cSimulator.Command_Processor
    simp only [hpop, bind, Except.bind, pure, Except.pure,
      Eval_Expression_single fp pushed pop_command pointer [] hpop_operand, e2, Except.map]
    simp [eCMD_POP, eCMD_PUSH, eCMD_RETURN, eCMD_CALL, eCMD_NONE, eCMD_STORE, eCMD_SET, eCMD_TEST,
      eCMD_STOP, eCMD_OUTPUT, eCMD_DRAW, eCMD_REFRESH, eCMD_SOUND, eCMD_MUSIC, eCMD_SILENCE,
      eCMD_INPUT, eCMD_TIMEOUT, eCMD_COLOR, eCMD_LOAD, eCMD_SAVE, pushed, hdestination,
      cArray_Pop_Push]
  · refine ⟨_, cMemory_index_write_same _ _ _ hr.1 hr.2.1, rfl⟩

theorem push_then_pop_pointer_witness :
    ∃ pushed popped : cSimulator,
      (cSimulator.running ((cMemory.new 6).write 5 { cBlock.new with value := Number 3 })
          0).Command_Processor cFloat.unused (command_block eCMD_PUSH [[operand_number 7]]) =
        .ok pushed ∧
      pushed.Command_Processor cFloat.unused (command_block eCMD_POP [[operand_pointer 5]]) =
        .ok popped ∧
      returns_with (popped.memory.index cBlock.new.value.number)
        (fun block => block.value.number = 7) ∧
      popped.stack =
        (cSimulator.running ((cMemory.new 6).write 5 { cBlock.new with value := Number 3 })
          0).stack :=
  push_then_pop_pointer cFloat.unused
    (cSimulator.running ((cMemory.new 6).write 5 { cBlock.new with value := Number 3 }) 0)
    (command_block eCMD_PUSH [[operand_number 7]]) (command_block eCMD_POP [[operand_pointer 5]])
    (operand_number 7) (operand_pointer 5) 7 5 { cBlock.new with value := Number 3 } cBlock.new
    cBlock.new rfl rfl rfl rfl rfl rfl rfl rfl rfl rfl rfl rfl

/-- C7 (as stated) fails: in a memory of six default cells, `push 7` followed by `pop @5` leaves
`Memory[5].value.number = 0`, not 7 (the 7 is stored in `Memory[0]`). -/
theorem push_then_pop_pointer_misses_cell :
    returns_with
      (do
        let pushed ← (cSimulator.running (cMemory.new 6) 0).Command_Processor cFloat.unused
          (command_block eCMD_PUSH [[operand_number 7]])
        pushed.Command_Processor cFloat.unused (command_block eCMD_POP [[operand_pointer 5]]))
      (fun popped =>
        returns_with (popped.memory.index 5) (fun block => block.value.number = 0) ∧
        returns_with (popped.memory.index 0) (fun block => block.value.number = 7)) := by
  decide!

theorem tdiv_in_range (a b : Int) (ha1 : INT_MIN ≤ a) (ha2 : a ≤ INT_MAX)
    (hb : b ≠ 0) (hover : ¬ (a = INT_MIN ∧ b = -1)) :
    INT_MIN ≤ Int.tdiv a b ∧ Int.tdiv a b ≤ INT_MAX := by
  unfold INT_MIN at *
  unfold INT_MAX at *
  by_cases h1 : b = 1
  · subst h1
    rw [Int.tdiv_one]
    omega
  · by_cases h2 : b = -1
    · subst h2
      rw [Int.tdiv_neg, Int.tdiv_one]
      omega
    · have hq : (Int.tdiv a b).natAbs = a.natAbs / b.natAbs := Int.natAbs_tdiv a b
      have hb2 : 2 ≤ b.natAbs := by omega
      have ha : a.natAbs ≤ 2147483648 := by omega
      have : a.natAbs / b.natAbs ≤ a.natAbs / 2 := Nat.div_le_div_left hb2 (by decide)
      omega


/-- C8: inside `Eval_Expression`, a `/` step whose right operand evaluates to the number 0 raises
no error and leaves Number `a` as the accumulator, `a` being the number of the accumulator before;
a `/` step whose right operand evaluates to a non-zero number `b` leaves Number `a tdiv b`, the
quotient truncated toward zero.  (For the second part `a` is an `int`, and the one quotient that
is not an `int`, that of the smallest `int` by -1, is left out.) -/
theorem divide_step (fp : cFloat) (sim : cSimulator) (command : cBlock)
    (oper operand : sOperand_Operator) (rest : tExpression) (value right : cValue)
    (io : cIO_Control)
    (hoper : oper.oper_code = some eOPER_DIV)
    (hright : sim.Eval_Operand operand = .ok right)
    (hint : right.number ≠ 0 →
      INT_MIN ≤ value.number ∧ value.number ≤ INT_MAX ∧
        ¬ (value.number = INT_MIN ∧ right.number = -1)) :
    cSimulator.Eval_Expression_loop fp sim command (oper :: operand :: rest) value io =
      cSimulator.Eval_Expression_loop fp sim command rest
        (if right.number = 0 then Number value.number
         else Number (Int.tdiv value.number right.number)) io := by
  rw [cSimulator.Eval_Expression_loop]
  simp only [bind, Except.bind, hright, cSimulator.Eval_Operator, hoper]
  simp only [eOPER_DIV, eOPER_ADD, eOPER_SUB, eOPER_MUL]
  by_cases hb : right.number = 0
  · simp [hb, Number, cValue.Set_Number]
  · obtain ⟨hmin, hmax, hquotient⟩ := hint hb
    have hrange := tdiv_in_range value.number right.number hmin hmax hb hquotient
    simp [hb, Number, cValue.Set_Number, wrap_int_of_range _ hrange.1 hrange.2]

theorem divide_step_witness :
    cSimulator.Eval_Expression_loop cFloat.unused (cSimulator.running (cMemory.new 2) 0)
        (command_block eCMD_PUSH []) [operator_entry eOPER_DIV, operand_number 2] (Number (-7))
        cIO_Control.idle = .ok (Number (-3), cIO_Control.idle) ∧
    cSimulator.Eval_Expression_loop cFloat.unused (cSimulator.running (cMemory.new 2) 0)
        (command_block eCMD_PUSH []) [operator_entry eOPER_DIV, operand_number 0] (Number (-7))
        cIO_Control.idle = .ok (Number (-7), cIO_Control.idle) :=
  ⟨divide_step cFloat.unused (cSimulator.running (cMemory.new 2) 0) (command_block eCMD_PUSH [])
      (operator_entry eOPER_DIV) (operand_number 2) [] (Number (-7)) (Number 2) cIO_Control.idle
      rfl rfl (fun _ => by decide),
    divide_step cFloat.unused (cSimulator.running (cMemory.new 2) 0) (command_block eCMD_PUSH [])
      (operator_entry eOPER_DIV) (operand_number 0) [] (Number (-7)) (Number 0) cIO_Control.idle
      rfl rfl (fun h => absurd rfl h)⟩


theorem repeat_in_range_jumps (fp : cFloat) (sim : cSimulator) (command var : cBlock)
    (lower upper pointer jump_address : cValue) (io1 io2 io3 io4 : cIO_Control)
    (hrepeat : command.code = eCMD_REPEAT)
    (hlower : cSimulator.Eval_Expression fp sim command 0 = .ok (lower, io1))
    (hupper : cSimulator.Eval_Expression fp { sim with io := io1 } command 1 = .ok (upper, io2))
    (hpointer : cSimulator.Eval_Expression fp { sim with io := io2 } command 2 =
      .ok (pointer, io3))
    (hjump : cSimulator.Eval_Expression fp { sim with io := io3 } command 3 =
      .ok (jump_address, io4))
    (hvar : sim.memory.index pointer.number = .ok var)
    (hin : lower.number ≤ var.value.number ∧ var.value.number ≤ upper.number) :
    sim.Command_Processor fp command = .ok { sim with
      io := io4
      memory := sim.memory.write pointer.number { var with value := Number var.value.number }
      pointer := jump_address.number } := by
  unfold cSimulator.Command_Processor
  simp only [hrepeat, bind, Except.bind, hlower, hupper, hpointer, hjump, hvar, pure, Except.pure]
  have hnot : ¬ (var.value.number < lower.number ∨ var.value.number > upper.number) := by omega
  simp [eCMD_REPEAT, eCMD_POP, eCMD_PUSH, eCMD_RETURN, eCMD_CALL, eCMD_NONE, eCMD_STORE, eCMD_SET,
    eCMD_TEST, eCMD_STOP, eCMD_OUTPUT, eCMD_DRAW, eCMD_REFRESH, eCMD_SOUND, eCMD_MUSIC,
    eCMD_SILENCE, eCMD_INPUT, eCMD_TIMEOUT, eCMD_COLOR, eCMD_LOAD, eCMD_SAVE, hnot, hin.2,
    cValue.Set_Number, Number]

/-- C9: the code at the input where the claim fails.  A REPEAT command `0 to 3 for 4 jump 0`
executed with the counter cell `Memory[4]` holding 3 = upper (the pointer already advanced
to 1) leaves the counter at 3, not 4, and sets the pointer to the jump address 0: it does not fall
through.  Consequently the loop does not end: with that REPEAT at address 0, a STOP at address 1
and the counter started at -1, below lower, ten rounds of `Run` leave the simulator RUNNING at
pointer 0 with the counter at 0. -/
theorem repeat_at_upper_jumps_again :
    returns_with
      ((cSimulator.running ((cMemory.new 5).write 4 { cBlock.new with value := Number 3 })
          1).Command_Processor cFloat.unused
        (command_block eCMD_REPEAT
          [[operand_number 0], [operand_number 3], [operand_number 4], [operand_number 0]]))
      (fun sim =>
        sim.pointer = 0 ∧
        returns_with (sim.memory.index 4) (fun counter => counter.value = Number 3)) ∧
    returns_with
      (cSimulator.Run cFloat.unused 20 [0, 0, 0, 0, 0, 0, 0, 0, 0, 0]
        (cSimulator.running
          ((((cMemory.new 5).write 0
            (command_block eCMD_REPEAT
              [[operand_number 0], [operand_number 3], [operand_number 4], [operand_number 0]])).write
            1 (command_block eCMD_STOP [])).write 4 { cBlock.new with value := Number (-1) })
          0))
      (fun sim =>
        sim.status = eSTATUS_RUNNING ∧ sim.pointer = 0 ∧
        returns_with (sim.memory.index 4) (fun counter => counter.value = Number 0)) := by
  decide!

/-- C10: when the conditional of a TEST command evaluates to `result` and its last two
expressions to `passed_address` and `failed_address`, executing TEST changes only the pointer (and
the I/O control, as far as the evaluations drew on it): the pointer, already advanced by `Run`,
is left unchanged when the expression selected by `result` (the then-expression for a non-zero
result, the otherwise-expression for zero) has the number -1, and otherwise becomes the number of
the selected expression. -/
theorem test_selects_pointer (fp : cFloat) (sim : cSimulator) (command : cBlock)
    (result : Int) (passed_address failed_address : cValue) (io1 io2 io3 : cIO_Control)
    (htest : command.code = eCMD_TEST)
    (hcond : cSimulator.Eval_Conditional fp sim command = .ok (result, io1))
    (hpass : cSimulator.Eval_Expression fp { sim with io := io1 } command
      ((command.expressions.length : Int) - 2) = .ok (passed_address, io2))
    (hfail : cSimulator.Eval_Expression fp { sim with io := io2 } command
      ((command.expressions.length : Int) - 1) = .ok (failed_address, io3)) :
    sim.Command_Processor fp command = .ok { sim with
      io := io3
      pointer :=
        if result ≠ 0 then
          (if passed_address.number = -1 then sim.pointer else passed_address.number)
        else
          (if failed_address.number = -1 then sim.pointer else failed_address.number) } := by
  unfold cSimulator.Command_Processor
  simp only [htest, bind, Except.bind, hcond, hpass, hfail, pure, Except.pure]
  simp only [eCMD_TEST, eCMD_NONE, eCMD_STORE, eCMD_SET, TAKE_NO_JUMP]
  by_cases hr : result = 0
  · by_cases hf : failed_address.number = -1
    · simp [hr, hf]
    · simp [hr, hf]
  · by_cases hp : passed_address.number = -1
    · simp [hr, hp]
    · simp [hr, hp]

theorem test_selects_pointer_witness :
    (cSimulator.running (cMemory.new 2) 1).Command_Processor cFloat.unused
        { command_block eCMD_TEST
            [[operand_number 3], [operand_number 2], [operand_number 9], [operand_number (-1)]]
          with conditional := [condition_entry 0 eTEST_GREATER 1] } =
      .ok { cSimulator.running (cMemory.new 2) 1 with
        io := cIO_Control.idle
        pointer :=
          if (1 : Int) ≠ 0 then
            (if (Number 9).number = -1 then (cSimulator.running (cMemory.new 2) 1).pointer
             else (Number 9).number)
          else
            (if (Number (-1)).number = -1 then (cSimulator.running (cMemory.new 2) 1).pointer
             else (Number (-1)).number) } :=
  test_selects_pointer cFloat.unused (cSimulator.running (cMemory.new 2) 1)
    { command_block eCMD_TEST
        [[operand_number 3], [operand_number 2], [operand_number 9], [operand_number (-1)]]
      with conditional := [condition_entry 0 eTEST_GREATER 1] }
    1 (Number 9) (Number (-1)) cIO_Control.idle cIO_Control.idle cIO_Control.idle
    rfl rfl rfl rfl

/-! ### Single commands and statements -/

theorem Command_Processor_REFRESH (fp : cFloat) (sim : cSimulator) (command : cBlock)
    (h : command.code = eCMD_REFRESH) :
    sim.Command_Processor fp command = .ok { sim with io := sim.io.call .Refresh } := by
  unfold cSimulator.Command_Processor
  simp [h, eCMD_REFRESH, eCMD_STOP, eCMD_RETURN, eCMD_CALL, eCMD_NONE, eCMD_STORE, eCMD_SET,
    eCMD_TEST, eCMD_OUTPUT, eCMD_DRAW, pure, Except.pure]

/-- C11: executing a REFRESH command returns normally, changes no memory block, leaves the stack,
the status, the pointer (which `Run` has already advanced) and the files unchanged, and its only
effect is the call `Refresh` appended to the log of the I/O control, whose input and random
sources are not drawn on. -/
theorem refresh_only_calls_io (fp : cFloat) (sim : cSimulator) (command : cBlock)
    (hrefresh : command.code = eCMD_REFRESH) :
    ∃ after : cSimulator,
      sim.Command_Processor fp command = .ok after ∧
      after.memory = sim.memory ∧ after.stack = sim.stack ∧ after.status = sim.status ∧
      after.pointer = sim.pointer ∧ after.files = sim.files ∧
      after.io = { sim.io with calls := sim.io.calls ++ [io_call.Refresh] } :=
  ⟨_, Command_Processor_REFRESH fp sim command hrefresh, rfl, rfl, rfl, rfl, rfl, rfl⟩

theorem refresh_only_calls_io_witness :
    ∃ after : cSimulator,
      (cSimulator.running (cMemory.new 2) 1).Command_Processor cFloat.unused
        (command_block eCMD_REFRESH []) = .ok after ∧
      after.memory = (cSimulator.running (cMemory.new 2) 1).memory ∧
      after.stack = (cSimulator.running (cMemory.new 2) 1).stack ∧
      after.status = (cSimulator.running (cMemory.new 2) 1).status ∧
      after.pointer = (cSimulator.running (cMemory.new 2) 1).pointer ∧
      after.files = (cSimulator.running (cMemory.new 2) 1).files ∧
      after.io = { (cSimulator.running (cMemory.new 2) 1).io with
        calls := (cSimulator.running (cMemory.new 2) 1).io.calls ++ [io_call.Refresh] } :=
  refresh_only_calls_io cFloat.unused (cSimulator.running (cMemory.new 2) 1)
    (command_block eCMD_REFRESH []) rfl

theorem Eval_Operator_CAT (fp : cFloat) (sim : cSimulator) (command : cBlock)
    (oper : sOperand_Operator) (value operand_value : cValue) (io : cIO_Control)
    (hoper : oper.oper_code = some eOPER_CAT) :
    cSimulator.Eval_Operator fp sim command oper value operand_value io =
      .ok (Text ((if value.type = eVALUE_NUMBER then Number_To_Text value.number
                  else value.string) ++ operand_value.string), io) := by
  unfold cSimulator.Eval_Operator
  simp only [hoper]
  simp only [eOPER_CAT, eOPER_ADD, eOPER_SUB, eOPER_MUL, eOPER_DIV, eOPER_REM, eOPER_RAND,
    eOPER_COS, eOPER_SIN]
  by_cases hv : value.type = eVALUE_NUMBER
  · simp [hv, cValue.Convert_To_String, eVALUE_STRING, eVALUE_NUMBER, Text, cValue.Set_String]
  · simp [hv, Text, cValue.Set_String]

/-- C14: the code at an input where the claim fails.  The expression `12 cat 34` of two literal
numbers evaluates to the String `12`, not `1234`: the digits of a Number right operand are not
appended, since the second test of the `cat` case reads `value.type` again, which is String by
then, and so never converts the operand. -/
theorem cat_drops_number_operand :
    returns_with
      (cSimulator.Eval_Expression cFloat.unused (cSimulator.running (cMemory.new 2) 1)
        (command_block eCMD_PUSH
          [[operand_number 12, operator_entry eOPER_CAT, operand_number 34]]) 0)
      (fun result => result.1 = Text "12") := by
  decide!

theorem Parse_Statement_remark (c : cCompiler) (remark token : sToken) (rest : List sToken)
    (htokens : c.tokens = remark :: token :: rest)
    (hremark : remark.token = "\x7bremark\x7d") :
    c.Parse_Statement =
      if token.token = "\x7bend\x7d" then .ok { c with tokens := rest } else .error .hang := by
  unfold cCompiler.Parse_Statement
  simp only [cCompiler.Parse_Token, htokens, bind, Except.bind, hremark]
  simp only [show ¬ ("\x7bremark\x7d" = "define") by decide,
    show ¬ ("\x7bremark\x7d" = "map") by decide, show ¬ ("\x7bremark\x7d" = "label") by decide,
    show ¬ ("\x7bremark\x7d" = "number") by decide, show ¬ ("\x7bremark\x7d" = "list") by decide,
    show ¬ ("\x7bremark\x7d" = "object") by decide, if_false, if_true]
  by_cases h : token.token = "\x7bend\x7d"
  · simp [h, pure, Except.pure]
  · simp [h]

/-- C19: the code at an input where the claim fails.  On the token queue
`{remark} hello {end} stop` the remark statement does not terminate: the token after `{remark}` is
shifted once and the loop that waits for it to be `{end}` never reads another token.  Only a
remark without inner tokens, `{remark} {end}`, is skipped. -/
theorem remark_with_text_hangs :
    (cCompiler.start (tokens_of ["\x7bremark\x7d", "hello", "\x7bend\x7d", "stop"])
        (cMemory.new 2)).Parse_Statement = .error .hang ∧
    cCompiler.new (tokens_of ["\x7bremark\x7d", "hello", "\x7bend\x7d", "stop"]) (cMemory.new 2) =
      .error .hang ∧
    returns_with
      (cCompiler.start (tokens_of ["\x7bremark\x7d", "\x7bend\x7d", "stop"])
        (cMemory.new 2)).Parse_Statement
      (fun c => c.tokens = tokens_of ["stop"] ∧ c.pointer = 0) := by
  decide!

/-! ### Whole programs -/

/-- C15 (as stated) fails: the program `label start / store #5 + #7 at #10 / stop`, compiled into
128 default cells and run from `[start]`, stops with `Memory[10].value` different from
Number 12. -/
theorem store_immediate_sum_misses_cell :
    returns_with
      (compile_and_run ["label", "start", "store", "#5", "+", "#7", "at", "#10", "stop"] 128
        "[start]" 8)
      (fun sim =>
        sim.status = eSTATUS_DONE ∧
        returns_with (sim.memory.index 10) (fun block => block.value ≠ Number 12)) := by
  decide!

/-- C15 (amended): compiling the program `label start / store #5 + #7 at #10 / stop` into a
default memory of 128 cells and running it from the address of `[start]` until STOP leaves
`Memory[10].value` = Number 0: the operands `#5` and `#7` read `Memory[5].value` and
`Memory[7].value`, both 0, and `#10` reads the destination address from `Memory[10].value`, so
Number 0 is stored at address 0.  With literal-number operands, `store %5 + %7 at %10`, the same
program leaves `Memory[10].value` = Number 12. -/
theorem store_immediate_sum :
    returns_with
      (compile_and_run ["label", "start", "store", "#5", "+", "#7", "at", "#10", "stop"] 128
        "[start]" 8)
      (fun sim =>
        sim.status = eSTATUS_DONE ∧
        returns_with (sim.memory.index 10) (fun block => block.value = Number 0) ∧
        returns_with (sim.memory.index 0) (fun block => block.value = Number 0)) ∧
    returns_with
      (compile_and_run ["label", "start", "store", "%5", "+", "%7", "at", "%10", "stop"] 128
        "[start]" 8)
      (fun sim =>
        sim.status = eSTATUS_DONE ∧
        returns_with (sim.memory.index 10) (fun block => block.value = Number 12)) := by
  decide!

/-- C16 (as stated) fails: the program `label main / call #sub / stop / label sub /
store #1 at #20 / return` does not compile into 128 default cells; `Replace_Placeholders` throws,
since the operand `#sub` holds the placeholder `sub` and the label defines `[sub]`. -/
theorem call_return_program_fails :
    cCompiler.new
      (tokens_of ["label", "main", "call", "#sub", "stop", "label", "sub", "store", "#1", "at",
        "#20", "return"]) (cMemory.new 128) =
      .error (.cError "Could not find placeholder sub.") := by
  decide!

/-- C16 (amended): the program `label main / call #sub / stop / label sub / store #1 at #20 /
return` does not compile: `Replace_Placeholders` fails with `Could not find placeholder sub.`.
Written with literal-number operands and the bracketed symbol, `label main / call %[sub] / stop /
label sub / store %1 at %20 / return`, it compiles into a default memory of 128 cells with
`[sub]` = 2, the address of `label sub`, and running it from `[main]` until STOP leaves
`Memory[20].value` = Number 1 and the stack empty. -/
theorem call_return_program :
    cCompiler.new
      (tokens_of ["label", "main", "call", "#sub", "stop", "label", "sub", "store", "#1", "at",
        "#20", "return"]) (cMemory.new 128) =
      .error (.cError "Could not find placeholder sub.") ∧
    returns_with
      (cCompiler.new
        (tokens_of ["label", "main", "call", "%[sub]", "stop", "label", "sub", "store", "%1",
          "at", "%20", "return"]) (cMemory.new 128))
      (fun c => c.symtab.find "[sub]" = some 2) ∧
    returns_with
      (compile_and_run ["label", "main", "call", "%[sub]", "stop", "label", "sub", "store", "%1",
        "at", "%20", "return"] 128 "[main]" 8)
      (fun sim =>
        sim.status = eSTATUS_DONE ∧ sim.stack = [] ∧
        returns_with (sim.memory.index 20) (fun block => block.value = Number 1)) := by
  decide!

/-! ### Operand tokens -/

theorem Parse_Address_error_head (address : String) (operand : sOperand_Operator) (e : Abort)
    (h : cCompiler.Parse_Address address operand = .error e) :
    ∃ message : String, e = .cError message ∧
      (message.data.head? = some 'C' ∨ message.data.head? = some 'I') := by
  unfold cCompiler.Parse_Address at h
  simp only [bind, Except.bind, pure, Except.pure] at h
  split at h
  · rename_i e1 he1
    cases h
    repeat' split at he1
    all_goals first
      | cases he1; done
      | (cases he1; exact ⟨_, rfl, Or.inl rfl⟩)
      | (cases he1; exact ⟨_, rfl, Or.inr (by simp [String.data_append])⟩)
  · split at h
    · cases h
    · cases h
    · rename_i other hne hother
      cases h
      exact absurd (Text_To_Number_error _ _ hother) (hne _)

theorem Generate_Parse_Error_head (message : String) (token : sToken) :
    ∃ text : String, cCompiler.Generate_Parse_Error message token = .cError text ∧
      text.data.head? = some 'E' :=
  ⟨_, rfl, by simp [String.data_append]⟩

theorem Parse_Address_not_operand_error (address : String) (operand : sOperand_Operator)
    (message : String) (token : sToken) :
    cCompiler.Parse_Address address operand ≠
      .error (cCompiler.Generate_Parse_Error message token) := by
  intro h
  obtain ⟨m, hm, hhead⟩ := Parse_Address_error_head _ _ _ h
  obtain ⟨t, ht, hE⟩ := Generate_Parse_Error_head message token
  rw [ht] at hm
  cases hm
  rw [hE] at hhead
  rcases hhead with h1 | h1 <;> simp at h1

theorem Parse_Operand_unfold (c : cCompiler) (token : sToken) (rest : List sToken)
    (htokens : c.tokens = token :: rest) :
    c.Parse_Operand =
      if token.token.length > 1 then
        if token.token.data.head? = some '#' then
          (cCompiler.Parse_Address (String.mk (token.token.data.drop 1))
            { sOperand_Operator.new with addr_mode := some eADDR_IMMEDIATE }).map
            (fun operand => (operand, { c with tokens := rest }))
        else if token.token.data.head? = some '@' then
          (cCompiler.Parse_Address (String.mk (token.token.data.drop 1))
            { sOperand_Operator.new with addr_mode := some eADDR_POINTER }).map
            (fun operand => (operand, { c with tokens := rest }))
        else if token.token.data.head? = some '$' then
          .ok ({ sOperand_Operator.new with
              addr_mode := some eADDR_VAL_STRING
              value := Text (String.mk (token.token.data.drop 1)) },
            { c with tokens := rest })
        else
          (cCompiler.Parse_Address (String.mk (token.token.data.drop 1))
            { sOperand_Operator.new with addr_mode := some eADDR_VAL_NUMBER }).map
            (fun operand => (operand, { c with tokens := rest }))
      else
        .error (cCompiler.Generate_Parse_Error "Invalid operand token." token) := by
  have hstep : c.Parse_Token = .ok (token, { c with tokens := rest }) := by
    unfold cCompiler.Parse_Token
    rw [htokens]
  unfold cCompiler.Parse_Operand
  simp only [bind, Except.bind, pure, Except.pure, hstep]
  split
  · split
    · cases cCompiler.Parse_Address _ _ <;> rfl
    · split
      · cases cCompiler.Parse_Address _ _ <;> rfl
      · split
        · rfl
        · cases cCompiler.Parse_Address _ _ <;> rfl
  · rfl

theorem Parse_Address_map_facts (address : String) (start : sOperand_Operator) (c1 : cCompiler)
    (message : String) (token : sToken) :
    (cCompiler.Parse_Address address start).map (fun operand => (operand, c1)) ≠
        .error (cCompiler.Generate_Parse_Error message token) ∧
    ∀ (operand : sOperand_Operator) (c' : cCompiler),
      (cCompiler.Parse_Address address start).map (fun operand => (operand, c1)) =
        .ok (operand, c') →
      c' = c1 ∧ operand.oper_code = start.oper_code ∧ operand.addr_mode = start.addr_mode := by
  cases hp : cCompiler.Parse_Address address start with
  | error e =>
    refine ⟨?_, fun _ _ h => by cases h⟩
    intro h
    simp only [Except.map, Except.error.injEq] at h
    rw [h] at hp
    exact Parse_Address_not_operand_error _ _ _ _ hp
  | ok op =>
    constructor
    · intro h
      cases h
    · intro operand c' h
      simp only [Except.map, Except.ok.injEq, Prod.mk.injEq] at h
      obtain ⟨h1, h2⟩ := h
      subst h1 h2
      have := Parse_Address_modes _ _ _ hp
      exact ⟨rfl, this.1, this.2⟩

theorem Parse_Address_finish (addr : String) (operand : sOperand_Operator) :
    ∃ operand' : sOperand_Operator,
      (match Text_To_Number addr with
        | .ok number => pure { operand with value := operand.value.Set_Number number }
        | .error (.cError _) => pure { operand with placeholder := addr }
        | .error other => .error other : Outcome sOperand_Operator) = .ok operand' ∧
      operand'.oper_code = operand.oper_code ∧ operand'.addr_mode = operand.addr_mode ∧
      operand'.field = operand.field := by
  cases h : Text_To_Number addr with
  | ok n => exact ⟨_, rfl, rfl, rfl, rfl⟩
  | error e =>
    have he := Text_To_Number_error _ _ h
    subst he
    exact ⟨_, rfl, rfl, rfl, rfl⟩

theorem Parse_Address_cases (address : String) (operand : sOperand_Operator) :
    ((Parse_Sausage_Text address "->").length = 1 →
      ∃ operand', cCompiler.Parse_Address address operand = .ok operand' ∧
        operand'.oper_code = operand.oper_code ∧ operand'.addr_mode = operand.addr_mode ∧
        operand'.field = operand.field) ∧
    ((Parse_Sausage_Text address "->").length = 2 →
      operand.addr_mode ≠ some eADDR_VAL_NUMBER →
      ∃ operand', cCompiler.Parse_Address address operand = .ok operand' ∧
        operand'.oper_code = operand.oper_code ∧ operand'.addr_mode = operand.addr_mode ∧
        some operand'.field = (Parse_Sausage_Text address "->")[1]?) ∧
    ((Parse_Sausage_Text address "->").length = 2 →
      operand.addr_mode = some eADDR_VAL_NUMBER →
      cCompiler.Parse_Address address operand =
        .error (.cError "Cannot have object notation with numeric value.")) ∧
    ((Parse_Sausage_Text address "->").length ≠ 1 →
      (Parse_Sausage_Text address "->").length ≠ 2 →
      cCompiler.Parse_Address address operand =
        .error (.cError ("Invalid address " ++ address ++ "."))) := by
  unfold cCompiler.Parse_Address
  simp only [bind, Except.bind, pure, Except.pure]
  match hparts : Parse_Sausage_Text address "->" with
  | [] =>
    refine ⟨fun h => by simp at h, fun h => by simp at h, fun h => by simp at h, fun _ _ => rfl⟩
  | [part0] =>
    refine ⟨fun _ => ?_, fun h => by simp at h, fun h => by simp at h, fun h => by simp at h⟩
    exact Parse_Address_finish part0 operand
  | [part0, part1] =>
    refine ⟨fun h => by simp at h, fun _ hmode => ?_, fun _ hmode => ?_, fun _ h => by simp at h⟩
    · simp only [if_neg hmode]
      obtain ⟨operand', h, h1, h2, h3⟩ :=
        Parse_Address_finish part0 { operand with field := part1 }
      exact ⟨operand', h, h1, h2, by rw [h3]; rfl⟩
    · simp only [if_pos hmode]
  | part0 :: part1 :: part2 :: more =>
    refine ⟨fun h => by simp at h, fun h => by simp at h, fun h => by simp at h, fun _ _ => rfl⟩

/-- C20 (amended): on a queue whose front token is `token`, `Parse_Operand` fails with the
`Invalid operand token.` parse error if and only if the token has fewer than 2 characters.  For
a token of 2 or more characters the first character selects the addressing mode and the rest of
the token is the address text: a token that begins with `$` always gives a literal-string
operand whose value is the String of the rest, with no field and no placeholder; a token with
any other first character gives an operand of the selected mode (immediate for `#`, pointer for
`@`, literal number otherwise) when the address text has no `->`, and for `#` and `@` also when
it has one `->`, the text after it being the field; a literal-number token with one `->` fails
with `Cannot have object notation with numeric value.`, and an address text that splits in any
other way fails with `Invalid address ...`.  Whenever an operand is returned, exactly the token
has been shifted off the queue and the mode is the one the first character selects. -/
theorem Parse_Operand_selects_mode (c : cCompiler) (token : sToken) (rest : List sToken)
    (htokens : c.tokens = token :: rest) :
    (c.Parse_Operand = .error (cCompiler.Generate_Parse_Error "Invalid operand token." token) ↔
      token.token.length < 2) ∧
    (2 ≤ token.token.length → token.token.data.head? = some '$' →
      c.Parse_Operand = .ok
        ({ sOperand_Operator.new with
            addr_mode := some eADDR_VAL_STRING
            value := Text (String.mk (token.token.data.drop 1)) },
          { c with tokens := rest })) ∧
    (2 ≤ token.token.length → token.token.data.head? ≠ some '$' →
      (Parse_Sausage_Text (String.mk (token.token.data.drop 1)) "->").length = 1 →
      ∃ operand, c.Parse_Operand = .ok (operand, { c with tokens := rest }) ∧
        operand.oper_code = none ∧
        operand.addr_mode = some (selected_mode token.token.data.head?) ∧
        operand.field = "") ∧
    (2 ≤ token.token.length →
      token.token.data.head? = some '#' ∨ token.token.data.head? = some '@' →
      (Parse_Sausage_Text (String.mk (token.token.data.drop 1)) "->").length = 2 →
      ∃ operand, c.Parse_Operand = .ok (operand, { c with tokens := rest }) ∧
        operand.oper_code = none ∧
        operand.addr_mode = some (selected_mode token.token.data.head?) ∧
        some operand.field =
          (Parse_Sausage_Text (String.mk (token.token.data.drop 1)) "->")[1]?) ∧
    (2 ≤ token.token.length → token.token.data.head? ≠ some '#' →
      token.token.data.head? ≠ some '@' → token.token.data.head? ≠ some '$' →
      (Parse_Sausage_Text (String.mk (token.token.data.drop 1)) "->").length = 2 →
      c.Parse_Operand = .error (.cError "Cannot have object notation with numeric value.")) ∧
    (2 ≤ token.token.length → token.token.data.head? ≠ some '$' →
      (Parse_Sausage_Text (String.mk (token.token.data.drop 1)) "->").length ≠ 1 →
      (Parse_Sausage_Text (String.mk (token.token.data.drop 1)) "->").length ≠ 2 →
      c.Parse_Operand =
        .error (.cError ("Invalid address " ++ String.mk (token.token.data.drop 1) ++ "."))) ∧
    (∀ (operand : sOperand_Operator) (c' : cCompiler), c.Parse_Operand = .ok (operand, c') →
      2 ≤ token.token.length ∧ c' = { c with tokens := rest } ∧
      operand.oper_code = none ∧
      operand.addr_mode = some (selected_mode token.token.data.head?)) := by
  have hx := Parse_Operand_unfold c token rest htokens
  have hmap : ∀ (start : sOperand_Operator) (operand : sOperand_Operator),
      cCompiler.Parse_Address (String.mk (token.token.data.drop 1)) start = .ok operand →
      (cCompiler.Parse_Address (String.mk (token.token.data.drop 1)) start).map
        (fun operand => (operand, { c with tokens := rest })) =
        .ok (operand, { c with tokens := rest }) := by
    intro start operand h
    rw [h]
    rfl
  have hmape : ∀ (start : sOperand_Operator) (e : Abort),
      cCompiler.Parse_Address (String.mk (token.token.data.drop 1)) start = .error e →
      (cCompiler.Parse_Address (String.mk (token.token.data.drop 1)) start).map
        (fun operand => (operand, { c with tokens := rest })) = .error e := by
    intro start e h
    rw [h]
    rfl
  by_cases hlen : token.token.length > 1
  · rw [if_pos hlen] at hx
    by_cases h1 : token.token.data.head? = some '#'
    · rw [if_pos h1] at hx
      rw [hx]
      have f := Parse_Address_map_facts (String.mk (token.token.data.drop 1))
        { sOperand_Operator.new with addr_mode := some eADDR_IMMEDIATE } { c with tokens := rest }
        "Invalid operand token." token
      have g := Parse_Address_cases (String.mk (token.token.data.drop 1))
        { sOperand_Operator.new with addr_mode := some eADDR_IMMEDIATE }
      have hsel : selected_mode token.token.data.head? = eADDR_IMMEDIATE := by
        rw [h1]; rfl
      refine ⟨⟨fun h => absurd h f.1, fun h => absurd hlen (by omega)⟩, ?_, ?_, ?_, ?_, ?_, ?_⟩
      · intro _ h
        rw [h1] at h
        simp at h
      · intro _ _ hparts
        obtain ⟨operand, h, ho, hm, hf⟩ := g.1 hparts
        exact ⟨operand, hmap _ _ h, ho, by rw [hm, hsel], hf⟩
      · intro _ _ hparts
        obtain ⟨operand, h, ho, hm, hf⟩ := g.2.1 hparts (by decide)
        exact ⟨operand, hmap _ _ h, ho, by rw [hm, hsel], hf⟩
      · intro _ h
        exact absurd h1 h
      · intro _ _ hp1 hp2
        exact hmape _ _ (g.2.2.2 hp1 hp2)
      · intro operand c' h
        have := f.2 operand c' h
        exact ⟨by omega, this.1, this.2.1, by rw [this.2.2, h1]; rfl⟩
    · rw [if_neg h1] at hx
      by_cases h2 : token.token.data.head? = some '@'
      · rw [if_pos h2] at hx
        rw [hx]
        have f := Parse_Address_map_facts (String.mk (token.token.data.drop 1))
          { sOperand_Operator.new with addr_mode := some eADDR_POINTER } { c with tokens := rest }
          "Invalid operand token." token
        have g := Parse_Address_cases (String.mk (token.token.data.drop 1))
          { sOperand_Operator.new with addr_mode := some eADDR_POINTER }
        have hsel : selected_mode token.token.data.head? = eADDR_POINTER := by
          rw [h2]; rfl
        refine ⟨⟨fun h => absurd h f.1, fun h => absurd hlen (by omega)⟩, ?_, ?_, ?_, ?_, ?_,
          ?_⟩
        · intro _ h
          rw [h2] at h
          simp at h
        · intro _ _ hparts
          obtain ⟨operand, h, ho, hm, hf⟩ := g.1 hparts
          exact ⟨operand, hmap _ _ h, ho, by rw [hm, hsel], hf⟩
        · intro _ _ hparts
          obtain ⟨operand, h, ho, hm, hf⟩ := g.2.1 hparts (by decide)
          exact ⟨operand, hmap _ _ h, ho, by rw [hm, hsel], hf⟩
        · intro _ _ h
          exact absurd h2 h
        · intro _ _ hp1 hp2
          exact hmape _ _ (g.2.2.2 hp1 hp2)
        · intro operand c' h
          have := f.2 operand c' h
          exact ⟨by omega, this.1, this.2.1, by rw [this.2.2, h2]; rfl⟩
      · rw [if_neg h2] at hx
        by_cases h3 : token.token.data.head? = some '$'
        · rw [if_pos h3] at hx
          rw [hx]
          refine ⟨⟨fun h => (by cases h), fun h => absurd hlen (by omega)⟩, fun _ _ => rfl,
            fun _ h => absurd h3 h, fun _ h => ?_, fun _ _ _ h => absurd h3 h,
            fun _ h => absurd h3 h, ?_⟩
          · rcases h with h | h
            · exact absurd h h1
            · exact absurd h h2
          · intro operand c' h
            simp only [Except.ok.injEq, Prod.mk.injEq] at h
            obtain ⟨ho, hc⟩ := h
            subst ho hc
            exact ⟨by omega, rfl, rfl, by rw [h3]; rfl⟩
        · rw [if_neg h3] at hx
          rw [hx]
          have f := Parse_Address_map_facts (String.mk (token.token.data.drop 1))
            { sOperand_Operator.new with addr_mode := some eADDR_VAL_NUMBER }
            { c with tokens := rest } "Invalid operand token." token
          have g := Parse_Address_cases (String.mk (token.token.data.drop 1))
            { sOperand_Operator.new with addr_mode := some eADDR_VAL_NUMBER }
          have hsel : selected_mode token.token.data.head? = eADDR_VAL_NUMBER := by
            simp [selected_mode, h1, h2, h3]
          refine ⟨⟨fun h => absurd h f.1, fun h => absurd hlen (by omega)⟩,
            fun _ h => absurd h h3, ?_, ?_, ?_, ?_, ?_⟩
          · intro _ _ hparts
            obtain ⟨operand, h, ho, hm, hf⟩ := g.1 hparts
            exact ⟨operand, hmap _ _ h, ho, by rw [hm, hsel], hf⟩
          · intro _ h
            rcases h with h | h
            · exact absurd h h1
            · exact absurd h h2
          · intro _ _ _ _ hparts
            exact hmape _ _ (g.2.2.1 hparts rfl)
          · intro _ _ hp1 hp2
            exact hmape _ _ (g.2.2.2 hp1 hp2)
          · intro operand c' h
            have := f.2 operand c' h
            refine ⟨by omega, this.1, this.2.1, ?_⟩
            rw [this.2.2, hsel]
  · rw [if_neg hlen] at hx
    rw [hx]
    refine ⟨⟨fun _ => by omega, fun _ => rfl⟩, fun h => absurd h (by omega),
      fun h => absurd h (by omega), fun h => absurd h (by omega), fun h => absurd h (by omega),
      fun h => absurd h (by omega), ?_⟩
    intro operand c' h
    cases h

theorem Parse_Operand_selects_mode_witness :
    (∃ operand,
      (cCompiler.start (tokens_of ["#7", "at"]) (cMemory.new 2)).Parse_Operand =
        .ok (operand, { cCompiler.start (tokens_of ["#7", "at"]) (cMemory.new 2) with
          tokens := tokens_of ["at"] }) ∧
      operand.oper_code = none ∧ operand.addr_mode = some eADDR_IMMEDIATE ∧
      operand.field = "") ∧
    (∃ operand,
      (cCompiler.start (tokens_of ["@3->x", "at"]) (cMemory.new 2)).Parse_Operand =
        .ok (operand, { cCompiler.start (tokens_of ["@3->x", "at"]) (cMemory.new 2) with
          tokens := tokens_of ["at"] }) ∧
      operand.oper_code = none ∧ operand.addr_mode = some eADDR_POINTER ∧
      some operand.field = some "x") ∧
    (∃ operand,
      (cCompiler.start (tokens_of ["x5", "at"]) (cMemory.new 2)).Parse_Operand =
        .ok (operand, { cCompiler.start (tokens_of ["x5", "at"]) (cMemory.new 2) with
          tokens := tokens_of ["at"] }) ∧
      operand.oper_code = none ∧ operand.addr_mode = some eADDR_VAL_NUMBER ∧
      operand.field = "") ∧
    (cCompiler.start (tokens_of ["$hello", "at"]) (cMemory.new 2)).Parse_Operand = .ok
      ({ sOperand_Operator.new with
          addr_mode := some eADDR_VAL_STRING
          value := Text "hello" },
        { cCompiler.start (tokens_of ["$hello", "at"]) (cMemory.new 2) with
          tokens := tokens_of ["at"] }) ∧
    (cCompiler.start (tokens_of ["#", "at"]) (cMemory.new 2)).Parse_Operand =
      .error (cCompiler.Generate_Parse_Error "Invalid operand token."
        { token := "#", line_no := 0, source := "main" }) :=
  ⟨(Parse_Operand_selects_mode (cCompiler.start (tokens_of ["#7", "at"]) (cMemory.new 2))
      { token := "#7", line_no := 0, source := "main" } (tokens_of ["at"]) rfl).2.2.1
      (by decide) (by decide) (by decide),
    (Parse_Operand_selects_mode (cCompiler.start (tokens_of ["@3->x", "at"]) (cMemory.new 2))
      { token := "@3->x", line_no := 0, source := "main" } (tokens_of ["at"]) rfl).2.2.2.1
      (by decide) (Or.inr (by decide)) (by decide),
    (Parse_Operand_selects_mode (cCompiler.start (tokens_of ["x5", "at"]) (cMemory.new 2))
      { token := "x5", line_no := 0, source := "main" } (tokens_of ["at"]) rfl).2.2.1
      (by decide) (by decide) (by decide),
    (Parse_Operand_selects_mode (cCompiler.start (tokens_of ["$hello", "at"]) (cMemory.new 2))
      { token := "$hello", line_no := 0, source := "main" } (tokens_of ["at"]) rfl).2.1
      (by decide) (by decide),
    (Parse_Operand_selects_mode (cCompiler.start (tokens_of ["#", "at"]) (cMemory.new 2))
      { token := "#", line_no := 0, source := "main" } (tokens_of ["at"]) rfl).1.2
      (by decide)⟩

/-- The tokens `#a->b->c` and `x5->f` have two or more characters, and `Parse_Operand` returns
no operand for them: the first fails with `Invalid address a->b->c.` although its first
character is `#`, the second with `Cannot have object notation with numeric value.`. -/
theorem operand_with_bad_address_gets_no_mode :
    (2 ≤ ("#a->b->c" : String).length ∧ ("#a->b->c" : String).data.head? = some '#' ∧
      (cCompiler.start (tokens_of ["#a->b->c", "at"]) (cMemory.new 2)).Parse_Operand =
        .error (.cError "Invalid address a->b->c.")) ∧
    (2 ≤ ("x5->f" : String).length ∧
      (cCompiler.start (tokens_of ["x5->f", "at"]) (cMemory.new 2)).Parse_Operand =
        .error (.cError "Cannot have object notation with numeric value.")) := by
  decide!

/-! ### Statement parsing: the symbol table and the write pointer -/

theorem ensures_bind {α β : Type} {call : Outcome α} {next : α → Outcome β} {P : α → Prop}
    {Q : β → Prop} (hcall : ensures call P) (hnext : ∀ a, P a → ensures (next a) Q) :
    ensures (call >>= next) Q := by
  intro result h
  cases hc : call with
  | error e => rw [hc] at h; cases h
  | ok a => rw [hc] at h; exact hnext a (hcall a hc) result h

theorem ensures_pure {α : Type} {a : α} {Q : α → Prop} (h : Q a) :
    ensures (pure a : Outcome α) Q := by
  intro result hr
  cases hr
  exact h

theorem ensures_error {α : Type} (e : Abort) (Q : α → Prop) :
    ensures (.error e : Outcome α) Q := by
  intro result hr
  cases hr

theorem ensures_ite {α : Type} {p : Prop} [Decidable p] {a b : Outcome α} {Q : α → Prop}
    (ha : p → ensures a Q) (hb : ¬ p → ensures b Q) : ensures (if p then a else b) Q := by
  by_cases hp : p
  · rw [if_pos hp]; exact ha hp
  · rw [if_neg hp]; exact hb hp

theorem ensures_any {α : Type} (call : Outcome α) : ensures call (fun _ => True) :=
  fun _ _ => trivial

theorem follows_refl (c : cCompiler) : c.follows c :=
  ⟨⟨[], rfl⟩, rfl, fun _ => ⟨le_refl _, fun h => h⟩, fun _ _ => rfl⟩

theorem follows_trans {c0 c1 c2 : cCompiler} (h1 : c0.follows c1) (h2 : c1.follows c2) :
    c0.follows c2 := by
  obtain ⟨⟨s1, e1⟩, n1, p1, t1⟩ := h1
  obtain ⟨⟨s2, e2⟩, n2, p2, t2⟩ := h2
  refine ⟨⟨s1 ++ s2, by rw [e1, e2, List.append_assoc]⟩, by rw [n2, n1], ?_, ?_⟩
  · intro hn
    have a := p1 hn
    have b := p2 (by rw [n1]; exact hn)
    rw [n1] at b
    exact ⟨le_trans a.1 b.1, fun h => b.2 (a.2 h)⟩
  · intro key hkey
    rw [t2 key, t1 key hkey]
    intro token htoken
    apply hkey
    rw [e1]
    exact List.mem_append_right _ htoken

/-- A step that only shifts tokens off the queue. -/
theorem follows_of_shift (c c' : cCompiler) (shifted : List sToken)
    (ht : c.tokens = shifted ++ c'.tokens) (hs : c'.symtab = c.symtab)
    (hm : c'.memory = c.memory) (hp : c'.pointer = c.pointer) : c.follows c' :=
  ⟨⟨shifted, ht⟩, by rw [hm], fun _ => ⟨by rw [hp], fun h => by rw [hp]; exact h⟩,
    fun _ _ => by rw [hs]⟩

theorem follows_write {c0 c : cCompiler} (h : c0.follows c) (address : Int) (block : cBlock) :
    c0.follows { c with memory := c.memory.write address block } := by
  obtain ⟨e, n, p, t⟩ := h
  exact ⟨e, by rw [← n]; exact cMemory_count_write _ _ _, p, t⟩

theorem find_map_keeping_keys {V : Type} (f : String × V → String × V)
    (hf : ∀ kv, (f kv).1 = kv.1) (other : String) :
    ∀ items : List (String × V),
      (items.map f).find? (fun kv => decide (kv.1 = other)) =
        (items.find? (fun kv => decide (kv.1 = other))).map f
  | [] => rfl
  | kv :: rest => by
    simp only [List.map_cons, List.find?_cons, hf]
    cases decide (kv.1 = other)
    · exact find_map_keeping_keys f hf other rest
    · rfl

theorem cHash_find_assign_ne {V : Type} (h : cHash String V) (key other : String) (value : V)
    (hne : other ≠ key) : (h.assign key value).find other = h.find other := by
  unfold cHash.assign
  split
  · unfold cHash.find
    simp only
    rw [find_map_keeping_keys (fun kv => if kv.1 = key then (kv.1, value) else kv)
      (fun kv => by dsimp only; split <;> rfl)]
    cases hf : h.items.find? (fun kv => decide (kv.1 = other)) with
    | none => rfl
    | some kv =>
      have hkv : kv.1 = other := by
        have := List.find?_some hf
        simpa using this
      have : ¬ kv.1 = key := by rw [hkv]; exact hne
      simp [this]
  · unfold cHash.find
    simp only [List.find?_append]
    cases hf : h.items.find? (fun kv => decide (kv.1 = other)) with
    | some kv => rfl
    | none =>
      have : ¬ key = other := fun h => hne h.symm
      simp [this]

theorem follows_assign {c0 c : cCompiler} (h : c0.follows c) (token : sToken)
    (htoken : token ∈ c0.tokens) (value : Int) :
    c0.follows { c with symtab := c.symtab.assign ("[" ++ token.token ++ "]") value } := by
  obtain ⟨e, n, p, t⟩ := h
  refine ⟨e, n, p, ?_⟩
  intro key hkey
  simp only
  rw [cHash_find_assign_ne _ _ _ _ (hkey token htoken)]
  exact t key hkey

theorem follows_mem {c0 c : cCompiler} (h : c0.follows c) (token : sToken)
    (htoken : token ∈ c.tokens) : token ∈ c0.tokens := by
  obtain ⟨⟨s, e⟩, -⟩ := h
  rw [e]
  exact List.mem_append_right _ htoken

theorem Parse_Token_follows (c0 c : cCompiler) (h : c0.follows c) :
    ensures c.Parse_Token (fun r => c0.follows r.2 ∧ r.1 ∈ c0.tokens) := by
  rintro ⟨token, c'⟩ hr
  have f := Parse_Token_tokens c c' token hr
  refine ⟨follows_trans h (follows_of_shift c c' [token] f.1 f.2.1 f.2.2.1 f.2.2.2), ?_⟩
  apply follows_mem h
  rw [f.1]
  exact List.mem_cons_self _ _

theorem Parse_Keyword_follows (c0 c : cCompiler) (keyword : String) (h : c0.follows c) :
    ensures (c.Parse_Keyword keyword) (fun c' => c0.follows c') := by
  unfold cCompiler.Parse_Keyword
  refine ensures_bind (Parse_Token_follows c0 c h) ?_
  rintro ⟨token, c1⟩ ⟨hacc, _⟩
  refine ensures_ite (fun _ => ensures_error _ _) (fun _ => ensures_pure hacc)

theorem Parse_Operand_follows (c0 c : cCompiler) (h : c0.follows c) :
    ensures c.Parse_Operand (fun r => c0.follows r.2) := by
  unfold cCompiler.Parse_Operand
  refine ensures_bind (Parse_Token_follows c0 c h) ?_
  rintro ⟨token, c1⟩ ⟨hacc, _⟩
  dsimp only
  refine ensures_ite (fun _ => ?_) (fun _ => ensures_error _ _)
  refine ensures_ite (fun _ => ?_) (fun _ => ?_)
  · exact ensures_bind (ensures_any _) (fun _ _ => ensures_pure hacc)
  refine ensures_ite (fun _ => ?_) (fun _ => ?_)
  · exact ensures_bind (ensures_any _) (fun _ _ => ensures_pure hacc)
  refine ensures_ite (fun _ => ?_) (fun _ => ?_)
  · exact ensures_pure hacc
  · exact ensures_bind (ensures_any _) (fun _ _ => ensures_pure hacc)

theorem Parse_Operator_follows (c0 c : cCompiler) (h : c0.follows c) :
    ensures c.Parse_Operator (fun r => c0.follows r.2) := by
  unfold cCompiler.Parse_Operator
  refine ensures_bind (Parse_Token_follows c0 c h) ?_
  rintro ⟨token, c1⟩ ⟨hacc, _⟩
  dsimp only
  repeat' (refine ensures_ite (fun _ => ensures_pure hacc) (fun _ => ?_))
  exact ensures_error _ _

theorem Parse_Expression_loop_follows (c0 : cCompiler) :
    ∀ (fuel : Nat) (expression : tExpression) (c : cCompiler), c0.follows c →
      ensures (cCompiler.Parse_Expression_loop fuel expression c) (fun r => c0.follows r.2) := by
  intro fuel
  induction fuel with
  | zero =>
    intro expression c h
    unfold cCompiler.Parse_Expression_loop
    exact ensures_ite (fun _ => ensures_error _ _) (fun _ => ensures_pure h)
  | succ fuel ih =>
    intro expression c h
    unfold cCompiler.Parse_Expression_loop
    refine ensures_ite (fun _ => ?_) (fun _ => ensures_pure h)
    refine ensures_bind (Parse_Operator_follows c0 c h) ?_
    rintro ⟨oper, c1⟩ hacc
    refine ensures_bind (Parse_Operand_follows c0 c1 hacc) ?_
    rintro ⟨operand, c2⟩ hacc
    exact ih _ c2 hacc

theorem Parse_Expression_follows (c0 c : cCompiler) (command : cBlock) (h : c0.follows c) :
    ensures (c.Parse_Expression command) (fun r => c0.follows r.2.2) := by
  unfold cCompiler.Parse_Expression
  refine ensures_bind (Parse_Operand_follows c0 c h) ?_
  rintro ⟨operand, c1⟩ hacc
  refine ensures_bind (Parse_Expression_loop_follows c0 _ _ c1 hacc) ?_
  rintro ⟨expression, c2⟩ hacc
  exact ensures_pure hacc

theorem Parse_Condition_follows (c0 c : cCompiler) (block : cBlock) (h : c0.follows c) :
    ensures (c.Parse_Condition block) (fun r => c0.follows r.2.2) := by
  unfold cCompiler.Parse_Condition
  refine ensures_bind (Parse_Expression_follows c0 c block h) ?_
  rintro ⟨left_exp, block1, c1⟩ hacc
  refine ensures_bind (Parse_Token_follows c0 c1 hacc) ?_
  rintro ⟨test, c2⟩ ⟨hacc, _⟩
  refine ensures_bind (ensures_any _) ?_
  intro test_code _
  refine ensures_bind (Parse_Expression_follows c0 c2 block1 hacc) ?_
  rintro ⟨right_exp, block3, c3⟩ hacc
  exact ensures_pure hacc

theorem Parse_Logic_follows (c0 c : cCompiler) (h : c0.follows c) :
    ensures c.Parse_Logic (fun r => c0.follows r.2) := by
  unfold cCompiler.Parse_Logic
  refine ensures_bind (Parse_Token_follows c0 c h) ?_
  rintro ⟨token, c1⟩ ⟨hacc, _⟩
  dsimp only
  repeat' (refine ensures_ite (fun _ => ensures_pure hacc) (fun _ => ?_))
  exact ensures_error _ _

theorem Parse_Conditional_loop_follows (c0 : cCompiler) :
    ∀ (fuel : Nat) (command : cBlock) (c : cCompiler), c0.follows c →
      ensures (cCompiler.Parse_Conditional_loop fuel command c) (fun r => c0.follows r.2) := by
  intro fuel
  induction fuel with
  | zero =>
    intro command c h
    unfold cCompiler.Parse_Conditional_loop
    exact ensures_ite (fun _ => ensures_error _ _) (fun _ => ensures_pure h)
  | succ fuel ih =>
    intro command c h
    unfold cCompiler.Parse_Conditional_loop
    refine ensures_ite (fun _ => ?_) (fun _ => ensures_pure h)
    refine ensures_bind (Parse_Logic_follows c0 c h) ?_
    rintro ⟨logic, c1⟩ hacc
    refine ensures_bind (Parse_Condition_follows c0 c1 _ hacc) ?_
    rintro ⟨condition, command2, c2⟩ hacc
    exact ih _ c2 hacc

theorem Parse_Conditional_follows (c0 c : cCompiler) (command : cBlock) (h : c0.follows c) :
    ensures (c.Parse_Conditional command) (fun r => c0.follows r.2) := by
  unfold cCompiler.Parse_Conditional
  refine ensures_bind (Parse_Condition_follows c0 c command h) ?_
  rintro ⟨condition, command1, c1⟩ hacc
  exact Parse_Conditional_loop_follows c0 _ _ c1 hacc

theorem next_block_step (c c' : cCompiler) (address : Int) (block : cBlock)
    (h : c.next_block = .ok (address, block, c')) :
    address = c.pointer ∧ 0 ≤ c.pointer ∧ c.pointer < c.memory.count ∧
      c' = { c with pointer := wrap_int (c.pointer + 1) } ∧
      c.memory.index c.pointer = .ok block := by
  unfold cCompiler.next_block cCompiler.advance at h
  simp only [bind, Except.bind, pure, Except.pure] at h
  split at h
  · cases h
  · rename_i b hb
    simp only [Except.ok.injEq, Prod.mk.injEq] at h
    obtain ⟨h1, h2, h3⟩ := h
    subst h1 h2 h3
    have := cMemory_index_ok _ _ _ hb
    exact ⟨rfl, this.1, this.2.1, rfl, hb⟩

theorem next_block_follows (c0 c : cCompiler) (h : c0.follows c) :
    ensures c.next_block (fun r => c0.follows r.2.2) := by
  rintro ⟨address, block, c'⟩ hr
  obtain ⟨-, h0, hlt, hc, -⟩ := next_block_step c c' address block hr
  subst hc
  refine follows_trans h ⟨⟨[], rfl⟩, rfl, ?_, fun _ _ => rfl⟩
  intro hn
  have hw : wrap_int (c.pointer + 1) = c.pointer + 1 :=
    wrap_int_of_range _ (by unfold INT_MIN; omega) (by omega)
  simp only [hw]
  exact ⟨by omega, fun _ => by omega⟩

theorem Parse_Statements_map_follows (c0 : cCompiler) :
    ∀ (fuel : Nat) (item : sToken) (index : Int) (c : cCompiler), c0.follows c →
      item ∈ c0.tokens →
      ensures (cCompiler.Parse_Statements_map fuel item index c) (fun c' => c0.follows c') := by
  intro fuel
  induction fuel with
  | zero =>
    intro item index c h hitem
    unfold cCompiler.Parse_Statements_map
    exact ensures_error _ _
  | succ fuel ih =>
    intro item index c h hitem
    unfold cCompiler.Parse_Statements_map
    refine ensures_ite (fun _ => ?_) (fun _ => ensures_pure h)
    refine ensures_bind (Parse_Token_follows c0 _ (follows_assign h item hitem index)) ?_
    rintro ⟨next, c1⟩ ⟨hacc, hnext⟩
    exact ih next _ c1 hacc hnext

theorem Parse_Statements_list_follows (c0 : cCompiler) :
    ∀ (rounds : Nat) (c : cCompiler), c0.follows c →
      ensures (cCompiler.Parse_Statements_list rounds c) (fun c' => c0.follows c') := by
  intro rounds
  induction rounds with
  | zero =>
    intro c h
    unfold cCompiler.Parse_Statements_list
    exact ensures_pure h
  | succ rounds ih =>
    intro c h
    unfold cCompiler.Parse_Statements_list
    refine ensures_bind (next_block_follows c0 c h) ?_
    rintro ⟨address, block, c1⟩ hacc
    exact ih _ (follows_write hacc _ _)

theorem Parse_Statements_object_follows (c0 : cCompiler) :
    ∀ (fuel : Nat) (property : sToken) (block : cBlock) (c : cCompiler), c0.follows c →
      ensures (cCompiler.Parse_Statements_object fuel property block c)
        (fun r => c0.follows r.2) := by
  intro fuel
  induction fuel with
  | zero =>
    intro property block c h
    unfold cCompiler.Parse_Statements_object
    exact ensures_error _ _
  | succ fuel ih =>
    intro property block c h
    unfold cCompiler.Parse_Statements_object
    refine ensures_ite (fun _ => ?_) (fun _ => ensures_pure h)
    refine ensures_bind (ensures_any _) ?_
    intro block1 _
    refine ensures_bind (Parse_Token_follows c0 c h) ?_
    rintro ⟨next, c1⟩ ⟨hacc, _⟩
    exact ih next block1 c1 hacc

/-- Every statement that returns leaves a compiler state that comes after the one it started
from. -/
theorem Parse_Statement_follows (c0 c : cCompiler) (h : c0.follows c) :
    ensures c.Parse_Statement (fun c' => c0.follows c') := by
  unfold cCompiler.Parse_Statement
  refine ensures_bind (Parse_Token_follows c0 c h) ?_
  rintro ⟨token, c1⟩ ⟨hacc, _⟩
  dsimp only
  -- define
  refine ensures_ite (fun _ => ?_) (fun _ => ?_)
  · refine ensures_bind (Parse_Token_follows c0 _ hacc) ?_
    rintro ⟨name, c2⟩ ⟨hacc, hname⟩
    refine ensures_bind (Parse_Keyword_follows c0 _ _ hacc) ?_
    intro c3 hacc
    refine ensures_bind (Parse_Token_follows c0 _ hacc) ?_
    rintro ⟨value, c4⟩ ⟨hacc, _⟩
    refine ensures_bind (ensures_any _) ?_
    intro number _
    exact ensures_pure (follows_assign hacc name hname number)
  -- map
  refine ensures_ite (fun _ => ?_) (fun _ => ?_)
  · refine ensures_bind (Parse_Token_follows c0 _ hacc) ?_
    rintro ⟨item, c2⟩ ⟨hacc, hitem⟩
    exact Parse_Statements_map_follows c0 _ item 0 c2 hacc hitem
  -- label
  refine ensures_ite (fun _ => ?_) (fun _ => ?_)
  · refine ensures_bind (Parse_Token_follows c0 _ hacc) ?_
    rintro ⟨name, c2⟩ ⟨hacc, hname⟩
    exact ensures_pure (follows_assign hacc name hname _)
  -- number
  refine ensures_ite (fun _ => ?_) (fun _ => ?_)
  · refine ensures_bind (Parse_Token_follows c0 _ hacc) ?_
    rintro ⟨number, c2⟩ ⟨hacc, _⟩
    refine ensures_bind (next_block_follows c0 _ hacc) ?_
    rintro ⟨address, block, c3⟩ hacc
    refine ensures_bind (ensures_any _) ?_
    intro value _
    exact ensures_pure (follows_write hacc _ _)
  -- list
  refine ensures_ite (fun _ => ?_) (fun _ => ?_)
  · refine ensures_bind (Parse_Token_follows c0 _ hacc) ?_
    rintro ⟨count, c2⟩ ⟨hacc, _⟩
    refine ensures_bind (ensures_any _) ?_
    intro item_count _
    exact Parse_Statements_list_follows c0 _ c2 hacc
  -- object
  refine ensures_ite (fun _ => ?_) (fun _ => ?_)
  · refine ensures_bind (Parse_Token_follows c0 _ hacc) ?_
    rintro ⟨property, c2⟩ ⟨hacc, _⟩
    refine ensures_bind (next_block_follows c0 _ hacc) ?_
    rintro ⟨address, block, c3⟩ hacc
    refine ensures_bind (Parse_Statements_object_follows c0 _ property block c3 hacc) ?_
    rintro ⟨block1, c4⟩ hacc
    exact ensures_pure (follows_write hacc _ _)
  -- remark
  refine ensures_ite (fun _ => ?_) (fun _ => ?_)
  · refine ensures_bind (Parse_Token_follows c0 _ hacc) ?_
    rintro ⟨inner, c2⟩ ⟨hacc, _⟩
    exact ensures_ite (fun _ => ensures_error _ _) (fun _ => ensures_pure hacc)
  -- the commands
  refine ensures_ite (fun _ => ?_) (fun _ => ?_)
  · refine ensures_bind (next_block_follows c0 _ hacc) ?_
    rintro ⟨address, command, c2⟩ hacc
    refine ensures_bind (Parse_Expression_follows c0 _ _ hacc) ?_
    rintro ⟨index, command, c2⟩ hacc
    refine ensures_bind (Parse_Keyword_follows c0 _ _ hacc) ?_
    intro c2 hacc
    refine ensures_bind (Parse_Expression_follows c0 _ _ hacc) ?_
    rintro ⟨index, command, c2⟩ hacc
    exact ensures_pure (follows_write hacc _ _)
  refine ensures_ite (fun _ => ?_) (fun _ => ?_)
  · refine ensures_bind (next_block_follows c0 _ hacc) ?_
    rintro ⟨address, command, c2⟩ hacc
    refine ensures_bind (Parse_Expression_follows c0 _ _ hacc) ?_
    rintro ⟨index, command, c2⟩ hacc
    refine ensures_bind (Parse_Expression_follows c0 _ _ hacc) ?_
    rintro ⟨index, command, c2⟩ hacc
    refine ensures_bind (Parse_Keyword_follows c0 _ _ hacc) ?_
    intro c2 hacc
    refine ensures_bind (Parse_Expression_follows c0 _ _ hacc) ?_
    rintro ⟨index, command, c2⟩ hacc
    exact ensures_pure (follows_write hacc _ _)
  refine ensures_ite (fun _ => ?_) (fun _ => ?_)
  · refine ensures_bind (next_block_follows c0 _ hacc) ?_
    rintro ⟨address, command, c2⟩ hacc
    refine ensures_bind (Parse_Conditional_follows c0 _ _ hacc) ?_
    rintro ⟨command, c2⟩ hacc
    refine ensures_bind (Parse_Keyword_follows c0 _ _ hacc) ?_
    intro c2 hacc
    refine ensures_bind (Parse_Expression_follows c0 _ _ hacc) ?_
    rintro ⟨index, command, c2⟩ hacc
    refine ensures_bind (Parse_Keyword_follows c0 _ _ hacc) ?_
    intro c2 hacc
    refine ensures_bind (Parse_Expression_follows c0 _ _ hacc) ?_
    rintro ⟨index, command, c2⟩ hacc
    exact ensures_pure (follows_write hacc _ _)
  refine ensures_ite (fun _ => ?_) (fun _ => ?_)
  · refine ensures_bind (next_block_follows c0 _ hacc) ?_
    rintro ⟨address, command, c2⟩ hacc
    refine ensures_bind (Parse_Expression_follows c0 _ _ hacc) ?_
    rintro ⟨index, command, c2⟩ hacc
    exact ensures_pure (follows_write hacc _ _)
  refine ensures_ite (fun _ => ?_) (fun _ => ?_)
  · refine ensures_bind (next_block_follows c0 _ hacc) ?_
    rintro ⟨address, command, c2⟩ hacc
    exact ensures_pure (follows_write hacc _ _)
  refine ensures_ite (fun _ => ?_) (fun _ => ?_)
  · refine ensures_bind (next_block_follows c0 _ hacc) ?_
    rintro ⟨address, command, c2⟩ hacc
    exact ensures_pure (follows_write hacc _ _)
  refine ensures_ite (fun _ => ?_) (fun _ => ?_)
  · refine ensures_bind (next_block_follows c0 _ hacc) ?_
    rintro ⟨address, command, c2⟩ hacc
    refine ensures_bind (Parse_Expression_follows c0 _ _ hacc) ?_
    rintro ⟨index, command, c2⟩ hacc
    refine ensures_bind (Parse_Keyword_follows c0 _ _ hacc) ?_
    intro c2 hacc
    refine ensures_bind (Parse_Expression_follows c0 _ _ hacc) ?_
    rintro ⟨index, command, c2⟩ hacc
    refine ensures_bind (Parse_Expression_follows c0 _ _ hacc) ?_
    rintro ⟨index, command, c2⟩ hacc
    refine ensures_bind (Parse_Keyword_follows c0 _ _ hacc) ?_
    intro c2 hacc
    refine ensures_bind (Parse_Expression_follows c0 _ _ hacc) ?_
    rintro ⟨index, command, c2⟩ hacc
    refine ensures_bind (Parse_Expression_follows c0 _ _ hacc) ?_
    rintro ⟨index, command, c2⟩ hacc
    refine ensures_bind (Parse_Expression_follows c0 _ _ hacc) ?_
    rintro ⟨index, command, c2⟩ hacc
    exact ensures_pure (follows_write hacc _ _)
  refine ensures_ite (fun _ => ?_) (fun _ => ?_)
  · refine ensures_bind (next_block_follows c0 _ hacc) ?_
    rintro ⟨address, command, c2⟩ hacc
    refine ensures_bind (Parse_Expression_follows c0 _ _ hacc) ?_
    rintro ⟨index, command, c2⟩ hacc
    refine ensures_bind (Parse_Keyword_follows c0 _ _ hacc) ?_
    intro c2 hacc
    refine ensures_bind (Parse_Expression_follows c0 _ _ hacc) ?_
    rintro ⟨index, command, c2⟩ hacc
    refine ensures_bind (Parse_Expression_follows c0 _ _ hacc) ?_
    rintro ⟨index, command, c2⟩ hacc
    refine ensures_bind (Parse_Expression_follows c0 _ _ hacc) ?_
    rintro ⟨index, command, c2⟩ hacc
    refine ensures_bind (Parse_Expression_follows c0 _ _ hacc) ?_
    rintro ⟨index, command, c2⟩ hacc
    refine ensures_bind (Parse_Keyword_follows c0 _ _ hacc) ?_
    intro c2 hacc
    refine ensures_bind (Parse_Expression_follows c0 _ _ hacc) ?_
    rintro ⟨index, command, c2⟩ hacc
    refine ensures_bind (Parse_Keyword_follows c0 _ _ hacc) ?_
    intro c2 hacc
    refine ensures_bind (Parse_Expression_follows c0 _ _ hacc) ?_
    rintro ⟨index, command, c2⟩ hacc
    refine ensures_bind (Parse_Expression_follows c0 _ _ hacc) ?_
    rintro ⟨index, command, c2⟩ hacc
    exact ensures_pure (follows_write hacc _ _)
  refine ensures_ite (fun _ => ?_) (fun _ => ?_)
  · refine ensures_bind (next_block_follows c0 _ hacc) ?_
    rintro ⟨address, command, c2⟩ hacc
    exact ensures_pure (follows_write hacc _ _)
  refine ensures_ite (fun _ => ?_) (fun _ => ?_)
  · refine ensures_bind (next_block_follows c0 _ hacc) ?_
    rintro ⟨address, command, c2⟩ hacc
    refine ensures_bind (Parse_Expression_follows c0 _ _ hacc) ?_
    rintro ⟨index, command, c2⟩ hacc
    exact ensures_pure (follows_write hacc _ _)
  refine ensures_ite (fun _ => ?_) (fun _ => ?_)
  · refine ensures_bind (next_block_follows c0 _ hacc) ?_
    rintro ⟨address, command, c2⟩ hacc
    refine ensures_bind (Parse_Expression_follows c0 _ _ hacc) ?_
    rintro ⟨index, command, c2⟩ hacc
    exact ensures_pure (follows_write hacc _ _)
  refine ensures_ite (fun _ => ?_) (fun _ => ?_)
  · refine ensures_bind (next_block_follows c0 _ hacc) ?_
    rintro ⟨address, command, c2⟩ hacc
    exact ensures_pure (follows_write hacc _ _)
  refine ensures_ite (fun _ => ?_) (fun _ => ?_)
  · refine ensures_bind (next_block_follows c0 _ hacc) ?_
    rintro ⟨address, command, c2⟩ hacc
    refine ensures_bind (Parse_Expression_follows c0 _ _ hacc) ?_
    rintro ⟨index, command, c2⟩ hacc
    exact ensures_pure (follows_write hacc _ _)
  refine ensures_ite (fun _ => ?_) (fun _ => ?_)
  · refine ensures_bind (next_block_follows c0 _ hacc) ?_
    rintro ⟨address, command, c2⟩ hacc
    refine ensures_bind (Parse_Expression_follows c0 _ _ hacc) ?_
    rintro ⟨index, command, c2⟩ hacc
    exact ensures_pure (follows_write hacc _ _)
  refine ensures_ite (fun _ => ?_) (fun _ => ?_)
  · refine ensures_bind (next_block_follows c0 _ hacc) ?_
    rintro ⟨address, command, c2⟩ hacc
    refine ensures_bind (Parse_Expression_follows c0 _ _ hacc) ?_
    rintro ⟨index, command, c2⟩ hacc
    refine ensures_bind (Parse_Expression_follows c0 _ _ hacc) ?_
    rintro ⟨index, command, c2⟩ hacc
    refine ensures_bind (Parse_Expression_follows c0 _ _ hacc) ?_
    rintro ⟨index, command, c2⟩ hacc
    exact ensures_pure (follows_write hacc _ _)
  refine ensures_ite (fun _ => ?_) (fun _ => ?_)
  · refine ensures_bind (next_block_follows c0 _ hacc) ?_
    rintro ⟨address, command, c2⟩ hacc
    refine ensures_bind (Parse_Expression_follows c0 _ _ hacc) ?_
    rintro ⟨index, command, c2⟩ hacc
    refine ensures_bind (Parse_Keyword_follows c0 _ _ hacc) ?_
    intro c2 hacc
    refine ensures_bind (Parse_Expression_follows c0 _ _ hacc) ?_
    rintro ⟨index, command, c2⟩ hacc
    refine ensures_bind (Parse_Keyword_follows c0 _ _ hacc) ?_
    intro c2 hacc
    refine ensures_bind (Parse_Expression_follows c0 _ _ hacc) ?_
    rintro ⟨index, command, c2⟩ hacc
    exact ensures_pure (follows_write hacc _ _)
  refine ensures_ite (fun _ => ?_) (fun _ => ?_)
  · refine ensures_bind (next_block_follows c0 _ hacc) ?_
    rintro ⟨address, command, c2⟩ hacc
    refine ensures_bind (Parse_Expression_follows c0 _ _ hacc) ?_
    rintro ⟨index, command, c2⟩ hacc
    refine ensures_bind (Parse_Keyword_follows c0 _ _ hacc) ?_
    intro c2 hacc
    refine ensures_bind (Parse_Expression_follows c0 _ _ hacc) ?_
    rintro ⟨index, command, c2⟩ hacc
    refine ensures_bind (Parse_Keyword_follows c0 _ _ hacc) ?_
    intro c2 hacc
    refine ensures_bind (Parse_Expression_follows c0 _ _ hacc) ?_
    rintro ⟨index, command, c2⟩ hacc
    exact ensures_pure (follows_write hacc _ _)
  refine ensures_ite (fun _ => ?_) (fun _ => ?_)
  · refine ensures_bind (next_block_follows c0 _ hacc) ?_
    rintro ⟨address, command, c2⟩ hacc
    refine ensures_bind (Parse_Expression_follows c0 _ _ hacc) ?_
    rintro ⟨index, command, c2⟩ hacc
    exact ensures_pure (follows_write hacc _ _)
  refine ensures_ite (fun _ => ?_) (fun _ => ?_)
  · refine ensures_bind (next_block_follows c0 _ hacc) ?_
    rintro ⟨address, command, c2⟩ hacc
    refine ensures_bind (Parse_Expression_follows c0 _ _ hacc) ?_
    rintro ⟨index, command, c2⟩ hacc
    exact ensures_pure (follows_write hacc _ _)
  refine ensures_ite (fun _ => ?_) (fun _ => ?_)
  · refine ensures_bind (next_block_follows c0 _ hacc) ?_
    rintro ⟨address, command, c2⟩ hacc
    refine ensures_bind (Parse_Expression_follows c0 _ _ hacc) ?_
    rintro ⟨index, command, c2⟩ hacc
    refine ensures_bind (Parse_Keyword_follows c0 _ _ hacc) ?_
    intro c2 hacc
    refine ensures_bind (Parse_Expression_follows c0 _ _ hacc) ?_
    rintro ⟨index, command, c2⟩ hacc
    refine ensures_bind (Parse_Keyword_follows c0 _ _ hacc) ?_
    intro c2 hacc
    refine ensures_bind (Parse_Expression_follows c0 _ _ hacc) ?_
    rintro ⟨index, command, c2⟩ hacc
    refine ensures_bind (Parse_Keyword_follows c0 _ _ hacc) ?_
    intro c2 hacc
    refine ensures_bind (Parse_Expression_follows c0 _ _ hacc) ?_
    rintro ⟨index, command, c2⟩ hacc
    exact ensures_pure (follows_write hacc _ _)
  refine ensures_ite (fun _ => ?_) (fun _ => ?_)
  · refine ensures_bind (next_block_follows c0 _ hacc) ?_
    rintro ⟨address, command, c2⟩ hacc
    refine ensures_bind (Parse_Expression_follows c0 _ _ hacc) ?_
    rintro ⟨index, command, c2⟩ hacc
    refine ensures_bind (Parse_Keyword_follows c0 _ _ hacc) ?_
    intro c2 hacc
    refine ensures_bind (Parse_Expression_follows c0 _ _ hacc) ?_
    rintro ⟨index, command, c2⟩ hacc
    refine ensures_bind (Parse_Expression_follows c0 _ _ hacc) ?_
    rintro ⟨index, command, c2⟩ hacc
    exact ensures_pure (follows_write hacc _ _)
  refine ensures_ite (fun _ => ?_) (fun _ => ?_)
  · refine ensures_bind (next_block_follows c0 _ hacc) ?_
    rintro ⟨address, command, c2⟩ hacc
    refine ensures_bind (Parse_Expression_follows c0 _ _ hacc) ?_
    rintro ⟨index, command, c2⟩ hacc
    refine ensures_bind (Parse_Keyword_follows c0 _ _ hacc) ?_
    intro c2 hacc
    refine ensures_bind (Parse_Expression_follows c0 _ _ hacc) ?_
    rintro ⟨index, command, c2⟩ hacc
    refine ensures_bind (Parse_Expression_follows c0 _ _ hacc) ?_
    rintro ⟨index, command, c2⟩ hacc
    exact ensures_pure (follows_write hacc _ _)
  exact ensures_error _ _

theorem after_statements_follows (c0 : cCompiler) :
    ∀ (k : Nat) (c : cCompiler), c0.follows c →
      ensures (cCompiler.after_statements k c) (fun c' => c0.follows c') := by
  intro k
  induction k with
  | zero =>
    intro c h
    exact ensures_pure h
  | succ k ih =>
    intro c h
    unfold cCompiler.after_statements
    exact ensures_bind (Parse_Statement_follows c0 c h) (fun c1 hacc => ih c1 hacc)

theorem Parse_Statements_loop_follows (c0 : cCompiler) :
    ∀ (fuel : Nat) (c : cCompiler), c0.follows c →
      ensures (cCompiler.Parse_Statements_loop fuel c) (fun c' => c0.follows c') := by
  intro fuel
  induction fuel with
  | zero =>
    intro c h
    unfold cCompiler.Parse_Statements_loop
    exact ensures_ite (fun _ => ensures_error _ _) (fun _ => ensures_pure h)
  | succ fuel ih =>
    intro c h
    unfold cCompiler.Parse_Statements_loop
    refine ensures_ite (fun _ => ?_) (fun _ => ensures_pure h)
    exact ensures_bind (Parse_Statement_follows c0 c h) (fun c1 hacc => ih c1 hacc)

theorem bracket_injective (a b : String) (h : "[" ++ a ++ "]" = "[" ++ b ++ "]") : a = b := by
  have hd := congrArg String.data h
  simp only [String.data_append, List.append_assoc] at hd
  exact String.ext (List.append_cancel_right (List.append_cancel_left hd))

/-- C17 (amended): let `name` be one of the predefined symbols `none`, `take-no-jump`, `true`,
`false` and `value` its default (0, -1, 1, 0).  For every program that compiles and in which no
token is the bare text `name`, so that no `define`, `map` or `label` statement can bind it again,
the symbol table that placeholders are resolved against maps `[name]` to `value`, and every
operand that refers to `[name]` carries Number `value` after compilation; for `[take-no-jump]`
this is the sentinel -1. -/
theorem predefined_symbol_kept (tokens : List sToken) (memory : cMemory) (c : cCompiler)
    (name : String) (value : Int)
    (hname : (name, value) ∈ [("none", (0 : Int)), ("take-no-jump", -1), ("true", 1),
      ("false", 0)])
    (hfree : ∀ token ∈ tokens, token.token ≠ name)
    (h : cCompiler.new tokens memory = .ok c) :
    c.symtab.find ("[" ++ name ++ "]") = some value ∧
    c.memory.every_operand (fun operand =>
      operand.placeholder = "[" ++ name ++ "]" →
        operand.value.type = eVALUE_NUMBER ∧ operand.value.number = value) := by
  have hstart : (cCompiler.start tokens memory).symtab.find ("[" ++ name ++ "]") = some value := by
    simp only [List.mem_cons, Prod.mk.injEq, List.mem_singleton, List.not_mem_nil, or_false]
      at hname
    rcases hname with ⟨h1, h2⟩ | ⟨h1, h2⟩ | ⟨h1, h2⟩ | ⟨h1, h2⟩ <;> subst h1 h2 <;> rfl
  unfold cCompiler.new at h
  simp only [bind, Except.bind] at h
  split at h
  · cases h
  · rename_i c1 hc1
    have hf := Parse_Statements_loop_follows (cCompiler.start tokens memory) _ _
      (follows_refl _) c1 hc1
    have hsym : c1.symtab.find ("[" ++ name ++ "]") = some value := by
      rw [hf.2.2.2 _ (fun token htoken heq => hfree token htoken (bracket_injective _ _ heq).symm)]
      exact hstart
    unfold cCompiler.Replace_Placeholders at h
    simp only [bind, Except.bind, pure, Except.pure] at h
    split at h
    · cases h
    · rename_i blocks hblocks
      cases h
      refine ⟨hsym, ?_⟩
      intro block hblock expression hexpression i hi heven hplace
      have hres := Replace_Placeholders_blocks_resolved _ _ _ hblocks block hblock expression
        hexpression i hi heven
      rcases hres with hempty | ⟨v, hv, htype, hnumber⟩
      · rw [hplace] at hempty
        have := congrArg String.data hempty
        simp [String.data_append] at this
      · rw [hplace, hsym] at hv
        cases hv
        exact ⟨htype, hnumber⟩

theorem predefined_symbol_kept_witness :
    ∃ c, cCompiler.new (tokens_of ["label", "top", "push", "%[take-no-jump]", "stop"])
        (cMemory.new 4) = .ok c ∧
      c.symtab.find ("[" ++ "take-no-jump" ++ "]") = some (-1) ∧
      c.memory.every_operand (fun operand =>
        operand.placeholder = "[" ++ "take-no-jump" ++ "]" →
          operand.value.type = eVALUE_NUMBER ∧ operand.value.number = -1) := by
  obtain ⟨c, h⟩ := returns_with_ok
    (cCompiler.new (tokens_of ["label", "top", "push", "%[take-no-jump]", "stop"])
      (cMemory.new 4)) (by decide!)
  exact ⟨c, h, predefined_symbol_kept _ _ c "take-no-jump" (-1) (by decide) (by decide) h⟩

/-- C17 (as stated) fails: the program `define take-no-jump as 5 / push %[take-no-jump]`
compiles, the symbol table then maps `[take-no-jump]` to 5, and the operand that refers to it
carries 5, not -1. -/
theorem predefined_symbol_rebound :
    returns_with
      (cCompiler.new (tokens_of ["define", "take-no-jump", "as", "5", "push", "%[take-no-jump]"])
        (cMemory.new 2))
      (fun c =>
        c.symtab.find "[take-no-jump]" = some 5 ∧
        returns_with (c.memory.index 0) (fun block =>
          block.expressions = [[{ operand_number 5 with placeholder := "[take-no-jump]" }]])) := by
  decide!

/-- C18 (amended): take a compiler state whose write pointer is within the memory, of size `n`
less than the largest `int`.  In every state reached from it by statements that return, the write
pointer has not decreased and is at most `n`, and the memory still has `n` cells.  The
post-increment that precedes the next fetch of a block then leaves the pointer at most `n + 1`,
and when it leaves `n + 1` (the memory being full) the fetch throws the invalid-address error. -/
theorem write_pointer_monotone_bounded (c : cCompiler) (k : Nat) (c' : cCompiler)
    (hsize : c.memory.count < INT_MAX) (hzero : 0 ≤ c.pointer)
    (hstart : c.pointer ≤ c.memory.count)
    (h : cCompiler.after_statements k c = .ok c') :
    c.pointer ≤ c'.pointer ∧ c'.pointer ≤ c.memory.count ∧ c'.memory.count = c.memory.count ∧
    c'.pointer ≤ c'.advance.2.pointer ∧ c'.advance.2.pointer ≤ c.memory.count + 1 ∧
    (c.memory.count < c'.advance.2.pointer →
      c'.next_block =
        .error (.cError ("Invalid memory address " ++ Number_To_Text c'.pointer ++ "."))) := by
  have hf := after_statements_follows c k c (follows_refl c) c' h
  obtain ⟨-, hn, hp, -⟩ := hf
  have hp := hp (by omega)
  have h2 := hp.2 hstart
  have hw : wrap_int (c'.pointer + 1) = c'.pointer + 1 := by
    apply wrap_int_of_range
    · unfold INT_MIN
      omega
    · omega
  refine ⟨hp.1, h2, hn, ?_, ?_, ?_⟩
  · simp only [cCompiler.advance, hw]
    omega
  · simp only [cCompiler.advance, hw]
    omega
  · simp only [cCompiler.advance, hw]
    intro hfull
    unfold cCompiler.next_block cCompiler.advance cMemory.index
    simp only [bind, Except.bind]
    rw [if_pos (Or.inr (by rw [hn]; omega))]

theorem write_pointer_monotone_bounded_witness :
    ∃ c', cCompiler.after_statements 2
        (cCompiler.start (tokens_of ["number", "7", "push", "%1", "stop"]) (cMemory.new 2)) =
        .ok c' ∧
      (cCompiler.start (tokens_of ["number", "7", "push", "%1", "stop"]) (cMemory.new 2)).pointer
        ≤ c'.pointer ∧
      c'.pointer ≤ (cCompiler.start (tokens_of ["number", "7", "push", "%1", "stop"])
        (cMemory.new 2)).memory.count ∧
      c'.memory.count = (cCompiler.start (tokens_of ["number", "7", "push", "%1", "stop"])
        (cMemory.new 2)).memory.count ∧
      c'.pointer ≤ c'.advance.2.pointer ∧
      c'.advance.2.pointer ≤ (cCompiler.start (tokens_of ["number", "7", "push", "%1", "stop"])
        (cMemory.new 2)).memory.count + 1 ∧
      ((cCompiler.start (tokens_of ["number", "7", "push", "%1", "stop"])
          (cMemory.new 2)).memory.count < c'.advance.2.pointer →
        c'.next_block =
          .error (.cError ("Invalid memory address " ++ Number_To_Text c'.pointer ++ "."))) := by
  obtain ⟨c', h⟩ := returns_with_ok
    (cCompiler.after_statements 2
      (cCompiler.start (tokens_of ["number", "7", "push", "%1", "stop"]) (cMemory.new 2)))
    (by decide!)
  exact ⟨c', h, write_pointer_monotone_bounded _ 2 c' (by decide) (by decide) (by decide) h⟩

/-- C18 (as stated) fails: in a memory of 2 cells, after the two statements `number 7` and
`push %1` have been parsed the write pointer is 2; the statement `stop` then advances it to 3,
which exceeds the size 2, before its fetch of the block throws. -/
theorem write_pointer_exceeds_full_memory :
    returns_with
      (cCompiler.after_statements 2
        (cCompiler.start (tokens_of ["number", "7", "push", "%1", "stop"]) (cMemory.new 2)))
      (fun c =>
        c.memory.count = 2 ∧ c.pointer = 2 ∧ c.tokens = tokens_of ["stop"] ∧
        c.advance.2.pointer = 3 ∧
        c.next_block = .error (.cError "Invalid memory address 2.") ∧
        c.Parse_Statement = .error (.cError "Invalid memory address 2.")) := by
  decide!

/-! ### Composite texts and GET_OBJECT -/

theorem pieces_single (c x : Char) (rest piece : List Char) :
    Parse_Sausage_Text_pieces [c] (x :: rest) 0 piece =
      if c = x then String.mk piece.reverse :: Parse_Sausage_Text_pieces [c] rest 0 []
      else Parse_Sausage_Text_pieces [c] rest 0 (x :: piece) := by
  by_cases h : c = x
  · subst h
    simp [Parse_Sausage_Text_pieces, strip_separator]
  · simp [Parse_Sausage_Text_pieces, strip_separator, h]

theorem pieces_without_separator (c : Char) :
    ∀ (text piece : List Char), c ∉ text →
      Parse_Sausage_Text_pieces [c] text 0 piece = [String.mk (piece.reverse ++ text)]
  | [], piece, _ => by simp [Parse_Sausage_Text_pieces]
  | x :: rest, piece, h => by
    have hx : c ≠ x := fun e => h (by rw [e]; exact List.mem_cons_self _ _)
    have hrest : c ∉ rest := fun e => h (List.mem_cons_of_mem _ e)
    rw [pieces_single, if_neg hx, pieces_without_separator c rest (x :: piece) hrest]
    simp

theorem pieces_at_separator (c : Char) :
    ∀ (before after piece : List Char), c ∉ before →
      Parse_Sausage_Text_pieces [c] (before ++ c :: after) 0 piece =
        String.mk (piece.reverse ++ before) :: Parse_Sausage_Text_pieces [c] after 0 []
  | [], after, piece, _ => by
    rw [List.nil_append, pieces_single, if_pos rfl]
    simp
  | x :: rest, after, piece, h => by
    have hx : c ≠ x := fun e => h (by rw [e]; exact List.mem_cons_self _ _)
    have hrest : c ∉ rest := fun e => h (List.mem_cons_of_mem _ e)
    rw [List.cons_append, pieces_single, if_neg hx,
      pieces_at_separator c rest after (x :: piece) hrest]
    simp

theorem Parse_Sausage_Text_join (c : Char) :
    ∀ (texts : List String), texts ≠ [] → (∀ text ∈ texts, c ∉ text.data) →
      Parse_Sausage_Text (join_texts (String.mk [c]) texts) (String.mk [c]) = texts
  | [], h, _ => absurd rfl h
  | [text], _, hfree => by
    unfold Parse_Sausage_Text
    simp only [join_texts]
    rw [pieces_without_separator c _ _ (hfree text (List.mem_singleton.mpr rfl))]
    simp
  | text :: next :: rest, _, hfree => by
    have ih := Parse_Sausage_Text_join c (next :: rest) (by simp)
      (fun t ht => hfree t (List.mem_cons_of_mem _ ht))
    unfold Parse_Sausage_Text at ih ⊢
    simp only [join_texts, String.data_append, List.append_assoc, List.singleton_append]
    rw [pieces_at_separator c _ _ _ (hfree text (List.mem_cons_self _ _))]
    rw [ih]
    simp

theorem cHash_find_none_of_not_exist {V : Type} (h : cHash String V) (key : String)
    (hno : h.Does_Key_Exist key = false) :
    h.items.find? (fun kv => decide (kv.1 = key)) = none := by
  unfold cHash.Does_Key_Exist cHash.find at hno
  cases hf : h.items.find? (fun kv => decide (kv.1 = key)) with
  | none => rfl
  | some kv => rw [hf] at hno; simp at hno

theorem cHash_find_assign_same {V : Type} (h : cHash String V) (key : String) (value : V) :
    (h.assign key value).find key = some value := by
  unfold cHash.assign
  split
  · rename_i hex
    unfold cHash.find
    simp only
    rw [find_map_keeping_keys (fun kv => if kv.1 = key then (kv.1, value) else kv)
      (fun kv => by dsimp only; split <;> rfl)]
    cases hf : h.items.find? (fun kv => decide (kv.1 = key)) with
    | none =>
      unfold cHash.Does_Key_Exist cHash.find at hex
      rw [hf] at hex
      simp at hex
    | some kv =>
      have hkv : kv.1 = key := by
        have := List.find?_some hf
        simpa using this
      simp [hkv]
  · rename_i hno
    have hn := cHash_find_none_of_not_exist h key (by simpa using hno)
    unfold cHash.find
    simp only [List.find?_append, hn]
    simp

theorem cHash_find_update {V : Type} (h : cHash String V) (key other : String) (dflt w : V)
    (f : V → V) (hf : ∀ v, f v = w) :
    (h.update key dflt f).find other = if other = key then some w else h.find other := by
  unfold cHash.update cHash.index
  cases hfind : h.find key with
  | some v =>
    simp only [hf]
    by_cases ho : other = key
    · rw [if_pos ho, ho]; exact cHash_find_assign_same _ _ _
    · rw [if_neg ho]; exact cHash_find_assign_ne _ _ _ _ ho
  | none =>
    simp only [hf]
    by_cases ho : other = key
    · rw [if_pos ho, ho]; exact cHash_find_assign_same _ _ _
    · rw [if_neg ho, cHash_find_assign_ne _ _ _ _ ho]
      unfold cHash.find
      simp only [List.find?_append]
      cases h.items.find? (fun kv => decide (kv.1 = other)) with
      | some kv => rfl
      | none =>
        have : ¬ key = other := fun e => ho e.symm
        simp [this]

theorem assign_parsed_find (fields : tObject) (name value : String) :
    ∃ fields', assign_parsed fields name value = .ok fields' ∧
      ∀ key, fields'.find key =
        if key = name then some (parsed_value value) else fields.find key := by
  unfold assign_parsed parsed_value
  cases ht : Text_To_Number value with
  | ok number =>
    refine ⟨_, rfl, fun key => ?_⟩
    rw [cHash_find_update (fields.assign name cValue.new) name key cValue.new (Number number)
      (fun v => v.Set_Number number) (fun _ => rfl)]
    by_cases hk : key = name
    · simp [hk]
    · simp only [hk, if_false]
      exact cHash_find_assign_ne _ _ _ _ hk
  | error e =>
    have he := Text_To_Number_error _ _ ht
    subst he
    refine ⟨_, rfl, fun key => ?_⟩
    rw [cHash_find_update (fields.assign name cValue.new) name key cValue.new (Text value)
      (fun v => v.Set_String value) (fun _ => rfl)]
    by_cases hk : key = name
    · simp [hk]
    · simp only [hk, if_false]
      exact cHash_find_assign_ne _ _ _ _ hk

theorem last_value_append (before after : List (String × String)) (key : String) :
    last_value (before ++ after) key =
      match last_value after key with
      | some text => some text
      | none => last_value before key := by
  unfold last_value
  rw [List.reverse_append, List.find?_append]
  cases after.reverse.find? (fun pair => decide (pair.1 = key)) <;> rfl

theorem overlay_cons (pair : String × String) (rest : List (String × String))
    (fields fields1 : tObject)
    (h1 : ∀ key, fields1.find key =
      if key = pair.1 then some (parsed_value pair.2) else fields.find key) (key : String) :
    overlay rest fields1 key = overlay (pair :: rest) fields key := by
  unfold overlay
  have := last_value_append [pair] rest key
  rw [List.singleton_append] at this
  rw [this]
  cases last_value rest key with
  | some text => rfl
  | none =>
    simp only [h1 key]
    unfold last_value
    simp only [List.reverse_singleton, List.find?_cons, List.find?_nil]
    by_cases hk : key = pair.1
    · simp [hk]
    · have : ¬ pair.1 = key := fun e => hk e.symm
      simp [hk, this]

theorem overlay_append (before after : List (String × String)) (fields fields1 : tObject)
    (h1 : ∀ key, fields1.find key = overlay before fields key) (key : String) :
    overlay after fields1 key = overlay (before ++ after) fields key := by
  unfold overlay
  rw [last_value_append]
  cases last_value after key with
  | some text => rfl
  | none =>
    simp only [h1 key]
    rfl

theorem Parse_Sausage_Text_pair (pair : String × String) (hkey : ':' ∉ pair.1.data)
    (hvalue : ':' ∉ pair.2.data) : Parse_Sausage_Text (pair_text pair) ":" = [pair.1, pair.2] :=
  Parse_Sausage_Text_join ':' [pair.1, pair.2] (by simp)
    (fun text ht => by
      simp only [List.mem_cons, List.mem_singleton, List.not_mem_nil, or_false] at ht
      rcases ht with h | h <;> rw [h] <;> assumption)

theorem Get_Object_properties_overlay (sim : cSimulator) (command : cBlock) :
    ∀ (item : List (String × String)) (fields : tObject),
      (∀ pair ∈ item, plain_text pair.1 ∧ plain_text pair.2) →
      ∃ fields', cSimulator.Get_Object_properties sim command (item.map pair_text) fields =
          .ok fields' ∧
        ∀ key, fields'.find key = overlay item fields key
  | [], fields, _ => ⟨fields, rfl, fun _ => rfl⟩
  | pair :: rest, fields, h => by
    have hp := h pair (List.mem_cons_self _ _)
    obtain ⟨fields1, e1, f1⟩ := assign_parsed_find fields pair.1 pair.2
    obtain ⟨fields', e2, f2⟩ := Get_Object_properties_overlay sim command rest fields1
      (fun p hp => h p (List.mem_cons_of_mem _ hp))
    refine ⟨fields', ?_, fun key => ?_⟩
    · rw [List.map_cons, cSimulator.Get_Object_properties]
      simp only [Parse_Sausage_Text_pair pair hp.1.2.2 hp.2.2.2, e1, bind, Except.bind]
      exact e2
    · rw [f2 key]
      exact overlay_cons pair rest fields fields1 f1 key

theorem join_texts_free (c : Char) (separator : String) (hsep : c ∉ separator.data) :
    ∀ texts : List String, (∀ text ∈ texts, c ∉ text.data) →
      c ∉ (join_texts separator texts).data
  | [], _ => by simp [join_texts]
  | [text], h => by simpa [join_texts] using h text (List.mem_singleton.mpr rfl)
  | text :: next :: rest, h => by
    have ih := join_texts_free c separator hsep (next :: rest)
      (fun t ht => h t (List.mem_cons_of_mem _ ht))
    have h1 := h text (List.mem_cons_self _ _)
    simp only [join_texts, String.data_append, List.mem_append, not_or]
    exact ⟨⟨h1, hsep⟩, ih⟩

theorem pair_text_free (c : Char) (pair : String × String) (hc : c ≠ ':')
    (hkey : c ∉ pair.1.data) (hvalue : c ∉ pair.2.data) : c ∉ (pair_text pair).data := by
  unfold pair_text
  simp only [String.data_append, List.mem_append, not_or]
  refine ⟨⟨hkey, ?_⟩, hvalue⟩
  intro hm
  have : c = ':' := by simpa using hm
  exact hc this

theorem Parse_Sausage_Text_item (item : List (String × String)) (hne : item ≠ [])
    (h : ∀ pair ∈ item, plain_text pair.1 ∧ plain_text pair.2) :
    Parse_Sausage_Text (item_text item) ";" = item.map pair_text :=
  Parse_Sausage_Text_join ';' (item.map pair_text) (by simpa using hne)
    (fun text ht => by
      obtain ⟨pair, hp, rfl⟩ := List.mem_map.mp ht
      exact pair_text_free ';' pair (by decide) (h pair hp).1.2.1 (h pair hp).2.2.1)

theorem item_text_free (item : List (String × String))
    (h : ∀ pair ∈ item, plain_text pair.1 ∧ plain_text pair.2) :
    '|' ∉ (item_text item).data :=
  join_texts_free '|' ";" (by decide) (item.map pair_text)
    (fun text ht => by
      obtain ⟨pair, hp, rfl⟩ := List.mem_map.mp ht
      exact pair_text_free '|' pair (by decide) (h pair hp).1.1 (h pair hp).2.1)

theorem Parse_Sausage_Text_composite (items : List (List (String × String))) (hne : items ≠ [])
    (h : ∀ item ∈ items, ∀ pair ∈ item, plain_text pair.1 ∧ plain_text pair.2) :
    Parse_Sausage_Text (composite_text items) "|" = items.map item_text :=
  Parse_Sausage_Text_join '|' (items.map item_text) (by simpa using hne)
    (fun text ht => by
      obtain ⟨item, hi, rfl⟩ := List.mem_map.mp ht
      exact item_text_free item (h item hi))

theorem Get_Object_objects_overlay (sim : cSimulator) (command : cBlock) :
    ∀ (items : List (List (String × String))) (fields : tObject),
      (∀ item ∈ items, item ≠ [] ∧ ∀ pair ∈ item, plain_text pair.1 ∧ plain_text pair.2) →
      ∃ fields', cSimulator.Get_Object_objects sim command (items.map item_text) fields =
          .ok fields' ∧
        ∀ key, fields'.find key = overlay items.flatten fields key
  | [], fields, _ => ⟨fields, rfl, fun _ => rfl⟩
  | item :: rest, fields, h => by
    have hi := h item (List.mem_cons_self _ _)
    obtain ⟨fields1, e1, f1⟩ := Get_Object_properties_overlay sim command item fields hi.2
    obtain ⟨fields', e2, f2⟩ := Get_Object_objects_overlay sim command rest fields1
      (fun i hi => h i (List.mem_cons_of_mem _ hi))
    refine ⟨fields', ?_, fun key => ?_⟩
    · rw [List.map_cons, cSimulator.Get_Object_objects]
      simp only [Parse_Sausage_Text_item item hi.1 hi.2, e1, bind, Except.bind]
      exact e2
    · rw [f2 key, List.flatten_cons]
      exact overlay_append item rest.flatten fields fields1 f1 key

theorem cMemory_index_write_other (m : cMemory) (a b : Int) (block : cBlock)
    (ha : 0 ≤ a) (hb : 0 ≤ b) (hne : a ≠ b) : (m.write a block).index b = m.index b := by
  unfold cMemory.index
  rw [cMemory_count_write]
  have : a.toNat ≠ b.toNat := by omega
  simp [cMemory.write, List.getElem?_set_ne this]

theorem cMemory_index_write_twice (m : cMemory) (a b : Int) (first second : cBlock)
    (ha : 0 ≤ a) (hb : 0 ≤ b) (hne : a ≠ b) (h2 : a < m.count) :
    ((m.write a first).write b second).index a = .ok first := by
  rw [cMemory_index_write_other _ b a second hb ha (fun e => hne e.symm)]
  exact cMemory_index_write_same m a first ha h2

/-- C13 (amended): when GET_OBJECT reads a well-formed composite text (sub-objects joined by `|`,
the pairs of a sub-object by `;`, key and value by `:`, no key or value containing one of the
three separators) from a field of a source block other than the destination, it returns, and the
fields of the destination block are cleared and then hold, for every key, the value of the last
pair with that key among the pairs of ALL sub-objects in order (Number when the text of the value
parses as an integer, String otherwise), and nothing under a key that no pair has. -/
theorem get_object_collects_all_items (fp : cFloat) (sim : cSimulator) (command : cBlock)
    (pointer object field : cValue) (io1 io2 io3 : cIO_Control) (source dest : cBlock)
    (text : cValue) (items : List (List (String × String)))
    (hcode : command.code = eCMD_GET_OBJECT)
    (hpointer : cSimulator.Eval_Expression fp sim command 0 = .ok (pointer, io1))
    (hobject : cSimulator.Eval_Expression fp { sim with io := io1 } command 1 = .ok (object, io2))
    (hfield : cSimulator.Eval_Expression fp { sim with io := io2 } command 2 = .ok (field, io3))
    (hsource : sim.memory.index object.number = .ok source)
    (hdest : sim.memory.index pointer.number = .ok dest)
    (hother : pointer.number ≠ object.number)
    (htext : source.fields.find field.string = some text)
    (hcomposite : text.string = composite_text items)
    (hitems : items ≠ [])
    (hplain : ∀ item ∈ items, item ≠ [] ∧ ∀ pair ∈ item, plain_text pair.1 ∧ plain_text pair.2) :
    ∃ after fields,
      sim.Command_Processor fp command = .ok after ∧
      after.memory.index pointer.number = .ok { dest with fields := fields } ∧
      ∀ key, fields.find key = (last_value items.flatten key).map parsed_value := by
  obtain ⟨hp0, hp1, _⟩ := cMemory_index_ok _ _ _ hdest
  obtain ⟨ho0, ho1, _⟩ := cMemory_index_ok _ _ _ hsource
  obtain ⟨fields, e, f⟩ := Get_Object_objects_overlay { sim with io := io3 } command items
    dest.fields.Clear hplain
  have hsplit := Parse_Sausage_Text_composite items hitems (fun item hi => (hplain item hi).2)
  have hs : (sim.memory.write pointer.number { dest with fields := dest.fields.Clear }).index
      object.number = .ok source := by
    rw [cMemory_index_write_other _ _ _ _ hp0 ho0 hother]; exact hsource
  have hd : ((sim.memory.write pointer.number { dest with fields := dest.fields.Clear }).write
      object.number { source with fields := source.fields }).index pointer.number =
      .ok { dest with fields := dest.fields.Clear } :=
    cMemory_index_write_twice _ _ _ _ _ hp0 ho0 hother hp1
  refine ⟨{ sim with
      io := io3
      memory := ((sim.memory.write pointer.number { dest with fields := dest.fields.Clear }).write
        object.number { source with fields := source.fields }).write pointer.number
          { dest with fields := fields } }, fields, ?_, ?_, fun key => ?_⟩
  · unfold cSimulator.Command_Processor
    simp only [hcode, bind, Except.bind, hpointer, hobject, hfield, pure, Except.pure]
    simp only [eCMD_GET_OBJECT, eCMD_NONE, eCMD_STORE, eCMD_SET, eCMD_TEST, eCMD_CALL,
      eCMD_RETURN, eCMD_STOP, eCMD_OUTPUT, eCMD_DRAW, eCMD_REFRESH, eCMD_SOUND, eCMD_MUSIC,
      eCMD_SILENCE, eCMD_INPUT, eCMD_TIMEOUT, eCMD_COLOR, eCMD_LOAD, eCMD_SAVE, eCMD_PUSH,
      eCMD_POP, eCMD_REPEAT]
    simp only [hsource, hdest, hs, cHash.index, htext, hd, hcomposite, hsplit, e]
    rfl
  · exact cMemory_index_write_same _ _ _ hp0
      (by rw [cMemory_count_write, cMemory_count_write]; exact hp1)
  · rw [f key]
    unfold overlay
    cases last_value items.flatten key <;> rfl

theorem get_object_collects_all_items_witness :
    ∃ after fields,
      object_list_example.Command_Processor cFloat.unused
          (command_block eCMD_GET_OBJECT
            [[operand_number 70], [operand_number 60], [operand_string "items"]]) = .ok after ∧
      after.memory.index (Number 70).number = .ok { cBlock.new with fields := fields } ∧
      ∀ key, fields.find key =
        (last_value [[("a", "1"), ("b", "2")], [("c", "3"), ("d", "4")]].flatten key).map
          parsed_value :=
  get_object_collects_all_items cFloat.unused object_list_example
    (command_block eCMD_GET_OBJECT
      [[operand_number 70], [operand_number 60], [operand_string "items"]])
    (Number 70) (Number 60) (Text "items") cIO_Control.idle cIO_Control.idle cIO_Control.idle
    (block_with_field "items" (Text "a:1;b:2|c:3;d:4")) cBlock.new (Text "a:1;b:2|c:3;d:4")
    [[("a", "1"), ("b", "2")], [("c", "3"), ("d", "4")]]
    rfl rfl rfl rfl rfl rfl (by decide) rfl (by decide) (by decide) (by decide)

/-- C13 (as stated) fails: with the String `a:1;b:2|c:3;d:4` in `Memory[60].fields["items"]`,
GET_OBJECT with destination 70, source 60 and field `items` leaves in `Memory[70].fields` the
pairs of the first sub-object as well, `a` = Number 1 and `b` = Number 2 next to `c` = Number 3
and `d` = Number 4: four entries, not only the two of the last sub-object. -/
theorem get_object_keeps_earlier_items :
    returns_with
      (object_list_example.Command_Processor cFloat.unused
        (command_block eCMD_GET_OBJECT
          [[operand_number 70], [operand_number 60], [operand_string "items"]]))
      (fun after =>
        returns_with (after.memory.index 70) (fun block =>
          block.fields.find "a" = some (Number 1) ∧ block.fields.find "b" = some (Number 2) ∧
          block.fields.find "c" = some (Number 3) ∧ block.fields.find "d" = some (Number 4) ∧
          block.fields.Count = 4)) := by
  decide!

/-! ### Save and Load -/

theorem digitChar_digit (k : Nat) (hk : k < 10) :
    (Nat.digitChar k).isDigit = true ∧ (Nat.digitChar k).toNat - 48 = k := by
  interval_cases k <;> decide

theorem toDigitsCore_value : ∀ (fuel n : Nat) (ds : List Char), n < fuel →
    Text_To_Number_digits (Nat.toDigitsCore 10 fuel n ds) 0 = Text_To_Number_digits ds n
  | 0, _, _, h => absurd h (Nat.not_lt_zero _)
  | fuel + 1, n, ds, h => by
    have hd := digitChar_digit (n % 10) (Nat.mod_lt _ (by decide))
    unfold Nat.toDigitsCore
    by_cases h0 : n / 10 = 0
    · simp only [h0, if_true]
      rw [Text_To_Number_digits, if_pos hd.1, hd.2]
      have : n % 10 = n := Nat.mod_eq_of_lt (by omega)
      rw [this]
      simp
    · simp only [h0, if_false]
      rw [toDigitsCore_value fuel (n / 10) _ (by omega)]
      rw [Text_To_Number_digits, if_pos hd.1, hd.2]
      have : n / 10 * 10 + n % 10 = n := by omega
      rw [this]

theorem toDigitsCore_head : ∀ (fuel n : Nat) (ds : List Char),
    ∃ c rest, Nat.toDigitsCore 10 (fuel + 1) n ds = c :: rest ∧ c.isDigit = true
  | fuel, n, ds => by
    have hd := digitChar_digit (n % 10) (Nat.mod_lt _ (by decide))
    unfold Nat.toDigitsCore
    by_cases h0 : n / 10 = 0
    · simp only [h0, if_true]
      exact ⟨_, _, rfl, hd.1⟩
    · simp only [h0, if_false]
      cases fuel with
      | zero => exact ⟨_, _, rfl, hd.1⟩
      | succ fuel => exact toDigitsCore_head fuel (n / 10) _

theorem toDigitsCore_chars : ∀ (fuel n : Nat) (ds : List Char) (c : Char),
    c ∈ Nat.toDigitsCore 10 fuel n ds → c.isDigit = true ∨ c ∈ ds
  | 0, _, _, _, h => Or.inr h
  | fuel + 1, n, ds, c, h => by
    have hd := digitChar_digit (n % 10) (Nat.mod_lt _ (by decide))
    unfold Nat.toDigitsCore at h
    by_cases h0 : n / 10 = 0
    · simp only [h0, if_true, List.mem_cons] at h
      rcases h with h | h
      · left; rw [h]; exact hd.1
      · right; exact h
    · simp only [h0, if_false] at h
      rcases toDigitsCore_chars fuel (n / 10) _ c h with h | h
      · left; exact h
      · simp only [List.mem_cons] at h
        rcases h with h | h
        · left; rw [h]; exact hd.1
        · right; exact h

theorem Number_To_Text_data (n : Int) :
    (Number_To_Text n).data =
      if 0 ≤ n then Nat.toDigits 10 n.toNat else '-' :: Nat.toDigits 10 (-n).toNat := by
  cases n with
  | ofNat m => rfl
  | negSucc m => rfl

/-- The rendering of a number has only digits and the minus sign. -/
theorem Number_To_Text_chars (n : Int) (c : Char) (h : c ∈ (Number_To_Text n).data) :
    c.isDigit = true ∨ c = '-' := by
  rw [Number_To_Text_data] at h
  split at h
  · rcases toDigitsCore_chars _ _ _ _ h with h | h
    · left; exact h
    · cases h
  · simp only [List.mem_cons] at h
    rcases h with h | h
    · right; exact h
    · rcases toDigitsCore_chars _ _ _ _ h with h | h
      · left; exact h
      · cases h

theorem Text_To_Number_Number_To_Text (n : Int) (hmin : INT_MIN ≤ n) (hmax : n ≤ INT_MAX) :
    Text_To_Number (Number_To_Text n) = .ok n := by
  unfold Text_To_Number
  rw [Number_To_Text_data]
  by_cases h0 : 0 ≤ n
  · rw [if_pos h0]
    obtain ⟨c, rest, hc, hdigit⟩ := toDigitsCore_head n.toNat n.toNat []
    have hv := toDigitsCore_value (n.toNat + 1) n.toNat [] (by omega)
    unfold Nat.toDigits
    rw [hc] at hv ⊢
    have hminus : c ≠ '-' := by
      intro e; rw [e] at hdigit; exact absurd hdigit (by decide)
    split
    · rename_i digits heq
      simp only [List.cons.injEq] at heq
      exact absurd heq.1 hminus
    · rename_i digits hno
      have : ¬ ((n.toNat : Int) > INT_MAX) := by
        rw [Int.toNat_of_nonneg h0]; omega
      dsimp only
      rw [hv, Text_To_Number_digits]
      dsimp only
      rw [if_neg this, Int.toNat_of_nonneg h0]
  · rw [if_neg h0]
    obtain ⟨c, rest, hc, hdigit⟩ := toDigitsCore_head (-n).toNat (-n).toNat []
    have hv := toDigitsCore_value ((-n).toNat + 1) (-n).toNat [] (by omega)
    unfold Nat.toDigits
    rw [hc] at hv ⊢
    have hn : ((-n).toNat : Int) = -n := Int.toNat_of_nonneg (by omega)
    have : ¬ (-((-n).toNat : Int) < INT_MIN) := by
      rw [hn]; omega
    split
    · rename_i digits heq
      simp only [List.cons.injEq, true_and] at heq
      subst heq
      dsimp only
      rw [hv, Text_To_Number_digits]
      dsimp only
      rw [if_neg this, hn, neg_neg]
    · rename_i digits hno
      exact absurd rfl (hno (c :: rest))

theorem file_lines_line : ∀ (line rest read : List Char), '\n' ∉ line →
    file_lines (line ++ '\n' :: rest) read =
      String.mk (read.reverse ++ line) :: file_lines rest []
  | [], rest, read, _ => by simp [file_lines]
  | c :: line, rest, read, h => by
    have hc : c ≠ '\n' := fun e => h (by rw [e]; exact List.mem_cons_self _ _)
    have ih := file_lines_line line rest (c :: read) (fun hm => h (List.mem_cons_of_mem _ hm))
    rw [List.cons_append, file_lines, if_neg hc, ih]
    simp

theorem file_lines_text : ∀ lines : List String, (∀ line ∈ lines, '\n' ∉ line.data) →
    file_lines (lines_text lines) [] = lines
  | [], _ => rfl
  | line :: rest, h => by
    rw [lines_text, file_lines_line _ _ _ (h line (List.mem_cons_self _ _)),
      file_lines_text rest (fun l hl => h l (List.mem_cons_of_mem _ hl))]
    simp

theorem lines_text_append : ∀ first second : List String,
    lines_text (first ++ second) = lines_text first ++ lines_text second
  | [], _ => rfl
  | line :: rest, second => by
    simp [lines_text, lines_text_append rest second]

theorem Save_fields_data : ∀ items : List (String × cValue),
    (∀ field ∈ items, field.2.type = eVALUE_NUMBER ∨ field.2.type = eVALUE_STRING) →
    (cSimulator.Save_fields items).data = lines_text (items.map field_line)
  | [], _ => rfl
  | (key, value) :: rest, h => by
    have ih := Save_fields_data rest (fun f hf => h f (List.mem_cons_of_mem _ hf))
    rw [cSimulator.Save_fields, List.map_cons, lines_text]
    simp only [String.data_append, ih, field_line, value_text]
    rcases h (key, value) (List.mem_cons_self _ _) with ht | ht
    · have ht : value.type = eVALUE_NUMBER := ht
      simp [ht, String.data_append]
    · have ht : value.type = eVALUE_STRING := ht
      have hn : ¬ eVALUE_STRING = eVALUE_NUMBER := by decide
      simp [ht, hn, String.data_append]

theorem Save_blocks_data (memory : cMemory) (address : Int) (h0 : 0 ≤ address) :
    ∀ (blocks : List cBlock) (start : Nat),
      address + start + blocks.length ≤ INT_MAX →
      (∀ (i : Nat) (block : cBlock), blocks[i]? = some block →
        memory.index (address + ((start + i : Nat) : Int)) = .ok block) →
      (∀ block ∈ blocks, ∀ field ∈ block.fields.items,
        field.2.type = eVALUE_NUMBER ∨ field.2.type = eVALUE_STRING) →
      ∃ text, cSimulator.Save_blocks memory address blocks.length (start : Int) = .ok text ∧
        text.data = lines_text (blocks.map block_lines).flatten
  | [], _, _, _, _ => ⟨"", rfl, rfl⟩
  | block :: rest, start, hmax, hblocks, htypes => by
    have hlen : ((block :: rest).length : Int) = (rest.length : Int) + 1 := by simp
    rw [hlen] at hmax
    obtain ⟨text, e, d⟩ := Save_blocks_data memory address h0 rest (start + 1)
      (by push_cast; omega)
      (fun i b hb => by
        have := hblocks (i + 1) b (by simpa using hb)
        rw [show start + 1 + i = start + (i + 1) by omega]
        exact this)
      (fun b hb => htypes b (List.mem_cons_of_mem _ hb))
    have hfirst := hblocks 0 block (by simp)
    have hw1 : wrap_int (address + (start : Int)) = address + ((start + 0 : Nat) : Int) := by
      rw [wrap_int_of_range _ (by unfold INT_MIN; omega) (by omega)]; simp
    have hw2 : wrap_int ((start : Int) + 1) = ((start + 1 : Nat) : Int) := by
      rw [wrap_int_of_range _ (by unfold INT_MIN; omega) (by omega)]; simp
    refine ⟨"object\n" ++ cSimulator.Save_fields block.fields.items ++ "end\n" ++ text, ?_, ?_⟩
    · rw [List.length_cons, cSimulator.Save_blocks]
      simp only [hw1, hfirst, hw2, e, bind, Except.bind, pure, Except.pure]
    · simp only [String.data_append, d, List.map_cons, List.flatten_cons, block_lines,
        lines_text_append, lines_text,
        Save_fields_data _ (htypes block (List.mem_cons_self _ _))]
      simp [lines_text_append, lines_text]

theorem cMemory_index_some (m : cMemory) (a : Int) (h0 : 0 ≤ a) (h1 : a < m.count) :
    ∃ block, m.index a = .ok block := by
  unfold cMemory.index
  rw [if_neg (by omega)]
  unfold cMemory.count at h1
  have hlt : a.toNat < m.memory.length := by omega
  exact ⟨m.memory[a.toNat], by simp [List.getElem?_eq_getElem hlt]⟩

theorem field_line_has_equals (field : String × cValue) : '=' ∈ (field_line field).data := by
  simp [field_line, String.data_append]

theorem Parse_Sausage_Text_field_line (field : String × cValue) (hkey : '=' ∉ field.1.data)
    (hvalue : '=' ∉ (value_text field.2).data) :
    Parse_Sausage_Text (field_line field) "=" = [field.1, value_text field.2] :=
  Parse_Sausage_Text_join '=' [field.1, value_text field.2] (by simp)
    (fun text ht => by
      simp only [List.mem_cons, List.mem_singleton, List.not_mem_nil, or_false] at ht
      rcases ht with h | h <;> rw [h] <;> assumption)

theorem Load_lines_fields (rest : List String) (a count : Int) :
    ∀ (items : List (String × cValue)) (memory : cMemory) (block : cBlock),
      memory.index a = .ok block →
      (∀ field ∈ items, '=' ∉ field.1.data ∧ '=' ∉ (value_text field.2).data) →
      ∃ memory' fields,
        cSimulator.Load_lines (items.map field_line ++ rest) memory a count =
          cSimulator.Load_lines rest memory' a count ∧
        memory'.index a = .ok { block with fields := fields } ∧
        memory'.count = memory.count ∧
        (∀ b, 0 ≤ b → b ≠ a → memory'.index b = memory.index b) ∧
        ∀ key, fields.find key = overlay (items.map field_pair) block.fields key
  | [], memory, block, hblock, _ =>
    ⟨memory, block.fields, rfl, hblock, rfl, fun _ _ _ => rfl, fun _ => rfl⟩
  | field :: items, memory, block, hblock, h => by
    have hf := h field (List.mem_cons_self _ _)
    obtain ⟨ha0, ha1, _⟩ := cMemory_index_ok _ _ _ hblock
    obtain ⟨fields1, e1, f1⟩ := assign_parsed_find block.fields field.1 (value_text field.2)
    obtain ⟨memory', fields, e2, i2, c2, o2, f2⟩ := Load_lines_fields rest a count items
      (memory.write a { block with fields := fields1 }) { block with fields := fields1 }
      (cMemory_index_write_same _ _ _ ha0 ha1)
      (fun f hf => h f (List.mem_cons_of_mem _ hf))
    have hobject : ¬ field_line field = "object" := fun e => by
      have := field_line_has_equals field
      rw [e] at this
      exact absurd this (by decide)
    have hend : ¬ field_line field = "end" := fun e => by
      have := field_line_has_equals field
      rw [e] at this
      exact absurd this (by decide)
    refine ⟨memory', fields, ?_, i2, ?_, fun b hb0 hb => ?_, fun key => ?_⟩
    · rw [List.map_cons, List.cons_append, cSimulator.Load_lines, if_neg hobject, if_neg hend]
      simp only [Parse_Sausage_Text_field_line field hf.1 hf.2, hblock, e1, bind, Except.bind]
      exact e2
    · rw [c2, cMemory_count_write]
    · rw [o2 b hb0 hb]
      exact cMemory_index_write_other _ _ _ _ ha0 hb0 (fun e => hb e.symm)
    · rw [f2 key, List.map_cons]
      exact overlay_cons (field_pair field) (items.map field_pair) block.fields fields1 f1 key

theorem last_value_absent : ∀ (pairs : List (String × String)) (key : String),
    key ∉ pairs.map Prod.fst → last_value pairs key = none
  | [], _, _ => rfl
  | pair :: rest, key, h => by
    have hl := last_value_append [pair] rest key
    rw [List.singleton_append] at hl
    rw [hl, last_value_absent rest key (fun hm => h (by simp [hm]))]
    have hne : ¬ pair.1 = key := fun e => h (by simp [e])
    simp [last_value, hne]

theorem last_value_field_pairs : ∀ (items : List (String × cValue)) (key : String),
    (items.map Prod.fst).Nodup →
    last_value (items.map field_pair) key =
      ((items.find? (fun kv => decide (kv.1 = key))).map (fun kv => value_text kv.2))
  | [], _, _ => rfl
  | field :: rest, key, h => by
    rw [List.map_cons, List.nodup_cons] at h
    have hl := last_value_append [field_pair field] (rest.map field_pair) key
    rw [List.singleton_append] at hl
    rw [List.map_cons, hl, List.find?_cons]
    by_cases hk : field.1 = key
    · have habsent : key ∉ (rest.map field_pair).map Prod.fst := by
        rw [← hk]
        simpa [field_pair, Function.comp_def] using h.1
      rw [last_value_absent _ _ habsent]
      simp [last_value, field_pair, hk]
    · rw [last_value_field_pairs rest key h.2]
      cases hfind : rest.find? (fun kv => decide (kv.1 = key)) with
      | some kv => simp [hk]
      | none => simp [last_value, field_pair, hk]

theorem parsed_value_text_same (value : cValue) (h : value.savable) :
    (parsed_value (value_text value)).same_as value := by
  unfold parsed_value value_text
  rcases h with ⟨ht, hmin, hmax⟩ | ⟨ht, _, _, hno⟩
  · rw [if_pos ht, Text_To_Number_Number_To_Text _ hmin hmax]
    exact ⟨ht.symm, fun _ => rfl,
      fun hs => absurd hs (by decide : ¬ eVALUE_NUMBER = eVALUE_STRING)⟩
  · have hn : ¬ value.type = eVALUE_NUMBER := by rw [ht]; decide
    rw [if_neg hn]
    cases hp : Text_To_Number value.string with
    | ok number => rw [hp] at hno; cases hno
    | error e =>
      exact ⟨ht.symm, fun hs => absurd hs (by decide : ¬ eVALUE_STRING = eVALUE_NUMBER),
        fun _ => rfl⟩

theorem value_text_free (value : cValue) (h : value.savable) (c : Char)
    (hdigit : c.isDigit = false) (hminus : c ≠ '-') (hstring : c ∉ value.string.data) :
    c ∉ (value_text value).data := by
  unfold value_text
  rcases h with ⟨ht, _, _⟩ | ⟨ht, _, _, _⟩
  · rw [if_pos ht]
    intro hm
    rcases Number_To_Text_chars _ _ hm with hd | hd
    · rw [hd] at hdigit; cases hdigit
    · exact hminus hd
  · have hn : ¬ value.type = eVALUE_NUMBER := by rw [ht]; decide
    rw [if_neg hn]
    exact hstring

theorem cValue.savable_free (value : cValue) (h : value.savable) :
    '=' ∉ (value_text value).data ∧ '\n' ∉ (value_text value).data := by
  unfold value_text
  rcases h with ⟨ht, _, _⟩ | ⟨ht, h1, h2, _⟩
  · rw [if_pos ht]
    constructor <;> intro hm <;> rcases Number_To_Text_chars _ _ hm with hd | hd <;>
      revert hd <;> decide
  · have hn : ¬ value.type = eVALUE_NUMBER := by rw [ht]; decide
    rw [if_neg hn]
    exact ⟨h1, h2⟩

/-- What `Load` leaves under a key after reading the lines of savable fields: the same entry as
the fields saved. -/
theorem overlay_saved_same (fields : tObject) (h : savable_fields fields) (key : String) :
    same_entry ((last_value (fields.items.map field_pair) key).map parsed_value)
      (fields.find key) := by
  rw [last_value_field_pairs _ _ h.1]
  unfold cHash.find
  cases hfind : fields.items.find? (fun kv => decide (kv.1 = key)) with
  | none => exact True.intro
  | some kv =>
    have hmem := List.mem_of_find?_eq_some hfind
    exact parsed_value_text_same kv.2 (h.2 kv hmem).2.2

theorem Load_lines_object (rest : List String) (memory : cMemory) (a count : Int)
    (block : cBlock) (h : memory.index a = .ok block) :
    cSimulator.Load_lines ("object" :: rest) memory a count =
      cSimulator.Load_lines rest (memory.write a block.Clear) a count := by
  rw [cSimulator.Load_lines, if_pos rfl]
  simp only [h, bind, Except.bind]

theorem Load_lines_end (rest : List String) (memory : cMemory) (a count : Int) :
    cSimulator.Load_lines ("end" :: rest) memory a count =
      cSimulator.Load_lines rest memory (wrap_int (a + 1)) (wrap_int (count + 1)) := by
  rw [cSimulator.Load_lines, if_neg (by decide), if_pos rfl]

theorem Load_lines_block (rest : List String) (a count : Int) (memory : cMemory)
    (block : cBlock) (h : savable_fields block.fields) (ha0 : 0 ≤ a) (ha1 : a < memory.count) :
    ∃ memory' loaded,
      cSimulator.Load_lines (block_lines block ++ rest) memory a count =
        cSimulator.Load_lines rest memory' (wrap_int (a + 1)) (wrap_int (count + 1)) ∧
      memory'.index a = .ok loaded ∧
      memory'.count = memory.count ∧
      (∀ b, 0 ≤ b → b ≠ a → memory'.index b = memory.index b) ∧
      ∀ key, same_entry (loaded.fields.find key) (block.fields.find key) := by
  obtain ⟨old, hold⟩ := cMemory_index_some memory a ha0 ha1
  obtain ⟨memory', fields, e, i, c, o, f⟩ := Load_lines_fields ("end" :: rest) a count
    block.fields.items (memory.write a old.Clear) old.Clear
    (cMemory_index_write_same _ _ _ ha0 ha1)
    (fun field hf => ⟨(h.2 field hf).1, (cValue.savable_free _ (h.2 field hf).2.2).1⟩)
  refine ⟨memory', { old.Clear with fields := fields }, ?_, i, ?_, fun b hb0 hb => ?_,
    fun key => ?_⟩
  · unfold block_lines
    rw [List.cons_append, List.cons_append, Load_lines_object _ _ _ _ _ hold,
      List.append_assoc, List.singleton_append, e, Load_lines_end]
  · rw [c, cMemory_count_write]
  · rw [o b hb0 hb]
    exact cMemory_index_write_other _ _ _ _ ha0 hb0 (fun e => hb e.symm)
  · have hk := f key
    have hsame := overlay_saved_same block.fields h key
    show same_entry (fields.find key) _
    rw [hk]
    unfold overlay
    cases hl : last_value (block.fields.items.map field_pair) key with
    | some text => rw [hl] at hsame; exact hsame
    | none => rw [hl] at hsame; exact hsame

theorem Load_lines_blocks : ∀ (blocks : List cBlock) (memory : cMemory) (a : Int) (count : Nat),
    0 ≤ a → a + blocks.length ≤ memory.count → a + blocks.length ≤ INT_MAX →
    (count : Int) + blocks.length ≤ INT_MAX →
    (∀ block ∈ blocks, savable_fields block.fields) →
    ∃ loaded,
      cSimulator.Load_lines (blocks.map block_lines).flatten memory a (count : Int) =
        .ok (((count + blocks.length : Nat) : Int), loaded) ∧
      loaded.count = memory.count ∧
      (∀ b, 0 ≤ b → b < a → loaded.index b = memory.index b) ∧
      ∀ (i : Nat) (block : cBlock), blocks[i]? = some block →
        ∃ block', loaded.index (a + (i : Int)) = .ok block' ∧
          ∀ key, same_entry (block'.fields.find key) (block.fields.find key)
  | [], memory, a, count, _, _, _, _, _ =>
    ⟨memory, rfl, rfl, fun _ _ _ => rfl, fun i block h => by simp at h⟩
  | block :: rest, memory, a, count, ha0, hcount, hmax, hcmax, hs => by
    have hlen : ((block :: rest).length : Int) = (rest.length : Int) + 1 := by simp
    rw [hlen] at hcount hmax hcmax
    obtain ⟨memory', loaded0, e1, i1, c1, o1, f1⟩ := Load_lines_block
      (rest.map block_lines).flatten a count memory block (hs block (List.mem_cons_self _ _))
      ha0 (by omega)
    have hw1 : wrap_int (a + 1) = a + 1 :=
      wrap_int_of_range _ (by unfold INT_MIN; omega) (by omega)
    have hw2 : wrap_int ((count : Int) + 1) = ((count + 1 : Nat) : Int) := by
      rw [wrap_int_of_range _ (by unfold INT_MIN; omega) (by omega)]; simp
    rw [hw1, hw2] at e1
    obtain ⟨loaded, e2, c2, o2, f2⟩ := Load_lines_blocks rest memory' (a + 1) (count + 1)
      (by omega) (by rw [c1]; omega) (by omega) (by push_cast; omega)
      (fun b hb => hs b (List.mem_cons_of_mem _ hb))
    refine ⟨loaded, ?_, ?_, fun b hb0 hb => ?_, fun i b hb => ?_⟩
    · rw [List.map_cons, List.flatten_cons, e1, e2, List.length_cons]
      have : count + 1 + rest.length = count + (rest.length + 1) := by omega
      rw [this]
    · rw [c2, c1]
    · rw [o2 b hb0 (by omega), o1 b hb0 (by omega)]
    · cases i with
      | zero =>
        simp only [List.getElem?_cons_zero, Option.some.injEq] at hb
        subst hb
        refine ⟨loaded0, ?_, f1⟩
        rw [Nat.cast_zero, add_zero, o2 a ha0 (by omega)]
        exact i1
      | succ i =>
        obtain ⟨block', hi, hf⟩ := f2 i b (by simpa using hb)
        refine ⟨block', ?_, hf⟩
        have hsum : a + ((i + 1 : Nat) : Int) = a + 1 + (i : Int) := by push_cast; omega
        rw [hsum]
        exact hi

theorem block_lines_free (block : cBlock) (h : savable_fields block.fields) :
    ∀ line ∈ block_lines block, '\n' ∉ line.data := by
  intro line hl
  unfold block_lines at hl
  simp only [List.cons_append, List.mem_cons, List.mem_append, List.mem_map,
    List.mem_singleton, List.not_mem_nil, or_false] at hl
  rcases hl with hl | ⟨field, hf, hl⟩ | hl
  · rw [hl]; decide
  · rw [← hl]
    simp only [field_line, String.data_append, List.mem_append, not_or]
    exact ⟨⟨(h.2 field hf).2.1, by decide⟩, (cValue.savable_free _ (h.2 field hf).2.2).2⟩
  · rw [hl]; decide

theorem savable_types (block : cBlock) (h : savable_fields block.fields) :
    ∀ field ∈ block.fields.items,
      field.2.type = eVALUE_NUMBER ∨ field.2.type = eVALUE_STRING := by
  intro field hf
  rcases (h.2 field hf).2.2 with ⟨ht, _⟩ | ⟨ht, _⟩
  · exact Or.inl ht
  · exact Or.inr ht

theorem find_saved_file (files : List (String × String)) (name text : String) :
    (files.filter (fun file => decide (file.1 ≠ name)) ++ [(name, text)]).find?
      (fun file => decide (file.1 = name)) = some (name, text) := by
  rw [List.find?_append]
  have : (files.filter (fun file => decide (file.1 ≠ name))).find?
      (fun file => decide (file.1 = name)) = none := by
    rw [List.find?_eq_none]
    intro file hf
    simp only [List.mem_filter, decide_eq_true_eq] at hf
    simpa using hf.2
  rw [this]
  simp

/-- C12 (amended): for every sequence of blocks found at `address`, `address + 1`, ... whose
fields have distinct keys without `=` and newline, and whose values are Numbers in the range of
`int` or Strings without `=` and newline that are not the text of a number, `Save` of those
blocks returns, and `Load` of the written file at the same address (into any memory that has
those addresses) returns the same number of blocks and leaves, in each loaded block, under every
key a value with the same tag and the same payload as the original, and no value under a key
that the original does not have. -/
theorem save_then_load_keeps_values (sim : cSimulator) (name : String)
    (memory target : cMemory) (address : Int) (blocks : List cBlock)
    (hname : name ∉ sim.files.locked)
    (haddress : 0 ≤ address)
    (hmax : address + blocks.length ≤ INT_MAX)
    (hblocks : ∀ (i : Nat) (block : cBlock), blocks[i]? = some block →
      memory.index (address + (i : Int)) = .ok block)
    (htarget : address + blocks.length ≤ target.count)
    (hsavable : ∀ block ∈ blocks, savable_fields block.fields) :
    ∃ files loaded,
      sim.Save name memory address (blocks.length : Int) = .ok files ∧
      cSimulator.Load { sim with files := files } name target address =
        .ok ((blocks.length : Int), loaded) ∧
      ∀ (i : Nat) (block : cBlock), blocks[i]? = some block →
        ∃ block', loaded.index (address + (i : Int)) = .ok block' ∧
          ∀ key, same_entry (block'.fields.find key) (block.fields.find key) := by
  obtain ⟨text, e1, d1⟩ := Save_blocks_data memory address haddress blocks 0
    (by push_cast; omega)
    (fun i b hb => by rw [Nat.zero_add]; exact hblocks i b hb)
    (fun b hb => savable_types b (hsavable b hb))
  obtain ⟨loaded, e2, _, _, f2⟩ := Load_lines_blocks blocks target address 0 haddress htarget
    hmax (by push_cast; omega) hsavable
  have hlines : file_lines text.data [] = (blocks.map block_lines).flatten := by
    rw [d1]
    apply file_lines_text
    intro line hl
    simp only [List.mem_flatten, List.mem_map] at hl
    obtain ⟨lines, ⟨block, hb, rfl⟩, hl⟩ := hl
    exact block_lines_free block (hsavable block hb) line hl
  refine ⟨{ sim.files with
      text := sim.files.text.filter (fun file => decide (file.1 ≠ name)) ++ [(name, text)] },
    loaded, ?_, ?_, f2⟩
  · unfold cSimulator.Save
    rw [if_neg hname]
    simp only [Int.toNat_ofNat, Nat.cast_zero] at e1 ⊢
    simp only [e1, bind, Except.bind, pure, Except.pure]
  · unfold cSimulator.Load
    simp only [find_saved_file, hlines]
    simpa using e2

theorem save_then_load_keeps_values_witness :
    ∃ files loaded,
      (cSimulator.running saved_example 0).Save "data" saved_example 1
        (([block_with_field "n" (Number 7), block_with_field "s" (Text "hi")].length : Nat) :
          Int) = .ok files ∧
      cSimulator.Load { cSimulator.running saved_example 0 with files := files } "data"
          saved_example 1 =
        .ok ((([block_with_field "n" (Number 7), block_with_field "s" (Text "hi")].length : Nat) :
          Int), loaded) ∧
      ∀ (i : Nat) (block : cBlock),
        [block_with_field "n" (Number 7), block_with_field "s" (Text "hi")][i]? = some block →
        ∃ block', loaded.index (1 + (i : Int)) = .ok block' ∧
          ∀ key, same_entry (block'.fields.find key) (block.fields.find key) :=
  save_then_load_keeps_values (cSimulator.running saved_example 0) "data" saved_example
    saved_example 1 [block_with_field "n" (Number 7), block_with_field "s" (Text "hi")]
    (by decide) (by decide) (by decide)
    (fun i block h =>
      match i, h with
      | 0, h => by cases h; decide
      | 1, h => by cases h; decide
      | _ + 2, h => by simp at h)
    (by decide) (by decide)

/-- C12 (as stated) fails: a block whose only field is `k` = String `12` is saved as the line
`k=12`, and `Load` of the written file at the same address returns one block whose field `k`
is Number 12: the tag of the value has changed from String to Number. -/
theorem save_then_load_changes_tag :
    returns_with (numeral_example.index 1)
      (fun block => block.fields.find "k" = some (Text "12")) ∧
    returns_with
      ((cSimulator.running numeral_example 0).Save "data" numeral_example 1 1)
      (fun files =>
        returns_with
          (cSimulator.Load { cSimulator.running numeral_example 0 with files := files } "data"
            numeral_example 1)
          (fun result =>
            result.1 = 1 ∧
            returns_with (result.2.index 1)
              (fun block => block.fields.find "k" = some (Number 12)))) := by
  decide!

/-! ### Operand evaluation -/

theorem cMemory_index_out_of_range (m : cMemory) (address : Int) (h : m.out_of_range address) :
    m.index address =
      .error (.cError ("Invalid memory address " ++ Number_To_Text address ++ ".")) := by
  unfold cMemory.index
  unfold cMemory.out_of_range at h
  rw [if_pos h]

theorem Eval_Operand_read_cases (operand : sOperand_Operator) (block : cBlock) :
    (operand.field = "" → cSimulator.Eval_Operand_read operand block = .ok block.value) ∧
    (operand.field ≠ "" → ∀ value, block.fields.find operand.field = some value →
      cSimulator.Eval_Operand_read operand block = .ok value) ∧
    (operand.field ≠ "" → block.fields.find operand.field = none →
      cSimulator.Eval_Operand_read operand block =
        .error (.cError ("Could not find field " ++ operand.field ++ "."))) := by
  unfold cSimulator.Eval_Operand_read
  have hlen : operand.field ≠ "" → operand.field.length > 0 := fun h => by
    rcases Nat.eq_zero_or_pos operand.field.length with h0 | h0
    · exact absurd (string_length_zero _ (by omega)) h
    · exact h0
  refine ⟨fun h => ?_, fun h value hv => ?_, fun h hv => ?_⟩
  · simp [h]
  · rw [if_pos (hlen h), hv]
  · rw [if_pos (hlen h), hv]

theorem Eval_Operand_pointer (sim : cSimulator) (operand : sOperand_Operator)
    (hmode : operand.addr_mode = some eADDR_POINTER) :
    sim.Eval_Operand operand =
      (sim.memory.index operand.value.number >>= fun pointer =>
        sim.memory.index pointer.value.number >>= fun block =>
          cSimulator.Eval_Operand_read operand block) := by
  unfold cSimulator.Eval_Operand
  simp [hmode, eADDR_POINTER, eADDR_VAL_NUMBER, eADDR_VAL_STRING, eADDR_IMMEDIATE]

theorem Eval_Operand_immediate (sim : cSimulator) (operand : sOperand_Operator)
    (hmode : operand.addr_mode = some eADDR_IMMEDIATE) :
    sim.Eval_Operand operand =
      (sim.memory.index operand.value.number >>= fun block =>
        cSimulator.Eval_Operand_read operand block) := by
  unfold cSimulator.Eval_Operand
  simp [hmode, eADDR_POINTER, eADDR_VAL_NUMBER, eADDR_VAL_STRING, eADDR_IMMEDIATE]

/-- C25: for a pointer-mode operand with number `a`, when `Memory[a]` and
`Memory[Memory[a].value.number]` can be read (both addresses valid), `Eval_Operand` returns the
value of the second block when the operand has no field, the field `f` of the second block when
the operand names a field `f` that exists, and fails with `Could not find field f.` when `f` is
absent; it fails with the invalid-address error of `a` when `a` is out of range and with that of
`Memory[a].value.number` when that number is out of range.  For an immediate-mode operand the same
holds with the single dereference `Memory[a]`. -/
theorem Eval_Operand_dereferences (sim : cSimulator) (operand : sOperand_Operator) :
    (operand.addr_mode = some eADDR_POINTER →
      (∀ pointer block, sim.memory.index operand.value.number = .ok pointer →
        sim.memory.index pointer.value.number = .ok block →
        (operand.field = "" → sim.Eval_Operand operand = .ok block.value) ∧
        (operand.field ≠ "" → ∀ value, block.fields.find operand.field = some value →
          sim.Eval_Operand operand = .ok value) ∧
        (operand.field ≠ "" → block.fields.find operand.field = none →
          sim.Eval_Operand operand =
            .error (.cError ("Could not find field " ++ operand.field ++ ".")))) ∧
      (sim.memory.out_of_range operand.value.number →
        sim.Eval_Operand operand = .error (.cError
          ("Invalid memory address " ++ Number_To_Text operand.value.number ++ "."))) ∧
      (∀ pointer, sim.memory.index operand.value.number = .ok pointer →
        sim.memory.out_of_range pointer.value.number →
        sim.Eval_Operand operand = .error (.cError
          ("Invalid memory address " ++ Number_To_Text pointer.value.number ++ ".")))) ∧
    (operand.addr_mode = some eADDR_IMMEDIATE →
      (∀ block, sim.memory.index operand.value.number = .ok block →
        (operand.field = "" → sim.Eval_Operand operand = .ok block.value) ∧
        (operand.field ≠ "" → ∀ value, block.fields.find operand.field = some value →
          sim.Eval_Operand operand = .ok value) ∧
        (operand.field ≠ "" → block.fields.find operand.field = none →
          sim.Eval_Operand operand =
            .error (.cError ("Could not find field " ++ operand.field ++ ".")))) ∧
      (sim.memory.out_of_range operand.value.number →
        sim.Eval_Operand operand = .error (.cError
          ("Invalid memory address " ++ Number_To_Text operand.value.number ++ ".")))) := by
  constructor
  · intro hmode
    have hunfold := Eval_Operand_pointer sim operand hmode
    refine ⟨fun pointer block hp hb => ?_, fun hout => ?_, fun pointer hp hout => ?_⟩
    · have hread : sim.Eval_Operand operand = cSimulator.Eval_Operand_read operand block := by
        rw [hunfold, hp]
        simp only [bind, Except.bind, hb]
      rw [hread]
      exact Eval_Operand_read_cases operand block
    · rw [hunfold, cMemory_index_out_of_range _ _ hout]
      rfl
    · rw [hunfold, hp]
      simp only [bind, Except.bind, cMemory_index_out_of_range _ _ hout]
  · intro hmode
    have hunfold := Eval_Operand_immediate sim operand hmode
    refine ⟨fun block hb => ?_, fun hout => ?_⟩
    · have hread : sim.Eval_Operand operand = cSimulator.Eval_Operand_read operand block := by
        rw [hunfold, hb]
        simp only [bind, Except.bind]
      rw [hread]
      exact Eval_Operand_read_cases operand block
    · rw [hunfold, cMemory_index_out_of_range _ _ hout]
      rfl

theorem Eval_Operand_dereferences_witness :
    pointer_example.Eval_Operand (operand_pointer 0) = .ok (Number 7) :=
  (((Eval_Operand_dereferences pointer_example (operand_pointer 0)).1 rfl).1
    (block_with_value (Number 1)) (block_with_value (Number 7)) rfl rfl).1 rfl

/-! ### Expression evaluation as a left fold -/

theorem Eval_Operator_arithmetic (fp : cFloat) (sim : cSimulator) (command : cBlock)
    (code : Int) (value operand_value : cValue) (io : cIO_Control)
    (hcode : code ∈ [eOPER_ADD, eOPER_SUB, eOPER_MUL, eOPER_DIV])
    (hmin : INT_MIN ≤ arithmetic code value.number operand_value.number)
    (hmax : arithmetic code value.number operand_value.number ≤ INT_MAX) :
    cSimulator.Eval_Operator fp sim command (operator_entry code) value operand_value io =
      .ok (Number (arithmetic code value.number operand_value.number), io) := by
  simp only [List.mem_cons, List.mem_singleton, List.not_mem_nil, or_false] at hcode
  unfold cSimulator.Eval_Operator operator_entry
  rcases hcode with h | h | h | h <;> subst h
  · simp only [arithmetic, eOPER_ADD, eOPER_SUB, eOPER_MUL, eOPER_DIV] at hmin hmax ⊢
    simp only [if_true] at hmin hmax ⊢
    rw [wrap_int_of_range _ hmin hmax]
    rfl
  · simp only [arithmetic, eOPER_ADD, eOPER_SUB, eOPER_MUL, eOPER_DIV] at hmin hmax ⊢
    simp only [if_true, (by decide : ¬ (1 : Int) = 0), if_false] at hmin hmax ⊢
    rw [wrap_int_of_range _ hmin hmax]
    rfl
  · simp only [arithmetic, eOPER_ADD, eOPER_SUB, eOPER_MUL, eOPER_DIV] at hmin hmax ⊢
    simp only [if_true, (by decide : ¬ (2 : Int) = 0), (by decide : ¬ (2 : Int) = 1),
      if_false] at hmin hmax ⊢
    rw [wrap_int_of_range _ hmin hmax]
    rfl
  · simp only [arithmetic, eOPER_ADD, eOPER_SUB, eOPER_MUL, eOPER_DIV] at hmin hmax ⊢
    simp only [if_true, (by decide : ¬ (3 : Int) = 0), (by decide : ¬ (3 : Int) = 1),
      (by decide : ¬ (3 : Int) = 2), if_false] at hmin hmax ⊢
    by_cases hz : operand_value.number = 0
    · simp only [hz, if_true]
      rfl
    · simp only [hz, if_false] at hmin hmax ⊢
      rw [wrap_int_of_range _ hmin hmax]
      rfl

theorem Eval_Expression_loop_left_fold (fp : cFloat) (sim : cSimulator) (command : cBlock)
    (io : cIO_Control) :
    ∀ (steps : List (Int × sOperand_Operator × cValue)) (value : cValue),
      (∀ step ∈ steps, step.1 ∈ [eOPER_ADD, eOPER_SUB, eOPER_MUL, eOPER_DIV] ∧
        sim.Eval_Operand step.2.1 = .ok step.2.2) →
      fold_fits_int value.number (step_numbers steps) →
      ∃ result, cSimulator.Eval_Expression_loop fp sim command (operator_entries steps) value io =
          .ok (result, io) ∧
        result.number = left_fold value.number (step_numbers steps) ∧
        (value.type = eVALUE_NUMBER → result.type = eVALUE_NUMBER)
  | [], value, _, _ => ⟨value, rfl, rfl, fun h => h⟩
  | step :: rest, value, hsteps, hfits => by
    obtain ⟨hcode, hoperand⟩ := hsteps step (List.mem_cons_self _ _)
    have hfits' : INT_MIN ≤ arithmetic step.1 value.number step.2.2.number ∧
        arithmetic step.1 value.number step.2.2.number ≤ INT_MAX ∧
        fold_fits_int (arithmetic step.1 value.number step.2.2.number) (step_numbers rest) :=
      hfits
    obtain ⟨result, e, hnumber, htype⟩ := Eval_Expression_loop_left_fold fp sim command io rest
      (Number (arithmetic step.1 value.number step.2.2.number))
      (fun s hs => hsteps s (List.mem_cons_of_mem _ hs)) hfits'.2.2
    refine ⟨result, ?_, hnumber, fun _ => ?_⟩
    · rw [operator_entries, cSimulator.Eval_Expression_loop]
      simp only [hoperand, bind, Except.bind,
        Eval_Operator_arithmetic fp sim command step.1 value step.2.2 io hcode hfits'.1
          hfits'.2.1]
      exact e
    · exact htype rfl

/-- C26: let expression `index` of a command be `o0 op1 o1 ... opk ok` with every operator one of
`+ - * /`, let `o0` evaluate to a Number and every `oi` evaluate, and let every intermediate
result of the exact left fold fit an `int`.  Then `Eval_Expression` returns a Number whose number
is the strict left fold `(((o0 op1 o1) op2 o2) ... opk ok)` over exact integers, in the order of
the entries, with no operator precedence, and leaves the I/O control as it was. -/
theorem Eval_Expression_left_fold (fp : cFloat) (sim : cSimulator) (command : cBlock)
    (index : Nat) (first : sOperand_Operator) (seed : cValue)
    (steps : List (Int × sOperand_Operator × cValue))
    (hexpression : command.expressions[index]? = some (first :: operator_entries steps))
    (hfirst : sim.Eval_Operand first = .ok seed)
    (hseed : seed.type = eVALUE_NUMBER)
    (hsteps : ∀ step ∈ steps, step.1 ∈ [eOPER_ADD, eOPER_SUB, eOPER_MUL, eOPER_DIV] ∧
      sim.Eval_Operand step.2.1 = .ok step.2.2)
    (hfits : fold_fits_int seed.number (step_numbers steps)) :
    ∃ result, cSimulator.Eval_Expression fp sim command (index : Int) = .ok (result, sim.io) ∧
      result.type = eVALUE_NUMBER ∧
      result.number = left_fold seed.number (step_numbers steps) := by
  obtain ⟨result, e, hnumber, htype⟩ := Eval_Expression_loop_left_fold fp sim command sim.io
    steps seed hsteps hfits
  refine ⟨result, ?_, htype hseed, hnumber⟩
  have hlt : index < command.expressions.length := by
    by_contra hge
    rw [List.getElem?_eq_none (by omega)] at hexpression
    cases hexpression
  unfold cSimulator.Eval_Expression
  rw [if_neg (by omega)]
  simp only [Int.toNat_ofNat, hexpression, hfirst, bind, Except.bind]
  exact e

theorem Eval_Expression_left_fold_witness :
    (∃ result, cSimulator.Eval_Expression cFloat.unused (cSimulator.running (cMemory.new 1) 0)
        precedence_example ((0 : Nat) : Int) =
          .ok (result, (cSimulator.running (cMemory.new 1) 0).io) ∧
      result.type = eVALUE_NUMBER ∧
      result.number = left_fold (Number 2).number
        (step_numbers [(eOPER_ADD, operand_number 3, Number 3),
          (eOPER_MUL, operand_number 4, Number 4)])) ∧
    left_fold (Number 2).number
        (step_numbers [(eOPER_ADD, operand_number 3, Number 3),
          (eOPER_MUL, operand_number 4, Number 4)]) = 20 :=
  ⟨Eval_Expression_left_fold cFloat.unused (cSimulator.running (cMemory.new 1) 0)
    precedence_example 0 (operand_number 2) (Number 2)
    [(eOPER_ADD, operand_number 3, Number 3), (eOPER_MUL, operand_number 4, Number 4)]
    rfl rfl rfl (by decide) ⟨by decide, by decide, by decide, by decide, trivial⟩, by decide⟩

/-! ### Conditional evaluation -/

theorem conditional_fold_bounds : ∀ (steps : List (sCondition_Logic × Bool)) (acc : Int),
    0 ≤ acc →
    0 ≤ conditional_fold acc steps ∧ conditional_fold acc steps ≤ acc + steps.length ∧
    (conditional_fold acc steps ≠ 0 ↔ boolean_fold (decide (acc ≠ 0)) steps = true)
  | [], acc, h => ⟨h, by simp [conditional_fold], by simp [conditional_fold, boolean_fold]⟩
  | step :: rest, acc, h => by
    unfold conditional_fold boolean_fold
    by_cases hand : step.1.logic_code = some eLOGIC_AND
    · simp only [hand, if_true]
      have hb : bool_to_int step.2 = 0 ∨ bool_to_int step.2 = 1 := by
        cases step.2 <;> simp [bool_to_int]
      have h0 : 0 ≤ acc * bool_to_int step.2 := by
        rcases hb with hb | hb <;> rw [hb] <;> omega
      have hle : acc * bool_to_int step.2 ≤ acc := by
        rcases hb with hb | hb <;> rw [hb] <;> omega
      obtain ⟨i1, i2, i3⟩ := conditional_fold_bounds rest _ h0
      refine ⟨i1, ?_, ?_⟩
      · simp only [List.length_cons]; push_cast; omega
      · rw [i3]
        have : decide (acc * bool_to_int step.2 ≠ 0) = (decide (acc ≠ 0) && step.2) := by
          cases step.2 <;> simp [bool_to_int]
        rw [this]
    · simp only [hand, if_false]
      have hb : bool_to_int step.2 = 0 ∨ bool_to_int step.2 = 1 := by
        cases step.2 <;> simp [bool_to_int]
      have h0 : 0 ≤ acc + bool_to_int step.2 := by
        rcases hb with hb | hb <;> rw [hb] <;> omega
      obtain ⟨i1, i2, i3⟩ := conditional_fold_bounds rest _ h0
      refine ⟨i1, ?_, ?_⟩
      · simp only [List.length_cons]; push_cast
        rcases hb with hb | hb <;> omega
      · rw [i3]
        have : decide (acc + bool_to_int step.2 ≠ 0) = (decide (acc ≠ 0) || step.2) := by
          cases hs : step.2
          · simp [bool_to_int]
          · simp only [bool_to_int, if_true, Bool.or_true, decide_eq_true_eq]
            omega
        rw [this]

theorem Eval_Conditions_cons (fp : cFloat) (sim : cSimulator) (command : cBlock)
    (condition : sCondition_Logic) (rest : List sCondition_Logic) (io : cIO_Control) :
    cSimulator.Eval_Conditions fp sim command (condition :: rest) io =
      (cSimulator.Eval_Condition fp { sim with io := io } command condition >>= fun first =>
        cSimulator.Eval_Conditions fp sim command rest first.2 >>= fun later =>
          pure (first.1 :: later.1, later.2)) := by
  rw [cSimulator.Eval_Conditions]

theorem Eval_Conditional_loop_cons (fp : cFloat) (sim : cSimulator) (command : cBlock)
    (pair : sCondition_Logic × sCondition_Logic)
    (rest : List (sCondition_Logic × sCondition_Logic)) (acc : Int) (io io1 : cIO_Control)
    (result : Bool)
    (h : cSimulator.Eval_Condition fp { sim with io := io } command pair.2 = .ok (result, io1)) :
    cSimulator.Eval_Conditional_loop fp sim command (conditional_entries (pair :: rest)) acc io =
      match pair.1.logic_code with
      | none => .error (.undefined "logic_code was never written")
      | some logic_code =>
        if logic_code = eLOGIC_AND then
          cSimulator.Eval_Conditional_loop fp sim command (conditional_entries rest)
            (wrap_int (acc * bool_to_int result)) io1
        else if logic_code = eLOGIC_OR then
          cSimulator.Eval_Conditional_loop fp sim command (conditional_entries rest)
            (wrap_int (acc + bool_to_int result)) io1
        else
          .error (cSimulator.Generate_Execution_Error { sim with io := io1 }
            ("Invalid logic code " ++ Number_To_Text logic_code ++ ".") command) := by
  rw [conditional_entries, cSimulator.Eval_Conditional_loop]
  simp only [h, bind, Except.bind]

theorem Eval_Conditional_loop_fails (fp : cFloat) (sim : cSimulator) (command : cBlock)
    (pair : sCondition_Logic × sCondition_Logic)
    (rest : List (sCondition_Logic × sCondition_Logic)) (acc : Int) (io : cIO_Control)
    (e : Abort)
    (h : cSimulator.Eval_Condition fp { sim with io := io } command pair.2 = .error e) :
    cSimulator.Eval_Conditional_loop fp sim command (conditional_entries (pair :: rest)) acc io =
      .error e := by
  rw [conditional_entries, cSimulator.Eval_Conditional_loop]
  simp only [h, bind, Except.bind]

theorem Eval_Conditional_loop_fold (fp : cFloat) (sim : cSimulator) (command : cBlock) :
    ∀ (pairs : List (sCondition_Logic × sCondition_Logic)) (acc : Int) (io : cIO_Control)
      (results : List Bool) (io' : cIO_Control),
      (∀ pair ∈ pairs, pair.1.logic_code = some eLOGIC_AND ∨
        pair.1.logic_code = some eLOGIC_OR) →
      cSimulator.Eval_Conditions fp sim command (pairs.map Prod.snd) io = .ok (results, io') →
      0 ≤ acc → acc + pairs.length ≤ INT_MAX →
      cSimulator.Eval_Conditional_loop fp sim command (conditional_entries pairs) acc io =
        .ok (conditional_fold acc ((pairs.map Prod.fst).zip results), io')
  | [], acc, io, results, io', _, h, _, _ => by
    cases h
    rfl
  | pair :: rest, acc, io, results, io', hvalid, h, h0, hmax => by
    rw [List.map_cons, Eval_Conditions_cons] at h
    cases hfirst : cSimulator.Eval_Condition fp { sim with io := io } command pair.2 with
    | error e => rw [hfirst] at h; cases h
    | ok first =>
      obtain ⟨result, io1⟩ := first
      rw [hfirst] at h
      simp only [bind, Except.bind] at h
      cases hlater : cSimulator.Eval_Conditions fp sim command (rest.map Prod.snd) io1 with
      | error e => rw [hlater] at h; cases h
      | ok later =>
        obtain ⟨later_results, io2⟩ := later
        rw [hlater] at h
        simp only [pure, Except.pure, Except.ok.injEq, Prod.mk.injEq] at h
        obtain ⟨h1, h2⟩ := h
        subst h1 h2
        have hlen : ((pair :: rest).length : Int) = (rest.length : Int) + 1 := by simp
        rw [hlen] at hmax
        have hb : bool_to_int result = 0 ∨ bool_to_int result = 1 := by
          cases result <;> simp [bool_to_int]
        rw [Eval_Conditional_loop_cons fp sim command pair rest acc io io1 result hfirst]
        simp only [List.map_cons, List.zip_cons_cons, conditional_fold]
        rcases hvalid pair (List.mem_cons_self _ _) with hcode | hcode
        · have hmul0 : 0 ≤ acc * bool_to_int result := by
            rcases hb with hb | hb <;> rw [hb] <;> omega
          have hmul1 : acc * bool_to_int result ≤ acc := by
            rcases hb with hb | hb <;> rw [hb] <;> omega
          simp only [hcode, if_true]
          rw [wrap_int_of_range _ (by unfold INT_MIN; omega) (by omega)]
          exact Eval_Conditional_loop_fold fp sim command rest _ io1 later_results io2
            (fun p hp => hvalid p (List.mem_cons_of_mem _ hp)) hlater hmul0 (by omega)
        · have hne : ¬ eLOGIC_OR = eLOGIC_AND := by decide
          have hne' : ¬ some eLOGIC_OR = some eLOGIC_AND := by decide
          simp only [hcode, hne, hne', if_true, if_false]
          rw [wrap_int_of_range _ (by unfold INT_MIN; omega) (by rcases hb with hb | hb <;> omega)]
          exact Eval_Conditional_loop_fold fp sim command rest _ io1 later_results io2
            (fun p hp => hvalid p (List.mem_cons_of_mem _ hp)) hlater
            (by rcases hb with hb | hb <;> omega) (by rcases hb with hb | hb <;> omega)

theorem Eval_Conditional_loop_error (fp : cFloat) (sim : cSimulator) (command : cBlock) :
    ∀ (pairs : List (sCondition_Logic × sCondition_Logic)) (acc : Int) (io : cIO_Control)
      (e : Abort),
      cSimulator.Eval_Conditions fp sim command (pairs.map Prod.snd) io = .error e →
      ∃ e', cSimulator.Eval_Conditional_loop fp sim command (conditional_entries pairs) acc io =
          .error e' ∧
        ((∀ pair ∈ pairs, pair.1.logic_code = some eLOGIC_AND ∨
          pair.1.logic_code = some eLOGIC_OR) → e' = e)
  | [], acc, io, e, h => by cases h
  | pair :: rest, acc, io, e, h => by
    rw [List.map_cons, Eval_Conditions_cons] at h
    cases hfirst : cSimulator.Eval_Condition fp { sim with io := io } command pair.2 with
    | error e1 =>
      rw [hfirst] at h
      have he : e1 = e := Except.error.inj h
      rw [he] at hfirst
      exact ⟨e, Eval_Conditional_loop_fails fp sim command pair rest acc io e hfirst,
        fun _ => rfl⟩
    | ok first =>
      obtain ⟨result, io1⟩ := first
      rw [hfirst] at h
      simp only [bind, Except.bind] at h
      cases hlater : cSimulator.Eval_Conditions fp sim command (rest.map Prod.snd) io1 with
      | ok later => rw [hlater] at h; cases h
      | error e2 =>
        rw [hlater] at h
        have he : e2 = e := Except.error.inj h
        rw [he] at hlater
        rw [Eval_Conditional_loop_cons fp sim command pair rest acc io io1 result hfirst]
        cases hcode : pair.1.logic_code with
        | none =>
          refine ⟨_, rfl, fun hvalid => ?_⟩
          rcases hvalid pair (List.mem_cons_self _ _) with hv | hv <;> rw [hcode] at hv <;> cases hv
        | some code =>
          dsimp only
          by_cases hand : code = eLOGIC_AND
          · rw [if_pos hand]
            obtain ⟨e', he', hsame⟩ := Eval_Conditional_loop_error fp sim command rest
              (wrap_int (acc * bool_to_int result)) io1 e hlater
            exact ⟨e', he', fun hvalid =>
              hsame (fun p hp => hvalid p (List.mem_cons_of_mem _ hp))⟩
          · rw [if_neg hand]
            by_cases hor : code = eLOGIC_OR
            · rw [if_pos hor]
              obtain ⟨e', he', hsame⟩ := Eval_Conditional_loop_error fp sim command rest
                (wrap_int (acc + bool_to_int result)) io1 e hlater
              exact ⟨e', he', fun hvalid =>
                hsame (fun p hp => hvalid p (List.mem_cons_of_mem _ hp))⟩
            · rw [if_neg hor]
              refine ⟨_, rfl, fun hvalid => ?_⟩
              rcases hvalid pair (List.mem_cons_self _ _) with hv | hv <;> rw [hcode] at hv <;>
                simp only [Option.some.injEq] at hv
              · exact absurd hv hand
              · exact absurd hv hor

theorem conditional_entries_length : ∀ pairs : List (sCondition_Logic × sCondition_Logic),
    (conditional_entries pairs).length = 2 * pairs.length
  | [] => rfl
  | pair :: rest => by
    simp only [conditional_entries, List.length_cons, conditional_entries_length rest]
    omega

/-- C27: let the conditional of a command be `c0 (l1 c1) ... (lk ck)` with every logic entry AND
or OR and a count of entries that is an `int`, and let the conditions, evaluated in order,
return the 0/1 results `result :: results`.  Then `Eval_Conditional` returns the left fold that
starts at the result of `c0` and multiplies by the next result for AND and adds it for OR, over
exact integers; that number is non-negative, and it is non-zero if and only if the boolean
left-to-right combination `((c0 l1 c1) l2 c2 ...)` without precedence is true. -/
theorem Eval_Conditional_left_fold (fp : cFloat) (sim : cSimulator) (command : cBlock)
    (first : sCondition_Logic) (pairs : List (sCondition_Logic × sCondition_Logic))
    (result : Bool) (results : List Bool) (io : cIO_Control)
    (hconditional : command.conditional = first :: conditional_entries pairs)
    (hlogic : ∀ pair ∈ pairs, pair.1.logic_code = some eLOGIC_AND ∨
      pair.1.logic_code = some eLOGIC_OR)
    (hcount : (command.conditional.length : Int) ≤ INT_MAX)
    (hresults : cSimulator.Eval_Conditions fp sim command (first :: pairs.map Prod.snd) sim.io =
      .ok (result :: results, io)) :
    cSimulator.Eval_Conditional fp sim command =
      .ok (conditional_fold (bool_to_int result) ((pairs.map Prod.fst).zip results), io) ∧
    0 ≤ conditional_fold (bool_to_int result) ((pairs.map Prod.fst).zip results) ∧
    (conditional_fold (bool_to_int result) ((pairs.map Prod.fst).zip results) ≠ 0 ↔
      boolean_fold result ((pairs.map Prod.fst).zip results) = true) := by
  have hb : bool_to_int result = 0 ∨ bool_to_int result = 1 := by
    cases result <;> simp [bool_to_int]
  have h0 : 0 ≤ bool_to_int result := by rcases hb with hb | hb <;> omega
  obtain ⟨i1, -, i3⟩ := conditional_fold_bounds ((pairs.map Prod.fst).zip results)
    (bool_to_int result) h0
  have hdecide : decide (bool_to_int result ≠ 0) = result := by
    cases result <;> simp [bool_to_int]
  rw [hdecide] at i3
  refine ⟨?_, i1, i3⟩
  rw [Eval_Conditions_cons] at hresults
  have heta : ({ sim with io := sim.io } : cSimulator) = sim := rfl
  rw [heta] at hresults
  cases hfirst : cSimulator.Eval_Condition fp sim command first with
  | error e => rw [hfirst] at hresults; cases hresults
  | ok head =>
    obtain ⟨result0, io1⟩ := head
    rw [hfirst] at hresults
    simp only [bind, Except.bind] at hresults
    cases hlater : cSimulator.Eval_Conditions fp sim command (pairs.map Prod.snd) io1 with
    | error e => rw [hlater] at hresults; cases hresults
    | ok later =>
      obtain ⟨later_results, io2⟩ := later
      rw [hlater] at hresults
      simp only [pure, Except.pure, Except.ok.injEq, Prod.mk.injEq, List.cons.injEq] at hresults
      obtain ⟨⟨h1, h2⟩, h3⟩ := hresults
      subst h1 h2 h3
      rw [hconditional, List.length_cons, conditional_entries_length] at hcount
      unfold cSimulator.Eval_Conditional
      rw [hconditional]
      simp only [hfirst, bind, Except.bind]
      exact Eval_Conditional_loop_fold fp sim command pairs _ io1 later_results io2 hlogic
        hlater h0 (by push_cast at hcount; rcases hb with hb | hb <;> omega)

theorem Eval_Conditional_left_fold_witness :
    cSimulator.Eval_Conditional cFloat.unused (cSimulator.running (cMemory.new 1) 0)
        disjunction_example =
      .ok (conditional_fold (bool_to_int true)
        (([(logic_entry eLOGIC_OR, condition_entry 2 eTEST_EQUALS 3),
          (logic_entry eLOGIC_AND, condition_entry 4 eTEST_EQUALS 5)].map Prod.fst).zip
            [true, true]), cIO_Control.idle) ∧
    0 ≤ conditional_fold (bool_to_int true)
        (([(logic_entry eLOGIC_OR, condition_entry 2 eTEST_EQUALS 3),
          (logic_entry eLOGIC_AND, condition_entry 4 eTEST_EQUALS 5)].map Prod.fst).zip
            [true, true]) ∧
    (conditional_fold (bool_to_int true)
        (([(logic_entry eLOGIC_OR, condition_entry 2 eTEST_EQUALS 3),
          (logic_entry eLOGIC_AND, condition_entry 4 eTEST_EQUALS 5)].map Prod.fst).zip
            [true, true]) ≠ 0 ↔
      boolean_fold true
        (([(logic_entry eLOGIC_OR, condition_entry 2 eTEST_EQUALS 3),
          (logic_entry eLOGIC_AND, condition_entry 4 eTEST_EQUALS 5)].map Prod.fst).zip
            [true, true]) = true) :=
  Eval_Conditional_left_fold cFloat.unused (cSimulator.running (cMemory.new 1) 0)
    disjunction_example (condition_entry 0 eTEST_EQUALS 1)
    [(logic_entry eLOGIC_OR, condition_entry 2 eTEST_EQUALS 3),
      (logic_entry eLOGIC_AND, condition_entry 4 eTEST_EQUALS 5)]
    true [true, true] cIO_Control.idle rfl (by decide) (by decide) rfl

/-- C28: let the conditional of a command be `c0 (l1 c1) ... (lk ck)`.  If the conditions,
evaluated one after the other in order, do not all evaluate (the first that fails, fails with
`e`), then `Eval_Conditional` fails, whatever the results of the conditions before it and the
logic entries that join them (an AND after a false result, an OR after a true one); when every
logic entry is AND or OR it fails with the same error `e`. -/
theorem Eval_Conditional_never_short_circuits (fp : cFloat) (sim : cSimulator)
    (command : cBlock) (first : sCondition_Logic)
    (pairs : List (sCondition_Logic × sCondition_Logic)) (e : Abort)
    (hconditional : command.conditional = first :: conditional_entries pairs)
    (hfails : cSimulator.Eval_Conditions fp sim command (first :: pairs.map Prod.snd) sim.io =
      .error e) :
    ∃ e', cSimulator.Eval_Conditional fp sim command = .error e' ∧
      ((∀ pair ∈ pairs, pair.1.logic_code = some eLOGIC_AND ∨
        pair.1.logic_code = some eLOGIC_OR) → e' = e) := by
  rw [Eval_Conditions_cons] at hfails
  have heta : ({ sim with io := sim.io } : cSimulator) = sim := rfl
  rw [heta] at hfails
  unfold cSimulator.Eval_Conditional
  rw [hconditional]
  cases hfirst : cSimulator.Eval_Condition fp sim command first with
  | error e1 =>
    rw [hfirst] at hfails
    have he : e1 = e := Except.error.inj hfails
    exact ⟨e1, by simp only [hfirst, bind, Except.bind], fun _ => he⟩
  | ok head =>
    obtain ⟨result, io1⟩ := head
    rw [hfirst] at hfails
    simp only [bind, Except.bind] at hfails
    simp only [hfirst, bind, Except.bind]
    cases hlater : cSimulator.Eval_Conditions fp sim command (pairs.map Prod.snd) io1 with
    | ok later => rw [hlater] at hfails; cases hfails
    | error e2 =>
      rw [hlater] at hfails
      have he : e2 = e := Except.error.inj hfails
      rw [he] at hlater
      exact Eval_Conditional_loop_error fp sim command pairs (bool_to_int result) io1 e hlater

theorem Eval_Conditional_never_short_circuits_witness :
    ∃ e', cSimulator.Eval_Conditional cFloat.unused (cSimulator.running (cMemory.new 2) 0)
        short_circuit_example = .error e' ∧
      ((∀ pair ∈ [(logic_entry eLOGIC_AND, condition_entry 2 eTEST_EQUALS 3)],
        pair.1.logic_code = some eLOGIC_AND ∨ pair.1.logic_code = some eLOGIC_OR) →
        e' = .cError ("Invalid memory address " ++ Number_To_Text 9 ++ ".")) :=
  Eval_Conditional_never_short_circuits cFloat.unused (cSimulator.running (cMemory.new 2) 0)
    short_circuit_example (condition_entry 0 eTEST_EQUALS 1)
    [(logic_entry eLOGIC_AND, condition_entry 2 eTEST_EQUALS 3)]
    (.cError ("Invalid memory address " ++ Number_To_Text 9 ++ ".")) rfl rfl

/-! ### The STORE command -/

theorem cMemory_index_write_ne (m : cMemory) (a b : Int) (block : cBlock) (hb : 0 ≤ b)
    (hne : a ≠ b) : (m.write b block).index a = m.index a := by
  by_cases ha : 0 ≤ a
  · exact cMemory_index_write_other m b a block hb ha (fun e => hne e.symm)
  · unfold cMemory.index
    rw [cMemory_count_write, if_pos (Or.inl (by omega)), if_pos (Or.inl (by omega))]

/-- C29: when the two expressions of a STORE command evaluate to `v` (the value) and `d` (the
destination) and `d.number` is a valid address, holding `block`, executing STORE returns with
`Memory[d.number]` equal to `block` with its value replaced by `v` as it is (tag and payload):
the code, fields, expressions and conditional of that block are the same, every other address
reads as before, and the stack, the status, the pointer and the files are unchanged; the I/O
control is as the evaluations left it. -/
theorem store_writes_only_value (fp : cFloat) (sim : cSimulator) (command : cBlock)
    (v d : cValue) (io1 io2 : cIO_Control) (block : cBlock)
    (hcode : command.code = eCMD_STORE)
    (hvalue : cSimulator.Eval_Expression fp sim command 0 = .ok (v, io1))
    (hdest : cSimulator.Eval_Expression fp { sim with io := io1 } command 1 = .ok (d, io2))
    (hblock : sim.memory.index d.number = .ok block) :
    ∃ after, sim.Command_Processor fp command = .ok after ∧
      after.memory.index d.number = .ok { block with value := v } ∧
      (∀ address, address ≠ d.number → after.memory.index address = sim.memory.index address) ∧
      after.memory.count = sim.memory.count ∧
      after.stack = sim.stack ∧ after.status = sim.status ∧ after.pointer = sim.pointer ∧
      after.files = sim.files ∧ after.io = io2 := by
  obtain ⟨h0, h1, _⟩ := cMemory_index_ok _ _ _ hblock
  refine ⟨{ sim with
      io := io2
      memory := sim.memory.write d.number { block with value := v } }, ?_, ?_, ?_, ?_,
    rfl, rfl, rfl, rfl, rfl⟩
  · unfold cSimulator.Command_Processor
    simp only [hcode, bind, Except.bind, hvalue, hdest, hblock, pure, Except.pure]
    simp [eCMD_STORE, eCMD_NONE]
  · exact cMemory_index_write_same _ _ _ h0 h1
  · intro address hne
    exact cMemory_index_write_ne _ _ _ _ h0 hne
  · exact cMemory_count_write _ _ _

theorem store_writes_only_value_witness :
    ∃ after, (cSimulator.running (cMemory.new 2) 1).Command_Processor cFloat.unused
        store_example = .ok after ∧
      after.memory.index (Number 1).number = .ok { cBlock.new with value := Text "hello" } ∧
      (∀ address, address ≠ (Number 1).number →
        after.memory.index address = (cSimulator.running (cMemory.new 2) 1).memory.index address) ∧
      after.memory.count = (cSimulator.running (cMemory.new 2) 1).memory.count ∧
      after.stack = (cSimulator.running (cMemory.new 2) 1).stack ∧
      after.status = (cSimulator.running (cMemory.new 2) 1).status ∧
      after.pointer = (cSimulator.running (cMemory.new 2) 1).pointer ∧
      after.files = (cSimulator.running (cMemory.new 2) 1).files ∧
      after.io = cIO_Control.idle :=
  store_writes_only_value cFloat.unused (cSimulator.running (cMemory.new 2) 1) store_example
    (Text "hello") (Number 1) cIO_Control.idle cIO_Control.idle cBlock.new rfl rfl rfl rfl

/-! ### Fall-through commands -/

theorem Command_Processor_keeps_pointer (fp : cFloat) (sim : cSimulator) (command : cBlock)
    (htest : command.code ≠ eCMD_TEST) (hcall : command.code ≠ eCMD_CALL)
    (hreturn : command.code ≠ eCMD_RETURN) (hrepeat : command.code ≠ eCMD_REPEAT) :
    ensures (sim.Command_Processor fp command) (fun after => after.pointer = sim.pointer) := by
  unfold cSimulator.Command_Processor
  repeat' first
    | exact ensures_pure rfl
    | exact ensures_error _ _
    | exact absurd (by assumption) htest
    | exact absurd (by assumption) hcall
    | exact absurd (by assumption) hreturn
    | exact absurd (by assumption) hrepeat
    | (refine ensures_ite ?_ ?_ <;> intro _)
    | (refine ensures_bind (ensures_any _) ?_; rintro ⟨_, _⟩ _; dsimp only)
    | (refine ensures_bind (ensures_any _) ?_; intro _ _; dsimp only)

/-- C30: let a RUNNING simulator, on a memory whose size is an `int`, have the pointer `p` at a
command whose opcode is not TEST, CALL, RETURN or REPEAT.  If one round of `Run` (the time check
passes; fetch, advance, dispatch) returns, the pointer is `p + 1` afterwards. -/
theorem fall_through_advances_pointer (fp : cFloat) (timeout diff : Int)
    (sim after : cSimulator) (command : cBlock)
    (hrunning : sim.status = eSTATUS_RUNNING) (hdiff : diff < timeout)
    (hsize : sim.memory.count ≤ INT_MAX)
    (hcommand : sim.memory.index sim.pointer = .ok command)
    (hcode : command.code ∉ [eCMD_TEST, eCMD_CALL, eCMD_RETURN, eCMD_REPEAT])
    (hstep : cSimulator.Run fp timeout [diff] sim = .ok after) :
    after.pointer = sim.pointer + 1 := by
  obtain ⟨h0, h1, _⟩ := cMemory_index_ok _ _ _ hcommand
  simp only [List.mem_cons, List.mem_singleton, List.not_mem_nil, or_false, not_or] at hcode
  rw [Run_one_round fp timeout diff sim hrunning hdiff] at hstep
  unfold cSimulator.Run_step at hstep
  simp only [hcommand, bind, Except.bind] at hstep
  have hkeep := Command_Processor_keeps_pointer fp
    { sim with pointer := wrap_int (sim.pointer + 1) } command hcode.1 hcode.2.1 hcode.2.2.1
    hcode.2.2.2 after hstep
  rw [hkeep]
  exact wrap_int_of_range _ (by unfold INT_MIN; omega) (by omega)

theorem fall_through_advances_pointer_witness :
    ∃ after, cSimulator.Run cFloat.unused 20 [0]
        (cSimulator.running ((cMemory.new 2).write 0 store_example) 0) = .ok after ∧
      after.pointer = (cSimulator.running ((cMemory.new 2).write 0 store_example) 0).pointer + 1 :=
  ⟨{ cSimulator.running ((cMemory.new 2).write 0 store_example) 0 with
      pointer := 1
      memory := ((cMemory.new 2).write 0 store_example).write 1
        { cBlock.new with value := Text "hello" } }, rfl,
    fall_through_advances_pointer cFloat.unused 20 0
      (cSimulator.running ((cMemory.new 2).write 0 store_example) 0) _ store_example rfl
      (by decide) (by decide) rfl (by decide) rfl⟩

/-! ### The SAVE statement and command -/

theorem Command_Processor_SAVE (fp : cFloat) (sim : cSimulator) (command : cBlock)
    (first second third : cValue) (io1 io2 io3 : cIO_Control)
    (hcode : command.code = eCMD_SAVE)
    (hfirst : cSimulator.Eval_Expression fp sim command 0 = .ok (first, io1))
    (hsecond : cSimulator.Eval_Expression fp { sim with io := io1 } command 1 = .ok (second, io2))
    (hthird : cSimulator.Eval_Expression fp { sim with io := io2 } command 2 = .ok (third, io3)) :
    sim.Command_Processor fp command =
      (cSimulator.Save { sim with io := io3 } first.string sim.memory second.number
        third.number).map (fun files => { sim with io := io3, files := files }) := by
  unfold cSimulator.Command_Processor
  simp only [hcode, bind, Except.bind, hfirst, hsecond, hthird, pure, Except.pure]
  simp only [eCMD_SAVE, eCMD_NONE, eCMD_STORE, eCMD_SET, eCMD_TEST, eCMD_CALL,
    eCMD_RETURN, eCMD_STOP, eCMD_OUTPUT, eCMD_DRAW, eCMD_REFRESH, eCMD_SOUND, eCMD_MUSIC,
    eCMD_SILENCE, eCMD_INPUT, eCMD_TIMEOUT, eCMD_COLOR, eCMD_LOAD]
  simp only [Except.map]
  rfl

/-- C23 (the code at a failing input): the program `number 0 / object k=7 end / label start /
save %1 to $data count %1 / stop` compiles with the SAVE command in cell 2 holding the
expressions in the order P, F, C (`1`, `data`, `1`); run from `[start]` it stops having written
one file, whose name is the empty string slot of P and whose text is the block at address 0,
the number slot of F: not the block at address 1 (the object with `k=7`) under the name
`data`. -/
theorem save_statement_swaps_name_and_pointer :
    returns_with
      (cCompiler.new (tokens_of ["number", "0", "object", "k=7", "end", "label", "start",
        "save", "%1", "to", "$data", "count", "%1", "stop"]) (cMemory.new 8))
      (fun c =>
        returns_with (c.memory.index 2) (fun command =>
          command.code = eCMD_SAVE ∧
          command.expressions =
            [[operand_number 1], [operand_string "data"], [operand_number 1]]) ∧
        returns_with (c.memory.index 1) (fun block =>
          block.fields.find "k" = some (Number 7))) ∧
    returns_with
      (compile_and_run ["number", "0", "object", "k=7", "end", "label", "start",
        "save", "%1", "to", "$data", "count", "%1", "stop"] 8 "[start]" 8)
      (fun sim =>
        sim.status = eSTATUS_DONE ∧ sim.files.text = [("", "object\nend\n")]) := by
  decide!

/-! ### Literal-number operands -/

theorem strip_arrow_none (text : List Char) (h : '>' ∉ text) :
    strip_separator ['-', '>'] text = none := by
  cases text with
  | nil => rfl
  | cons c rest =>
    cases rest with
    | nil => simp [strip_separator]
    | cons d rest =>
      have hd : ¬ '>' = d := fun e => h (by simp [← e])
      simp [strip_separator, hd]

theorem pieces_without_arrow : ∀ (text piece : List Char), '>' ∉ text →
    Parse_Sausage_Text_pieces ['-', '>'] text 0 piece = [String.mk (piece.reverse ++ text)]
  | [], piece, _ => by simp [Parse_Sausage_Text_pieces]
  | c :: text, piece, h => by
    have hs := strip_arrow_none (c :: text) h
    have ih := pieces_without_arrow text (c :: piece) (fun hm => h (List.mem_cons_of_mem _ hm))
    simp only [Parse_Sausage_Text_pieces, hs, ih]
    simp

theorem Parse_Sausage_Text_without_arrow (text : String) (h : '>' ∉ text.data) :
    Parse_Sausage_Text text "->" = [text] := by
  unfold Parse_Sausage_Text
  have : ("->" : String).data = ['-', '>'] := rfl
  rw [this, pieces_without_arrow _ _ h]
  simp

theorem Text_To_Number_digits_all : ∀ (digits : List Char) (acc n : Nat),
    Text_To_Number_digits digits acc = some n → ∀ c ∈ digits, c.isDigit = true
  | [], _, _, _ => fun c hc => by cases hc
  | d :: rest, acc, n, h => by
    unfold Text_To_Number_digits at h
    by_cases hd : d.isDigit = true
    · rw [if_pos hd] at h
      intro c hc
      rcases List.mem_cons.mp hc with e | hm
      · rw [e]; exact hd
      · exact Text_To_Number_digits_all rest _ n h c hm
    · rw [if_neg hd] at h
      cases h

theorem Text_To_Number_chars (text : String) (n : Int) (h : Text_To_Number text = .ok n) :
    ∀ c ∈ text.data, c.isDigit = true ∨ c = '-' := by
  unfold Text_To_Number at h
  dsimp only at h
  split at h
  · rename_i digits hdata
    rw [hdata]
    intro c hc
    rcases List.mem_cons.mp hc with e | hm
    · exact Or.inr e
    · left
      cases digits with
      | nil => cases hm
      | cons d rest =>
        dsimp only at h
        cases hv : Text_To_Number_digits (d :: rest) 0 with
        | none => rw [hv] at h; cases h
        | some m => exact Text_To_Number_digits_all _ _ _ hv c hm
  · rename_i digits hno
    intro c hc
    left
    cases hdata : text.data with
    | nil => rw [hdata] at hc; cases hc
    | cons d rest =>
      rw [hdata] at h hc
      dsimp only at h
      cases hv : Text_To_Number_digits (d :: rest) 0 with
      | none => rw [hv] at h; cases h
      | some m => exact Text_To_Number_digits_all _ _ _ hv c hc

theorem Text_To_Number_bracket (name : String) :
    (Text_To_Number ("[" ++ name ++ "]")).toBool = false := by
  cases h : Text_To_Number ("[" ++ name ++ "]") with
  | error e => rfl
  | ok n =>
    have := Text_To_Number_chars _ n h '[' (by simp [String.data_append])
    rcases this with h1 | h1
    · exact absurd h1 (by decide)
    · exact absurd h1 (by decide)

theorem Parse_Address_number (address : String) (operand : sOperand_Operator) (n : Int)
    (h : Text_To_Number address = .ok n) :
    cCompiler.Parse_Address address operand =
      .ok { operand with value := operand.value.Set_Number n } := by
  have harrow : '>' ∉ address.data := fun hm => by
    rcases Text_To_Number_chars _ n h '>' hm with h1 | h1
    · exact absurd h1 (by decide)
    · exact absurd h1 (by decide)
  unfold cCompiler.Parse_Address
  simp only [Parse_Sausage_Text_without_arrow _ harrow, h, bind, Except.bind, pure, Except.pure]

theorem Parse_Address_placeholder (address : String) (operand : sOperand_Operator)
    (harrow : '>' ∉ address.data) (hfail : (Text_To_Number address).toBool = false) :
    cCompiler.Parse_Address address operand = .ok { operand with placeholder := address } := by
  unfold cCompiler.Parse_Address
  simp only [Parse_Sausage_Text_without_arrow _ harrow, bind, Except.bind, pure, Except.pure]
  cases h : Text_To_Number address with
  | ok n => rw [h] at hfail; cases hfail
  | error e =>
    have he := Text_To_Number_error _ _ h
    subst he
    rfl

/-- C21 (amended): let the front token have the first character `sigil`, none of `#`, `@`, `$`,
and the non-empty remainder `rest`; the first character is dropped.  If `rest` parses as the
integer `n`, `Parse_Operand` returns the literal number `n`.  If `rest` is a bracketed symbol
`[name]` (the name without `>`) that the symbol table binds to `value`, `Parse_Operand` returns a
literal-number operand with the placeholder `rest`, and the walk of `Replace_Placeholders` over an
expression with that operand succeeds and leaves the operand with Number `value`. -/
theorem Parse_Operand_literal_number (c : cCompiler) (token : sToken) (later : List sToken)
    (sigil : Char) (rest : String)
    (htokens : c.tokens = token :: later)
    (htext : token.token.data = sigil :: rest.data)
    (hrest : rest.data ≠ [])
    (hsigil : sigil ≠ '#' ∧ sigil ≠ '@' ∧ sigil ≠ '$') :
    (∀ n, Text_To_Number rest = .ok n →
      c.Parse_Operand = .ok (operand_number n, { c with tokens := later })) ∧
    (∀ (name : String) (value : Int) (symtab : cHash String Int),
      rest = "[" ++ name ++ "]" → '>' ∉ name.data → symtab.find rest = some value →
      c.Parse_Operand =
        .ok ({ operand_number 0 with placeholder := rest }, { c with tokens := later }) ∧
      cCompiler.Replace_Placeholders_operands symtab
          [{ operand_number 0 with placeholder := rest }] =
        .ok [{ operand_number value with placeholder := rest }]) := by
  have hlen : token.token.length > 1 := by
    have : token.token.length = token.token.data.length := rfl
    rw [this, htext]
    cases hr : rest.data with
    | nil => exact absurd hr hrest
    | cons d more => simp
  have hdrop : String.mk (token.token.data.drop 1) = rest := by
    rw [htext]
    rfl
  have hunfold := Parse_Operand_unfold c token later htokens
  rw [if_pos hlen, hdrop, htext] at hunfold
  simp only [List.head?_cons, Option.some.injEq] at hunfold
  rw [if_neg hsigil.1, if_neg hsigil.2.1, if_neg hsigil.2.2] at hunfold
  refine ⟨fun n hn => ?_, fun name value symtab hname harrow hfind => ⟨?_, ?_⟩⟩
  · rw [hunfold, Parse_Address_number _ _ n hn]
    rfl
  · have hfree : '>' ∉ rest.data := by
      rw [hname]
      simp only [String.data_append, List.mem_append, not_or]
      exact ⟨⟨by decide, harrow⟩, by decide⟩
    have hfail : (Text_To_Number rest).toBool = false := by
      rw [hname]; exact Text_To_Number_bracket name
    rw [hunfold, Parse_Address_placeholder _ _ hfree hfail]
    rfl
  · have hpos : rest.length > 0 := by
      have : rest.length = rest.data.length := rfl
      rw [this]
      exact List.length_pos.mpr hrest
    unfold cCompiler.Replace_Placeholders_operands
    simp only [hpos, hfind, if_true, bind, Except.bind, pure, Except.pure]
    rfl

theorem Parse_Operand_literal_number_witness :
    (cCompiler.start (tokens_of ["%12"]) (cMemory.new 1)).Parse_Operand =
      .ok (operand_number 12,
        { cCompiler.start (tokens_of ["%12"]) (cMemory.new 1) with tokens := [] }) ∧
    (cCompiler.start (tokens_of ["%[true]"]) (cMemory.new 1)).Parse_Operand =
      .ok ({ operand_number 0 with placeholder := "[true]" },
        { cCompiler.start (tokens_of ["%[true]"]) (cMemory.new 1) with tokens := [] }) ∧
    cCompiler.Replace_Placeholders_operands
        (cCompiler.start (tokens_of ["%[true]"]) (cMemory.new 1)).symtab
        [{ operand_number 0 with placeholder := "[true]" }] =
      .ok [{ operand_number 1 with placeholder := "[true]" }] :=
  ⟨(Parse_Operand_literal_number (cCompiler.start (tokens_of ["%12"]) (cMemory.new 1))
      { token := "%12", line_no := 0, source := "main" } [] '%' "12" rfl rfl (by decide)
      (by decide)).1 12 (by decide),
    (Parse_Operand_literal_number (cCompiler.start (tokens_of ["%[true]"]) (cMemory.new 1))
      { token := "%[true]", line_no := 0, source := "main" } [] '%' "[true]" rfl rfl (by decide)
      (by decide)).2 "true" 1 (cCompiler.start (tokens_of ["%[true]"]) (cMemory.new 1)).symtab
      (by decide) (by decide) (by decide)⟩

/-- C21 (as stated) fails: the operand token `12`, which parses as the integer 12 and does not
start with `#`, `@` or `$`, compiles to the literal number 2, and the program `push [true]`, whose
operand token is the bracketed symbol `[true]` of the symbol table, does not compile: the
placeholder looked up is `true]`. -/
theorem operand_token_loses_first_character :
    returns_with (cCompiler.start (tokens_of ["12"]) (cMemory.new 1)).Parse_Operand
      (fun result => result.1 = operand_number 2) ∧
    (cCompiler.start (tokens_of ["push", "[true]"]) (cMemory.new 2)).symtab.find "[true]" =
      some 1 ∧
    cCompiler.new (tokens_of ["push", "[true]"]) (cMemory.new 2) =
      .error (.cError "Could not find placeholder true].") := by
  decide!

/-! ### Placeholder resolution -/

theorem Replace_Placeholders_step (symtab : cHash String Int) (operand : sOperand_Operator) :
    (operand.resolvable symtab ∧
      (if operand.placeholder.length > 0 then
        match symtab.find operand.placeholder with
        | some value => pure { operand with value := operand.value.Set_Number value }
        | none => .error (.cError ("Could not find placeholder " ++ operand.placeholder ++ "."))
       else pure operand : Outcome sOperand_Operator) = .ok (resolve_operand symtab operand)) ∨
    (¬ operand.resolvable symtab ∧
      (if operand.placeholder.length > 0 then
        match symtab.find operand.placeholder with
        | some value => pure { operand with value := operand.value.Set_Number value }
        | none => .error (.cError ("Could not find placeholder " ++ operand.placeholder ++ "."))
       else pure operand : Outcome sOperand_Operator) =
        .error (.cError ("Could not find placeholder " ++ operand.placeholder ++ "."))) := by
  unfold sOperand_Operator.resolvable resolve_operand
  by_cases hlen : operand.placeholder.length > 0
  · have hne : operand.placeholder ≠ "" := fun e => by rw [e] at hlen; exact absurd hlen (by decide)
    rw [if_pos hlen, if_neg hne]
    cases hfind : symtab.find operand.placeholder with
    | some value => exact Or.inl ⟨Or.inr rfl, rfl⟩
    | none =>
      refine Or.inr ⟨?_, rfl⟩
      rintro (h | h)
      · exact hne h
      · cases h
  · have he := string_length_zero _ hlen
    rw [if_neg hlen, if_pos he]
    exact Or.inl ⟨Or.inl he, rfl⟩

theorem every_operand_of_cons (operand oper : sOperand_Operator) (rest : tExpression)
    (P : sOperand_Operator → Prop) :
    every_operand_of (operand :: oper :: rest) P ↔ P operand ∧ every_operand_of rest P := by
  constructor
  · intro h
    refine ⟨h 0 (by simp) rfl, fun i hi heven => ?_⟩
    have := h (i + 2) (by simpa using hi) (by omega)
    simpa using this
  · rintro ⟨h0, hrest⟩ i hi heven
    match i, hi with
    | 0, _ => exact h0
    | 1, _ => simp at heven
    | j + 2, hj =>
      simp only [List.getElem_cons_succ]
      exact hrest j (by simpa using hj) (by omega)

theorem every_operand_of_single (operand : sOperand_Operator) (P : sOperand_Operator → Prop) :
    every_operand_of [operand] P ↔ P operand := by
  constructor
  · intro h
    exact h 0 (by simp) rfl
  · intro h0 i hi _
    have : i = 0 := by simpa using hi
    subst this
    exact h0

theorem Replace_Placeholders_operands_cases (symtab : cHash String Int) :
    ∀ expression : tExpression,
      (every_operand_of expression (sOperand_Operator.resolvable symtab) ∧
        cCompiler.Replace_Placeholders_operands symtab expression =
          .ok (resolve_operands symtab expression)) ∨
      (¬ every_operand_of expression (sOperand_Operator.resolvable symtab) ∧
        placeholder_error (cCompiler.Replace_Placeholders_operands symtab expression))
  | [] => Or.inl ⟨fun i hi => by simp at hi, rfl⟩
  | [operand] => by
    rw [every_operand_of_single]
    unfold cCompiler.Replace_Placeholders_operands
    simp only [bind, Except.bind]
    rcases Replace_Placeholders_step symtab operand with ⟨h, e⟩ | ⟨h, e⟩
    · left
      refine ⟨h, ?_⟩
      split
      · rename_i err heq
        cases e.symm.trans heq
      · rename_i v heq
        cases e.symm.trans heq
        rfl
    · right
      refine ⟨h, operand.placeholder, ?_⟩
      split
      · rename_i err heq
        cases e.symm.trans heq
        rfl
      · rename_i v heq
        cases e.symm.trans heq
  | operand :: oper :: rest => by
    rw [every_operand_of_cons]
    unfold cCompiler.Replace_Placeholders_operands
    simp only [bind, Except.bind]
    rcases Replace_Placeholders_step symtab operand with ⟨h, e⟩ | ⟨h, e⟩
    · rcases Replace_Placeholders_operands_cases symtab rest with ⟨hr, er⟩ | ⟨hr, ph, er⟩
      · left
        refine ⟨⟨h, hr⟩, ?_⟩
        split
        · rename_i err heq
          cases e.symm.trans heq
        · rename_i v heq
          cases e.symm.trans heq
          simp only [er]
          rfl
      · right
        refine ⟨fun hall => hr hall.2, ph, ?_⟩
        split
        · rename_i err heq
          cases e.symm.trans heq
        · rename_i v heq
          simp only [er]
    · right
      refine ⟨fun hall => h hall.1, operand.placeholder, ?_⟩
      split
      · rename_i err heq
        cases e.symm.trans heq
        rfl
      · rename_i v heq
        cases e.symm.trans heq

theorem Replace_Placeholders_expressions_cases (symtab : cHash String Int) :
    ∀ expressions : List tExpression,
      ((∀ expression ∈ expressions,
          every_operand_of expression (sOperand_Operator.resolvable symtab)) ∧
        cCompiler.Replace_Placeholders_expressions symtab expressions =
          .ok (expressions.map (resolve_operands symtab))) ∨
      (¬ (∀ expression ∈ expressions,
          every_operand_of expression (sOperand_Operator.resolvable symtab)) ∧
        placeholder_error (cCompiler.Replace_Placeholders_expressions symtab expressions))
  | [] => Or.inl ⟨fun e he => (by cases he), rfl⟩
  | expression :: rest => by
    unfold cCompiler.Replace_Placeholders_expressions
    simp only [bind, Except.bind, List.forall_mem_cons]
    rcases Replace_Placeholders_operands_cases symtab expression with ⟨h, e⟩ | ⟨h, ph, e⟩
    · rcases Replace_Placeholders_expressions_cases symtab rest with ⟨hr, er⟩ | ⟨hr, ph, er⟩
      · left
        refine ⟨⟨h, hr⟩, ?_⟩
        simp only [e, er]
        rfl
      · right
        refine ⟨fun hall => hr hall.2, ph, ?_⟩
        simp only [e, er]
    · right
      refine ⟨fun hall => h hall.1, ph, ?_⟩
      simp only [e]

theorem Replace_Placeholders_blocks_cases (symtab : cHash String Int) :
    ∀ blocks : List cBlock,
      ((∀ block ∈ blocks, ∀ expression ∈ block.expressions,
          every_operand_of expression (sOperand_Operator.resolvable symtab)) ∧
        cCompiler.Replace_Placeholders_blocks symtab blocks =
          .ok (blocks.map (fun block =>
            { block with expressions := block.expressions.map (resolve_operands symtab) }))) ∨
      (¬ (∀ block ∈ blocks, ∀ expression ∈ block.expressions,
          every_operand_of expression (sOperand_Operator.resolvable symtab)) ∧
        placeholder_error (cCompiler.Replace_Placeholders_blocks symtab blocks))
  | [] => Or.inl ⟨fun b hb => (by cases hb), rfl⟩
  | block :: rest => by
    unfold cCompiler.Replace_Placeholders_blocks
    simp only [bind, Except.bind, List.forall_mem_cons]
    rcases Replace_Placeholders_expressions_cases symtab block.expressions with
      ⟨h, e⟩ | ⟨h, ph, e⟩
    · rcases Replace_Placeholders_blocks_cases symtab rest with ⟨hr, er⟩ | ⟨hr, ph, er⟩
      · left
        refine ⟨⟨h, hr⟩, ?_⟩
        simp only [e, er]
        rfl
      · right
        refine ⟨fun hall => hr hall.2, ph, ?_⟩
        simp only [e, er]
    · right
      refine ⟨fun hall => h hall.1, ph, ?_⟩
      simp only [e]

theorem resolve_operands_entry (symtab : cHash String Int) :
    ∀ (expression : tExpression) (i : Nat),
      (resolve_operands symtab expression)[i]? =
        (expression[i]?).map (fun entry =>
          if i % 2 = 0 then resolve_operand symtab entry else entry)
  | [], i => by simp [resolve_operands]
  | [operand], i => by
    cases i with
    | zero => simp [resolve_operands]
    | succ i => simp [resolve_operands]
  | operand :: oper :: rest, i => by
    match i with
    | 0 => simp [resolve_operands]
    | 1 => simp [resolve_operands]
    | j + 2 =>
      have ih := resolve_operands_entry symtab rest j
      have hmod : (j + 2) % 2 = j % 2 := by omega
      simp only [resolve_operands, List.getElem?_cons_succ, ih, hmod]

/-- C22: `Replace_Placeholders` fails with `Could not find placeholder ...` if and only if some
operand (an even-indexed entry of some expression of some block of the memory) has a non-empty
placeholder that is not a key of the symbol table, and it fails in no other way; when it
succeeds, the compiler is the same except that in the memory every operand with a non-empty
placeholder has the value Number `symtab[placeholder]` and every other entry is unchanged. -/
theorem Replace_Placeholders_iff (c : cCompiler) :
    (placeholder_error c.Replace_Placeholders ↔
      ¬ c.memory.every_operand (sOperand_Operator.resolvable c.symtab)) ∧
    ((∃ c', c.Replace_Placeholders = .ok c') ↔
      c.memory.every_operand (sOperand_Operator.resolvable c.symtab)) ∧
    (∀ c', c.Replace_Placeholders = .ok c' →
      c' = { c with memory := resolve_memory c.symtab c.memory }) := by
  have hcases := Replace_Placeholders_blocks_cases c.symtab c.memory.memory
  have hevery : c.memory.every_operand (sOperand_Operator.resolvable c.symtab) ↔
      ∀ block ∈ c.memory.memory, ∀ expression ∈ block.expressions,
        every_operand_of expression (sOperand_Operator.resolvable c.symtab) := Iff.rfl
  rw [hevery]
  unfold cCompiler.Replace_Placeholders
  simp only [bind, Except.bind, pure, Except.pure]
  rcases hcases with ⟨h, e⟩ | ⟨h, ph, e⟩
  · simp only [e]
    refine ⟨⟨fun ⟨ph, hp⟩ => (by cases hp), fun hn => absurd h hn⟩,
      ⟨fun _ => h, fun _ => ⟨_, rfl⟩⟩, fun c' hc' => ?_⟩
    cases hc'
    rfl
  · simp only [e]
    refine ⟨⟨fun _ => h, fun _ => ⟨ph, rfl⟩⟩, ⟨fun ⟨c', hc'⟩ => (by cases hc'), fun hall => absurd hall h⟩,
      fun c' hc' => by cases hc'⟩

/-! ### Labels and the symbol table -/

theorem Parse_Token_symtab (s : cHash String Int) (c : cCompiler) (h : c.symtab = s) :
    ensures c.Parse_Token (fun r => r.2.symtab = s) := by
  rintro ⟨token, c'⟩ hr
  rw [← h]
  exact (Parse_Token_tokens c c' token hr).2.1

theorem Parse_Keyword_symtab (s : cHash String Int) (c : cCompiler) (keyword : String)
    (h : c.symtab = s) : ensures (c.Parse_Keyword keyword) (fun c' => c'.symtab = s) := by
  unfold cCompiler.Parse_Keyword
  refine ensures_bind (Parse_Token_symtab s c h) ?_
  rintro ⟨token, c1⟩ hacc
  exact ensures_ite (fun _ => ensures_error _ _) (fun _ => ensures_pure hacc)

theorem Parse_Operand_symtab (s : cHash String Int) (c : cCompiler) (h : c.symtab = s) :
    ensures c.Parse_Operand (fun r => r.2.symtab = s) := by
  unfold cCompiler.Parse_Operand
  refine ensures_bind (Parse_Token_symtab s c h) ?_
  rintro ⟨token, c1⟩ hacc
  dsimp only
  refine ensures_ite (fun _ => ?_) (fun _ => ensures_error _ _)
  refine ensures_ite (fun _ => ?_) (fun _ => ?_)
  · exact ensures_bind (ensures_any _) (fun _ _ => ensures_pure hacc)
  refine ensures_ite (fun _ => ?_) (fun _ => ?_)
  · exact ensures_bind (ensures_any _) (fun _ _ => ensures_pure hacc)
  refine ensures_ite (fun _ => ?_) (fun _ => ?_)
  · exact ensures_pure hacc
  · exact ensures_bind (ensures_any _) (fun _ _ => ensures_pure hacc)

theorem Parse_Operator_symtab (s : cHash String Int) (c : cCompiler) (h : c.symtab = s) :
    ensures c.Parse_Operator (fun r => r.2.symtab = s) := by
  unfold cCompiler.Parse_Operator
  refine ensures_bind (Parse_Token_symtab s c h) ?_
  rintro ⟨token, c1⟩ hacc
  dsimp only
  repeat' (refine ensures_ite (fun _ => ensures_pure hacc) (fun _ => ?_))
  exact ensures_error _ _

theorem Parse_Expression_loop_symtab (s : cHash String Int) :
    ∀ (fuel : Nat) (expression : tExpression) (c : cCompiler), c.symtab = s →
      ensures (cCompiler.Parse_Expression_loop fuel expression c) (fun r => r.2.symtab = s) := by
  intro fuel
  induction fuel with
  | zero =>
    intro expression c h
    unfold cCompiler.Parse_Expression_loop
    exact ensures_ite (fun _ => ensures_error _ _) (fun _ => ensures_pure h)
  | succ fuel ih =>
    intro expression c h
    unfold cCompiler.Parse_Expression_loop
    refine ensures_ite (fun _ => ?_) (fun _ => ensures_pure h)
    refine ensures_bind (Parse_Operator_symtab s c h) ?_
    rintro ⟨oper, c1⟩ hacc
    refine ensures_bind (Parse_Operand_symtab s c1 hacc) ?_
    rintro ⟨operand, c2⟩ hacc
    exact ih _ c2 hacc

theorem Parse_Expression_symtab (s : cHash String Int) (c : cCompiler) (command : cBlock)
    (h : c.symtab = s) : ensures (c.Parse_Expression command) (fun r => r.2.2.symtab = s) := by
  unfold cCompiler.Parse_Expression
  refine ensures_bind (Parse_Operand_symtab s c h) ?_
  rintro ⟨operand, c1⟩ hacc
  refine ensures_bind (Parse_Expression_loop_symtab s _ _ c1 hacc) ?_
  rintro ⟨expression, c2⟩ hacc
  exact ensures_pure hacc

theorem Parse_Condition_symtab (s : cHash String Int) (c : cCompiler) (block : cBlock)
    (h : c.symtab = s) : ensures (c.Parse_Condition block) (fun r => r.2.2.symtab = s) := by
  unfold cCompiler.Parse_Condition
  refine ensures_bind (Parse_Expression_symtab s c block h) ?_
  rintro ⟨left_exp, block1, c1⟩ hacc
  refine ensures_bind (Parse_Token_symtab s c1 hacc) ?_
  rintro ⟨test, c2⟩ hacc
  refine ensures_bind (ensures_any _) ?_
  intro test_code _
  refine ensures_bind (Parse_Expression_symtab s c2 block1 hacc) ?_
  rintro ⟨right_exp, block3, c3⟩ hacc
  exact ensures_pure hacc

theorem Parse_Logic_symtab (s : cHash String Int) (c : cCompiler) (h : c.symtab = s) :
    ensures c.Parse_Logic (fun r => r.2.symtab = s) := by
  unfold cCompiler.Parse_Logic
  refine ensures_bind (Parse_Token_symtab s c h) ?_
  rintro ⟨token, c1⟩ hacc
  dsimp only
  repeat' (refine ensures_ite (fun _ => ensures_pure hacc) (fun _ => ?_))
  exact ensures_error _ _

theorem Parse_Conditional_loop_symtab (s : cHash String Int) :
    ∀ (fuel : Nat) (command : cBlock) (c : cCompiler), c.symtab = s →
      ensures (cCompiler.Parse_Conditional_loop fuel command c) (fun r => r.2.symtab = s) := by
  intro fuel
  induction fuel with
  | zero =>
    intro command c h
    unfold cCompiler.Parse_Conditional_loop
    exact ensures_ite (fun _ => ensures_error _ _) (fun _ => ensures_pure h)
  | succ fuel ih =>
    intro command c h
    unfold cCompiler.Parse_Conditional_loop
    refine ensures_ite (fun _ => ?_) (fun _ => ensures_pure h)
    refine ensures_bind (Parse_Logic_symtab s c h) ?_
    rintro ⟨logic, c1⟩ hacc
    refine ensures_bind (Parse_Condition_symtab s c1 _ hacc) ?_
    rintro ⟨condition, command1, c2⟩ hacc
    exact ih _ c2 hacc

theorem Parse_Conditional_symtab (s : cHash String Int) (c : cCompiler) (command : cBlock)
    (h : c.symtab = s) : ensures (c.Parse_Conditional command) (fun r => r.2.symtab = s) := by
  unfold cCompiler.Parse_Conditional
  refine ensures_bind (Parse_Condition_symtab s c command h) ?_
  rintro ⟨condition, command1, c1⟩ hacc
  exact Parse_Conditional_loop_symtab s _ _ c1 hacc

theorem next_block_symtab (s : cHash String Int) (c : cCompiler) (h : c.symtab = s) :
    ensures c.next_block (fun r => r.2.2.symtab = s) := by
  rintro ⟨address, block, c'⟩ hr
  obtain ⟨-, -, -, hc, -⟩ := next_block_step c c' address block hr
  subst hc
  exact h

theorem Parse_Statements_list_symtab (s : cHash String Int) :
    ∀ (rounds : Nat) (c : cCompiler), c.symtab = s →
      ensures (cCompiler.Parse_Statements_list rounds c) (fun c' => c'.symtab = s) := by
  intro rounds
  induction rounds with
  | zero =>
    intro c h
    unfold cCompiler.Parse_Statements_list
    exact ensures_pure h
  | succ rounds ih =>
    intro c h
    unfold cCompiler.Parse_Statements_list
    refine ensures_bind (next_block_symtab s c h) ?_
    rintro ⟨address, block, c1⟩ hacc
    exact ih _ hacc

theorem Parse_Statements_object_symtab (s : cHash String Int) :
    ∀ (fuel : Nat) (property : sToken) (block : cBlock) (c : cCompiler), c.symtab = s →
      ensures (cCompiler.Parse_Statements_object fuel property block c)
        (fun r => r.2.symtab = s) := by
  intro fuel
  induction fuel with
  | zero =>
    intro property block c h
    unfold cCompiler.Parse_Statements_object
    exact ensures_error _ _
  | succ fuel ih =>
    intro property block c h
    unfold cCompiler.Parse_Statements_object
    refine ensures_ite (fun _ => ?_) (fun _ => ensures_pure h)
    refine ensures_bind (ensures_any _) ?_
    intro block1 _
    refine ensures_bind (Parse_Token_symtab s c h) ?_
    rintro ⟨next, c1⟩ hacc
    exact ih next block1 c1 hacc

theorem ensures_weaken {α : Type} {call : Outcome α} {P Q : α → Prop} (h : ensures call P)
    (hPQ : ∀ a, P a → Q a) : ensures call Q :=
  fun a ha => hPQ a (h a ha)

theorem Parse_Token_front (c : cCompiler) :
    ensures c.Parse_Token
      (fun r => r.2.symtab = c.symtab ∧ c.tokens = r.1 :: r.2.tokens) := by
  rintro ⟨token, c'⟩ hr
  have f := Parse_Token_tokens c c' token hr
  exact ⟨f.2.1, f.1⟩

theorem Parse_Statements_map_symtab :
    ∀ (fuel : Nat) (item : sToken) (index : Int) (c : cCompiler),
      ensures (cCompiler.Parse_Statements_map fuel item index c) (fun c' =>
        ∀ key : String,
          (∀ token ∈ (item :: c.tokens).takeWhile (fun item => decide (item.token ≠ "end")),
            key ≠ "[" ++ token.token ++ "]") →
          c'.symtab.find key = c.symtab.find key) := by
  intro fuel
  induction fuel with
  | zero =>
    intro item index c
    unfold cCompiler.Parse_Statements_map
    exact ensures_error _ _
  | succ fuel ih =>
    intro item index c
    unfold cCompiler.Parse_Statements_map
    refine ensures_ite (fun hitem => ?_) (fun _ => ensures_pure (fun _ _ => rfl))
    refine ensures_bind (Parse_Token_front _) ?_
    rintro ⟨next, c1⟩ ⟨hs, ht⟩
    refine ensures_weaken (ih next _ c1) ?_
    intro c' hc' key hkey
    have hd : decide (item.token ≠ "end") = true := by simpa using hitem
    have ht' : c.tokens = next :: c1.tokens := ht
    rw [List.takeWhile_cons, hd, if_pos rfl, ht'] at hkey
    rw [hc' key (fun token htoken => hkey token (List.mem_cons_of_mem _ htoken)), hs]
    exact cHash_find_assign_ne _ _ _ _ (hkey item (List.mem_cons_self _ _))

theorem bound_names_define (c : cCompiler) (keyword name : sToken) (rest : List sToken)
    (h : c.tokens = keyword :: name :: rest)
    (hk : keyword.token = "define" ∨ keyword.token = "label") :
    c.bound_names = [name.token] := by
  unfold cCompiler.bound_names
  rw [h]
  simp only [hk, if_true]

theorem bound_names_map (c : cCompiler) (keyword : sToken) (rest : List sToken)
    (h : c.tokens = keyword :: rest) (hk : keyword.token = "map") :
    c.bound_names =
      (rest.takeWhile (fun item => decide (item.token ≠ "end"))).map (fun item => item.token) := by
  unfold cCompiler.bound_names
  rw [h]
  have hno : ¬ (("map" : String) = "define" ∨ ("map" : String) = "label") := by decide
  simp only [hk, hno, if_true, if_false]

/-- A statement that returns changes the symbol table at most under the bracketed names that it
binds. -/
theorem Parse_Statement_symtab (c : cCompiler) :
    ensures c.Parse_Statement (fun c' =>
      ∀ key : String, (∀ name ∈ c.bound_names, key ≠ "[" ++ name ++ "]") →
        c'.symtab.find key = c.symtab.find key) := by
  unfold cCompiler.Parse_Statement
  refine ensures_bind (Parse_Token_front c) ?_
  rintro ⟨token, c1⟩ ⟨hs1, ht1⟩
  dsimp only
  -- define
  refine ensures_ite (fun hk => ?_) (fun _ => ?_)
  · refine ensures_bind (Parse_Token_front c1) ?_
    rintro ⟨name, c2⟩ ⟨hs2, ht2⟩
    refine ensures_bind (Parse_Keyword_symtab c2.symtab c2 _ rfl) ?_
    intro c3 hs3
    refine ensures_bind (Parse_Token_symtab c2.symtab c3 hs3) ?_
    rintro ⟨value, c4⟩ hs4
    refine ensures_bind (ensures_any _) ?_
    intro number _
    refine ensures_pure ?_
    intro key hkey
    have ht : c.tokens = token :: name :: c2.tokens := by
      rw [ht1]; exact congrArg _ ht2
    rw [bound_names_define c token name c2.tokens ht (Or.inl hk)] at hkey
    have hs4' : c4.symtab = c2.symtab := hs4
    show (c4.symtab.assign _ _).find key = _
    rw [cHash_find_assign_ne _ _ _ _ (hkey name.token (List.mem_singleton.mpr rfl)), hs4', hs2,
      hs1]
  -- map
  refine ensures_ite (fun hk => ?_) (fun _ => ?_)
  · refine ensures_bind (Parse_Token_front c1) ?_
    rintro ⟨item, c2⟩ ⟨hs2, ht2⟩
    refine ensures_weaken (Parse_Statements_map_symtab _ item 0 c2) ?_
    intro c' hc' key hkey
    have ht1' : c.tokens = token :: c1.tokens := ht1
    have ht2' : c1.tokens = item :: c2.tokens := ht2
    rw [bound_names_map c token c1.tokens ht1' hk, ht2'] at hkey
    rw [hc' key (fun t htoken => hkey t.token (List.mem_map.mpr ⟨t, htoken, rfl⟩)), hs2, hs1]
  -- label
  refine ensures_ite (fun hk => ?_) (fun _ => ?_)
  · refine ensures_bind (Parse_Token_front c1) ?_
    rintro ⟨name, c2⟩ ⟨hs2, ht2⟩
    refine ensures_pure ?_
    intro key hkey
    have ht : c.tokens = token :: name :: c2.tokens := by
      rw [ht1]; exact congrArg _ ht2
    rw [bound_names_define c token name c2.tokens ht (Or.inr hk)] at hkey
    show (c2.symtab.assign _ _).find key = _
    rw [cHash_find_assign_ne _ _ _ _ (hkey name.token (List.mem_singleton.mpr rfl)), hs2, hs1]
  -- the statements that bind no name
  refine ensures_weaken (P := fun c' => c'.symtab = c.symtab) ?_
    (fun c' hc' key _ => by rw [hc'])
  repeat' first
    | exact ensures_pure (by assumption)
    | exact ensures_error _ _
    | (refine ensures_ite ?_ ?_ <;> intro _)
    | (refine ensures_bind (Parse_Token_symtab c.symtab _ (by assumption)) ?_
       rintro ⟨_, _⟩ _
       dsimp only)
    | (refine ensures_bind (next_block_symtab c.symtab _ (by assumption)) ?_
       rintro ⟨_, _, _⟩ _
       dsimp only)
    | (refine ensures_bind (Parse_Expression_symtab c.symtab _ _ (by assumption)) ?_
       rintro ⟨_, _, _⟩ _
       dsimp only)
    | (refine ensures_bind (Parse_Conditional_symtab c.symtab _ _ (by assumption)) ?_
       rintro ⟨_, _⟩ _
       dsimp only)
    | (refine ensures_bind (Parse_Keyword_symtab c.symtab _ _ (by assumption)) ?_
       intro _ _)
    | (refine ensures_bind (Parse_Statements_object_symtab c.symtab _ _ _ _ (by assumption)) ?_
       rintro ⟨_, _⟩ _
       dsimp only)
    | exact Parse_Statements_list_symtab c.symtab _ _ (by assumption)
    | (refine ensures_bind (ensures_any _) ?_
       intro _ _)

theorem after_statements_add : ∀ (a b : Nat) (c : cCompiler),
    cCompiler.after_statements (a + b) c =
      (cCompiler.after_statements a c >>= cCompiler.after_statements b)
  | 0, b, c => by
    rw [Nat.zero_add]
    rfl
  | a + 1, b, c => by
    have h : a + 1 + b = (a + b) + 1 := by omega
    rw [h, cCompiler.after_statements, cCompiler.after_statements]
    cases hs : c.Parse_Statement with
    | error e => rfl
    | ok c1 =>
      simp only [bind, Except.bind]
      exact after_statements_add a b c1

theorem Parse_Statement_of_empty (c : cCompiler) (h : c.tokens = []) :
    ∃ e, c.Parse_Statement = .error e := by
  unfold cCompiler.Parse_Statement cCompiler.Parse_Token
  rw [h]
  exact ⟨_, rfl⟩

theorem after_statements_of_empty (k : Nat) (c c' : cCompiler) (h : c.tokens = [])
    (hk : cCompiler.after_statements k c = .ok c') : k = 0 ∧ c' = c := by
  cases k with
  | zero =>
    cases hk
    exact ⟨rfl, rfl⟩
  | succ k =>
    obtain ⟨e, he⟩ := Parse_Statement_of_empty c h
    rw [cCompiler.after_statements, he] at hk
    cases hk

theorem Parse_Statements_loop_after : ∀ (fuel : Nat) (c c' : cCompiler),
    cCompiler.Parse_Statements_loop fuel c = .ok c' →
    ∃ k, cCompiler.after_statements k c = .ok c' ∧ c'.tokens = []
  | 0, c, c', h => by
    unfold cCompiler.Parse_Statements_loop at h
    by_cases hl : c.tokens.length > 0
    · rw [if_pos hl] at h; cases h
    · rw [if_neg hl] at h
      cases h
      exact ⟨0, rfl, List.length_eq_zero.mp (by omega)⟩
  | fuel + 1, c, c', h => by
    unfold cCompiler.Parse_Statements_loop at h
    by_cases hl : c.tokens.length > 0
    · rw [if_pos hl] at h
      cases hs : c.Parse_Statement with
      | error e => rw [hs] at h; cases h
      | ok c1 =>
        rw [hs] at h
        obtain ⟨k, hk, ht⟩ := Parse_Statements_loop_after fuel c1 c' h
        refine ⟨k + 1, ?_, ht⟩
        rw [cCompiler.after_statements, hs]
        exact hk
    · rw [if_neg hl] at h
      cases h
      exact ⟨0, rfl, List.length_eq_zero.mp (by omega)⟩

theorem after_statements_symtab (name : String) :
    ∀ (k : Nat) (c c' : cCompiler),
      cCompiler.after_statements k c = .ok c' →
      (∀ (j : Nat) (cj : cCompiler), cCompiler.after_statements j c = .ok cj →
        name ∉ cj.bound_names) →
      c'.symtab.find ("[" ++ name ++ "]") = c.symtab.find ("[" ++ name ++ "]")
  | 0, c, c', h, _ => by
    cases h
    rfl
  | k + 1, c, c', h, hfree => by
    rw [cCompiler.after_statements] at h
    cases hs : c.Parse_Statement with
    | error e => rw [hs] at h; cases h
    | ok c1 =>
      rw [hs] at h
      have h1 := Parse_Statement_symtab c c1 hs ("[" ++ name ++ "]")
        (fun other hother heq => hfree 0 c rfl (by rw [bracket_injective _ _ heq]; exact hother))
      rw [← h1]
      refine after_statements_symtab name k c1 c' h (fun j cj hj => hfree (j + 1) cj ?_)
      rw [cCompiler.after_statements, hs]
      exact hj

theorem Parse_Statement_label (c : cCompiler) (keyword name : sToken) (rest : List sToken)
    (h : c.tokens = keyword :: name :: rest) (hk : keyword.token = "label") :
    c.Parse_Statement =
      .ok { c with
        tokens := rest
        symtab := c.symtab.assign ("[" ++ name.token ++ "]") c.pointer } := by
  unfold cCompiler.Parse_Statement cCompiler.Parse_Token
  rw [h]
  simp only [bind, Except.bind, hk]
  rfl

theorem bound_names_mem (c : cCompiler) :
    ∀ name ∈ c.bound_names, ∃ token ∈ c.tokens, token.token = name := by
  intro name hname
  unfold cCompiler.bound_names at hname
  cases ht : c.tokens with
  | nil => rw [ht] at hname; cases hname
  | cons keyword rest =>
    rw [ht] at hname
    dsimp only at hname
    split at hname
    · cases rest with
      | nil => cases hname
      | cons first more =>
        have : name = first.token := by simpa using hname
        exact ⟨first, by simp, this.symm⟩
    · split at hname
      · obtain ⟨item, hitem, rfl⟩ := List.mem_map.mp hname
        exact ⟨item, List.mem_cons_of_mem _ (List.takeWhile_subset _ hitem), rfl⟩
      · cases hname

/-- A name that is the text of no remaining token is bound by no later statement. -/
theorem never_bound_of_absent (c : cCompiler) (name : String)
    (habsent : ∀ token ∈ c.tokens, token.token ≠ name) (j : Nat) (later : cCompiler)
    (h : cCompiler.after_statements j c = .ok later) : name ∉ later.bound_names := by
  intro hbound
  obtain ⟨token, htoken, htext⟩ := bound_names_mem later name hbound
  obtain ⟨⟨shifted, hshift⟩, -⟩ := after_statements_follows c j c (follows_refl c) later h
  exact habsent token (by rw [hshift]; exact List.mem_append_right _ htoken) htext

/-! ### Clearing blocks and the memory -/

/-- C31: `Clear` of a block sets its value to Number 0, its code to NONE and its fields to the
empty table, and leaves its expressions and its conditional as they were; `Clear` of a memory
keeps the count of blocks and leaves at every address the cleared block: the block that was
there with value Number 0, code NONE, no fields, and the same expressions and conditional. -/
theorem Clear_keeps_expressions (m : cMemory) (block : cBlock) :
    (block.Clear.value = Number 0 ∧ block.Clear.code = eCMD_NONE ∧
      block.Clear.fields.items = [] ∧ block.Clear.fields.Count = 0 ∧
      block.Clear.expressions = block.expressions ∧
      block.Clear.conditional = block.conditional) ∧
    m.Clear.count = m.count ∧
    (∀ (address : Int) (old : cBlock), m.index address = .ok old →
      m.Clear.index address = .ok old.Clear) ∧
    (∀ (address : Int) (e : Abort), m.index address = .error e →
      m.Clear.index address = .error e) := by
  refine ⟨⟨rfl, rfl, rfl, rfl, rfl, rfl⟩, ?_, ?_, ?_⟩
  · simp [cMemory.Clear, cMemory.count]
  · intro address old h
    obtain ⟨h0, h1, h2⟩ := cMemory_index_ok _ _ _ h
    unfold cMemory.index
    have hcount : m.Clear.count = m.count := by simp [cMemory.Clear, cMemory.count]
    rw [hcount, if_neg (by omega)]
    simp [cMemory.Clear, h2]
  · intro address e h
    have hcount : m.Clear.count = m.count := by simp [cMemory.Clear, cMemory.count]
    unfold cMemory.index at h ⊢
    rw [hcount]
    by_cases hr : address < 0 ∨ address ≥ m.count
    · rw [if_pos hr] at h ⊢
      exact h
    · rw [if_neg hr] at h ⊢
      have hlt : address.toNat < m.memory.length := by
        unfold cMemory.count at hr
        omega
      simp [List.getElem?_eq_getElem hlt] at h

/-! ### REPEAT outside the range -/

/-- C32: when the four expressions of a REPEAT command evaluate to `lower`, `upper`, `pointer`
and `jump_address`, and the counter cell `Memory[pointer.number]` holds a number below
`lower.number` or above `upper.number`, executing REPEAT returns with the counter cell holding
Number `lower.number` (the cell otherwise the same) and the pointer at `jump_address.number`;
the stack, the status and the files are unchanged. -/
theorem repeat_out_of_range_resets (fp : cFloat) (sim : cSimulator) (command var : cBlock)
    (lower upper pointer jump_address : cValue) (io1 io2 io3 io4 : cIO_Control)
    (hrepeat : command.code = eCMD_REPEAT)
    (hlower : cSimulator.Eval_Expression fp sim command 0 = .ok (lower, io1))
    (hupper : cSimulator.Eval_Expression fp { sim with io := io1 } command 1 = .ok (upper, io2))
    (hpointer : cSimulator.Eval_Expression fp { sim with io := io2 } command 2 =
      .ok (pointer, io3))
    (hjump : cSimulator.Eval_Expression fp { sim with io := io3 } command 3 =
      .ok (jump_address, io4))
    (hvar : sim.memory.index pointer.number = .ok var)
    (hout : var.value.number < lower.number ∨ var.value.number > upper.number) :
    ∃ after, sim.Command_Processor fp command = .ok after ∧
      after.memory.index pointer.number = .ok { var with value := Number lower.number } ∧
      after.pointer = jump_address.number ∧
      after.stack = sim.stack ∧ after.status = sim.status ∧ after.files = sim.files := by
  obtain ⟨h0, h1, _⟩ := cMemory_index_ok _ _ _ hvar
  refine ⟨{ sim with
      io := io4
      memory := sim.memory.write pointer.number { var with value := Number lower.number }
      pointer := jump_address.number }, ?_, ?_, rfl, rfl, rfl, rfl⟩
  · unfold cSimulator.Command_Processor
    simp only [hrepeat, bind, Except.bind, hlower, hupper, hpointer, hjump, hvar, pure,
      Except.pure]
    simp [eCMD_REPEAT, eCMD_POP, eCMD_PUSH, eCMD_RETURN, eCMD_CALL, eCMD_NONE, eCMD_STORE,
      eCMD_SET, eCMD_TEST, eCMD_STOP, eCMD_OUTPUT, eCMD_DRAW, eCMD_REFRESH, eCMD_SOUND,
      eCMD_MUSIC, eCMD_SILENCE, eCMD_INPUT, eCMD_TIMEOUT, eCMD_COLOR, eCMD_LOAD, eCMD_SAVE, hout,
      cValue.Set_Number, Number]
  · exact cMemory_index_write_same _ _ _ h0 h1

theorem repeat_out_of_range_resets_witness :
    ∃ after,
      (cSimulator.running ((cMemory.new 5).write 4 (block_with_value (Number 9)))
        1).Command_Processor cFloat.unused repeat_example = .ok after ∧
      after.memory.index (Number 4).number =
        .ok { block_with_value (Number 9) with value := Number (Number 0).number } ∧
      after.pointer = (Number 0).number ∧
      after.stack =
        (cSimulator.running ((cMemory.new 5).write 4 (block_with_value (Number 9))) 1).stack ∧
      after.status =
        (cSimulator.running ((cMemory.new 5).write 4 (block_with_value (Number 9))) 1).status ∧
      after.files =
        (cSimulator.running ((cMemory.new 5).write 4 (block_with_value (Number 9))) 1).files :=
  repeat_out_of_range_resets cFloat.unused
    (cSimulator.running ((cMemory.new 5).write 4 (block_with_value (Number 9))) 1)
    repeat_example (block_with_value (Number 9)) (Number 0) (Number 3) (Number 4) (Number 0)
    cIO_Control.idle cIO_Control.idle cIO_Control.idle cIO_Control.idle rfl rfl rfl rfl rfl rfl
    (Or.inr (by decide))

/-! ### The status of the simulator -/

theorem Command_Processor_status (fp : cFloat) (sim : cSimulator) (command : cBlock) :
    ensures (sim.Command_Processor fp command)
      (fun after => after.status = sim.status ∨ after.status = eSTATUS_DONE) := by
  unfold cSimulator.Command_Processor
  repeat' first
    | exact ensures_pure (Or.inl rfl)
    | exact ensures_pure (Or.inr rfl)
    | exact ensures_error _ _
    | (refine ensures_ite ?_ ?_ <;> intro _)
    | (refine ensures_bind (ensures_any _) ?_; rintro ⟨_, _⟩ _; dsimp only)
    | (refine ensures_bind (ensures_any _) ?_; intro _ _; dsimp only)

theorem Run_status : ∀ (fp : cFloat) (timeout : Int) (elapsed : List Int)
    (sim after : cSimulator), cSimulator.Run fp timeout elapsed sim = .ok after →
    after.status = eSTATUS_RUNNING → sim.status = eSTATUS_RUNNING
  | _, _, [], sim, after, h, hr => by
    cases h
    exact hr
  | fp, timeout, diff :: later, sim, after, h, hr => by
    unfold cSimulator.Run at h
    by_cases hs : sim.status = eSTATUS_RUNNING
    · exact hs
    · rw [if_neg hs] at h
      cases h
      exact absurd hr hs

theorem Run_calls_idle (fp : cFloat) : ∀ (calls : List (Int × List Int)) (sim : cSimulator),
    sim.status = eSTATUS_IDLE → cSimulator.Run_calls fp calls sim = .ok sim
  | [], _, _ => rfl
  | call :: later, sim, h => by
    have hnot : sim.status ≠ eSTATUS_RUNNING := by rw [h]; decide
    rw [cSimulator.Run_calls, Run_not_running fp call.1 call.2 sim hnot]
    exact Run_calls_idle fp later sim h

/-- C34: the constructor leaves the status IDLE; `Run` on a state whose status is IDLE returns
at once with the state unchanged (no command is fetched: pointer, stack, memory, I/O control and
status are the same), for every timeout and every reading of the clock; `Command_Processor`
leaves the status as it was or sets it to DONE, and `Run` returns with status RUNNING only when
it was entered with status RUNNING; hence after any number of calls of `Run` on the constructed
simulator the state is still the constructed one, with status IDLE. -/
theorem idle_simulator_never_runs (fp : cFloat) (memory : cMemory) (io : cIO_Control)
    (program : Int) (files : cFiles) :
    (cSimulator.new memory io program files).status = eSTATUS_IDLE ∧
    (∀ (sim : cSimulator) (timeout : Int) (elapsed : List Int), sim.status = eSTATUS_IDLE →
      cSimulator.Run fp timeout elapsed sim = .ok sim) ∧
    (∀ (sim after : cSimulator) (command : cBlock),
      sim.Command_Processor fp command = .ok after →
      after.status = sim.status ∨ after.status = eSTATUS_DONE) ∧
    (∀ (sim after : cSimulator) (timeout : Int) (elapsed : List Int),
      cSimulator.Run fp timeout elapsed sim = .ok after →
      after.status = eSTATUS_RUNNING → sim.status = eSTATUS_RUNNING) ∧
    (∀ calls : List (Int × List Int),
      cSimulator.Run_calls fp calls (cSimulator.new memory io program files) =
        .ok (cSimulator.new memory io program files)) := by
  refine ⟨rfl, fun sim timeout elapsed h => ?_, fun sim after command h => ?_,
    fun sim after timeout elapsed h hr => ?_, fun calls => ?_⟩
  · exact Run_not_running fp timeout elapsed sim (by rw [h]; decide)
  · exact Command_Processor_status fp sim command after h
  · exact Run_status fp timeout elapsed sim after h hr
  · exact Run_calls_idle fp calls _ rfl

/-! ### Division and remainder -/

theorem Eval_Operator_REM_zero (fp : cFloat) (sim : cSimulator) (command : cBlock)
    (value operand_value : cValue) (io : cIO_Control) (hzero : operand_value.number = 0) :
    cSimulator.Eval_Operator fp sim command (operator_entry eOPER_REM) value operand_value io =
      .error (.undefined "remainder by zero") := by
  unfold cSimulator.Eval_Operator operator_entry
  simp [hzero, eOPER_REM, eOPER_ADD, eOPER_SUB, eOPER_MUL, eOPER_DIV]

/-- C35 (the code at a failing input): the expression `5 rem 0` reaches the `rem` case with the
right operand 0, where the source computes `value.number % operand_value.number` without a test:
the remainder by zero is taken and the evaluation has no defined result, while `5 / 0`, whose
case tests the right operand, returns Number 5. -/
theorem remainder_by_zero_is_unguarded :
    cSimulator.Eval_Expression cFloat.unused (cSimulator.running (cMemory.new 1) 0)
        (command_block eCMD_PUSH
          [[operand_number 5, operator_entry eOPER_REM, operand_number 0]]) 0 =
      .error (.undefined "remainder by zero") ∧
    cSimulator.Eval_Expression cFloat.unused (cSimulator.running (cMemory.new 1) 0)
        (command_block eCMD_PUSH
          [[operand_number 5, operator_entry eOPER_DIV, operand_number 0]]) 0 =
      .ok (Number 5, cIO_Control.idle) ∧
    returns_with
      (cCompiler.new (tokens_of ["push", "%5", "rem", "%0"]) (cMemory.new 1))
      (fun c => returns_with (c.memory.index 0) (fun command =>
        command.expressions =
          [[operand_number 5, operator_entry eOPER_REM, operand_number 0]])) := by
  refine ⟨rfl, rfl, ?_⟩
  decide!

/-! ### The layout of a test statement -/

theorem Parse_Expression_index (c c' : cCompiler) (command command' : cBlock) (index : Int)
    (h : c.Parse_Expression command = .ok (index, command', c')) :
    index = (command.expressions.length : Int) ∧
    (∃ expression, command'.expressions = command.expressions ++ [expression]) ∧
    command'.conditional = command.conditional ∧ command'.code = command.code := by
  unfold cCompiler.Parse_Expression at h
  simp only [bind, Except.bind, pure, Except.pure] at h
  split at h
  · cases h
  · split at h
    · cases h
    · rename_i w hw
      simp only [Except.ok.injEq, Prod.mk.injEq] at h
      obtain ⟨h1, h2, -⟩ := h
      subst h2
      refine ⟨?_, ⟨_, rfl⟩, rfl, rfl⟩
      rw [← h1]
      simp

theorem Parse_Condition_indices (c c' : cCompiler) (block block' : cBlock)
    (condition : sCondition_Logic)
    (h : c.Parse_Condition block = .ok (condition, block', c')) :
    condition.logic_code = none ∧
    condition.left_exp = (block.expressions.length : Int) ∧
    condition.right_exp = (block.expressions.length : Int) + 1 ∧
    (∃ left right, block'.expressions = block.expressions ++ [left, right]) ∧
    block'.conditional = block.conditional ∧ block'.code = block.code := by
  unfold cCompiler.Parse_Condition at h
  simp only [bind, Except.bind, pure, Except.pure] at h
  split at h
  · cases h
  · rename_i v1 hv1
    obtain ⟨left_exp, block1, c1⟩ := v1
    simp only at h
    split at h
    · cases h
    · rename_i v2 hv2
      obtain ⟨test, c2⟩ := v2
      simp only at h
      split at h
      · cases h
      · rename_i test_code htest
        split at h
        · cases h
        · rename_i v3 hv3
          obtain ⟨right_exp, block3, c3⟩ := v3
          simp only [Except.ok.injEq, Prod.mk.injEq] at h
          obtain ⟨h1, h2, -⟩ := h
          subst h1 h2
          obtain ⟨i1, ⟨left, e1⟩, f1, g1⟩ := Parse_Expression_index _ _ _ _ _ hv1
          obtain ⟨i3, ⟨right, e3⟩, f3, g3⟩ := Parse_Expression_index _ _ _ _ _ hv3
          refine ⟨rfl, i1, ?_, ⟨left, right, ?_⟩, by rw [f3, f1], by rw [g3, g1]⟩
          · show right_exp = _
            rw [i3, e1]
            simp
          · rw [e3, e1]
            simp

theorem Parse_Logic_indices (c c' : cCompiler) (logic : sCondition_Logic)
    (h : c.Parse_Logic = .ok (logic, c')) : logic.left_exp = 0 ∧ logic.right_exp = 0 := by
  unfold cCompiler.Parse_Logic at h
  simp only [bind, Except.bind, pure, Except.pure] at h
  split at h
  · cases h
  · repeat' split at h
    all_goals first
      | (cases h; exact ⟨rfl, rfl⟩)
      | cases h

theorem test_layout_single (condition : sCondition_Logic) (hcode : condition.logic_code = none)
    (hleft : condition.left_exp = 0) (hright : condition.right_exp = 1) :
    test_layout [condition] 1 := by
  refine ⟨rfl, fun i hi => ?_, fun entry hentry => ?_⟩
  · have : i = 0 := by omega
    subst this
    exact ⟨condition, rfl, hcode, by simpa using hleft, by simpa using hright⟩
  · have : entry = condition := by simpa using hentry
    subst this
    rw [hleft, hright]
    decide

theorem test_layout_append (added : List sCondition_Logic) (k : Nat)
    (logic condition : sCondition_Logic) (h : test_layout added k)
    (hlogic : logic.left_exp = 0 ∧ logic.right_exp = 0)
    (hcode : condition.logic_code = none)
    (hleft : condition.left_exp = 2 * (k : Int))
    (hright : condition.right_exp = 2 * (k : Int) + 1) :
    test_layout (added ++ [logic, condition]) (k + 1) := by
  obtain ⟨hlen, hconditions, hwithin⟩ := h
  refine ⟨?_, fun i hi => ?_, fun entry hentry => ?_⟩
  · simp only [List.length_append, List.length_cons, List.length_nil]
    omega
  · by_cases hik : i < k
    · obtain ⟨found, hfound, hrest⟩ := hconditions i hik
      refine ⟨found, ?_, hrest⟩
      rw [List.getElem?_append_left (by omega)]
      exact hfound
    · have hi' : i = k := by omega
      subst hi'
      refine ⟨condition, ?_, hcode, hleft, hright⟩
      rw [List.getElem?_append_right (by omega)]
      have : 2 * i - added.length = 1 := by omega
      rw [this]
      rfl
  · rcases List.mem_append.mp hentry with hold | hnew
    · have := hwithin entry hold
      push_cast
      omega
    · simp only [List.mem_cons, List.mem_singleton, List.not_mem_nil, or_false] at hnew
      push_cast
      rcases hnew with e | e
      · rw [e, hlogic.1, hlogic.2]; omega
      · rw [e, hleft, hright]; omega

theorem Parse_Conditional_loop_layout (prior : List sCondition_Logic) :
    ∀ (fuel : Nat) (command command' : cBlock) (c c' : cCompiler)
      (added : List sCondition_Logic) (k : Nat),
      command.conditional = prior ++ added → test_layout added k → 1 ≤ k →
      command.expressions.length = 2 * k →
      cCompiler.Parse_Conditional_loop fuel command c = .ok (command', c') →
      ∃ (added' : List sCondition_Logic) (k' : Nat),
        command'.conditional = prior ++ added' ∧ test_layout added' k' ∧ 1 ≤ k' ∧
        command'.expressions.length = 2 * k' ∧ command'.code = command.code := by
  intro fuel
  induction fuel with
  | zero =>
    intro command command' c c' added k hc hl hk he h
    unfold cCompiler.Parse_Conditional_loop at h
    split at h
    · cases h
    · cases h
      exact ⟨added, k, hc, hl, hk, he, rfl⟩
  | succ fuel ih =>
    intro command command' c c' added k hc hl hk he h
    unfold cCompiler.Parse_Conditional_loop at h
    split at h
    · simp only [bind, Except.bind] at h
      split at h
      · cases h
      · rename_i v hv
        obtain ⟨logic, c1⟩ := v
        simp only at h
        split at h
        · cases h
        · rename_i w hw
          obtain ⟨condition, command2, c2⟩ := w
          simp only at h
          have hlogic := Parse_Logic_indices _ _ _ hv
          obtain ⟨hcode, hleft, hright, ⟨left, right, hexp⟩, hcond, hsame⟩ :=
            Parse_Condition_indices _ _ _ _ _ hw
          have hleft' : condition.left_exp = 2 * (k : Int) := by
            rw [hleft]
            show ((command.expressions.length : Nat) : Int) = _
            rw [he]
            push_cast
            rfl
          have hright' : condition.right_exp = 2 * (k : Int) + 1 := by
            rw [hright]
            show ((command.expressions.length : Nat) : Int) + 1 = _
            rw [he]
            push_cast
            rfl
          obtain ⟨added', k', r1, r2, r3, r4, r5⟩ := ih _ command' c2 c'
            (added ++ [logic, condition]) (k + 1)
            (by
              show command2.conditional ++ [condition] = _
              rw [hcond]
              show (command.conditional ++ [logic]) ++ [condition] = _
              rw [hc]
              simp)
            (test_layout_append added k logic condition hl hlogic hcode hleft' hright')
            (by omega)
            (by
              show command2.expressions.length = _
              rw [hexp]
              show (command.expressions ++ [left, right]).length = _
              simp only [List.length_append, List.length_cons, List.length_nil, he]
              omega)
            h
          exact ⟨added', k', r1, r2, r3, r4, by rw [r5]; exact hsame⟩
    · cases h
      exact ⟨added, k, hc, hl, hk, he, rfl⟩

theorem Parse_Conditional_layout (c c' : cCompiler) (command command' : cBlock)
    (hfresh : command.expressions = [])
    (h : c.Parse_Conditional command = .ok (command', c')) :
    ∃ (added : List sCondition_Logic) (k : Nat),
      command'.conditional = command.conditional ++ added ∧ test_layout added k ∧ 1 ≤ k ∧
      command'.expressions.length = 2 * k ∧ command'.code = command.code := by
  unfold cCompiler.Parse_Conditional at h
  simp only [bind, Except.bind] at h
  split at h
  · cases h
  · rename_i v hv
    obtain ⟨condition, command1, c1⟩ := v
    simp only at h
    obtain ⟨hcode, hleft, hright, ⟨left, right, hexp⟩, hcond, hsame⟩ :=
      Parse_Condition_indices _ _ _ _ _ hv
    rw [hfresh] at hleft hright hexp
    obtain ⟨added, k, r1, r2, r3, r4, r5⟩ := Parse_Conditional_loop_layout command.conditional
      _ _ command' c1 c' [condition] 1
      (by
        show command1.conditional ++ [condition] = _
        rw [hcond])
      (test_layout_single condition hcode (by simpa using hleft) (by simpa using hright))
      (le_refl 1)
      (by
        show command1.expressions.length = _
        rw [hexp]
        rfl)
      h
    exact ⟨added, k, r1, r2, r3, r4, by rw [r5]; exact hsame⟩

theorem next_block_at (c : cCompiler) (block : cBlock)
    (h : c.memory.index c.pointer = .ok block) :
    c.next_block = .ok (c.pointer, block, { c with pointer := wrap_int (c.pointer + 1) }) := by
  unfold cCompiler.next_block cCompiler.advance
  simp only [bind, Except.bind, pure, Except.pure]
  have : ({ c with pointer := wrap_int (c.pointer + 1) } : cCompiler).memory.index c.pointer =
      .ok block := h
  rw [this]

theorem Parse_Statement_test (c : cCompiler) (keyword : sToken) (rest : List sToken)
    (block : cBlock) (htokens : c.tokens = keyword :: rest) (hkeyword : keyword.token = "test")
    (hblock : c.memory.index c.pointer = .ok block) :
    c.Parse_Statement =
      (cCompiler.Parse_Conditional
          { c with tokens := rest, pointer := wrap_int (c.pointer + 1) }
          { block with code := eCMD_TEST } >>= fun r1 =>
        r1.2.Parse_Keyword "then" >>= fun c3 =>
        c3.Parse_Expression r1.1 >>= fun r2 =>
        r2.2.2.Parse_Keyword "otherwise" >>= fun c5 =>
        c5.Parse_Expression r2.2.1 >>= fun r3 =>
        pure { r3.2.2 with memory := r3.2.2.memory.write c.pointer r3.2.1 }) := by
  have hnext := next_block_at { c with tokens := rest } block hblock
  unfold cCompiler.Parse_Statement cCompiler.Parse_Token
  rw [htokens]
  simp only [bind, Except.bind, hkeyword]
  rw [if_neg (by decide), if_neg (by decide), if_neg (by decide), if_neg (by decide),
    if_neg (by decide), if_neg (by decide), if_neg (by decide), if_neg (by decide),
    if_neg (by decide), if_pos trivial, hnext]

/-- C33: a `test` statement that compiles into a block without expressions leaves, at the
    statement's cell, a TEST block with exactly `2 * k + 2` expressions for some `k ≥ 1`:
    the conditional parser produced the first `2 * k`, the then- and otherwise-expressions
    are appended at indices `2 * k` and `2 * k + 1`, which are the indices `N - 2` and
    `N - 1` that the TEST command evaluates; the conditional gains `2 * k - 1` entries
    (they are the whole conditional when the block had none), the entry at position `2 * i`
    is the i-th condition with `left_exp = 2 * i` and `right_exp = 2 * i + 1`, and every
    index stored in an added entry lies within the block's expression list. -/
theorem test_statement_layout (c c' : cCompiler) (keyword : sToken) (rest : List sToken)
    (block : cBlock) (htokens : c.tokens = keyword :: rest) (hkeyword : keyword.token = "test")
    (hblock : c.memory.index c.pointer = .ok block) (hfresh : block.expressions = [])
    (hparsed : c.Parse_Statement = .ok c') :
    ∃ (command tested : cBlock) (after : cCompiler) (then_expression otherwise_expression :
        List sOperand_Operator) (added : List sCondition_Logic) (k : Nat),
      c'.memory.index c.pointer = .ok command ∧
      command.code = eCMD_TEST ∧
      1 ≤ k ∧
      cCompiler.Parse_Conditional
          { c with tokens := rest, pointer := wrap_int (c.pointer + 1) }
          { block with code := eCMD_TEST } = .ok (tested, after) ∧
      tested.expressions.length = 2 * k ∧
      command.expressions = tested.expressions ++ [then_expression, otherwise_expression] ∧
      command.expressions.length = 2 * k + 2 ∧
      (command.expressions.length : Int) - 2 = 2 * (k : Int) ∧
      (command.expressions.length : Int) - 1 = 2 * (k : Int) + 1 ∧
      command.expressions[((command.expressions.length : Int) - 2).toNat]? =
        some then_expression ∧
      command.expressions[((command.expressions.length : Int) - 1).toNat]? =
        some otherwise_expression ∧
      command.conditional = block.conditional ++ added ∧
      (block.conditional = [] → command.conditional = added) ∧
      added.length + 1 = 2 * k ∧
      (∀ i : Nat, i < k → ∃ condition, added[2 * i]? = some condition ∧
        condition.logic_code = none ∧
        condition.left_exp = 2 * (i : Int) ∧ condition.right_exp = 2 * (i : Int) + 1) ∧
      (∀ entry ∈ added, 0 ≤ entry.left_exp ∧
        entry.left_exp < (command.expressions.length : Int) ∧
        0 ≤ entry.right_exp ∧ entry.right_exp < (command.expressions.length : Int)) := by
  rw [Parse_Statement_test c keyword rest block htokens hkeyword hblock] at hparsed
  have hrange := cMemory_index_ok _ _ _ hblock
  have hf1 := Parse_Conditional_follows
    { c with tokens := rest, pointer := wrap_int (c.pointer + 1) }
    { c with tokens := rest, pointer := wrap_int (c.pointer + 1) }
    { block with code := eCMD_TEST } (follows_refl _)
  cases h1 : cCompiler.Parse_Conditional
      { c with tokens := rest, pointer := wrap_int (c.pointer + 1) }
      { block with code := eCMD_TEST } with
  | error e => rw [h1] at hparsed; cases hparsed
  | ok r1 =>
    obtain ⟨tested, c2⟩ := r1
    rw [h1] at hparsed hf1
    simp only [bind, Except.bind] at hparsed
    have hf1 := hf1 _ rfl
    have hf2 := Parse_Keyword_follows c2 c2 "then" (follows_refl _)
    cases h2 : c2.Parse_Keyword "then" with
    | error e => rw [h2] at hparsed; cases hparsed
    | ok c3 =>
      rw [h2] at hparsed hf2
      simp only at hparsed
      have hf2 := hf2 _ rfl
      have hf3 := Parse_Expression_follows c3 c3 tested (follows_refl _)
      cases h3 : c3.Parse_Expression tested with
      | error e => rw [h3] at hparsed; cases hparsed
      | ok r2 =>
        obtain ⟨index2, command2, c4⟩ := r2
        rw [h3] at hparsed hf3
        simp only at hparsed
        have hf3 := hf3 _ rfl
        have hf4 := Parse_Keyword_follows c4 c4 "otherwise" (follows_refl _)
        cases h4 : c4.Parse_Keyword "otherwise" with
        | error e => rw [h4] at hparsed; cases hparsed
        | ok c5 =>
          rw [h4] at hparsed hf4
          simp only at hparsed
          have hf4 := hf4 _ rfl
          have hf5 := Parse_Expression_follows c5 c5 command2 (follows_refl _)
          cases h5 : c5.Parse_Expression command2 with
          | error e => rw [h5] at hparsed; cases hparsed
          | ok r3 =>
            obtain ⟨index3, command3, c6⟩ := r3
            rw [h5] at hparsed hf5
            simp only [pure, Except.pure] at hparsed
            have hf5 := hf5 _ rfl
            have hc' := (Except.ok.inj hparsed).symm
            obtain ⟨added, k, hcond, hlayout, hk, hlen, hcode⟩ :=
              Parse_Conditional_layout _ _ { block with code := eCMD_TEST } _ hfresh h1
            obtain ⟨_, ⟨e2, he2⟩, hcond2, hcode2⟩ := Parse_Expression_index _ _ _ _ _ h3
            obtain ⟨_, ⟨e3, he3⟩, hcond3, hcode3⟩ := Parse_Expression_index _ _ _ _ _ h5
            have hexp : command3.expressions = tested.expressions ++ [e2, e3] := by
              rw [he3, he2, List.append_assoc]; rfl
            have hlen3 : command3.expressions.length = 2 * k + 2 := by
              rw [hexp, List.length_append, hlen]; rfl
            have hfollow := follows_trans hf1
              (follows_trans hf2 (follows_trans hf3 (follows_trans hf4 hf5)))
            refine ⟨command3, tested, c2, e2, e3, added, k, ?_, ?_, hk, rfl, hlen, hexp, hlen3,
              ?_, ?_, ?_, ?_, ?_, ?_, hlayout.1, hlayout.2.1, ?_⟩
            · rw [hc']
              have hcount : c6.memory.count = c.memory.count := hfollow.2.1
              exact cMemory_index_write_same _ _ _ hrange.1 (by rw [hcount]; exact hrange.2.1)
            · rw [hcode3, hcode2, hcode]
            · rw [hlen3]; push_cast; omega
            · rw [hlen3]; push_cast; omega
            · have hat : ((command3.expressions.length : Int) - 2).toNat =
                  tested.expressions.length := by rw [hlen3, hlen]; push_cast; omega
              rw [hat, hexp, List.getElem?_append_right (le_refl _), Nat.sub_self]
              rfl
            · have hat : ((command3.expressions.length : Int) - 1).toNat =
                  tested.expressions.length + 1 := by rw [hlen3, hlen]; push_cast; omega
              rw [hat, hexp, List.getElem?_append_right (Nat.le_succ _), Nat.add_sub_cancel_left (n := tested.expressions.length) (m := 1)]
              rfl
            · rw [hcond3, hcond2, hcond]
            · intro hempty
              rw [hcond3, hcond2, hcond]
              show block.conditional ++ added = added
              rw [hempty]
              rfl
            · intro entry hentry
              have := hlayout.2.2 entry hentry
              rw [hlen3]; push_cast; omega

theorem test_statement_layout_witness :
    ∃ (c' : cCompiler) (block : cBlock),
      test_example.tokens = { token := "test", line_no := 0, source := "main" } ::
        tokens_of ["#1", "eq", "#1", "and", "#2", "lt", "#3", "then", "#4", "otherwise", "#5",
          "stop"] ∧
      test_example.memory.index test_example.pointer = .ok block ∧
      block.expressions = [] ∧
      test_example.Parse_Statement = .ok c' ∧
      ∃ (command tested : cBlock) (after : cCompiler) (then_expression otherwise_expression :
          List sOperand_Operator) (added : List sCondition_Logic) (k : Nat),
        c'.memory.index test_example.pointer = .ok command ∧
        command.code = eCMD_TEST ∧
        1 ≤ k ∧
        cCompiler.Parse_Conditional
            { test_example with
              tokens := tokens_of ["#1", "eq", "#1", "and", "#2", "lt", "#3", "then", "#4",
                "otherwise", "#5", "stop"]
              pointer := wrap_int (test_example.pointer + 1) }
            { block with code := eCMD_TEST } = .ok (tested, after) ∧
        tested.expressions.length = 2 * k ∧
        command.expressions = tested.expressions ++ [then_expression, otherwise_expression] ∧
        command.expressions.length = 2 * k + 2 ∧
        (command.expressions.length : Int) - 2 = 2 * (k : Int) ∧
        (command.expressions.length : Int) - 1 = 2 * (k : Int) + 1 ∧
        command.expressions[((command.expressions.length : Int) - 2).toNat]? =
          some then_expression ∧
        command.expressions[((command.expressions.length : Int) - 1).toNat]? =
          some otherwise_expression ∧
        command.conditional = block.conditional ++ added ∧
        (block.conditional = [] → command.conditional = added) ∧
        added.length + 1 = 2 * k ∧
        (∀ i : Nat, i < k → ∃ condition, added[2 * i]? = some condition ∧
          condition.logic_code = none ∧
          condition.left_exp = 2 * (i : Int) ∧ condition.right_exp = 2 * (i : Int) + 1) ∧
        (∀ entry ∈ added, 0 ≤ entry.left_exp ∧
          entry.left_exp < (command.expressions.length : Int) ∧
          0 ≤ entry.right_exp ∧ entry.right_exp < (command.expressions.length : Int)) := by
  obtain ⟨c', hparsed⟩ := returns_with_ok test_example.Parse_Statement (by decide!)
  obtain ⟨block, hblock, hfresh⟩ :
      returns_with (test_example.memory.index test_example.pointer)
        (fun block => block.expressions = []) := by decide!
  have htokens : test_example.tokens =
      { token := "test", line_no := 0, source := "main" } ::
        tokens_of ["#1", "eq", "#1", "and", "#2", "lt", "#3", "then", "#4", "otherwise", "#5",
          "stop"] := by decide!
  exact ⟨c', block, htokens, hblock, hfresh, hparsed,
    test_statement_layout test_example c' _ _ block htokens rfl hblock hfresh hparsed⟩

/-- The example statement compiles to a TEST block with six expressions and the conditional
    `(0 eq 1) and (2 lt 3)`. -/
theorem test_example_compiles :
    returns_with test_example.Parse_Statement (fun c' =>
      returns_with (c'.memory.index 0) (fun command =>
        command.code = eCMD_TEST ∧ command.expressions.length = 6 ∧
        command.conditional.map (fun entry => (entry.logic_code, entry.left_exp, entry.right_exp)) =
          [(none, 0, 1), (some eLOGIC_AND, 0, 0), (none, 2, 3)])) := by
  decide!

/-! ### Labels and the count of emitted cells -/

theorem Parse_Token_place (p n : Int) (c : cCompiler)
    (h : c.pointer = p ∧ c.memory.count = n) :
    ensures c.Parse_Token (fun r => r.2.pointer = p ∧ r.2.memory.count = n) := by
  rintro ⟨token, c'⟩ hr
  have f := Parse_Token_tokens c c' token hr
  exact ⟨by rw [← h.1]; exact f.2.2.2, by rw [← h.2]; exact congrArg _ f.2.2.1⟩

theorem Parse_Keyword_place (p n : Int) (c : cCompiler) (keyword : String)
    (h : c.pointer = p ∧ c.memory.count = n) :
    ensures (c.Parse_Keyword keyword) (fun c' => c'.pointer = p ∧ c'.memory.count = n) := by
  unfold cCompiler.Parse_Keyword
  refine ensures_bind (Parse_Token_place p n c h) ?_
  rintro ⟨token, c1⟩ hacc
  exact ensures_ite (fun _ => ensures_error _ _) (fun _ => ensures_pure hacc)

theorem Parse_Operand_place (p n : Int) (c : cCompiler)
    (h : c.pointer = p ∧ c.memory.count = n) :
    ensures c.Parse_Operand (fun r => r.2.pointer = p ∧ r.2.memory.count = n) := by
  unfold cCompiler.Parse_Operand
  refine ensures_bind (Parse_Token_place p n c h) ?_
  rintro ⟨token, c1⟩ hacc
  dsimp only
  refine ensures_ite (fun _ => ?_) (fun _ => ensures_error _ _)
  refine ensures_ite (fun _ => ?_) (fun _ => ?_)
  · exact ensures_bind (ensures_any _) (fun _ _ => ensures_pure hacc)
  refine ensures_ite (fun _ => ?_) (fun _ => ?_)
  · exact ensures_bind (ensures_any _) (fun _ _ => ensures_pure hacc)
  refine ensures_ite (fun _ => ?_) (fun _ => ?_)
  · exact ensures_pure hacc
  · exact ensures_bind (ensures_any _) (fun _ _ => ensures_pure hacc)

theorem Parse_Operator_place (p n : Int) (c : cCompiler)
    (h : c.pointer = p ∧ c.memory.count = n) :
    ensures c.Parse_Operator (fun r => r.2.pointer = p ∧ r.2.memory.count = n) := by
  unfold cCompiler.Parse_Operator
  refine ensures_bind (Parse_Token_place p n c h) ?_
  rintro ⟨token, c1⟩ hacc
  dsimp only
  repeat' (refine ensures_ite (fun _ => ensures_pure hacc) (fun _ => ?_))
  exact ensures_error _ _

theorem Parse_Expression_loop_place (p n : Int) :
    ∀ (fuel : Nat) (expression : tExpression) (c : cCompiler),
      c.pointer = p ∧ c.memory.count = n →
      ensures (cCompiler.Parse_Expression_loop fuel expression c)
        (fun r => r.2.pointer = p ∧ r.2.memory.count = n) := by
  intro fuel
  induction fuel with
  | zero =>
    intro expression c h
    unfold cCompiler.Parse_Expression_loop
    exact ensures_ite (fun _ => ensures_error _ _) (fun _ => ensures_pure h)
  | succ fuel ih =>
    intro expression c h
    unfold cCompiler.Parse_Expression_loop
    refine ensures_ite (fun _ => ?_) (fun _ => ensures_pure h)
    refine ensures_bind (Parse_Operator_place p n c h) ?_
    rintro ⟨oper, c1⟩ hacc
    refine ensures_bind (Parse_Operand_place p n c1 hacc) ?_
    rintro ⟨operand, c2⟩ hacc
    exact ih _ c2 hacc

theorem Parse_Expression_place (p n : Int) (c : cCompiler) (command : cBlock)
    (h : c.pointer = p ∧ c.memory.count = n) :
    ensures (c.Parse_Expression command)
      (fun r => r.2.2.pointer = p ∧ r.2.2.memory.count = n) := by
  unfold cCompiler.Parse_Expression
  refine ensures_bind (Parse_Operand_place p n c h) ?_
  rintro ⟨operand, c1⟩ hacc
  refine ensures_bind (Parse_Expression_loop_place p n _ _ c1 hacc) ?_
  rintro ⟨expression, c2⟩ hacc
  exact ensures_pure hacc

theorem Parse_Condition_place (p n : Int) (c : cCompiler) (block : cBlock)
    (h : c.pointer = p ∧ c.memory.count = n) :
    ensures (c.Parse_Condition block)
      (fun r => r.2.2.pointer = p ∧ r.2.2.memory.count = n) := by
  unfold cCompiler.Parse_Condition
  refine ensures_bind (Parse_Expression_place p n c block h) ?_
  rintro ⟨left_exp, block1, c1⟩ hacc
  refine ensures_bind (Parse_Token_place p n c1 hacc) ?_
  rintro ⟨test, c2⟩ hacc
  refine ensures_bind (ensures_any _) ?_
  intro test_code _
  refine ensures_bind (Parse_Expression_place p n c2 block1 hacc) ?_
  rintro ⟨right_exp, block3, c3⟩ hacc
  exact ensures_pure hacc

theorem Parse_Logic_place (p n : Int) (c : cCompiler)
    (h : c.pointer = p ∧ c.memory.count = n) :
    ensures c.Parse_Logic (fun r => r.2.pointer = p ∧ r.2.memory.count = n) := by
  unfold cCompiler.Parse_Logic
  refine ensures_bind (Parse_Token_place p n c h) ?_
  rintro ⟨token, c1⟩ hacc
  dsimp only
  repeat' (refine ensures_ite (fun _ => ensures_pure hacc) (fun _ => ?_))
  exact ensures_error _ _

theorem Parse_Conditional_loop_place (p n : Int) :
    ∀ (fuel : Nat) (command : cBlock) (c : cCompiler),
      c.pointer = p ∧ c.memory.count = n →
      ensures (cCompiler.Parse_Conditional_loop fuel command c)
        (fun r => r.2.pointer = p ∧ r.2.memory.count = n) := by
  intro fuel
  induction fuel with
  | zero =>
    intro command c h
    unfold cCompiler.Parse_Conditional_loop
    exact ensures_ite (fun _ => ensures_error _ _) (fun _ => ensures_pure h)
  | succ fuel ih =>
    intro command c h
    unfold cCompiler.Parse_Conditional_loop
    refine ensures_ite (fun _ => ?_) (fun _ => ensures_pure h)
    refine ensures_bind (Parse_Logic_place p n c h) ?_
    rintro ⟨logic, c1⟩ hacc
    refine ensures_bind (Parse_Condition_place p n c1 _ hacc) ?_
    rintro ⟨condition, command1, c2⟩ hacc
    exact ih _ c2 hacc

theorem Parse_Conditional_place (p n : Int) (c : cCompiler) (command : cBlock)
    (h : c.pointer = p ∧ c.memory.count = n) :
    ensures (c.Parse_Conditional command)
      (fun r => r.2.pointer = p ∧ r.2.memory.count = n) := by
  unfold cCompiler.Parse_Conditional
  refine ensures_bind (Parse_Condition_place p n c command h) ?_
  rintro ⟨condition, command1, c1⟩ hacc
  exact Parse_Conditional_loop_place p n _ _ c1 hacc

theorem next_block_place (p n : Int) (c : cCompiler) (hn : n ≤ INT_MAX)
    (h : c.pointer = p ∧ c.memory.count = n) :
    ensures c.next_block (fun r => r.2.2.pointer = p + 1 ∧ r.2.2.memory.count = n) := by
  rintro ⟨address, block, c'⟩ hr
  obtain ⟨-, h0, hlt, hc, -⟩ := next_block_step c c' address block hr
  subst hc
  refine ⟨?_, h.2⟩
  show wrap_int (c.pointer + 1) = p + 1
  rw [wrap_int_of_range _ (by unfold INT_MIN; omega) (by rw [h.2] at hlt; omega), h.1]

theorem place_write (p n : Int) (c : cCompiler) (address : Int) (block : cBlock)
    (h : c.pointer = p ∧ c.memory.count = n) :
    ({ c with memory := c.memory.write address block } : cCompiler).pointer = p ∧
      ({ c with memory := c.memory.write address block } : cCompiler).memory.count = n :=
  ⟨h.1, by rw [← h.2]; exact cMemory_count_write _ _ _⟩

theorem Parse_Statements_list_place (n : Int) (hn : n ≤ INT_MAX) :
    ∀ (rounds : Nat) (p : Int) (c : cCompiler), c.pointer = p ∧ c.memory.count = n →
      ensures (cCompiler.Parse_Statements_list rounds c)
        (fun c' => c'.pointer = p + (rounds : Int) ∧ c'.memory.count = n) := by
  intro rounds
  induction rounds with
  | zero =>
    intro p c h
    unfold cCompiler.Parse_Statements_list
    exact ensures_pure ⟨by rw [h.1]; simp, h.2⟩
  | succ rounds ih =>
    intro p c h
    unfold cCompiler.Parse_Statements_list
    refine ensures_bind (next_block_place p n c hn h) ?_
    rintro ⟨address, block, c1⟩ hacc
    refine ensures_weaken (ih (p + 1) _ (place_write _ _ c1 _ _ hacc)) ?_
    intro c' hc'
    refine ⟨?_, hc'.2⟩
    rw [hc'.1]
    push_cast
    omega

theorem Parse_Statements_map_place (p n : Int) :
    ∀ (fuel : Nat) (item : sToken) (index : Int) (c : cCompiler),
      c.pointer = p ∧ c.memory.count = n →
      ensures (cCompiler.Parse_Statements_map fuel item index c)
        (fun c' => c'.pointer = p ∧ c'.memory.count = n) := by
  intro fuel
  induction fuel with
  | zero =>
    intro item index c h
    unfold cCompiler.Parse_Statements_map
    exact ensures_error _ _
  | succ fuel ih =>
    intro item index c h
    unfold cCompiler.Parse_Statements_map
    refine ensures_ite (fun _ => ?_) (fun _ => ensures_pure h)
    refine ensures_bind (Parse_Token_place p n _ h) ?_
    rintro ⟨next, c1⟩ hacc
    exact ih next _ c1 hacc

theorem Parse_Statements_object_place (p n : Int) :
    ∀ (fuel : Nat) (property : sToken) (block : cBlock) (c : cCompiler),
      c.pointer = p ∧ c.memory.count = n →
      ensures (cCompiler.Parse_Statements_object fuel property block c)
        (fun r => r.2.pointer = p ∧ r.2.memory.count = n) := by
  intro fuel
  induction fuel with
  | zero =>
    intro property block c h
    unfold cCompiler.Parse_Statements_object
    exact ensures_error _ _
  | succ fuel ih =>
    intro property block c h
    unfold cCompiler.Parse_Statements_object
    refine ensures_ite (fun _ => ?_) (fun _ => ensures_pure h)
    refine ensures_bind (ensures_any _) ?_
    intro block1 _
    refine ensures_bind (Parse_Token_place p n c h) ?_
    rintro ⟨next, c1⟩ hacc
    exact ih next block1 c1 hacc

theorem Parse_Token_front_place (c : cCompiler) :
    ensures c.Parse_Token (fun r => c.tokens = r.1 :: r.2.tokens ∧
      (r.2.pointer = c.pointer ∧ r.2.memory.count = c.memory.count)) := by
  rintro ⟨token, c'⟩ hr
  have f := Parse_Token_tokens c c' token hr
  exact ⟨f.1, f.2.2.2, congrArg _ f.2.2.1⟩

theorem ensures_self {α : Type} (call : Outcome α) : ensures call (fun r => call = .ok r) :=
  fun _ h => h

theorem Parse_Statement_cells (c : cCompiler) (hn : c.memory.count ≤ INT_MAX) :
    ensures c.Parse_Statement (fun c' =>
      c'.pointer = c.pointer + (c.statement_cells : Int) ∧
      c'.memory.count = c.memory.count) := by
  unfold cCompiler.Parse_Statement
  refine ensures_bind (Parse_Token_front_place c) ?_
  rintro ⟨token, c1⟩ ⟨ht1, hp1⟩
  have ht1' : c.tokens = token :: c1.tokens := ht1
  have hp1' : c1.pointer = c.pointer ∧ c1.memory.count = c.memory.count := hp1
  have hcells : c.statement_cells =
      if token.token = "define" ∨ token.token = "map" ∨ token.token = "label" ∨
          token.token = "\x7bremark\x7d" then 0
      else if token.token = "list" then
        match c1.tokens with
        | [] => 0
        | count :: _ =>
          match Text_To_Number count.token with
          | .ok number => number.toNat
          | .error _ => 0
      else 1 := by
    unfold cCompiler.statement_cells
    rw [ht1']
  have hzero : c.statement_cells = 0 →
      ∀ call : Outcome cCompiler,
        ensures call (fun c' => c'.pointer = c.pointer ∧ c'.memory.count = c.memory.count) →
        ensures call (fun c' => c'.pointer = c.pointer + (c.statement_cells : Int) ∧
          c'.memory.count = c.memory.count) := by
    intro h0 call hcall
    refine ensures_weaken hcall (fun c' hc' => ⟨?_, hc'.2⟩)
    rw [hc'.1, h0]
    simp
  have hone : c.statement_cells = 1 →
      ∀ call : Outcome cCompiler,
        ensures call (fun c' => c'.pointer = c.pointer + 1 ∧
          c'.memory.count = c.memory.count) →
        ensures call (fun c' => c'.pointer = c.pointer + (c.statement_cells : Int) ∧
          c'.memory.count = c.memory.count) := by
    intro h1 call hcall
    refine ensures_weaken hcall (fun c' hc' => ⟨?_, hc'.2⟩)
    rw [hc'.1, h1]
    rfl
  dsimp only
  -- define
  refine ensures_ite (fun hk => ?_) (fun h1 => ?_)
  · refine hzero (by rw [hcells, if_pos (Or.inl hk)]) _ ?_
    refine ensures_bind (Parse_Token_place _ _ c1 hp1') ?_
    rintro ⟨name, c2⟩ hacc
    refine ensures_bind (Parse_Keyword_place _ _ c2 _ hacc) ?_
    intro c3 hacc
    refine ensures_bind (Parse_Token_place _ _ c3 hacc) ?_
    rintro ⟨value, c4⟩ hacc
    refine ensures_bind (ensures_any _) ?_
    intro number _
    exact ensures_pure hacc
  -- map
  refine ensures_ite (fun hk => ?_) (fun h2 => ?_)
  · refine hzero (by rw [hcells, if_pos (Or.inr (Or.inl hk))]) _ ?_
    refine ensures_bind (Parse_Token_place _ _ c1 hp1') ?_
    rintro ⟨item, c2⟩ hacc
    exact Parse_Statements_map_place _ _ _ item 0 c2 hacc
  -- label
  refine ensures_ite (fun hk => ?_) (fun h3 => ?_)
  · refine hzero (by rw [hcells, if_pos (Or.inr (Or.inr (Or.inl hk)))]) _ ?_
    refine ensures_bind (Parse_Token_place _ _ c1 hp1') ?_
    rintro ⟨name, c2⟩ hacc
    exact ensures_pure hacc
  -- number
  refine ensures_ite (fun hk => ?_) (fun h4 => ?_)
  · have hc1 : c.statement_cells = 1 := by
      rw [hcells, hk, if_neg (by decide), if_neg (by decide)]
    refine hone hc1 _ ?_
    refine ensures_bind (Parse_Token_place _ _ c1 hp1') ?_
    rintro ⟨number, c2⟩ hacc
    refine ensures_bind (next_block_place _ _ c2 hn hacc) ?_
    rintro ⟨address, block, c3⟩ hacc
    refine ensures_bind (ensures_any _) ?_
    intro value _
    exact ensures_pure (place_write _ _ c3 _ _ hacc)
  -- list
  refine ensures_ite (fun hk => ?_) (fun h5 => ?_)
  · refine ensures_bind (Parse_Token_front_place c1) ?_
    rintro ⟨count, c2⟩ ⟨ht2, hp2⟩
    have ht2' : c1.tokens = count :: c2.tokens := ht2
    have hp2' : c2.pointer = c1.pointer ∧ c2.memory.count = c1.memory.count := hp2
    refine ensures_bind (ensures_self _) ?_
    intro item_count hitem
    have hcl : c.statement_cells = item_count.toNat := by
      rw [hcells, hk, if_neg (by decide), if_pos rfl, ht2']
      simp only [hitem]
    rw [hcl]
    exact Parse_Statements_list_place c.memory.count hn item_count.toNat c.pointer c2
      ⟨hp2'.1.trans hp1'.1, hp2'.2.trans hp1'.2⟩
  -- object
  refine ensures_ite (fun hk => ?_) (fun h6 => ?_)
  · have hc1 : c.statement_cells = 1 := by
      rw [hcells, hk, if_neg (by decide), if_neg (by decide)]
    refine hone hc1 _ ?_
    refine ensures_bind (Parse_Token_place _ _ c1 hp1') ?_
    rintro ⟨property, c2⟩ hacc
    refine ensures_bind (next_block_place _ _ c2 hn hacc) ?_
    rintro ⟨address, block, c3⟩ hacc
    refine ensures_bind (Parse_Statements_object_place _ _ _ property block c3 hacc) ?_
    rintro ⟨block1, c4⟩ hacc
    exact ensures_pure (place_write _ _ c4 _ _ hacc)
  -- remark
  refine ensures_ite (fun hk => ?_) (fun h7 => ?_)
  · refine hzero (by rw [hcells, if_pos (Or.inr (Or.inr (Or.inr hk)))]) _ ?_
    refine ensures_bind (Parse_Token_place _ _ c1 hp1') ?_
    rintro ⟨next, c2⟩ hacc
    exact ensures_ite (fun _ => ensures_error _ _) (fun _ => ensures_pure hacc)
  -- the command statements
  have hc1 : c.statement_cells = 1 := by
    rw [hcells, if_neg (by rintro (h | h | h | h) <;> contradiction), if_neg h5]
  refine hone hc1 _ ?_
  repeat' first
    | exact ensures_pure (place_write _ _ _ _ _ (by assumption))
    | exact ensures_error _ _
    | (refine ensures_ite ?_ ?_ <;> intro _)
    | (refine ensures_bind (next_block_place _ _ _ hn hp1') ?_
       rintro ⟨_, _, _⟩ _
       dsimp only)
    | (refine ensures_bind (Parse_Expression_place _ _ _ _ (by assumption)) ?_
       rintro ⟨_, _, _⟩ _
       dsimp only)
    | (refine ensures_bind (Parse_Conditional_place _ _ _ _ (by assumption)) ?_
       rintro ⟨_, _⟩ _
       dsimp only)
    | (refine ensures_bind (Parse_Keyword_place _ _ _ _ (by assumption)) ?_
       intro _ _)

theorem after_statements_cells :
    ∀ (k : Nat) (c c' : cCompiler), c.memory.count ≤ INT_MAX →
      cCompiler.after_statements k c = .ok c' →
      c'.pointer = c.pointer + (cCompiler.cells_before k c : Int) ∧
        c'.memory.count = c.memory.count
  | 0, c, c', _, h => by
    cases h
    exact ⟨by simp [cCompiler.cells_before], rfl⟩
  | k + 1, c, c', hn, h => by
    rw [cCompiler.after_statements] at h
    cases hs : c.Parse_Statement with
    | error e => rw [hs] at h; cases h
    | ok c1 =>
      rw [hs] at h
      have h1 := Parse_Statement_cells c hn c1 hs
      have h2 := after_statements_cells k c1 c' (by rw [h1.2]; exact hn) h
      refine ⟨?_, h2.2.trans h1.2⟩
      rw [h2.1, h1.1]
      simp only [cCompiler.cells_before, hs]
      push_cast
      omega

theorem pieces_arrow_free : ∀ (text piece : List Char), arrow_free text = true →
    Parse_Sausage_Text_pieces ['-', '>'] text 0 piece = [String.mk (piece.reverse ++ text)]
  | [], piece, _ => by simp [Parse_Sausage_Text_pieces]
  | c :: text, piece, h => by
    unfold arrow_free at h
    simp only [Bool.and_eq_true, Option.isNone_iff_eq_none] at h
    have ih := pieces_arrow_free text (c :: piece) h.2
    simp only [Parse_Sausage_Text_pieces, h.1, ih]
    simp

theorem Parse_Sausage_Text_arrow_free (text : String) (h : arrow_free text.data = true) :
    Parse_Sausage_Text text "->" = [text] := by
  unfold Parse_Sausage_Text
  have : ("->" : String).data = ['-', '>'] := rfl
  rw [this, pieces_arrow_free _ _ h]
  simp

theorem Parse_Address_placeholder_free (address : String) (operand : sOperand_Operator)
    (harrow : arrow_free address.data = true) (hfail : (Text_To_Number address).toBool = false) :
    cCompiler.Parse_Address address operand = .ok { operand with placeholder := address } := by
  unfold cCompiler.Parse_Address
  simp only [Parse_Sausage_Text_arrow_free _ harrow, bind, Except.bind, pure, Except.pure]
  cases h : Text_To_Number address with
  | ok n => rw [h] at hfail; cases hfail
  | error e =>
    have he := Text_To_Number_error _ _ h
    subst he
    rfl

theorem Parse_Operand_bracket (c : cCompiler) (token : sToken) (rest : List sToken)
    (sigil : Char) (name : String) (htokens : c.tokens = token :: rest)
    (htext : token.token.data = sigil :: ("[" ++ name ++ "]").data) (hsigil : sigil ≠ '$')
    (harrow : arrow_free ("[" ++ name ++ "]").data = true) :
    ∃ operand, c.Parse_Operand = .ok (operand, { c with tokens := rest }) ∧
      operand.placeholder = "[" ++ name ++ "]" ∧ operand.field = "" ∧
      operand.addr_mode = some (selected_mode (some sigil)) := by
  have hx := Parse_Operand_unfold c token rest htokens
  have hlen : token.token.length > 1 := by
    show token.token.data.length > 1
    rw [htext]
    simp [String.data_append]
  have hhead : token.token.data.head? = some sigil := by rw [htext]; rfl
  have hdrop : String.mk (token.token.data.drop 1) = "[" ++ name ++ "]" := by
    rw [htext]
    rfl
  have hfail := Text_To_Number_bracket name
  have hnot : ¬ (some sigil = some '$') := fun h => hsigil (Option.some.inj h)
  rw [if_pos hlen, hhead, hdrop] at hx
  by_cases h1 : sigil = '#'
  · subst h1
    rw [if_pos rfl, Parse_Address_placeholder_free _ _ harrow hfail] at hx
    exact ⟨_, hx, rfl, rfl, rfl⟩
  · have h1' : ¬ (some sigil = some '#') := fun h => h1 (Option.some.inj h)
    rw [if_neg h1'] at hx
    by_cases h2 : sigil = '@'
    · subst h2
      rw [if_pos rfl, Parse_Address_placeholder_free _ _ harrow hfail] at hx
      exact ⟨_, hx, rfl, rfl, rfl⟩
    · have h2' : ¬ (some sigil = some '@') := fun h => h2 (Option.some.inj h)
      rw [if_neg h2', if_neg hnot, Parse_Address_placeholder_free _ _ harrow hfail] at hx
      refine ⟨_, hx, rfl, rfl, ?_⟩
      simp [selected_mode, h1, h2, hsigil]

theorem resolve_memory_entry (symtab : cHash String Int) (m : cMemory) (key : String)
    (value : Int) (hkey : key ≠ "") (hfind : symtab.find key = some value)
    (b e i : Nat) (block : cBlock) (expression : tExpression) (operand : sOperand_Operator)
    (hblock : m.memory[b]? = some block) (hexpression : block.expressions[e]? = some expression)
    (hoperand : expression[i]? = some operand) (heven : i % 2 = 0)
    (hplace : operand.placeholder = key) :
    ∃ (block' : cBlock) (expression' : tExpression),
      (resolve_memory symtab m).memory[b]? = some block' ∧
      block'.expressions[e]? = some expression' ∧
      expression'[i]? = some { operand with value := Number value } := by
  refine ⟨{ block with expressions := block.expressions.map (resolve_operands symtab) },
    resolve_operands symtab expression, ?_, ?_, ?_⟩
  · unfold resolve_memory
    simp only [List.getElem?_map, hblock, Option.map_some']
  · simp only [List.getElem?_map, hexpression, Option.map_some']
  · rw [resolve_operands_entry, hoperand]
    simp only [Option.map_some', if_pos heven]
    unfold resolve_operand
    rw [if_neg (by rw [hplace]; exact hkey), hplace, hfind]
    rfl

/-- C24: let a program compile into a memory whose size is an `int`, and let `label NAME` be the
statement at the front of the queue after `k` statements have been parsed.  The write pointer
is then the number of cells that those `k` statements emit by the statement grammar (none for
`define`, `map`, `label` and remarks, COUNT for `list COUNT`, one for every other statement).
The label statement emits no cell: it returns with `[NAME]` bound to the pointer and the
pointer and the memory unchanged.  If no later statement binds NAME again, the symbol table of
the compiled program maps `[NAME]` to that number of cells, the compiled memory is the memory
that statement parsing leaves with the placeholders resolved, and every operand of it that
carries the placeholder `[NAME]`, at whatever address (before or after the label), is in the
compiled memory at the same place with the value Number of that number of cells.  An operand
token whose address text is `[NAME]`, with any first character other than `$`, is parsed into
an operand with the placeholder `[NAME]`. -/
theorem label_binds_cell_count (tokens : List sToken) (memory : cMemory) (c : cCompiler)
    (k : Nat) (at_label : cCompiler) (keyword name : sToken) (rest : List sToken)
    (hsize : memory.count ≤ INT_MAX)
    (hcompiled : cCompiler.new tokens memory = .ok c)
    (hbefore : cCompiler.after_statements k (cCompiler.start tokens memory) = .ok at_label)
    (hlabel : at_label.tokens = keyword :: name :: rest)
    (hkeyword : keyword.token = "label")
    (honce : ∀ (j : Nat) (later : cCompiler),
      cCompiler.after_statements j
          { at_label with
            tokens := rest
            symtab := at_label.symtab.assign ("[" ++ name.token ++ "]") at_label.pointer } =
        .ok later →
      name.token ∉ later.bound_names) :
    at_label.pointer = (cCompiler.cells_before k (cCompiler.start tokens memory) : Int) ∧
    at_label.statement_cells = 0 ∧
    at_label.Parse_Statement =
      .ok { at_label with
        tokens := rest
        symtab := at_label.symtab.assign ("[" ++ name.token ++ "]") at_label.pointer } ∧
    c.symtab.find ("[" ++ name.token ++ "]") =
      some (cCompiler.cells_before k (cCompiler.start tokens memory) : Int) ∧
    (∃ parsed : cCompiler,
      (cCompiler.start tokens memory).Parse_Statements = .ok parsed ∧
      c.memory = resolve_memory parsed.symtab parsed.memory ∧
      ∀ (b e i : Nat) (block : cBlock) (expression : tExpression) (operand : sOperand_Operator),
        parsed.memory.memory[b]? = some block → block.expressions[e]? = some expression →
        expression[i]? = some operand → i % 2 = 0 →
        operand.placeholder = "[" ++ name.token ++ "]" →
        ∃ (block' : cBlock) (expression' : tExpression),
          c.memory.memory[b]? = some block' ∧ block'.expressions[e]? = some expression' ∧
          expression'[i]? = some { operand with
            value := Number (cCompiler.cells_before k (cCompiler.start tokens memory) : Int) }) ∧
    (∀ (c0 : cCompiler) (token : sToken) (rest0 : List sToken) (sigil : Char),
      c0.tokens = token :: rest0 →
      token.token.data = sigil :: ("[" ++ name.token ++ "]").data → sigil ≠ '$' →
      arrow_free ("[" ++ name.token ++ "]").data = true →
      ∃ operand, c0.Parse_Operand = .ok (operand, { c0 with tokens := rest0 }) ∧
        operand.placeholder = "[" ++ name.token ++ "]" ∧ operand.field = "" ∧
        operand.addr_mode = some (selected_mode (some sigil))) := by
  have hstep := Parse_Statement_label at_label keyword name rest hlabel hkeyword
  have hsize' : (cCompiler.start tokens memory).memory.count ≤ INT_MAX := hsize
  have hcells := after_statements_cells k _ at_label hsize' hbefore
  have hpointer : at_label.pointer =
      (cCompiler.cells_before k (cCompiler.start tokens memory) : Int) := by
    rw [hcells.1]
    show (0 : Int) + _ = _
    simp
  have hnone : at_label.statement_cells = 0 := by
    unfold cCompiler.statement_cells
    rw [hlabel]
    simp only [hkeyword]
    rw [if_pos (Or.inr (Or.inr (Or.inl trivial)))]
  have key : ∃ parsed : cCompiler,
      (cCompiler.start tokens memory).Parse_Statements = .ok parsed ∧
      parsed.symtab.find ("[" ++ name.token ++ "]") =
        some (cCompiler.cells_before k (cCompiler.start tokens memory) : Int) ∧
      c = { parsed with memory := resolve_memory parsed.symtab parsed.memory } := by
    unfold cCompiler.new at hcompiled
    simp only [bind, Except.bind] at hcompiled
    split at hcompiled
    · cases hcompiled
    · rename_i parsed hparsed
      obtain ⟨total, htotal, hempty⟩ := Parse_Statements_loop_after _ _ parsed hparsed
      have htotal' : cCompiler.after_statements total (cCompiler.start tokens memory) =
          .ok parsed := htotal
      have hlater : ∃ m, total = k + (1 + m) := by
        by_contra hno
        have hle : total ≤ k := by
          by_contra hgt
          exact hno ⟨total - k - 1, by omega⟩
        have hsplit := after_statements_add total (k - total) (cCompiler.start tokens memory)
        rw [show total + (k - total) = k by omega, hbefore, htotal'] at hsplit
        simp only [bind, Except.bind] at hsplit
        have := after_statements_of_empty _ _ _ hempty hsplit.symm
        rw [this.2, hempty] at hlabel
        cases hlabel
      obtain ⟨m, hm⟩ := hlater
      have hsplit := after_statements_add k (1 + m) (cCompiler.start tokens memory)
      rw [← hm, htotal', hbefore] at hsplit
      simp only [bind, Except.bind] at hsplit
      have hsplit2 := after_statements_add 1 m at_label
      have hone : cCompiler.after_statements 1 at_label = at_label.Parse_Statement := by
        rw [cCompiler.after_statements, hstep]
        rfl
      rw [hone, hstep] at hsplit2
      simp only [bind, Except.bind] at hsplit2
      rw [hsplit2] at hsplit
      have hsym : parsed.symtab.find ("[" ++ name.token ++ "]") =
          some (cCompiler.cells_before k (cCompiler.start tokens memory) : Int) := by
        rw [after_statements_symtab name.token m _ parsed hsplit.symm honce, ← hpointer]
        exact cHash_find_assign_same _ _ _
      refine ⟨parsed, hparsed, hsym, ?_⟩
      unfold cCompiler.Replace_Placeholders at hcompiled
      simp only [bind, Except.bind, pure, Except.pure] at hcompiled
      rcases Replace_Placeholders_blocks_cases parsed.symtab parsed.memory.memory with
        ⟨_, e⟩ | ⟨_, ph, e⟩
      · rw [e] at hcompiled
        cases hcompiled
        rfl
      · rw [e] at hcompiled
        cases hcompiled
  obtain ⟨parsed, hparsed, hsym, hresult⟩ := key
  refine ⟨hpointer, hnone, hstep, ?_, ?_, fun c0 token rest0 sigil h1 h2 h3 h4 =>
    Parse_Operand_bracket c0 token rest0 sigil _ h1 h2 h3 h4⟩
  · rw [hresult]
    exact hsym
  · refine ⟨parsed, hparsed, by rw [hresult], ?_⟩
    intro b e i block expression operand hb he hi heven hplace
    rw [hresult]
    refine resolve_memory_entry parsed.symtab parsed.memory _ _ ?_ hsym b e i block expression
      operand hb he hi heven hplace
    intro hempty'
    have := congrArg String.data hempty'
    simp [String.data_append] at this

theorem label_binds_cell_count_witness :
    ∃ (c at_label : cCompiler),
      cCompiler.new label_example (cMemory.new 4) = .ok c ∧
      cCompiler.after_statements 2 (cCompiler.start label_example (cMemory.new 4)) =
        .ok at_label ∧
      at_label.tokens = tokens_of ["label", "done", "stop", "call", "%[done]"] ∧
      cCompiler.cells_before 2 (cCompiler.start label_example (cMemory.new 4)) = 2 ∧
      returns_with (c.memory.index 1) (fun block =>
        block.expressions = [[{ sOperand_Operator.new with
          addr_mode := some eADDR_VAL_NUMBER, placeholder := "[done]", value := Number 2 }]]) ∧
      returns_with (c.memory.index 3) (fun block =>
        block.expressions = [[{ sOperand_Operator.new with
          addr_mode := some eADDR_VAL_NUMBER, placeholder := "[done]", value := Number 2 }]]) ∧
      (at_label.pointer =
          (cCompiler.cells_before 2 (cCompiler.start label_example (cMemory.new 4)) : Int) ∧
        at_label.statement_cells = 0 ∧
        at_label.Parse_Statement =
          .ok { at_label with
            tokens := tokens_of ["stop", "call", "%[done]"]
            symtab := at_label.symtab.assign
              ("[" ++ ({ token := "done", line_no := 0, source := "main" } : sToken).token ++
                "]")
              at_label.pointer } ∧
        c.symtab.find
            ("[" ++ ({ token := "done", line_no := 0, source := "main" } : sToken).token ++
              "]") =
          some (cCompiler.cells_before 2 (cCompiler.start label_example (cMemory.new 4)) : Int) ∧
        (∃ parsed : cCompiler,
          (cCompiler.start label_example (cMemory.new 4)).Parse_Statements = .ok parsed ∧
          c.memory = resolve_memory parsed.symtab parsed.memory ∧
          ∀ (b e i : Nat) (block : cBlock) (expression : tExpression)
            (operand : sOperand_Operator),
            parsed.memory.memory[b]? = some block → block.expressions[e]? = some expression →
            expression[i]? = some operand → i % 2 = 0 →
            operand.placeholder =
              "[" ++ ({ token := "done", line_no := 0, source := "main" } : sToken).token ++
                "]" →
            ∃ (block' : cBlock) (expression' : tExpression),
              c.memory.memory[b]? = some block' ∧ block'.expressions[e]? = some expression' ∧
              expression'[i]? = some { operand with
                value := Number
                  (cCompiler.cells_before 2 (cCompiler.start label_example (cMemory.new 4)) :
                    Int) }) ∧
        (∀ (c0 : cCompiler) (token : sToken) (rest0 : List sToken) (sigil : Char),
          c0.tokens = token :: rest0 →
          token.token.data = sigil ::
            ("[" ++ ({ token := "done", line_no := 0, source := "main" } : sToken).token ++
              "]").data →
          sigil ≠ '$' →
          arrow_free
            ("[" ++ ({ token := "done", line_no := 0, source := "main" } : sToken).token ++
              "]").data = true →
          ∃ operand, c0.Parse_Operand = .ok (operand, { c0 with tokens := rest0 }) ∧
            operand.placeholder =
              "[" ++ ({ token := "done", line_no := 0, source := "main" } : sToken).token ++
                "]" ∧
            operand.field = "" ∧
            operand.addr_mode = some (selected_mode (some sigil)))) := by
  obtain ⟨c, hc, hforward, hbackward⟩ :
      returns_with (cCompiler.new label_example (cMemory.new 4)) (fun c =>
        returns_with (c.memory.index 1) (fun block =>
          block.expressions = [[{ sOperand_Operator.new with
            addr_mode := some eADDR_VAL_NUMBER, placeholder := "[done]",
            value := Number 2 }]]) ∧
        returns_with (c.memory.index 3) (fun block =>
          block.expressions = [[{ sOperand_Operator.new with
            addr_mode := some eADDR_VAL_NUMBER, placeholder := "[done]",
            value := Number 2 }]])) := by
    decide!
  obtain ⟨at_label, hbefore, htokens⟩ :
      returns_with
        (cCompiler.after_statements 2 (cCompiler.start label_example (cMemory.new 4)))
        (fun state =>
          state.tokens = tokens_of ["label", "done", "stop", "call", "%[done]"]) := by
    decide!
  have hcount : cCompiler.cells_before 2 (cCompiler.start label_example (cMemory.new 4)) = 2 := by
    decide!
  exact ⟨c, at_label, hc, hbefore, htokens, hcount, hforward, hbackward,
    label_binds_cell_count _ _ c 2 at_label
      { token := "label", line_no := 0, source := "main" }
      { token := "done", line_no := 0, source := "main" } (tokens_of ["stop", "call", "%[done]"])
      (by decide) hc hbefore htokens rfl
      (never_bound_of_absent _ "done"
        (by decide : ∀ token ∈ tokens_of ["stop", "call", "%[done]"], token.token ≠ "done"))⟩

end Codeloader
